import Mathlib

/-!
# Cycles volume kernel (`intern/cycles/kernel/kernel_volume.h`)

A shallow embedding of the volume stack and of the analytic transmittance and
distance-sampling routines, followed by the properties proved about them.

* The volume stack is a C array `VolumeStack stack[VOLUME_STACK_SIZE]`.  It is
  embedded as a list of cells; every read and write goes through a checked
  accessor, and `none` stands for an access outside the array.
* `float` arithmetic is embedded over an arbitrary scalar type `F` that carries
  the operations the C code uses; `expf` and `logf` are passed in.  The theorems
  about numerical values instantiate `F` with the real numbers, or with the type
  `binary32` of single-precision values where rounding decides the outcome.
-/

namespace KernelVolume

/-! ## Data model -/

/-- One cell of the volume stack array: `struct VolumeStack { int object; int shader; }`. -/
structure VolumeStack where
  object : Int
  shader : Int
deriving DecidableEq

/-- Constants of `kernel_types.h` that `kernel_volume.h` refers to.  The header is not part
of the sources at hand, so the values are parameters of the development. -/
structure KernelTypes where
  VOLUME_STACK_SIZE : Nat
  SHADER_NONE : Int
  PRIM_NONE : Int
  SD_BACKFACING : Nat
  SD_HAS_VOLUME : Nat

/-- The part of `kernel_data.background` read by the stack code. -/
structure KernelBackground where
  volume_shader : Int

/-- The part of `ShaderData` read by `kernel_volume_stack_enter_exit`. -/
structure ShaderData where
  flag : Nat
  object : Int
  shader : Int

/-! ## Checked array accesses -/

/-- Read of `stack[i]`. -/
def stack_get (stack : List VolumeStack) (i : Nat) : Option VolumeStack :=
  stack[i]?

/-- Store `stack[i] = e`. -/
def stack_set (stack : List VolumeStack) (i : Nat) (e : VolumeStack) :
    Option (List VolumeStack) :=
  if i < stack.length then some (stack.set i e) else none

/-- Store `stack[i].shader = v`. -/
def stack_set_shader (stack : List VolumeStack) (i : Nat) (v : Int) :
    Option (List VolumeStack) :=
  match stack[i]? with
  | none => none
  | some e => some (stack.set i { e with shader := v })

/-- Store `stack[i].object = v`. -/
def stack_set_object (stack : List VolumeStack) (i : Nat) (v : Int) :
    Option (List VolumeStack) :=
  match stack[i]? with
  | none => none
  | some e => some (stack.set i { e with object := v })

/-! ## Volume stack operations -/

/-- Embedding of `kernel_volume_stack_init`. -/
def kernel_volume_stack_init (K : KernelTypes) (background : KernelBackground)
    (stack : List VolumeStack) : Option (List VolumeStack) :=
  if background.volume_shader = K.SHADER_NONE then
    stack_set_shader stack 0 K.SHADER_NONE
  else do
    let s1 ← stack_set_shader stack 0 background.volume_shader
    let s2 ← stack_set_object s1 0 K.PRIM_NONE
    stack_set_shader s2 1 K.SHADER_NONE

/-- Outcome of the loop `for(i = 0; stack[i].shader != SHADER_NONE; i++)` whose body
leaves the loop at the first cell with `stack[i].object == sd->object`. -/
inductive StackScan where
  | found (i : Nat)
  | sentinel (i : Nat)
  | fault
deriving DecidableEq

/-- The scanning loop shared by both branches of `kernel_volume_stack_enter_exit`, at
index `i`.  The first argument bounds the iterations still to run; the loop reads cell `i`
in each of them, so `stack.length + 1 - i` iterations are never exceeded. -/
def stack_scan_from (K : KernelTypes) (stack : List VolumeStack) (object : Int) :
    Nat → Nat → StackScan
  | 0, _ => StackScan.fault
  | n + 1, i =>
    match stack_get stack i with
    | none => StackScan.fault
    | some e =>
      if e.shader = K.SHADER_NONE then StackScan.sentinel i
      else if e.object = object then StackScan.found i
      else stack_scan_from K stack object n (i + 1)

/-- The scanning loop run from `i = 0`. -/
def stack_scan (K : KernelTypes) (stack : List VolumeStack) (object : Int) : StackScan :=
  stack_scan_from K stack object (stack.length + 1) 0

/-- The loop `do { stack[i] = stack[i+1]; i++; } while(stack[i].shader != SHADER_NONE);`
at index `i`, with the same iteration bound as `stack_scan_from`. -/
def stack_shift_back_from (K : KernelTypes) :
    Nat → List VolumeStack → Nat → Option (List VolumeStack)
  | 0, _, _ => none
  | n + 1, stack, i =>
    match stack_get stack (i + 1) with
    | none => none
    | some next =>
      match stack_set stack i next with
      | none => none
      | some stack1 =>
        match stack_get stack1 (i + 1) with
        | none => none
        | some e =>
          if e.shader ≠ K.SHADER_NONE then stack_shift_back_from K n stack1 (i + 1)
          else some stack1

/-- The shifting loop entered at the matching index `i`. -/
def stack_shift_back (K : KernelTypes) (stack : List VolumeStack) (i : Nat) :
    Option (List VolumeStack) :=
  stack_shift_back_from K (stack.length + 1) stack i

/-- Embedding of `kernel_volume_stack_enter_exit`. -/
def kernel_volume_stack_enter_exit (K : KernelTypes) (sd : ShaderData)
    (stack : List VolumeStack) : Option (List VolumeStack) :=
  if sd.flag &&& K.SD_HAS_VOLUME = 0 then some stack
  else if sd.flag &&& K.SD_BACKFACING ≠ 0 then
    -- exit volume object: remove from stack
    match stack_scan K stack sd.object with
    | StackScan.fault => none
    | StackScan.sentinel _ => some stack
    | StackScan.found i => stack_shift_back K stack i
  else
    -- enter volume object: add to stack
    match stack_scan K stack sd.object with
    | StackScan.fault => none
    | StackScan.found _ => some stack
    | StackScan.sentinel i =>
      if (K.VOLUME_STACK_SIZE : Int) - 1 ≤ (i : Int) then some stack
      else do
        let s1 ← stack_set_shader stack i sd.shader
        let s2 ← stack_set_object s1 i sd.object
        stack_set_shader s2 (i + 1) K.SHADER_NONE

/-! ## Abstraction of the array -/

/-- The entries of the stack: the cells in front of the first cell whose shader is
`SHADER_NONE`. -/
def stack_entries (K : KernelTypes) (stack : List VolumeStack) : List VolumeStack :=
  stack.takeWhile (fun e => decide (e.shader ≠ K.SHADER_NONE))

/-- The array holds a sentinel cell. -/
def stack_terminated (K : KernelTypes) (stack : List VolumeStack) : Prop :=
  (stack_entries K stack).length < stack.length

/-- Test used by the scanning loop: the cell carries object id `object`. -/
def has_object (object : Int) (e : VolumeStack) : Bool :=
  decide (e.object = object)

/-- Stacks that arise from `kernel_volume_stack_init` on an array of `VOLUME_STACK_SIZE`
cells followed by calls of `kernel_volume_stack_enter_exit`. -/
inductive StackReachable (K : KernelTypes) : List VolumeStack → Prop where
  | init (background : KernelBackground) (mem stack : List VolumeStack) :
      mem.length = K.VOLUME_STACK_SIZE →
      kernel_volume_stack_init K background mem = some stack →
      StackReachable K stack
  | enter_exit (sd : ShaderData) (stack stack1 : List VolumeStack) :
      StackReachable K stack →
      kernel_volume_stack_enter_exit K sd stack = some stack1 →
      StackReachable K stack1

instance stack_terminated_decidable (K : KernelTypes) (stack : List VolumeStack) :
    Decidable (stack_terminated K stack) :=
  inferInstanceAs (Decidable ((stack_entries K stack).length < stack.length))

/-- Sample constants used to exercise the theorems: an array of four cells, `~0` for
`SHADER_NONE` and `PRIM_NONE`, and two distinct flag bits. -/
def sampleTypes : KernelTypes :=
  ⟨4, -1, -1, 1, 8⟩

/-! ## Scalars and vectors

The kernel computes on `float` and `float3`.  The routines below are written over a scalar
type `F` with the operations the C code applies; the library functions `expf` and `logf`
are arguments.  Taking `F` to be the real numbers, with `Real.exp` and `Real.log`, gives
the exact-arithmetic reading of the code; taking `F` to be `binary32`, with correctly
rounded `expf` and `logf`, gives the single-precision reading. -/

/-- The vector type `float3` of the kernel. -/
structure float3 (F : Type) where
  x : F
  y : F
  z : F

section Scalar

variable {F : Type} [Add F] [Sub F] [Mul F] [Div F] [Neg F] [One F] [Min F]

/-- The constructor `make_float3`. -/
def make_float3 (x y z : F) : float3 F :=
  ⟨x, y, z⟩

/-- Modelled from the spec: the operator `float3 * float3` of the kernel's vector maths
header, which is not among the sources; the spec applies such operations per channel. -/
instance float3_mul : Mul (float3 F) :=
  ⟨fun a b => ⟨a.x * b.x, a.y * b.y, a.z * b.z⟩⟩

/-- Modelled from the spec: the operator `float3 / float3` of the kernel's vector maths
header, which is not among the sources; the spec applies such operations per channel. -/
instance float3_div : Div (float3 F) :=
  ⟨fun a b => ⟨a.x / b.x, a.y / b.y, a.z / b.z⟩⟩

/-- Modelled from the spec: the operator `float3 - float3` of the kernel's vector maths
header, which is not among the sources; the spec applies such operations per channel. -/
instance float3_sub : Sub (float3 F) :=
  ⟨fun a b => ⟨a.x - b.x, a.y - b.y, a.z - b.z⟩⟩

/-! ## Transmittance and distance sampling -/

/-- Embedding of `volume_color_transmittance`. -/
def volume_color_transmittance (expf : F → F) (sigma : float3 F) (t : F) : float3 F :=
  make_float3 (expf (-sigma.x * t)) (expf (-sigma.y * t)) (expf (-sigma.z * t))

/-- Embedding of `kernel_volume_channel_get`. -/
def kernel_volume_channel_get (value : float3 F) (channel : Int) : F :=
  if channel = 0 then value.x else (if channel = 1 then value.y else value.z)

/-- What `kernel_volume_distance_sample` hands back: the returned distance and the values
stored through the pointers `transmittance` and `pdf`. -/
structure DistanceSample (F : Type) where
  sample_t : F
  transmittance : float3 F
  pdf : float3 F

/-- Embedding of `kernel_volume_distance_sample`. -/
def kernel_volume_distance_sample (expf logf : F → F) (max_t : F) (sigma_t : float3 F)
    (channel : Int) (xi : F) : DistanceSample F :=
  let sample_sigma_t := kernel_volume_channel_get sigma_t channel
  let full_transmittance := volume_color_transmittance expf sigma_t max_t
  let sample_transmittance := kernel_volume_channel_get full_transmittance channel
  let sample_t := min max_t ((-logf (1 - xi * (1 - sample_transmittance))) / sample_sigma_t)
  let transmittance := volume_color_transmittance expf sigma_t sample_t
  let pdf := (sigma_t * transmittance) / (make_float3 1 1 1 - full_transmittance)
  ⟨sample_t, transmittance, pdf⟩

/-- Embedding of `kernel_volume_distance_pdf`. -/
def kernel_volume_distance_pdf (expf : F → F) (max_t : F) (sigma_t : float3 F)
    (sample_t : F) : float3 F :=
  let full_transmittance := volume_color_transmittance expf sigma_t max_t
  let transmittance := volume_color_transmittance expf sigma_t sample_t
  (sigma_t * transmittance) / (make_float3 1 1 1 - full_transmittance)

/-- The density the spec pairs with analytic distance sampling, channel by channel:
`pdf(t) = sigma_t * transmittance(sigma_t, t) / (1 - transmittance(sigma_t, max_t))`. -/
def spec_distance_pdf (expf : F → F) (max_t : F) (sigma_t : float3 F) (t : F) : float3 F :=
  ⟨sigma_t.x * (volume_color_transmittance expf sigma_t t).x /
      (1 - (volume_color_transmittance expf sigma_t max_t).x),
    sigma_t.y * (volume_color_transmittance expf sigma_t t).y /
      (1 - (volume_color_transmittance expf sigma_t max_t).y),
    sigma_t.z * (volume_color_transmittance expf sigma_t t).z /
      (1 - (volume_color_transmittance expf sigma_t max_t).z)⟩

end Scalar

/-! ## Equiangular sampling -/

/-- The part of `Ray` read by the volume code: origin, direction, extent and time. -/
structure Ray (F : Type) where
  P : float3 F
  D : float3 F
  t : F
  time : F

/-- What `kernel_volume_equiangular_sample` hands back: the returned distance and the value
stored through the pointer `pdf`. -/
structure EquiangularSample (F : Type) where
  sample_t : F
  pdf : F

section Equiangular

variable {F : Type} [Add F] [Sub F] [Mul F] [Div F] [Neg F] [One F] [Min F]

/-- Modelled from the spec: the function `dot` of the kernel's vector maths header, which is
not among the sources; the spec uses it for the offset along the ray to the closest
approach. -/
def dot (a b : float3 F) : F :=
  a.x * b.x + a.y * b.y + a.z * b.z

/-- Modelled from the spec: the function `len_squared` of the kernel's vector maths header,
which is not among the sources. -/
def len_squared (a : float3 F) : F :=
  dot a a

/-- The local `delta` of both equiangular routines:
`dot((light_P - ray->P), ray->D)`. -/
def equiangular_delta (ray : Ray F) (light_P : float3 F) : F :=
  dot (light_P - ray.P) ray.D

/-- The local `D` of both equiangular routines:
`sqrtf(len_squared(light_P - ray->P) - delta * delta)`. -/
def equiangular_D (sqrtf : F → F) (ray : Ray F) (light_P : float3 F) : F :=
  sqrtf (len_squared (light_P - ray.P) -
    equiangular_delta ray light_P * equiangular_delta ray light_P)

/-- Embedding of `kernel_volume_equiangular_sample`. -/
def kernel_volume_equiangular_sample (sqrtf : F → F) (atan2f : F → F → F) (tan : F → F)
    (ray : Ray F) (light_P : float3 F) (xi : F) : EquiangularSample F :=
  let t := ray.t
  let delta := equiangular_delta ray light_P
  let D := equiangular_D sqrtf ray light_P
  let theta_a := -atan2f delta D
  let theta_b := atan2f (t - delta) D
  let t_ := D * tan ((xi * theta_b) + (1 - xi) * theta_a)
  let pdf := D / ((theta_b - theta_a) * (D * D + t_ * t_))
  ⟨min t (delta + t_), pdf⟩

/-- Embedding of `kernel_volume_equiangular_pdf`. -/
def kernel_volume_equiangular_pdf (sqrtf : F → F) (atan2f : F → F → F)
    (ray : Ray F) (light_P : float3 F) (sample_t : F) : F :=
  let delta := equiangular_delta ray light_P
  let D := equiangular_D sqrtf ray light_P
  let t := ray.t
  let t_ := sample_t - delta
  let theta_a := -atan2f delta D
  let theta_b := atan2f (t - delta) D
  let pdf := D / ((theta_b - theta_a) * (D * D + t_ * t_))
  pdf

end Equiangular

/-- The exact-arithmetic reading of `atan2f`: the argument of the point `(x, y)` of the
plane, in `(-π, π]`. -/
def is_atan2 (atan2f : ℝ → ℝ → ℝ) : Prop :=
  ∀ y x, atan2f y x = Complex.arg ⟨x, y⟩

/-! ## Shading data, configuration and external routines -/

/-- Flag bits and closure ids of `kernel_types.h` and `svm_types.h` that `kernel_volume.h`
refers to, and the macro `CLOSURE_IS_VOLUME`.  The headers are not among the sources, so
the values are parameters of the development. -/
structure KernelFlags where
  SD_EMISSION : Nat
  SD_ABSORPTION : Nat
  SD_SCATTER : Nat
  SD_HETEROGENEOUS_VOLUME : Nat
  CLOSURE_EMISSION_ID : Nat
  CLOSURE_VOLUME_ABSORPTION_ID : Nat
  CLOSURE_IS_VOLUME : Nat → Bool

/-- The enumeration `VolumeIntegrateResult`. -/
inductive VolumeIntegrateResult where
  | VOLUME_PATH_SCATTERED
  | VOLUME_PATH_ATTENUATED
  | VOLUME_PATH_MISSED
deriving DecidableEq

/-- The two shader contexts in which `kernel_volume.h` calls `shader_eval_volume`:
`SHADER_CONTEXT_SHADOW` with `PATH_RAY_SHADOW`, and `SHADER_CONTEXT_VOLUME` with the flag
of the path state. -/
inductive ShaderContext where
  | SHADER_CONTEXT_SHADOW
  | SHADER_CONTEXT_VOLUME
deriving DecidableEq

/-- The part of `ShaderClosure` read by the volume code. -/
structure ShaderClosure (F : Type) where
  type : Nat
  weight : float3 F

/-- The struct `VolumeShaderCoefficients`. -/
structure VolumeShaderCoefficients (F : Type) where
  sigma_a : float3 F
  sigma_s : float3 F
  emission : float3 F

/-- The part of `ShaderData` that the shading and integration routines read and write:
the position, the flag word, the closures `closure[0 .. num_closure)` and
`randb_closure`. -/
structure VolumeShaderData (F : Type) where
  P : float3 F
  flag : Nat
  closure : List (ShaderClosure F)
  randb_closure : F

/-- The part of `kernel_data.integrator` read by the volume code. -/
structure KernelIntegrator (F : Type) where
  max_volume_bounce : Int
  volume_max_steps : Int
  volume_step_size : F
  volume_homogeneous_sampling : Int
  num_all_lights : Int

/-- The part of `PathState` read and written by the volume code. -/
structure PathState where
  bounce : Int
  volume_bounce : Int
  rng_congruential : Nat
  volume_stack : List VolumeStack

/-- The part of `LightSample` read by the volume code. -/
structure LightSample (F : Type) where
  P : float3 F
  pdf : F

/-- The numbers that `path_state_rng_1D` and `path_state_rng_2D` return, for the generator
handed to the integrators, in the dimensions the volume code asks for: `PRNG_PHASE`,
`PRNG_SCATTER_DISTANCE`, `PRNG_LIGHT` and the pair at `PRNG_LIGHT_U`. -/
structure PathSamples (F : Type) where
  phase : F
  scatter_distance : F
  light : F
  light_u : F
  light_v : F

/-- The C library functions the volume code calls, and the conversion `(int)x`. -/
structure KernelMath (F : Type) where
  expf : F → F
  logf : F → F
  sqrtf : F → F
  atan2f : F → F → F
  tan : F → F
  float_to_int : F → Int

/-- The routines of other kernel files that the volume code calls: shader evaluation
(which rewrites the shading data), set-up of the shading data from a ray, the congruential
generator `lcg_step_float`, `light_sample`, and the fetch of a shader's flag word
`kernel_tex_fetch(__shader_flag, (shader & SHADER_MASK)*2)`. -/
structure KernelExtern (F : Type) where
  shader_eval_volume : ShaderContext → VolumeShaderData F → VolumeShaderData F
  shader_setup_from_volume : VolumeShaderData F → Ray F → Int → VolumeShaderData F
  lcg_step_float : Nat → F × Nat
  light_sample : F → F → F → F → float3 F → LightSample F
  shader_flag : Int → Nat

/-- One call of `path_radiance_accum_emission`: the throughput, the emission value and the
bounce passed to it. -/
structure EmissionAccum (F : Type) where
  throughput : float3 F
  value : float3 F
  bounce : Int

/-- Modelled from the spec: `path_radiance_accum_emission` of the accumulation header,
which is not among the sources.  The radiance accumulator is a write-only sink; it is
kept as the list of the contributions written to it. -/
def path_radiance_accum_emission {F : Type} (L : List (EmissionAccum F))
    (throughput value : float3 F) (bounce : Int) : List (EmissionAccum F) :=
  L ++ [⟨throughput, value, bounce⟩]

/-- The statement `flag &= ~mask` on a flag word. -/
def flag_clear (flag mask : Nat) : Nat :=
  flag ^^^ (flag &&& mask)

section Shading

variable {F : Type} [Add F] [Sub F] [Mul F] [Div F] [Neg F] [Zero F] [One F] [OfNat F 3]
  [LT F] [DecidableRel (fun a b : F => a < b)]

/-- Modelled from the spec: the operator `float3 + float3` of the kernel's vector maths
header, which is not among the sources; the spec applies such operations per channel. -/
instance float3_add : Add (float3 F) :=
  ⟨fun a b => ⟨a.x + b.x, a.y + b.y, a.z + b.z⟩⟩

/-- Modelled from the spec: the operators `float3 * float` and `float * float3` of the
kernel's vector maths header, which is not among the sources. -/
def float3_mul_f (a : float3 F) (f : F) : float3 F :=
  ⟨a.x * f, a.y * f, a.z * f⟩

/-- Modelled from the spec: the operator `float3 / float` of the kernel's vector maths
header, which is not among the sources. -/
def float3_div_f (a : float3 F) (f : F) : float3 F :=
  ⟨a.x / f, a.y / f, a.z / f⟩

/-- Modelled from the spec: the function `average` of the kernel's vector maths header,
which is not among the sources; the spec divides by the average of the pdf over the
channels. -/
def average (a : float3 F) : F :=
  (a.x + a.y + a.z) * (1 / 3)

/-- The loop of `volume_shader_extinction_sample` over the closures. -/
def extinction_sum (K : KernelFlags) (closure : List (ShaderClosure F)) : float3 F :=
  closure.foldl (fun sigma_t sc =>
    if K.CLOSURE_IS_VOLUME sc.type then sigma_t + sc.weight else sigma_t)
    (make_float3 0 0 0)

/-- Embedding of `volume_shader_extinction_sample`: the extinction stored through the
pointer when the routine returns true, with the shading data as the call leaves them. -/
def volume_shader_extinction_sample (K : KernelFlags) (ext : KernelExtern F)
    (sd : VolumeShaderData F) (P : float3 F) : Option (float3 F) × VolumeShaderData F :=
  let sd1 := ext.shader_eval_volume ShaderContext.SHADER_CONTEXT_SHADOW { sd with P := P }
  if sd1.flag &&& (K.SD_ABSORPTION ||| K.SD_SCATTER) = 0 then (none, sd1)
  else (some (extinction_sum K sd1.closure), sd1)

/-- One pass of the loop of `volume_shader_sample` over the closures. -/
def coefficients_add (K : KernelFlags) (coeff : VolumeShaderCoefficients F)
    (sc : ShaderClosure F) : VolumeShaderCoefficients F :=
  if sc.type = K.CLOSURE_VOLUME_ABSORPTION_ID then
    { coeff with sigma_a := coeff.sigma_a + sc.weight }
  else if sc.type = K.CLOSURE_EMISSION_ID then
    { coeff with emission := coeff.emission + sc.weight }
  else if K.CLOSURE_IS_VOLUME sc.type then
    { coeff with sigma_s := coeff.sigma_s + sc.weight }
  else coeff

/-- The loop of `volume_shader_sample` over the closures, from zero coefficients. -/
def coefficients_sum (K : KernelFlags) (closure : List (ShaderClosure F)) :
    VolumeShaderCoefficients F :=
  closure.foldl (coefficients_add K)
    ⟨make_float3 0 0 0, make_float3 0 0 0, make_float3 0 0 0⟩

/-- Embedding of `volume_shader_sample`: the coefficients stored through the pointer when
the routine returns true, with the shading data as the call leaves them. -/
def volume_shader_sample (K : KernelFlags) (ext : KernelExtern F) (kg : KernelIntegrator F)
    (sd : VolumeShaderData F) (state : PathState) (P : float3 F) :
    Option (VolumeShaderCoefficients F) × VolumeShaderData F :=
  let sd1 := ext.shader_eval_volume ShaderContext.SHADER_CONTEXT_VOLUME { sd with P := P }
  if sd1.flag &&& (K.SD_ABSORPTION ||| K.SD_SCATTER ||| K.SD_EMISSION) = 0 then (none, sd1)
  else
    let coeff := coefficients_sum K sd1.closure
    -- when at the max number of bounces, treat scattering as absorption
    if sd1.flag &&& K.SD_SCATTER ≠ 0 then
      if kg.max_volume_bounce ≤ state.volume_bounce then
        (some { coeff with sigma_a := coeff.sigma_a + coeff.sigma_s,
                           sigma_s := make_float3 0 0 0 },
          { sd1 with flag := flag_clear sd1.flag K.SD_SCATTER ||| K.SD_ABSORPTION })
      else (some coeff, sd1)
    else (some coeff, sd1)

/-- Embedding of `kernel_volume_emission_integrate`. -/
def kernel_volume_emission_integrate (K : KernelFlags) (coeff : VolumeShaderCoefficients F)
    (closure_flag : Nat) (transmittance : float3 F) (t : F) : float3 F :=
  let emission := coeff.emission
  if closure_flag &&& K.SD_ABSORPTION ≠ 0 then
    let sigma_t := coeff.sigma_a + coeff.sigma_s
    ⟨emission.x * (if 0 < sigma_t.x then (1 - transmittance.x) / sigma_t.x else t),
      emission.y * (if 0 < sigma_t.y then (1 - transmittance.y) / sigma_t.y else t),
      emission.z * (if 0 < sigma_t.z then (1 - transmittance.z) / sigma_t.z else t)⟩
  else float3_mul_f emission t

end Shading

/-! ## The homogeneous segment integrator -/

/-- What an integrator hands back: the returned code, the throughput, the radiance
accumulator, the shading data and the path state as the call leaves them. -/
structure VolumeIntegrate (F : Type) where
  result : VolumeIntegrateResult
  throughput : float3 F
  L : List (EmissionAccum F)
  sd : VolumeShaderData F
  state : PathState

/-- The locals `new_tp`, `transmittance` and `t` of `kernel_volume_integrate_homogeneous`
after its sampling block. -/
structure SegmentLocals (F : Type) where
  new_tp : float3 F
  transmittance : float3 F
  t : F

section Homogeneous

variable {F : Type} [Add F] [Sub F] [Mul F] [Div F] [Neg F] [Zero F] [One F] [OfNat F 3]
  [IntCast F] [Min F] [LT F] [LE F] [DecidableRel (fun a b : F => a < b)]
  [DecidableRel (fun a b : F => a ≤ b)] [DecidableEq F]

/-- Embedding of `kernel_volume_equiangular_light_position`: the light position stored
through the pointer when the routine returns true. -/
def kernel_volume_equiangular_light_position (ext : KernelExtern F) (ray : Ray F)
    (rng : PathSamples F) : Option (float3 F) :=
  let ls := ext.light_sample rng.light rng.light_u rng.light_v ray.time ray.P
  if ls.pdf = 0 then none else some ls.P

/-- The block that `kernel_volume_integrate_homogeneous` runs in both of its modes to pick
the scatter distance: distance sampling when `volume_homogeneous_sampling == 0` or there are
no lights, equiangular sampling otherwise.  The result is `sample_t`, `transmittance` and
`pdf`; `none` is the exit `return VOLUME_PATH_MISSED`. -/
def homogeneous_scatter_distance (m : KernelMath F) (ext : KernelExtern F)
    (kg : KernelIntegrator F) (ray : Ray F) (rng : PathSamples F) (sigma_t : float3 F)
    (channel : Int) (xi : F) : Option (DistanceSample F) :=
  if kg.volume_homogeneous_sampling = 0 ∨ kg.num_all_lights = 0 then
    -- distance sampling
    some (kernel_volume_distance_sample m.expf m.logf ray.t sigma_t channel xi)
  else
    -- equiangular sampling
    match kernel_volume_equiangular_light_position ext ray rng with
    | none => none
    | some light_P =>
      let e := kernel_volume_equiangular_sample m.sqrtf m.atan2f m.tan ray light_P xi
      some ⟨e.sample_t, volume_color_transmittance m.expf sigma_t e.sample_t,
        make_float3 e.pdf e.pdf e.pdf⟩

/-- The branch `if(closure_flag & SD_SCATTER)` of `kernel_volume_integrate_homogeneous`,
after the random numbers are drawn: the locals it leaves, or `none` for the exit
`return VOLUME_PATH_MISSED`. -/
def homogeneous_scatter (m : KernelMath F) (ext : KernelExtern F) (kg : KernelIntegrator F)
    (ray : Ray F) (rng : PathSamples F) (coeff : VolumeShaderCoefficients F)
    (throughput : float3 F) (branched : Bool) (channel : Int) (xi : F) :
    Option (SegmentLocals F) :=
  let t := ray.t
  -- extinction coefficient
  let sigma_t := coeff.sigma_a + coeff.sigma_s
  if branched then
    -- branched path tracing: we always scatter in the segment
    match homogeneous_scatter_distance m ext kg ray rng sigma_t channel xi with
    | none => none
    | some d =>
      some ⟨float3_div_f (throughput * coeff.sigma_s * d.transmittance) (average d.pdf),
        d.transmittance, d.sample_t⟩
  else
    -- regular path tracing: decide if we will hit or miss
    let sample_sigma_t := kernel_volume_channel_get sigma_t channel
    let sample_transmittance := m.expf (-sample_sigma_t * t)
    if sample_transmittance ≤ xi then
      -- scattering; rescale random number so we can reuse it
      let xi1 := (xi - sample_transmittance) / (1 - sample_transmittance)
      match homogeneous_scatter_distance m ext kg ray rng sigma_t channel xi1 with
      | none => none
      | some d =>
        -- modify pdf for hit/miss decision
        let pdf := d.pdf * (make_float3 1 1 1 - volume_color_transmittance m.expf sigma_t t)
        some ⟨float3_div_f (throughput * coeff.sigma_s * d.transmittance) (average pdf),
          d.transmittance, d.sample_t⟩
    else
      -- no scattering
      let transmittance := volume_color_transmittance m.expf sigma_t t
      let pdf := (transmittance.x + transmittance.y + transmittance.z) * (1 / 3)
      some ⟨float3_div_f (throughput * transmittance) pdf, transmittance, t⟩

/-- Embedding of `kernel_volume_integrate_homogeneous`.  The locals `new_tp` and
`transmittance` are declared without a value; `undef` stands for what they hold until they
are assigned. -/
def kernel_volume_integrate_homogeneous (K : KernelFlags) (m : KernelMath F)
    (ext : KernelExtern F) (kg : KernelIntegrator F) (state : PathState) (ray : Ray F)
    (sd : VolumeShaderData F) (L : List (EmissionAccum F)) (throughput : float3 F)
    (rng : PathSamples F) (branched : Bool) (undef : float3 F) : VolumeIntegrate F :=
  match volume_shader_sample K ext kg sd state ray.P with
  | (none, sd1) => ⟨VolumeIntegrateResult.VOLUME_PATH_MISSED, throughput, L, sd1, state⟩
  | (some coeff, sd1) =>
    let closure_flag := sd1.flag
    -- randomly scatter, and if we do t is shortened
    let rphase := rng.phase
    let channel := m.float_to_int (rphase * 3)
    let xi := rng.scatter_distance
    let sd2 : VolumeShaderData F :=
      if closure_flag &&& K.SD_SCATTER ≠ 0 then
        { sd1 with randb_closure := rphase * 3 - (channel : F) }
      else sd1
    let locals : Option (SegmentLocals F) :=
      if closure_flag &&& K.SD_SCATTER ≠ 0 then
        homogeneous_scatter m ext kg ray rng coeff throughput branched channel xi
      else if closure_flag &&& K.SD_ABSORPTION ≠ 0 then
        -- absorption only, no sampling needed
        let transmittance := volume_color_transmittance m.expf coeff.sigma_a ray.t
        some ⟨throughput * transmittance, transmittance, ray.t⟩
      else some ⟨undef, undef, ray.t⟩
    match locals with
    | none => ⟨VolumeIntegrateResult.VOLUME_PATH_MISSED, throughput, L, sd2, state⟩
    | some v =>
      -- integrate emission attenuated by extinction
      let L1 :=
        if closure_flag &&& K.SD_EMISSION ≠ 0 then
          path_radiance_accum_emission L throughput
            (kernel_volume_emission_integrate K coeff closure_flag v.transmittance v.t)
            state.bounce
        else L
      -- modify throughput
      if closure_flag &&& (K.SD_ABSORPTION ||| K.SD_SCATTER) ≠ 0 then
        if v.t < ray.t then
          -- prepare to scatter to new direction
          ⟨VolumeIntegrateResult.VOLUME_PATH_SCATTERED, v.new_tp, L1,
            { sd2 with P := ray.P + float3_mul_f ray.D v.t }, state⟩
        else ⟨VolumeIntegrateResult.VOLUME_PATH_ATTENUATED, v.new_tp, L1, sd2, state⟩
      else ⟨VolumeIntegrateResult.VOLUME_PATH_ATTENUATED, throughput, L1, sd2, state⟩

end Homogeneous

/-! ## Ray marching: shadows and the heterogeneous segment integrator -/

/-- A record of one iteration of a marching loop, kept to state properties of a run; the
C code has no such variable.  It holds the loop index, the step start `t`, the step end
`new_t` computed at the head of the iteration, the jitter offset used for the shader
position, the flag word after the shader call when the shader returned coefficients, and
the local `tp` after the iteration's throughput update (before an early exit resets it). -/
structure MarchRecord (F : Type) where
  i : Nat
  t : F
  new_t : F
  random_jitter_offset : F
  closure_flag : Option Nat
  tp : float3 F

/-- The locals of `kernel_volume_shadow_heterogeneous` that live across iterations,
together with the congruential state, the shading data and the record of the iterations. -/
structure ShadowMarch (F : Type) where
  tp : float3 F
  t : F
  random_jitter_offset : F
  rng_congruential : Nat
  sd : VolumeShaderData F
  shaded : List (MarchRecord F)

/-- What the shadow routines leave: the throughput, the path state, and the record of the
marching iterations (each of which evaluates the shader once). -/
structure ShadowResult (F : Type) where
  throughput : float3 F
  state : PathState
  shaded : List (MarchRecord F)

/-- The locals of `kernel_volume_integrate_heterogeneous` that live across iterations,
together with the congruential state, the shading data, the radiance accumulator and the
record of the iterations. -/
structure IntegrateMarch (F : Type) where
  tp : float3 F
  t : F
  random_jitter_offset : F
  accum_transmittance : float3 F
  accum_sigma_t : float3 F
  accum_sigma_s : float3 F
  nlogxi : F
  channel : Int
  has_scatter : Bool
  rng_congruential : Nat
  sd : VolumeShaderData F
  L : List (EmissionAccum F)
  shaded : List (MarchRecord F)

/-- How one iteration of the loop of `kernel_volume_integrate_heterogeneous` ends: the loop
goes on, the loop is left (`break`), or the routine returns `VOLUME_PATH_SCATTERED` with
the throughput it stores. -/
inductive MarchStep (F : Type) where
  | next (s : IntegrateMarch F)
  | stop (s : IntegrateMarch F)
  | scattered (s : IntegrateMarch F)

/-- The locals of one iteration of `kernel_volume_integrate_heterogeneous` after its
sampling block: `new_tp`, `transmittance`, `scatter`, the possibly shortened `new_t` and
`dt`, and the accumulators and cached variables as the block leaves them. -/
structure StepLocals (F : Type) where
  new_tp : float3 F
  transmittance : float3 F
  scatter : Bool
  new_t : F
  dt : F
  accum_transmittance : float3 F
  accum_sigma_t : float3 F
  accum_sigma_s : float3 F
  nlogxi : F
  channel : Int
  has_scatter : Bool
  randb_closure : F

section Marching

variable {F : Type} [Add F] [Sub F] [Mul F] [Div F] [Neg F] [Zero F] [One F] [OfNat F 3]
  [OfScientific F] [NatCast F] [IntCast F] [Min F] [LT F] [LE F]
  [DecidableRel (fun a b : F => a < b)] [DecidableRel (fun a b : F => a ≤ b)]
  [DecidableEq F]

/-- The loop of `volume_stack_is_heterogeneous` at index `i`, with the iteration bound of
`stack_scan_from`; `none` is an access outside the array. -/
def stack_is_heterogeneous_from (KT : KernelTypes) (K : KernelFlags) (ext : KernelExtern F)
    (stack : List VolumeStack) : Nat → Nat → Option Bool
  | 0, _ => none
  | n + 1, i =>
    match stack_get stack i with
    | none => none
    | some e =>
      if e.shader = KT.SHADER_NONE then some false
      else if ext.shader_flag e.shader &&& K.SD_HETEROGENEOUS_VOLUME ≠ 0 then some true
      else stack_is_heterogeneous_from KT K ext stack n (i + 1)

/-- Embedding of `volume_stack_is_heterogeneous`. -/
def volume_stack_is_heterogeneous (KT : KernelTypes) (K : KernelFlags) (ext : KernelExtern F)
    (stack : List VolumeStack) : Option Bool :=
  stack_is_heterogeneous_from KT K ext stack (stack.length + 1) 0

/-- The test `tp.x < tp_eps && tp.y < tp_eps && tp.z < tp_eps` with `tp_eps = 1e-10f`. -/
def below_tp_eps (tp : float3 F) : Bool :=
  decide (tp.x < 1e-10) && decide (tp.y < 1e-10) && decide (tp.z < 1e-10)

/-- Embedding of `kernel_volume_shadow_homogeneous`: the throughput it leaves. -/
def kernel_volume_shadow_homogeneous (K : KernelFlags) (m : KernelMath F)
    (ext : KernelExtern F) (ray : Ray F) (sd : VolumeShaderData F)
    (throughput : float3 F) : float3 F :=
  match (volume_shader_extinction_sample K ext sd ray.P).1 with
  | some sigma_t => throughput * volume_color_transmittance m.expf sigma_t ray.t
  | none => throughput

/-- One iteration of the loop of `kernel_volume_shadow_heterogeneous` at index `i`; the
boolean tells whether the loop goes on (`false` is a `break`). -/
def shadow_step (K : KernelFlags) (m : KernelMath F) (ext : KernelExtern F)
    (kg : KernelIntegrator F) (ray : Ray F) (i : Nat) (s : ShadowMarch F) :
    ShadowMarch F × Bool :=
  let step := kg.volume_step_size
  -- advance to new position
  let new_t := min ray.t (((i + 1 : Nat) : F) * step)
  let dt := new_t - s.t
  -- use random position inside this segment to sample shader
  let draw := ext.lcg_step_float s.rng_congruential
  let random_jitter_offset := if new_t = ray.t then draw.1 * dt else s.random_jitter_offset
  let rng_congruential := if new_t = ray.t then draw.2 else s.rng_congruential
  let new_P := ray.P + float3_mul_f ray.D (s.t + random_jitter_offset)
  -- compute attenuation over segment
  match volume_shader_extinction_sample K ext s.sd new_P with
  | (some sigma_t, sd1) =>
    let tp := s.tp * volume_color_transmittance m.expf sigma_t (new_t - s.t)
    let shaded := s.shaded ++ [⟨i, s.t, new_t, random_jitter_offset, some sd1.flag, tp⟩]
    -- stop if nearly all light blocked
    if below_tp_eps tp then
      (⟨tp, s.t, random_jitter_offset, rng_congruential, sd1, shaded⟩, false)
    else
      -- stop if at the end of the volume
      (⟨tp, new_t, random_jitter_offset, rng_congruential, sd1, shaded⟩,
        decide (new_t ≠ ray.t))
  | (none, sd1) =>
    let shaded := s.shaded ++ [⟨i, s.t, new_t, random_jitter_offset, none, s.tp⟩]
    (⟨s.tp, new_t, random_jitter_offset, rng_congruential, sd1, shaded⟩,
      decide (new_t ≠ ray.t))

/-- The loop `for(int i = 0; i < max_steps; i++)` of `kernel_volume_shadow_heterogeneous`
from index `i`, with `n` iterations left before `i` reaches `max_steps`. -/
def shadow_loop (K : KernelFlags) (m : KernelMath F) (ext : KernelExtern F)
    (kg : KernelIntegrator F) (ray : Ray F) : Nat → Nat → ShadowMarch F → ShadowMarch F
  | 0, _, s => s
  | n + 1, i, s =>
    let r := shadow_step K m ext kg ray i s
    if r.2 then shadow_loop K m ext kg ray n (i + 1) r.1 else r.1

/-- Embedding of `kernel_volume_shadow_heterogeneous`. -/
def kernel_volume_shadow_heterogeneous (K : KernelFlags) (m : KernelMath F)
    (ext : KernelExtern F) (kg : KernelIntegrator F) (state : PathState) (ray : Ray F)
    (sd : VolumeShaderData F) (throughput : float3 F) : ShadowResult F :=
  -- prepare for stepping
  let max_steps := kg.volume_max_steps
  let step := kg.volume_step_size
  let draw := ext.lcg_step_float state.rng_congruential
  let random_jitter_offset := draw.1 * step
  let s := shadow_loop K m ext kg ray max_steps.toNat 0
    ⟨throughput, 0, random_jitter_offset, draw.2, sd, []⟩
  ⟨s.tp, { state with rng_congruential := s.rng_congruential }, s.shaded⟩

/-- Embedding of `kernel_volume_shadow`; `sd` stands for the local `ShaderData sd`, declared
without a value, and `none` is an access outside the volume stack array. -/
def kernel_volume_shadow (KT : KernelTypes) (K : KernelFlags) (m : KernelMath F)
    (ext : KernelExtern F) (kg : KernelIntegrator F) (state : PathState) (ray : Ray F)
    (throughput : float3 F) (sd : VolumeShaderData F) : Option (ShadowResult F) :=
  let sd1 := ext.shader_setup_from_volume sd ray state.bounce
  match volume_stack_is_heterogeneous KT K ext state.volume_stack with
  | none => none
  | some true => some (kernel_volume_shadow_heterogeneous K m ext kg state ray sd1 throughput)
  | some false =>
    some ⟨kernel_volume_shadow_homogeneous K m ext ray sd1 throughput, state, []⟩

/-- The sampling block of one iteration of `kernel_volume_integrate_heterogeneous`: the
chain `if((closure_flag & SD_SCATTER) || (has_scatter && (closure_flag & SD_ABSORPTION)))
... else if(closure_flag & SD_ABSORPTION) ...`, entered with the step end `new_t` and the
step length `dt`.  `undef` stands for what the locals `new_tp` and `transmittance`, declared
without a value, hold until they are assigned. -/
def heterogeneous_segment (K : KernelFlags) (m : KernelMath F) (rng : PathSamples F)
    (s : IntegrateMarch F) (coeff : VolumeShaderCoefficients F) (closure_flag : Nat)
    (new_t dt : F) (undef : float3 F) : StepLocals F :=
  if closure_flag &&& K.SD_SCATTER ≠ 0 ∨
      (s.has_scatter = true ∧ closure_flag &&& K.SD_ABSORPTION ≠ 0) then
    -- average sigma_t and sigma_s over segment
    let sigma_t := coeff.sigma_a + coeff.sigma_s
    let sigma_s := coeff.sigma_s
    -- lazily set up variables for sampling
    let xi := rng.scatter_distance
    let rphase := rng.phase
    let nlogxi := if s.channel = -1 then -m.logf (1 - xi) else s.nlogxi
    let channel := if s.channel = -1 then m.float_to_int (rphase * 3) else s.channel
    let randb_closure :=
      if s.channel = -1 then rphase * 3 - ((m.float_to_int (rphase * 3) : Int) : F)
      else s.sd.randb_closure
    -- pick random color channel
    let sample_sigma_t :=
      kernel_volume_channel_get (s.accum_sigma_t + float3_mul_f sigma_t dt) channel
    if nlogxi < sample_sigma_t then
      -- compute sampling distance
      let sample_sigma_t1 := sample_sigma_t / new_t
      let new_t1 := nlogxi / sample_sigma_t1
      let dt1 := new_t1 - s.t
      let transmittance := volume_color_transmittance m.expf sigma_t dt1
      let accum_transmittance := s.accum_transmittance * transmittance
      let accum_sigma_t := float3_div_f (s.accum_sigma_t + float3_mul_f sigma_t dt1) new_t1
      let accum_sigma_s := float3_div_f (s.accum_sigma_s + float3_mul_f sigma_s dt1) new_t1
      let pdf := dot accum_sigma_t accum_transmittance
      let new_tp := float3_mul_f (s.tp * accum_sigma_s * transmittance) (3 / pdf)
      ⟨new_tp, transmittance, true, new_t1, dt1, accum_transmittance, accum_sigma_t,
        accum_sigma_s, nlogxi, channel, true, randb_closure⟩
    else
      let transmittance := volume_color_transmittance m.expf sigma_t dt
      ⟨s.tp * transmittance, transmittance, false, new_t, dt,
        s.accum_transmittance * transmittance,
        s.accum_sigma_t + float3_mul_f sigma_t dt,
        s.accum_sigma_s + float3_mul_f sigma_s dt, nlogxi, channel, true, randb_closure⟩
  else if closure_flag &&& K.SD_ABSORPTION ≠ 0 then
    -- absorption only, no sampling needed
    let sigma_a := coeff.sigma_a
    let transmittance := volume_color_transmittance m.expf sigma_a dt
    ⟨s.tp * transmittance, transmittance, false, new_t, dt,
      s.accum_transmittance * transmittance,
      s.accum_sigma_t + float3_mul_f sigma_a dt,
      s.accum_sigma_s, s.nlogxi, s.channel, s.has_scatter, s.sd.randb_closure⟩
  else
    ⟨undef, undef, false, new_t, dt, s.accum_transmittance, s.accum_sigma_t,
      s.accum_sigma_s, s.nlogxi, s.channel, s.has_scatter, s.sd.randb_closure⟩

/-- One iteration of the loop of `kernel_volume_integrate_heterogeneous` at index `i`. -/
def heterogeneous_step (K : KernelFlags) (m : KernelMath F) (ext : KernelExtern F)
    (kg : KernelIntegrator F) (state : PathState) (ray : Ray F) (rng : PathSamples F)
    (undef : float3 F) (i : Nat) (s : IntegrateMarch F) : MarchStep F :=
  let step_size := kg.volume_step_size
  -- advance to new position
  let new_t := min ray.t (((i + 1 : Nat) : F) * step_size)
  let dt := new_t - s.t
  -- use random position inside this segment to sample shader
  let draw := ext.lcg_step_float s.rng_congruential
  let random_jitter_offset := if new_t = ray.t then draw.1 * dt else s.random_jitter_offset
  let rng_congruential := if new_t = ray.t then draw.2 else s.rng_congruential
  let new_P := ray.P + float3_mul_f ray.D (s.t + random_jitter_offset)
  -- compute segment
  match volume_shader_sample K ext kg s.sd state new_P with
  | (some coeff, sd1) =>
    let closure_flag := sd1.flag
    let v := heterogeneous_segment K m rng { s with sd := sd1 } coeff closure_flag new_t dt
      undef
    let sd2 : VolumeShaderData F := { sd1 with randb_closure := v.randb_closure }
    -- integrate emission attenuated by absorption
    let L1 :=
      if closure_flag &&& K.SD_EMISSION ≠ 0 then
        path_radiance_accum_emission s.L s.tp
          (kernel_volume_emission_integrate K coeff closure_flag v.transmittance v.dt)
          state.bounce
      else s.L
    -- modify throughput
    if closure_flag &&& (K.SD_ABSORPTION ||| K.SD_SCATTER) ≠ 0 then
      let shaded := s.shaded ++
        [⟨i, s.t, new_t, random_jitter_offset, some closure_flag, v.new_tp⟩]
      -- stop if nearly all light blocked
      if below_tp_eps v.new_tp then
        MarchStep.stop ⟨make_float3 0 0 0, s.t, random_jitter_offset,
          v.accum_transmittance, v.accum_sigma_t, v.accum_sigma_s, v.nlogxi, v.channel,
          v.has_scatter, rng_congruential, sd2, L1, shaded⟩
      else if v.scatter then
        -- prepare to scatter to new direction
        MarchStep.scattered ⟨v.new_tp, s.t, random_jitter_offset,
          v.accum_transmittance, v.accum_sigma_t, v.accum_sigma_s, v.nlogxi, v.channel,
          v.has_scatter, rng_congruential,
          { sd2 with P := ray.P + float3_mul_f ray.D v.new_t }, L1, shaded⟩
      else if v.new_t = ray.t then
        -- stop if at the end of the volume
        MarchStep.stop ⟨v.new_tp, v.new_t, random_jitter_offset,
          v.accum_transmittance, v.accum_sigma_t, v.accum_sigma_s, v.nlogxi, v.channel,
          v.has_scatter, rng_congruential, sd2, L1, shaded⟩
      else
        MarchStep.next ⟨v.new_tp, v.new_t, random_jitter_offset,
          v.accum_transmittance, v.accum_sigma_t, v.accum_sigma_s, v.nlogxi, v.channel,
          v.has_scatter, rng_congruential, sd2, L1, shaded⟩
    else
      let shaded := s.shaded ++
        [⟨i, s.t, new_t, random_jitter_offset, some closure_flag, s.tp⟩]
      let s1 : IntegrateMarch F := ⟨s.tp, v.new_t, random_jitter_offset,
        v.accum_transmittance, v.accum_sigma_t, v.accum_sigma_s, v.nlogxi, v.channel,
        v.has_scatter, rng_congruential, sd2, L1, shaded⟩
      if v.new_t = ray.t then MarchStep.stop s1 else MarchStep.next s1
  | (none, sd1) =>
    let shaded := s.shaded ++ [⟨i, s.t, new_t, random_jitter_offset, none, s.tp⟩]
    let s1 : IntegrateMarch F := ⟨s.tp, new_t, random_jitter_offset,
      s.accum_transmittance, s.accum_sigma_t, s.accum_sigma_s, s.nlogxi, s.channel,
      s.has_scatter, rng_congruential, sd1, s.L, shaded⟩
    if new_t = ray.t then MarchStep.stop s1 else MarchStep.next s1

/-- The loop `for(int i = 0; i < max_steps; i++)` of
`kernel_volume_integrate_heterogeneous` from index `i`, with `n` iterations left before `i`
reaches `max_steps`.  The result is the state in which the loop is left and whether it was
left by the exit `return VOLUME_PATH_SCATTERED`. -/
def heterogeneous_loop (K : KernelFlags) (m : KernelMath F) (ext : KernelExtern F)
    (kg : KernelIntegrator F) (state : PathState) (ray : Ray F) (rng : PathSamples F)
    (undef : float3 F) : Nat → Nat → IntegrateMarch F → IntegrateMarch F × Bool
  | 0, _, s => (s, false)
  | n + 1, i, s =>
    match heterogeneous_step K m ext kg state ray rng undef i s with
    | MarchStep.next s1 => heterogeneous_loop K m ext kg state ray rng undef n (i + 1) s1
    | MarchStep.stop s1 => (s1, false)
    | MarchStep.scattered s1 => (s1, true)

/-- What `kernel_volume_integrate_heterogeneous` hands back: the values of an integrator
call together with the record of the marching iterations. -/
structure HeterogeneousIntegrate (F : Type) where
  out : VolumeIntegrate F
  shaded : List (MarchRecord F)

/-- Embedding of `kernel_volume_integrate_heterogeneous`.  `undef` stands for what the
locals declared without a value (`nlogxi`, `new_tp`, `transmittance`) hold until they are
assigned. -/
def kernel_volume_integrate_heterogeneous (K : KernelFlags) (m : KernelMath F)
    (ext : KernelExtern F) (kg : KernelIntegrator F) (state : PathState) (ray : Ray F)
    (sd : VolumeShaderData F) (L : List (EmissionAccum F)) (throughput : float3 F)
    (rng : PathSamples F) (undef : float3 F) : HeterogeneousIntegrate F :=
  -- prepare for stepping
  let max_steps := kg.volume_max_steps
  let step_size := kg.volume_step_size
  let draw := ext.lcg_step_float state.rng_congruential
  let random_jitter_offset := draw.1 * step_size
  let r := heterogeneous_loop K m ext kg state ray rng undef max_steps.toNat 0
    ⟨throughput, 0, random_jitter_offset, make_float3 1 1 1, make_float3 0 0 0,
      make_float3 0 0 0, undef.x, -1, false, draw.2, sd, L, []⟩
  let s := r.1
  let state1 : PathState := { state with rng_congruential := s.rng_congruential }
  if r.2 then
    ⟨⟨VolumeIntegrateResult.VOLUME_PATH_SCATTERED, s.tp, s.L, s.sd, state1⟩, s.shaded⟩
  else
    -- include pdf for volumes with scattering
    let pdf := s.accum_transmittance.x + s.accum_transmittance.y + s.accum_transmittance.z
    let tp :=
      if s.has_scatter = true ∧ 0 < pdf then float3_mul_f s.tp (3 / pdf) else s.tp
    ⟨⟨VolumeIntegrateResult.VOLUME_PATH_ATTENUATED, tp, s.L, s.sd, state1⟩, s.shaded⟩

/-- Embedding of `kernel_volume_integrate`.  `rng` holds the samples of the generator
`tmp_rng` that the routine derives with `cmj_hash`; `none` is an access outside the volume
stack array. -/
def kernel_volume_integrate (KT : KernelTypes) (K : KernelFlags) (m : KernelMath F)
    (ext : KernelExtern F) (kg : KernelIntegrator F) (state : PathState)
    (sd : VolumeShaderData F) (ray : Ray F) (L : List (EmissionAccum F))
    (throughput : float3 F) (rng : PathSamples F) (branched : Bool) (undef : float3 F) :
    Option (HeterogeneousIntegrate F) :=
  match volume_stack_is_heterogeneous KT K ext state.volume_stack with
  | none => none
  | some heterogeneous =>
    let sd1 := ext.shader_setup_from_volume sd ray state.bounce
    if heterogeneous then
      some (kernel_volume_integrate_heterogeneous K m ext kg state ray sd1 L throughput rng
        undef)
    else
      some ⟨kernel_volume_integrate_homogeneous K m ext kg state ray sd1 L throughput rng
        branched undef, []⟩

end Marching

/-! ## Sample inputs -/

/-- Sample flag bits and closure ids used to exercise the theorems: `SD_EMISSION = 2`,
`SD_ABSORPTION = 4`, `SD_SCATTER = 8`, `SD_HETEROGENEOUS_VOLUME = 16`, emission closure 1,
absorption closure 11, and the volume closures 10 to 12. -/
def sampleFlags : KernelFlags :=
  ⟨2, 4, 8, 16, 1, 11, fun type => decide (10 ≤ type ∧ type ≤ 12)⟩

/-- Sample external routines: a medium whose shader leaves the same flag word and closures
at every point, a set-up that keeps the shading data, a congruential generator that always
returns `0`, a light sample of zero pdf, and one flag word for every shader. -/
def sampleExtern {F : Type} [Zero F] (flag : Nat) (closure : List (ShaderClosure F))
    (shader_flag : Nat) : KernelExtern F :=
  ⟨fun _ sd => { sd with flag := flag, closure := closure }, fun sd _ _ => sd,
    fun n => (0, n + 1), fun _ _ _ _ P => ⟨P, 0⟩, fun _ => shader_flag⟩

/-- Sample external routines for a medium in two layers along the x axis: the shader flags
nothing where `P.x < 1` and flags scattering with the closure weight `(1, 1, 1)`
elsewhere; the other routines are those of `sampleExtern`. -/
def sampleLayeredExtern {F : Type} [Zero F] [One F] [LT F]
    [DecidableRel (fun a b : F => a < b)] : KernelExtern F :=
  ⟨fun _ sd =>
      if sd.P.x < 1 then { sd with flag := 0, closure := [] }
      else { sd with flag := 8, closure := [⟨12, ⟨1, 1, 1⟩⟩] },
    fun sd _ _ => sd, fun n => (0, n + 1), fun _ _ _ _ P => ⟨P, 0⟩, fun _ => 16⟩

/-- A closure list per category: the weights of the closures that satisfy `p`, added up in
list order from zero. -/
def category_sum {F : Type} [Add F] [Zero F] (p : ShaderClosure F → Bool)
    (closure : List (ShaderClosure F)) : float3 F :=
  (closure.filter p).foldl (fun sum sc => sum + sc.weight) (make_float3 0 0 0)

/-- The closures that `volume_shader_sample` counts as absorption. -/
def is_absorption_closure {F : Type} (K : KernelFlags) (sc : ShaderClosure F) : Bool :=
  decide (sc.type = K.CLOSURE_VOLUME_ABSORPTION_ID)

/-- The closures that `volume_shader_sample` counts as emission. -/
def is_emission_closure {F : Type} (K : KernelFlags) (sc : ShaderClosure F) : Bool :=
  decide (sc.type ≠ K.CLOSURE_VOLUME_ABSORPTION_ID) && decide (sc.type = K.CLOSURE_EMISSION_ID)

/-- The closures that `volume_shader_sample` counts as scattering: the volume closures that
are neither absorption nor emission. -/
def is_scatter_closure {F : Type} (K : KernelFlags) (sc : ShaderClosure F) : Bool :=
  decide (sc.type ≠ K.CLOSURE_VOLUME_ABSORPTION_ID) &&
    decide (sc.type ≠ K.CLOSURE_EMISSION_ID) && K.CLOSURE_IS_VOLUME sc.type

/-- The throughput the spec gives to a miss of the non-branched homogeneous integrator:
`throughput * transmittance(t) / avg(transmittance)`. -/
def spec_miss_throughput {F : Type} [Add F] [Mul F] [Div F] [Neg F] [One F] [OfNat F 3]
    (expf : F → F) (throughput sigma_t : float3 F) (t : F) : float3 F :=
  float3_div_f (throughput * volume_color_transmittance expf sigma_t t)
    (average (volume_color_transmittance expf sigma_t t))

/-- The throughput the spec gives to a scatter at distance `d` in a medium of constant
coefficients: `tp * sigma_s * T(d) * 3 / (sum over k of sigma_t,k * T_k(d))`. -/
def spec_scatter_throughput {F : Type} [Add F] [Mul F] [Div F] [Neg F] [OfNat F 3]
    (expf : F → F) (throughput sigma_s sigma_t : float3 F) (d : F) : float3 F :=
  float3_mul_f (throughput * sigma_s * volume_color_transmittance expf sigma_t d)
    (3 / dot sigma_t (volume_color_transmittance expf sigma_t d))

/-- The throughput the spec gives to the heterogeneous integrator when it crosses a medium
of constant coefficients without scattering: `tp * T(t) * 3 / (T_x + T_y + T_z)`. -/
def spec_attenuated_throughput {F : Type} [Add F] [Mul F] [Div F] [Neg F] [OfNat F 3]
    (expf : F → F) (throughput sigma_t : float3 F) (t : F) : float3 F :=
  float3_mul_f (throughput * volume_color_transmittance expf sigma_t t)
    (3 / ((volume_color_transmittance expf sigma_t t).x +
      (volume_color_transmittance expf sigma_t t).y +
      (volume_color_transmittance expf sigma_t t).z))

/-- The locals of `kernel_volume_integrate_heterogeneous` at the head of iteration `i` when
the medium has the constant coefficients `sigma_t`, `sigma_s` and no step before has
scattered: the march stands at `t = i * step_size` short of the segment end, throughput and
accumulated transmittance are attenuated over `t`, the accumulated coefficients are `t`
times the constant ones, and the sampling variables are either not set up yet or hold the
channel `c` and the value `nu` of `-log(1 - xi)`. -/
def constant_medium_state (step_size ray_t : ℝ) (throughput sigma_t sigma_s : float3 ℝ)
    (c : Int) (nu : ℝ) (i : Nat) (s : IntegrateMarch ℝ) : Prop :=
  s.t = (i : ℝ) * step_size ∧ s.t < ray_t ∧
  s.tp = throughput * volume_color_transmittance Real.exp sigma_t s.t ∧
  s.accum_transmittance = volume_color_transmittance Real.exp sigma_t s.t ∧
  s.accum_sigma_t = float3_mul_f sigma_t s.t ∧
  s.accum_sigma_s = float3_mul_f sigma_s s.t ∧
  (s.channel = -1 ∨ (s.channel = c ∧ s.nlogxi = nu))

/-- The values of the C type `float`: a finite value, held as the rational number it
stands for, an infinity, or NaN.  The sign of zero is not modelled. -/
inductive binary32 where
  | finite (q : ℚ)
  | inf (negative : Bool)
  | nan
  deriving DecidableEq

section Rounding

variable {R : Type} [LinearOrderedField R] [FloorRing R]

/-- Rounding to the nearest integer, ties to the even one. -/
def round_half_even (x : R) : ℤ :=
  if x - ⌊x⌋ < 1 / 2 then ⌊x⌋
  else if 1 / 2 < x - ⌊x⌋ then ⌊x⌋ + 1
  else if ⌊x⌋ % 2 = 0 then ⌊x⌋ else ⌊x⌋ + 1

/-- The binary exponent of the binade of `x >= 0` in binary32: `floor(log2 x)`, and `-126`
in the subnormal range. -/
def binary32_exponent (x : R) : ℤ :=
  max (Int.log 2 x) (-126)

/-- Rounding of `x >= 0` to a multiple of the unit in the last place of its binade, which
is `2 ^ (e - 23)` for the 24-bit significand of binary32. -/
def round_magnitude (x : R) : ℚ :=
  (round_half_even (x / (2 : R) ^ (binary32_exponent x - 23)) : ℚ) *
    (2 : ℚ) ^ (binary32_exponent x - 23)

/-- Rounding of a number to binary32: to the nearest value, ties to even, and to an infinity
when the rounded magnitude reaches `2 ^ 128`. -/
def round32 (x : R) : binary32 :=
  if 0 ≤ x then
    if round_magnitude x < 2 ^ 128 then binary32.finite (round_magnitude x)
    else binary32.inf false
  else
    if round_magnitude (-x) < 2 ^ 128 then binary32.finite (-round_magnitude (-x))
    else binary32.inf true

/-- A function of the C maths library that is defined on every finite argument, with
correct rounding: `f` gives the exact value at a finite argument, `below` and `above` are
the results at minus and plus infinity. -/
def libm_rounded (f : ℚ → R) (below above : binary32) : binary32 → binary32
  | binary32.finite q => round32 (f q)
  | binary32.inf true => below
  | binary32.inf false => above
  | binary32.nan => binary32.nan

/-- The function `expf` with correct rounding, from the exact exponential `exp`. -/
def libm_expf (exp : ℚ → R) : binary32 → binary32 :=
  libm_rounded exp (binary32.finite 0) (binary32.inf false)

/-- The function `logf` with correct rounding, from the exact logarithm `log`: minus
infinity at `0` and NaN at negative arguments. -/
def libm_logf (log : ℚ → R) : binary32 → binary32
  | binary32.finite q =>
    if q < 0 then binary32.nan else if q = 0 then binary32.inf true else round32 (log q)
  | binary32.inf true => binary32.nan
  | binary32.inf false => binary32.inf false
  | binary32.nan => binary32.nan

end Rounding

namespace binary32

/-- The order `<` of binary32 as a boolean; every comparison with NaN is false. -/
def lt : binary32 → binary32 → Bool
  | finite a, finite b => decide (a < b)
  | finite _, inf negative => !negative
  | inf negative, finite _ => negative
  | inf a, inf b => a && !b
  | _, _ => false

/-- The order `<=` of binary32 as a boolean; every comparison with NaN is false. -/
def le : binary32 → binary32 → Bool
  | finite a, finite b => decide (a ≤ b)
  | finite _, inf negative => !negative
  | inf negative, finite _ => negative
  | inf a, inf b => a || !b
  | _, _ => false

/-- Negation flips the sign. -/
def neg : binary32 → binary32
  | finite a => finite (-a)
  | inf negative => inf (!negative)
  | nan => nan

/-- Addition: the exact sum rounded; opposite infinities give NaN. -/
def add : binary32 → binary32 → binary32
  | finite a, finite b => round32 (a + b)
  | finite _, inf negative => inf negative
  | inf negative, finite _ => inf negative
  | inf a, inf b => if a = b then inf a else nan
  | _, _ => nan

/-- Multiplication: the exact product rounded; zero times an infinity gives NaN. -/
def mul : binary32 → binary32 → binary32
  | finite a, finite b => round32 (a * b)
  | finite a, inf negative => if a = 0 then nan else inf (xor negative (decide (a < 0)))
  | inf negative, finite b => if b = 0 then nan else inf (xor negative (decide (b < 0)))
  | inf a, inf b => inf (xor a b)
  | _, _ => nan

/-- Division: the exact quotient rounded.  A zero divisor counts as `+0`, since the sign
of zero is not modelled. -/
def div : binary32 → binary32 → binary32
  | finite a, finite b =>
    if b = 0 then (if a = 0 then nan else inf (decide (a < 0))) else round32 (a / b)
  | finite _, inf _ => finite 0
  | inf negative, finite b => inf (xor negative (decide (b < 0)))
  | _, _ => nan

/-- The conversion `(int)x`: truncation towards zero. -/
def to_int : binary32 → Int
  | finite a => if 0 ≤ a then ⌊a⌋ else ⌈a⌉
  | _ => 0

end binary32

instance binary32_zero : Zero binary32 := ⟨binary32.finite 0⟩

instance binary32_one : One binary32 := ⟨binary32.finite 1⟩

instance binary32_three : OfNat binary32 3 := ⟨binary32.finite 3⟩

instance binary32_neg : Neg binary32 := ⟨binary32.neg⟩

instance binary32_add : Add binary32 := ⟨binary32.add⟩

/-- Subtraction is the addition of the negated value. -/
instance binary32_sub : Sub binary32 := ⟨fun a b => binary32.add a (binary32.neg b)⟩

instance binary32_mul : Mul binary32 := ⟨binary32.mul⟩

instance binary32_div : Div binary32 := ⟨binary32.div⟩

instance binary32_lt : LT binary32 := ⟨fun a b => binary32.lt a b = true⟩

instance binary32_le : LE binary32 := ⟨fun a b => binary32.le a b = true⟩

instance binary32_lt_decidable : DecidableRel (fun a b : binary32 => a < b) :=
  fun a b => inferInstanceAs (Decidable (binary32.lt a b = true))

instance binary32_le_decidable : DecidableRel (fun a b : binary32 => a ≤ b) :=
  fun a b => inferInstanceAs (Decidable (binary32.le a b = true))

/-- Modelled from the spec: the function `min(float, float)` of the kernel's maths header,
which is not among the sources: `a < b ? a : b`. -/
instance binary32_min : Min binary32 := ⟨fun a b => if a < b then a else b⟩

/-- The conversion of an `int` to `float`. -/
instance binary32_int_cast : IntCast binary32 := ⟨fun n => round32 (n : ℚ)⟩

/-! ## The trace of the heterogeneous integrator -/

/-- The locals with which `kernel_volume_integrate_heterogeneous` enters its loop: the
input throughput, `t = 0`, the first jitter offset, unit accumulated transmittance, zero
accumulated coefficients, `nlogxi` not yet assigned, `channel = -1` and
`has_scatter = false`. -/
def heterogeneous_initial {F : Type} [Mul F] [Zero F] [One F] (ext : KernelExtern F)
    (kg : KernelIntegrator F) (state : PathState) (sd : VolumeShaderData F)
    (L : List (EmissionAccum F)) (throughput : float3 F) (undef : float3 F) :
    IntegrateMarch F :=
  ⟨throughput, 0, (ext.lcg_step_float state.rng_congruential).1 * kg.volume_step_size,
    make_float3 1 1 1, make_float3 0 0 0, make_float3 0 0 0, undef.x, -1, false,
    (ext.lcg_step_float state.rng_congruential).2, sd, L, []⟩

/-- The early-exit test of the marching integrator read off a record: the shader flagged
absorption or scattering in the step and the throughput after it is below the
threshold. -/
def threshold_hit {F : Type} [OfScientific F] [LT F] [DecidableRel (fun a b : F => a < b)]
    (K : KernelFlags) (rec : MarchRecord F) : Bool :=
  match rec.closure_flag with
  | some f => decide (f &&& (K.SD_ABSORPTION ||| K.SD_SCATTER) ≠ 0) && below_tp_eps rec.tp
  | none => false

/-- The sampling variables of `kernel_volume_integrate_heterogeneous` are either not set
up (`channel = -1`) or hold the channel `c` and the value `nu` of `-log(1 - xi)`. -/
def sampling_set_up (c : Int) (nu : ℝ) (channel : Int) (nlogxi : ℝ) : Prop :=
  channel = -1 ∨ (channel = c ∧ nlogxi = nu)

/-- Once scattering has been encountered, the scatter test has failed on the accumulated
extinction: `nu` is not below channel `c` of `accum_sigma_t`. -/
def no_crossing_yet (c : Int) (nu : ℝ) (has_scatter : Bool) (accum_sigma_t : float3 ℝ) :
    Prop :=
  has_scatter = true → ¬ (nu < kernel_volume_channel_get accum_sigma_t c)

section MarchingTrace

variable {F : Type} [Add F] [Sub F] [Mul F] [Div F] [Neg F] [Zero F] [One F] [OfNat F 3]
  [OfScientific F] [NatCast F] [IntCast F] [Min F] [LT F] [LE F]
  [DecidableRel (fun a b : F => a < b)] [DecidableRel (fun a b : F => a ≤ b)]
  [DecidableEq F]

/-- The transmittance of iteration `i` of the loop of
`kernel_volume_integrate_heterogeneous`: the local `transmittance` when the shader flags
absorption or scattering in the iteration, and `(1, 1, 1)` for an iteration that leaves
the throughput and the accumulated transmittance alone. -/
def heterogeneous_step_transmittance (K : KernelFlags) (m : KernelMath F)
    (ext : KernelExtern F) (kg : KernelIntegrator F) (state : PathState) (ray : Ray F)
    (rng : PathSamples F) (undef : float3 F) (i : Nat) (s : IntegrateMarch F) : float3 F :=
  let step_size := kg.volume_step_size
  let new_t := min ray.t (((i + 1 : Nat) : F) * step_size)
  let dt := new_t - s.t
  let draw := ext.lcg_step_float s.rng_congruential
  let random_jitter_offset := if new_t = ray.t then draw.1 * dt else s.random_jitter_offset
  let new_P := ray.P + float3_mul_f ray.D (s.t + random_jitter_offset)
  match volume_shader_sample K ext kg s.sd state new_P with
  | (some coeff, sd1) =>
    if sd1.flag &&& (K.SD_ABSORPTION ||| K.SD_SCATTER) ≠ 0 then
      (heterogeneous_segment K m rng { s with sd := sd1 } coeff sd1.flag new_t dt
        undef).transmittance
    else make_float3 1 1 1
  | (none, _) => make_float3 1 1 1

/-- The componentwise product of the transmittances of the steps that the loop of
`kernel_volume_integrate_heterogeneous` marches from index `i`, with `n` iterations left. -/
def heterogeneous_loop_transmittance (K : KernelFlags) (m : KernelMath F)
    (ext : KernelExtern F) (kg : KernelIntegrator F) (state : PathState) (ray : Ray F)
    (rng : PathSamples F) (undef : float3 F) : Nat → Nat → IntegrateMarch F → float3 F
  | 0, _, _ => make_float3 1 1 1
  | n + 1, i, s =>
    match heterogeneous_step K m ext kg state ray rng undef i s with
    | MarchStep.next s1 =>
      heterogeneous_step_transmittance K m ext kg state ray rng undef i s *
        heterogeneous_loop_transmittance K m ext kg state ray rng undef n (i + 1) s1
    | MarchStep.stop _ => heterogeneous_step_transmittance K m ext kg state ray rng undef i s
    | MarchStep.scattered _ =>
      heterogeneous_step_transmittance K m ext kg state ray rng undef i s

/-- The locals of `kernel_volume_integrate_heterogeneous` at the head of iteration `k` of
a march entered with the locals `s0`: `none` when the march has ended before. -/
def heterogeneous_state_at (K : KernelFlags) (m : KernelMath F) (ext : KernelExtern F)
    (kg : KernelIntegrator F) (state : PathState) (ray : Ray F) (rng : PathSamples F)
    (undef : float3 F) (s0 : IntegrateMarch F) : Nat → Option (IntegrateMarch F)
  | 0 => some s0
  | k + 1 =>
    match heterogeneous_state_at K m ext kg state ray rng undef s0 k with
    | none => none
    | some s =>
      match heterogeneous_step K m ext kg state ray rng undef k s with
      | MarchStep.next s1 => some s1
      | MarchStep.stop _ => none
      | MarchStep.scattered _ => none

end MarchingTrace

/-- The throughput the spec gives to a march that ends without a scatter event after
scattering was encountered: `tp * A * 3 / (A_x + A_y + A_z)` for the accumulated
transmittance `A`. -/
def spec_attenuated_product {F : Type} [Add F] [Mul F] [Div F] [OfNat F 3]
    (throughput A : float3 F) : float3 F :=
  float3_mul_f (throughput * A) (3 / (A.x + A.y + A.z))

/-! ## Lemmas on the array accesses and the loops -/

theorem stack_entries_append (K : KernelTypes) (A : List VolumeStack) (s : VolumeStack)
    (rest : List VolumeStack) (hA : ∀ a ∈ A, a.shader ≠ K.SHADER_NONE)
    (hs : s.shader = K.SHADER_NONE) :
    stack_entries K (A ++ s :: rest) = A := by
  unfold stack_entries
  induction A with
  | nil => simp [List.takeWhile, hs]
  | cons a A ih =>
    have ha : a.shader ≠ K.SHADER_NONE := hA a (List.mem_cons_self _ _)
    have ih1 := ih (fun b hb => hA b (List.mem_cons_of_mem _ hb))
    simp only [List.cons_append, List.takeWhile_cons, ha, ne_eq, not_false_eq_true,
      decide_True, if_true]
    rw [ih1]

theorem stack_entries_shader (K : KernelTypes) (stack : List VolumeStack) :
    ∀ a ∈ stack_entries K stack, a.shader ≠ K.SHADER_NONE := by
  intro a ha
  have h := List.mem_takeWhile_imp ha
  simpa using h

theorem stack_split (K : KernelTypes) (stack : List VolumeStack)
    (h : stack_terminated K stack) :
    ∃ s rest, stack = stack_entries K stack ++ s :: rest ∧ s.shader = K.SHADER_NONE := by
  unfold stack_terminated stack_entries at *
  induction stack with
  | nil => simp at h
  | cons a l ih =>
    by_cases ha : a.shader = K.SHADER_NONE
    · exact ⟨a, l, by simp [List.takeWhile, ha], ha⟩
    · have hl : (l.takeWhile (fun e => decide (e.shader ≠ K.SHADER_NONE))).length < l.length := by
        simpa [List.takeWhile, ha] using h
      obtain ⟨s, rest, h1, h2⟩ := ih hl
      refine ⟨s, rest, ?_, h2⟩
      simp only [List.takeWhile_cons, ha, ne_eq, not_false_eq_true, decide_True, if_true,
        List.cons_append]
      exact congrArg (List.cons a) h1

theorem stack_get_at (pre : List VolumeStack) (e : VolumeStack) (rest : List VolumeStack) :
    stack_get (pre ++ e :: rest) pre.length = some e := by
  unfold stack_get
  rw [List.getElem?_append_right (Nat.le_refl _)]
  simp

theorem stack_get_next (pre : List VolumeStack) (x e : VolumeStack)
    (rest : List VolumeStack) :
    stack_get (pre ++ x :: e :: rest) (pre.length + 1) = some e := by
  have h := stack_get_at (pre ++ [x]) e rest
  simpa using h

theorem stack_get_none (stack : List VolumeStack) (i : Nat) (h : stack.length ≤ i) :
    stack_get stack i = none := by
  unfold stack_get
  simp [h]

theorem stack_set_at (pre : List VolumeStack) (e x : VolumeStack) (rest : List VolumeStack) :
    stack_set (pre ++ e :: rest) pre.length x = some (pre ++ x :: rest) := by
  unfold stack_set
  simp

theorem stack_set_length (stack stack1 : List VolumeStack) (i : Nat) (e : VolumeStack)
    (h : stack_set stack i e = some stack1) : stack1.length = stack.length := by
  unfold stack_set at h
  split at h
  · cases h; simp
  · cases h

theorem stack_set_shader_at (pre : List VolumeStack) (e : VolumeStack)
    (rest : List VolumeStack) (v : Int) :
    stack_set_shader (pre ++ e :: rest) pre.length v =
      some (pre ++ { e with shader := v } :: rest) := by
  unfold stack_set_shader
  have h : (pre ++ e :: rest)[pre.length]? = some e := stack_get_at pre e rest
  rw [h]
  simp

theorem stack_set_object_at (pre : List VolumeStack) (e : VolumeStack)
    (rest : List VolumeStack) (v : Int) :
    stack_set_object (pre ++ e :: rest) pre.length v =
      some (pre ++ { e with object := v } :: rest) := by
  unfold stack_set_object
  have h : (pre ++ e :: rest)[pre.length]? = some e := stack_get_at pre e rest
  rw [h]
  simp

/-- The iteration bound of the scanning loop is never the reason for its result: once the
bound covers the cells from `i` to the end of the array, a larger bound changes nothing. -/
theorem stack_scan_from_bound (K : KernelTypes) (stack : List VolumeStack) (object : Int)
    (n : Nat) : ∀ i, stack.length < i + n →
      stack_scan_from K stack object (n + 1) i = stack_scan_from K stack object n i := by
  induction n with
  | zero =>
    intro i h
    have hnone := stack_get_none stack i (by omega)
    simp [stack_scan_from, hnone]
  | succ n ih =>
    intro i h
    have h1 := ih (i + 1) (by omega)
    rw [stack_scan_from, h1]
    conv_rhs => rw [stack_scan_from]

/-- The iteration bound of the shifting loop is never the reason for its result. -/
theorem stack_shift_back_from_bound (K : KernelTypes) (n : Nat) :
    ∀ (stack : List VolumeStack) (i : Nat), stack.length < i + n →
      stack_shift_back_from K (n + 1) stack i = stack_shift_back_from K n stack i := by
  induction n with
  | zero =>
    intro stack i h
    have hnone := stack_get_none stack (i + 1) (by omega)
    simp [stack_shift_back_from, hnone]
  | succ n ih =>
    intro stack i h
    rw [stack_shift_back_from, stack_shift_back_from]
    split
    · rfl
    · split
      · rfl
      · rename_i stack1 hset
        have hlen := stack_set_length _ _ _ _ hset
        rw [ih stack1 (i + 1) (by omega)]

theorem stack_scan_at (K : KernelTypes) (pre : List VolumeStack) (e : VolumeStack)
    (rest : List VolumeStack) (object : Int) (n : Nat) :
    stack_scan_from K (pre ++ e :: rest) object (n + 1) pre.length =
      if e.shader = K.SHADER_NONE then StackScan.sentinel pre.length
      else if e.object = object then StackScan.found pre.length
      else stack_scan_from K (pre ++ e :: rest) object n (pre.length + 1) := by
  rw [stack_scan_from, stack_get_at]

theorem stack_scan_skip (K : KernelTypes) (object : Int) (n : Nat) (A : List VolumeStack) :
    ∀ (pre rest : List VolumeStack),
      (∀ a ∈ A, a.shader ≠ K.SHADER_NONE ∧ a.object ≠ object) →
      stack_scan_from K (pre ++ (A ++ rest)) object (A.length + n) pre.length =
        stack_scan_from K (pre ++ (A ++ rest)) object n (pre.length + A.length) := by
  induction A with
  | nil => intro pre rest _; simp
  | cons a A ih =>
    intro pre rest hA
    have ha := hA a (List.mem_cons_self _ _)
    have hrest : ∀ b ∈ A, b.shader ≠ K.SHADER_NONE ∧ b.object ≠ object :=
      fun b hb => hA b (List.mem_cons_of_mem _ hb)
    have h1 := stack_scan_at K pre a (A ++ rest) object (A.length + n)
    simp only [ha.1, ha.2, if_false] at h1
    have h2 := ih (pre ++ [a]) rest hrest
    simp only [List.append_assoc, List.singleton_append, List.length_append,
      List.length_singleton] at h2
    have e1 : (a :: A).length + n = A.length + n + 1 := by simp; omega
    have e2 : pre.length + (a :: A).length = pre.length + 1 + A.length := by simp; omega
    rw [e1, e2, List.cons_append, h1, h2]

theorem stack_scan_found (K : KernelTypes) (object : Int) (A : List VolumeStack)
    (x : VolumeStack) (rest : List VolumeStack)
    (hA : ∀ a ∈ A, a.shader ≠ K.SHADER_NONE ∧ a.object ≠ object)
    (hx : x.shader ≠ K.SHADER_NONE) (hobj : x.object = object) :
    stack_scan K (A ++ x :: rest) object = StackScan.found A.length := by
  have h1 := stack_scan_skip K object (rest.length + 1 + 1) A [] (x :: rest) hA
  simp only [List.nil_append, List.length_nil, Nat.zero_add] at h1
  have e : (A ++ x :: rest).length + 1 = A.length + (rest.length + 1 + 1) := by
    simp; omega
  unfold stack_scan
  rw [e, h1, stack_scan_at]
  simp [hx, hobj]

theorem stack_scan_sentinel (K : KernelTypes) (object : Int) (A : List VolumeStack)
    (s : VolumeStack) (rest : List VolumeStack)
    (hA : ∀ a ∈ A, a.shader ≠ K.SHADER_NONE ∧ a.object ≠ object)
    (hs : s.shader = K.SHADER_NONE) :
    stack_scan K (A ++ s :: rest) object = StackScan.sentinel A.length := by
  have h1 := stack_scan_skip K object (rest.length + 1 + 1) A [] (s :: rest) hA
  simp only [List.nil_append, List.length_nil, Nat.zero_add] at h1
  have e : (A ++ s :: rest).length + 1 = A.length + (rest.length + 1 + 1) := by
    simp; omega
  unfold stack_scan
  rw [e, h1, stack_scan_at]
  simp [hs]

theorem stack_shift_back_from_spec (K : KernelTypes) (s : VolumeStack)
    (rest : List VolumeStack) (hs : s.shader = K.SHADER_NONE) (mid : List VolumeStack) :
    ∀ (pre : List VolumeStack) (x : VolumeStack) (n : Nat),
      (∀ m ∈ mid, m.shader ≠ K.SHADER_NONE) →
      stack_shift_back_from K (mid.length + 1 + n) (pre ++ x :: (mid ++ s :: rest))
          pre.length =
        some (pre ++ (mid ++ s :: s :: rest)) := by
  induction mid with
  | nil =>
    intro pre x n _
    have e : ([] : List VolumeStack).length + 1 + n = n + 1 := by simp; omega
    rw [e, stack_shift_back_from]
    simp only [List.nil_append, stack_get_next, stack_set_at]
    simp [hs]
  | cons m mid ih =>
    intro pre x n hmid
    have hm : m.shader ≠ K.SHADER_NONE := hmid m (List.mem_cons_self _ _)
    have hrest : ∀ b ∈ mid, b.shader ≠ K.SHADER_NONE :=
      fun b hb => hmid b (List.mem_cons_of_mem _ hb)
    have h4 := ih (pre ++ [m]) m n hrest
    simp only [List.append_assoc, List.singleton_append, List.length_append,
      List.length_singleton] at h4
    have e : (m :: mid).length + 1 + n = (mid.length + 1 + n) + 1 := by simp; omega
    rw [e, stack_shift_back_from]
    simp only [List.cons_append, stack_get_next, stack_set_at, hm, ne_eq, not_false_eq_true,
      if_true]
    rw [h4]

theorem stack_shift_back_spec (K : KernelTypes) (s : VolumeStack) (rest : List VolumeStack)
    (hs : s.shader = K.SHADER_NONE) (mid pre : List VolumeStack) (x : VolumeStack)
    (hmid : ∀ m ∈ mid, m.shader ≠ K.SHADER_NONE) :
    stack_shift_back K (pre ++ x :: (mid ++ s :: rest)) pre.length =
      some (pre ++ (mid ++ s :: s :: rest)) := by
  have h := stack_shift_back_from_spec K s rest hs mid pre x (pre.length + rest.length + 2) hmid
  have e : (pre ++ x :: (mid ++ s :: rest)).length + 1
      = mid.length + 1 + (pre.length + rest.length + 2) := by
    simp; omega
  unfold stack_shift_back
  rw [e, h]

/-! ## Lemmas on `kernel_volume_stack_enter_exit` -/

theorem has_object_iff (object : Int) (e : VolumeStack) :
    has_object object e = true ↔ e.object = object := by
  simp [has_object]

theorem enter_exit_no_volume (K : KernelTypes) (sd : ShaderData) (stack : List VolumeStack)
    (hvol : sd.flag &&& K.SD_HAS_VOLUME = 0) :
    kernel_volume_stack_enter_exit K sd stack = some stack := by
  simp [kernel_volume_stack_enter_exit, hvol]

theorem exit_found (K : KernelTypes) (sd : ShaderData) (A mid rest : List VolumeStack)
    (x s : VolumeStack)
    (hvol : sd.flag &&& K.SD_HAS_VOLUME ≠ 0) (hback : sd.flag &&& K.SD_BACKFACING ≠ 0)
    (hA : ∀ a ∈ A, a.shader ≠ K.SHADER_NONE ∧ a.object ≠ sd.object)
    (hx : x.shader ≠ K.SHADER_NONE) (hobj : x.object = sd.object)
    (hmid : ∀ m ∈ mid, m.shader ≠ K.SHADER_NONE) (hs : s.shader = K.SHADER_NONE) :
    kernel_volume_stack_enter_exit K sd (A ++ x :: (mid ++ s :: rest)) =
      some (A ++ (mid ++ s :: s :: rest)) := by
  unfold kernel_volume_stack_enter_exit
  rw [if_neg hvol, if_pos hback, stack_scan_found K sd.object A x _ hA hx hobj]
  exact stack_shift_back_spec K s rest hs mid A x hmid

theorem exit_absent (K : KernelTypes) (sd : ShaderData) (A rest : List VolumeStack)
    (s : VolumeStack)
    (hback : sd.flag &&& K.SD_BACKFACING ≠ 0)
    (hA : ∀ a ∈ A, a.shader ≠ K.SHADER_NONE ∧ a.object ≠ sd.object)
    (hs : s.shader = K.SHADER_NONE) :
    kernel_volume_stack_enter_exit K sd (A ++ s :: rest) = some (A ++ s :: rest) := by
  unfold kernel_volume_stack_enter_exit
  by_cases hvol : sd.flag &&& K.SD_HAS_VOLUME = 0
  · rw [if_pos hvol]
  · rw [if_neg hvol, if_pos hback, stack_scan_sentinel K sd.object A s rest hA hs]

theorem enter_present (K : KernelTypes) (sd : ShaderData) (A rest : List VolumeStack)
    (x : VolumeStack)
    (hfront : sd.flag &&& K.SD_BACKFACING = 0)
    (hA : ∀ a ∈ A, a.shader ≠ K.SHADER_NONE ∧ a.object ≠ sd.object)
    (hx : x.shader ≠ K.SHADER_NONE) (hobj : x.object = sd.object) :
    kernel_volume_stack_enter_exit K sd (A ++ x :: rest) = some (A ++ x :: rest) := by
  unfold kernel_volume_stack_enter_exit
  by_cases hvol : sd.flag &&& K.SD_HAS_VOLUME = 0
  · rw [if_pos hvol]
  · rw [if_neg hvol, if_neg (by simp [hfront]),
      stack_scan_found K sd.object A x rest hA hx hobj]

theorem enter_full (K : KernelTypes) (sd : ShaderData) (A rest : List VolumeStack)
    (s : VolumeStack)
    (hfront : sd.flag &&& K.SD_BACKFACING = 0)
    (hA : ∀ a ∈ A, a.shader ≠ K.SHADER_NONE ∧ a.object ≠ sd.object)
    (hs : s.shader = K.SHADER_NONE)
    (hfull : (K.VOLUME_STACK_SIZE : Int) - 1 ≤ (A.length : Int)) :
    kernel_volume_stack_enter_exit K sd (A ++ s :: rest) = some (A ++ s :: rest) := by
  unfold kernel_volume_stack_enter_exit
  by_cases hvol : sd.flag &&& K.SD_HAS_VOLUME = 0
  · rw [if_pos hvol]
  · rw [if_neg hvol, if_neg (by simp [hfront]),
      stack_scan_sentinel K sd.object A s rest hA hs]
    simp only [hfull, if_true]

theorem enter_room (K : KernelTypes) (sd : ShaderData) (A rest : List VolumeStack)
    (s nxt : VolumeStack)
    (hvol : sd.flag &&& K.SD_HAS_VOLUME ≠ 0) (hfront : sd.flag &&& K.SD_BACKFACING = 0)
    (hA : ∀ a ∈ A, a.shader ≠ K.SHADER_NONE ∧ a.object ≠ sd.object)
    (hs : s.shader = K.SHADER_NONE)
    (hroom : ¬ ((K.VOLUME_STACK_SIZE : Int) - 1 ≤ (A.length : Int))) :
    kernel_volume_stack_enter_exit K sd (A ++ s :: nxt :: rest) =
      some (A ++ ⟨sd.object, sd.shader⟩ :: { nxt with shader := K.SHADER_NONE } :: rest) := by
  unfold kernel_volume_stack_enter_exit
  rw [if_neg hvol, if_neg (by simp [hfront]),
    stack_scan_sentinel K sd.object A s (nxt :: rest) hA hs]
  simp only [hroom, if_false]
  rw [stack_set_shader_at]
  simp only [Option.bind_eq_bind, Option.some_bind]
  rw [stack_set_object_at]
  simp only [Option.some_bind]
  have h := stack_set_shader_at (A ++ [(⟨sd.object, sd.shader⟩ : VolumeStack)]) nxt rest
    K.SHADER_NONE
  simpa using h

theorem entries_split_object (K : KernelTypes) (stack : List VolumeStack) (object : Int)
    (hmem : object ∈ (stack_entries K stack).map VolumeStack.object) :
    ∃ A x mid, stack_entries K stack = A ++ x :: mid ∧ x.object = object ∧
      (∀ a ∈ A, a.shader ≠ K.SHADER_NONE ∧ a.object ≠ object) ∧
      x.shader ≠ K.SHADER_NONE ∧ (∀ m ∈ mid, m.shader ≠ K.SHADER_NONE) ∧
      (stack_entries K stack).eraseP (has_object object) = A ++ mid := by
  obtain ⟨e, he, hobj⟩ := List.mem_map.mp hmem
  obtain ⟨x, A, mid, hA, hx, hsplit, herase⟩ :=
    List.exists_of_eraseP he ((has_object_iff object e).mpr hobj)
  have hsh := stack_entries_shader K stack
  rw [hsplit] at hsh
  refine ⟨A, x, mid, hsplit, (has_object_iff object x).mp hx, ?_, ?_, ?_, herase⟩
  · intro a ha
    refine ⟨hsh a (by simp [ha]), ?_⟩
    intro h
    exact hA a ha ((has_object_iff object a).mpr h)
  · exact hsh x (by simp)
  · intro m hm
    exact hsh m (by simp [hm])

theorem entries_absent_object (K : KernelTypes) (stack : List VolumeStack) (object : Int)
    (hnot : object ∉ (stack_entries K stack).map VolumeStack.object) :
    ∀ a ∈ stack_entries K stack, a.shader ≠ K.SHADER_NONE ∧ a.object ≠ object := by
  intro a ha
  refine ⟨stack_entries_shader K stack a ha, ?_⟩
  intro h
  exact hnot (List.mem_map.mpr ⟨a, ha, h⟩)

theorem stack_drop_entries (K : KernelTypes) (stack : List VolumeStack) (s : VolumeStack)
    (rest : List VolumeStack) (h : stack = stack_entries K stack ++ s :: rest) :
    stack[(stack_entries K stack).length]? = some s ∧
      stack.drop (stack_entries K stack).length = s :: rest ∧
      stack.drop ((stack_entries K stack).length + 1) = rest := by
  have h1 : (stack_entries K stack ++ s :: rest)[(stack_entries K stack).length]? = some s :=
    stack_get_at _ s rest
  have h2 : (stack_entries K stack ++ s :: rest).drop (stack_entries K stack).length
      = s :: rest := by simp
  have h3 : (stack_entries K stack ++ s :: rest).drop ((stack_entries K stack).length + 1)
      = rest := by
    rw [← List.drop_drop]
    simp
  rw [← h] at h1 h2 h3
  exact ⟨h1, h2, h3⟩

theorem enter_exit_object_present (K : KernelTypes) (sd : ShaderData)
    (stack : List VolumeStack) (hfront : sd.flag &&& K.SD_BACKFACING = 0)
    (hmem : sd.object ∈ (stack_entries K stack).map VolumeStack.object) :
    kernel_volume_stack_enter_exit K sd stack = some stack := by
  obtain ⟨A, x, mid, hent, hobj, hA, hx, _, _⟩ := entries_split_object K stack sd.object hmem
  have hstack : stack = A ++ x :: (mid ++
      stack.dropWhile (fun e => decide (e.shader ≠ K.SHADER_NONE))) := by
    have h := (List.takeWhile_append_dropWhile
      (fun e => decide (e.shader ≠ K.SHADER_NONE)) stack).symm
    unfold stack_entries at hent
    rw [hent] at h
    simpa using h
  have hrun := enter_present K sd A
    (mid ++ stack.dropWhile (fun e => decide (e.shader ≠ K.SHADER_NONE))) x hfront hA hx hobj
  rw [← hstack] at hrun
  exact hrun

theorem stack_terminated_append (K : KernelTypes) (A : List VolumeStack) (s : VolumeStack)
    (rest : List VolumeStack) (hA : ∀ a ∈ A, a.shader ≠ K.SHADER_NONE)
    (hs : s.shader = K.SHADER_NONE) :
    stack_terminated K (A ++ s :: rest) := by
  unfold stack_terminated
  rw [stack_entries_append K A s rest hA hs]
  simp

theorem init_spec (K : KernelTypes) (background : KernelBackground)
    (mem stack : List VolumeStack)
    (h : kernel_volume_stack_init K background mem = some stack) :
    stack.length = mem.length ∧ stack_terminated K stack ∧
      (stack_entries K stack = [] ∨
        stack_entries K stack = [⟨K.PRIM_NONE, background.volume_shader⟩]) := by
  unfold kernel_volume_stack_init at h
  by_cases hbg : background.volume_shader = K.SHADER_NONE
  · rw [if_pos hbg] at h
    cases mem with
    | nil => simp [stack_set_shader] at h
    | cons m0 rest =>
      have h0 := stack_set_shader_at [] m0 rest K.SHADER_NONE
      simp only [List.nil_append, List.length_nil] at h0
      rw [h0] at h
      cases h
      have hent := stack_entries_append K [] { m0 with shader := K.SHADER_NONE } rest
        (by simp) rfl
      have hterm := stack_terminated_append K [] { m0 with shader := K.SHADER_NONE } rest
        (by simp) rfl
      simp only [List.nil_append] at hent hterm
      exact ⟨by simp, hterm, Or.inl hent⟩
  · rw [if_neg hbg] at h
    cases mem with
    | nil => simp [stack_set_shader] at h
    | cons m0 rest =>
      have h0 := stack_set_shader_at [] m0 rest background.volume_shader
      simp only [List.nil_append, List.length_nil] at h0
      have h1 := stack_set_object_at [] { m0 with shader := background.volume_shader } rest
        K.PRIM_NONE
      simp only [List.nil_append, List.length_nil] at h1
      rw [h0] at h
      simp only [Option.bind_eq_bind, Option.some_bind] at h
      rw [h1] at h
      simp only [Option.some_bind] at h
      cases rest with
      | nil => simp [stack_set_shader] at h
      | cons m1 rest1 =>
        have h2 := stack_set_shader_at
          [(⟨K.PRIM_NONE, background.volume_shader⟩ : VolumeStack)] m1 rest1 K.SHADER_NONE
        simp only [List.singleton_append, List.length_singleton] at h2
        rw [h2] at h
        cases h
        have hall : ∀ a ∈ [(⟨K.PRIM_NONE, background.volume_shader⟩ : VolumeStack)],
            a.shader ≠ K.SHADER_NONE := by
          intro a ha
          rw [List.mem_singleton.mp ha]
          exact hbg
        have hent := stack_entries_append K _ { m1 with shader := K.SHADER_NONE } rest1
          hall rfl
        have hterm := stack_terminated_append K _ { m1 with shader := K.SHADER_NONE } rest1
          hall rfl
        simp only [List.singleton_append] at hent hterm
        exact ⟨by simp, hterm, Or.inr hent⟩

theorem init_total (K : KernelTypes) (background : KernelBackground)
    (mem : List VolumeStack) (h : 2 ≤ mem.length) :
    ∃ stack, kernel_volume_stack_init K background mem = some stack := by
  match mem, h with
  | m0 :: m1 :: rest, _ =>
    unfold kernel_volume_stack_init
    have h0 := fun v => stack_set_shader_at [] m0 (m1 :: rest) v
    simp only [List.nil_append, List.length_nil] at h0
    by_cases hbg : background.volume_shader = K.SHADER_NONE
    · rw [if_pos hbg, h0]
      exact ⟨_, rfl⟩
    · have h1 := stack_set_object_at [] { m0 with shader := background.volume_shader }
        (m1 :: rest) K.PRIM_NONE
      simp only [List.nil_append, List.length_nil] at h1
      have h2 := stack_set_shader_at
        [(⟨K.PRIM_NONE, background.volume_shader⟩ : VolumeStack)] m1 rest K.SHADER_NONE
      simp only [List.singleton_append, List.length_singleton] at h2
      rw [if_neg hbg, h0]
      simp only [Option.bind_eq_bind, Option.some_bind]
      rw [h1]
      simp only [Option.some_bind]
      rw [h2]
      exact ⟨_, rfl⟩

/-- One call of `kernel_volume_stack_enter_exit` on a sentinel-terminated array of
`VOLUME_STACK_SIZE` cells: it returns, the array keeps its length and its sentinel, and the
entries are the old ones, or the old ones without the first match, or the old ones followed
by a new entry with a fresh object id. -/
theorem enter_exit_step (K : KernelTypes) (sd : ShaderData) (stack : List VolumeStack)
    (hlen : stack.length = K.VOLUME_STACK_SIZE) (hterm : stack_terminated K stack) :
    ∃ stack1, kernel_volume_stack_enter_exit K sd stack = some stack1 ∧
      stack1.length = stack.length ∧ stack_terminated K stack1 ∧
      (stack_entries K stack1 = stack_entries K stack ∨
        stack_entries K stack1 = (stack_entries K stack).eraseP (has_object sd.object) ∨
        (stack_entries K stack1 = stack_entries K stack ++ [⟨sd.object, sd.shader⟩] ∧
          sd.object ∉ (stack_entries K stack).map VolumeStack.object)) := by
  by_cases hvol : sd.flag &&& K.SD_HAS_VOLUME = 0
  · exact ⟨stack, enter_exit_no_volume K sd stack hvol, rfl, hterm, Or.inl rfl⟩
  obtain ⟨s, rest, hsplit, hs⟩ := stack_split K stack hterm
  by_cases hback : sd.flag &&& K.SD_BACKFACING = 0
  · -- enter
    by_cases hmem : sd.object ∈ (stack_entries K stack).map VolumeStack.object
    · exact ⟨stack, enter_exit_object_present K sd stack hback hmem, rfl, hterm, Or.inl rfl⟩
    have hA := entries_absent_object K stack sd.object hmem
    by_cases hfull : (K.VOLUME_STACK_SIZE : Int) - 1 ≤ ((stack_entries K stack).length : Int)
    · have h := enter_full K sd (stack_entries K stack) rest s hback hA hs hfull
      rw [← hsplit] at h
      exact ⟨stack, h, rfl, hterm, Or.inl rfl⟩
    have hrest : rest ≠ [] := by
      intro h
      have hl := congrArg List.length hsplit
      rw [h] at hl
      simp at hl
      omega
    obtain ⟨nxt, rest1, hrest1⟩ := List.exists_cons_of_ne_nil hrest
    subst hrest1
    have hrun := enter_room K sd (stack_entries K stack) rest1 s nxt hvol hback hA hs hfull
    rw [← hsplit] at hrun
    have hl : (stack_entries K stack ++ (⟨sd.object, sd.shader⟩ : VolumeStack) ::
        { nxt with shader := K.SHADER_NONE } :: rest1).length = stack.length := by
      have hl := congrArg List.length hsplit
      simp at hl
      simp
      omega
    refine ⟨_, hrun, hl, ?_, ?_⟩
    · by_cases hsh : sd.shader = K.SHADER_NONE
      · exact stack_terminated_append K _ _ _ (fun a ha => (hA a ha).1) hsh
      · have hall : ∀ a ∈ stack_entries K stack ++ [(⟨sd.object, sd.shader⟩ : VolumeStack)],
            a.shader ≠ K.SHADER_NONE := by
          intro a ha
          rcases List.mem_append.mp ha with h | h
          · exact (hA a h).1
          · rw [List.mem_singleton.mp h]; exact hsh
        have h := stack_terminated_append K _ { nxt with shader := K.SHADER_NONE } rest1
          hall rfl
        simpa using h
    · by_cases hsh : sd.shader = K.SHADER_NONE
      · left
        exact stack_entries_append K _ _ _ (fun a ha => (hA a ha).1) hsh
      · right; right
        have hall : ∀ a ∈ stack_entries K stack ++ [(⟨sd.object, sd.shader⟩ : VolumeStack)],
            a.shader ≠ K.SHADER_NONE := by
          intro a ha
          rcases List.mem_append.mp ha with h | h
          · exact (hA a h).1
          · rw [List.mem_singleton.mp h]; exact hsh
        have h := stack_entries_append K _ { nxt with shader := K.SHADER_NONE } rest1
          hall rfl
        exact ⟨by simpa using h, hmem⟩
  · -- exit
    by_cases hmem : sd.object ∈ (stack_entries K stack).map VolumeStack.object
    · obtain ⟨A, x, mid, hent, hobj, hA, hx, hmid, herase⟩ :=
        entries_split_object K stack sd.object hmem
      have hrun := exit_found K sd A mid rest x s hvol hback hA hx hobj hmid hs
      have hstack : stack = A ++ x :: (mid ++ s :: rest) := by
        rw [hsplit, hent]; simp
      rw [← hstack] at hrun
      have hAm : ∀ a ∈ A ++ mid, a.shader ≠ K.SHADER_NONE := by
        intro a ha
        rcases List.mem_append.mp ha with h | h
        · exact (hA a h).1
        · exact hmid a h
      have hent1 := stack_entries_append K (A ++ mid) s (s :: rest) hAm hs
      have hterm1 := stack_terminated_append K (A ++ mid) s (s :: rest) hAm hs
      simp only [List.append_assoc] at hent1 hterm1
      refine ⟨_, hrun, ?_, hterm1, Or.inr (Or.inl ?_)⟩
      · have hl := congrArg List.length hstack
        simp at hl
        simp
        omega
      · rw [hent1, herase]
    · have hA := entries_absent_object K stack sd.object hmem
      have h := exit_absent K sd (stack_entries K stack) rest s hback hA hs
      rw [← hsplit] at h
      exact ⟨stack, h, rfl, hterm, Or.inl rfl⟩

/-- Every reachable stack is an array of `VOLUME_STACK_SIZE` cells that holds a sentinel. -/
theorem reachable_shape (K : KernelTypes) (stack : List VolumeStack)
    (h : StackReachable K stack) :
    stack.length = K.VOLUME_STACK_SIZE ∧ stack_terminated K stack := by
  induction h with
  | init background mem stack hmem hinit =>
    obtain ⟨hl, hterm, _⟩ := init_spec K background mem stack hinit
    exact ⟨by rw [hl, hmem], hterm⟩
  | enter_exit sd stack stack1 _ hrun ih =>
    obtain ⟨hl, hterm⟩ := ih
    obtain ⟨stack2, hrun2, hl2, hterm2, _⟩ := enter_exit_step K sd stack hl hterm
    rw [hrun] at hrun2
    cases hrun2
    exact ⟨by rw [hl2, hl], hterm2⟩

/-! ## The volume stack: exit, enter, idempotence, overflow -/

/-- C1: on a sentinel-terminated stack, a back-facing volume shading point whose object id
occurs among the entries makes `kernel_volume_stack_enter_exit` return the array in which the
first entry with that object id is removed, the other entries keep their order, and the
sentinel cell `s` is copied to the cell right after the last remaining entry. -/
theorem stack_exit_removes_first_match (K : KernelTypes) (sd : ShaderData)
    (stack : List VolumeStack)
    (hvol : sd.flag &&& K.SD_HAS_VOLUME ≠ 0) (hback : sd.flag &&& K.SD_BACKFACING ≠ 0)
    (hterm : stack_terminated K stack)
    (hmem : sd.object ∈ (stack_entries K stack).map VolumeStack.object) :
    ∃ s stack1, stack[(stack_entries K stack).length]? = some s ∧ s.shader = K.SHADER_NONE ∧
      kernel_volume_stack_enter_exit K sd stack = some stack1 ∧
      stack1 = (stack_entries K stack).eraseP (has_object sd.object) ++
        s :: stack.drop (stack_entries K stack).length ∧
      stack_entries K stack1 = (stack_entries K stack).eraseP (has_object sd.object) := by
  obtain ⟨s, rest, hsplit, hs⟩ := stack_split K stack hterm
  obtain ⟨A, x, mid, hent, hobj, hA, hx, hmid, herase⟩ :=
    entries_split_object K stack sd.object hmem
  obtain ⟨hget, hdrop, _⟩ := stack_drop_entries K stack s rest hsplit
  have hrun := exit_found K sd A mid rest x s hvol hback hA hx hobj hmid hs
  have hstack : stack = A ++ x :: (mid ++ s :: rest) := by
    rw [hsplit, hent]; simp
  have hAm : ∀ a ∈ A ++ mid, a.shader ≠ K.SHADER_NONE := by
    intro a ha
    rcases List.mem_append.mp ha with h | h
    · exact (hA a h).1
    · exact hmid a h
  refine ⟨s, A ++ (mid ++ s :: s :: rest), hget, hs, ?_, ?_, ?_⟩
  · rw [← hrun, ← hstack]
  · rw [herase, hdrop]; simp
  · rw [herase]
    have := stack_entries_append K (A ++ mid) s (s :: rest) hAm hs
    simpa using this

/-- Stack `[A, B]` in an array of four cells, left through a back face of object `A`
(id 10): the result is `[B]` followed by the sentinel. -/
theorem stack_exit_removes_first_match_witness :
    stack_terminated sampleTypes [⟨10, 1⟩, ⟨20, 2⟩, ⟨0, -1⟩, ⟨0, -1⟩] ∧
    kernel_volume_stack_enter_exit sampleTypes ⟨9, 10, 1⟩
        [⟨10, 1⟩, ⟨20, 2⟩, ⟨0, -1⟩, ⟨0, -1⟩] =
      some [⟨20, 2⟩, ⟨0, -1⟩, ⟨0, -1⟩, ⟨0, -1⟩] := by
  obtain ⟨s, stack1, hget, _, hrun, heq, _⟩ :=
    stack_exit_removes_first_match sampleTypes ⟨9, 10, 1⟩
      [⟨10, 1⟩, ⟨20, 2⟩, ⟨0, -1⟩, ⟨0, -1⟩] (by decide) (by decide) (by decide) (by decide)
  refine ⟨by decide, ?_⟩
  have hcell : ([⟨10, 1⟩, ⟨20, 2⟩, ⟨0, -1⟩, ⟨0, -1⟩] : List VolumeStack)[(stack_entries
      sampleTypes [⟨10, 1⟩, ⟨20, 2⟩, ⟨0, -1⟩, ⟨0, -1⟩]).length]? = some ⟨0, -1⟩ := by decide
  rw [hcell] at hget
  have hs : s = ⟨0, -1⟩ := (Option.some.inj hget).symm
  rw [hrun, heq, hs]
  decide

/-- C2: on an array of `VOLUME_STACK_SIZE` cells holding fewer than `VOLUME_STACK_SIZE - 1`
entries, a front-facing volume shading point whose object id is not among the entries makes
`kernel_volume_stack_enter_exit` return the old entries in order, then the cell
`(sd.object, sd.shader)`, then a cell with shader `SHADER_NONE`; the cells behind are kept.
When `sd.shader` is a real shader the entries of the result are the old entries followed
by the new one. -/
theorem stack_enter_appends (K : KernelTypes) (sd : ShaderData) (stack : List VolumeStack)
    (hvol : sd.flag &&& K.SD_HAS_VOLUME ≠ 0) (hfront : sd.flag &&& K.SD_BACKFACING = 0)
    (hlen : stack.length = K.VOLUME_STACK_SIZE)
    (hroom : (stack_entries K stack).length + 1 < K.VOLUME_STACK_SIZE)
    (hnot : sd.object ∉ (stack_entries K stack).map VolumeStack.object) :
    ∃ nxt stack1, stack[(stack_entries K stack).length + 1]? = some nxt ∧
      kernel_volume_stack_enter_exit K sd stack = some stack1 ∧
      stack1 = stack_entries K stack ++ ⟨sd.object, sd.shader⟩ ::
        { nxt with shader := K.SHADER_NONE } ::
          stack.drop ((stack_entries K stack).length + 2) ∧
      (sd.shader ≠ K.SHADER_NONE →
        stack_entries K stack1 = stack_entries K stack ++ [⟨sd.object, sd.shader⟩]) := by
  have hterm : stack_terminated K stack := by
    unfold stack_terminated; omega
  obtain ⟨s, rest, hsplit, hs⟩ := stack_split K stack hterm
  have hA := entries_absent_object K stack sd.object hnot
  have hrest : rest ≠ [] := by
    intro h
    have hl := congrArg List.length hsplit
    rw [h] at hl
    simp at hl
    omega
  obtain ⟨nxt, rest1, hrest1⟩ := List.exists_cons_of_ne_nil hrest
  subst hrest1
  have hfit : ¬ ((K.VOLUME_STACK_SIZE : Int) - 1 ≤ ((stack_entries K stack).length : Int)) := by
    omega
  have hrun := enter_room K sd (stack_entries K stack) rest1 s nxt hvol hfront hA hs hfit
  rw [← hsplit] at hrun
  have hget : stack[(stack_entries K stack).length + 1]? = some nxt := by
    have h := stack_get_next (stack_entries K stack) s nxt rest1
    rw [← hsplit] at h
    exact h
  have hdrop : stack.drop ((stack_entries K stack).length + 2) = rest1 := by
    have h : (stack_entries K stack ++ s :: nxt :: rest1).drop
        ((stack_entries K stack).length + 2) = rest1 := by
      rw [← List.drop_drop]
      simp
    rw [← hsplit] at h
    exact h
  refine ⟨nxt, _, hget, hrun, ?_, ?_⟩
  · rw [hdrop]
  · intro hsh
    have hall : ∀ a ∈ stack_entries K stack ++ [(⟨sd.object, sd.shader⟩ : VolumeStack)],
        a.shader ≠ K.SHADER_NONE := by
      intro a ha
      rcases List.mem_append.mp ha with h | h
      · exact (hA a h).1
      · rw [List.mem_singleton.mp h]; exact hsh
    have h := stack_entries_append K _ { nxt with shader := K.SHADER_NONE } rest1 hall rfl
    simpa using h

/-- Stack `[A]` in an array of four cells, entered through a front face of object 30. -/
theorem stack_enter_appends_witness :
    kernel_volume_stack_enter_exit sampleTypes ⟨8, 30, 3⟩
        [⟨10, 1⟩, ⟨0, -1⟩, ⟨0, 5⟩, ⟨5, 6⟩] =
      some [⟨10, 1⟩, ⟨30, 3⟩, ⟨0, -1⟩, ⟨5, 6⟩] := by
  obtain ⟨nxt, stack1, hget, hrun, heq, _⟩ :=
    stack_enter_appends sampleTypes ⟨8, 30, 3⟩ [⟨10, 1⟩, ⟨0, -1⟩, ⟨0, 5⟩, ⟨5, 6⟩]
      (by decide) (by decide) (by decide) (by decide) (by decide)
  have hcell : ([⟨10, 1⟩, ⟨0, -1⟩, ⟨0, 5⟩, ⟨5, 6⟩] : List VolumeStack)[(stack_entries
      sampleTypes [⟨10, 1⟩, ⟨0, -1⟩, ⟨0, 5⟩, ⟨5, 6⟩]).length + 1]? = some ⟨0, 5⟩ := by decide
  rw [hcell] at hget
  have hn : nxt = ⟨0, 5⟩ := (Option.some.inj hget).symm
  rw [hrun, heq, hn]
  decide

/-- C3: a front-face `kernel_volume_stack_enter_exit` for an object id that is already among
the entries returns the stack unchanged; and on a sentinel-terminated array of
`VOLUME_STACK_SIZE` cells a second front-face call with the same shading point returns the
result of the first call unchanged. -/
theorem stack_enter_idempotent (K : KernelTypes) (sd : ShaderData) (stack : List VolumeStack)
    (hfront : sd.flag &&& K.SD_BACKFACING = 0) :
    (sd.object ∈ (stack_entries K stack).map VolumeStack.object →
      kernel_volume_stack_enter_exit K sd stack = some stack) ∧
    (stack.length = K.VOLUME_STACK_SIZE → stack_terminated K stack →
      ∃ stack1, kernel_volume_stack_enter_exit K sd stack = some stack1 ∧
        kernel_volume_stack_enter_exit K sd stack1 = some stack1) := by
  refine ⟨enter_exit_object_present K sd stack hfront, ?_⟩
  intro hlen hterm
  by_cases hvol : sd.flag &&& K.SD_HAS_VOLUME = 0
  · exact ⟨stack, enter_exit_no_volume K sd stack hvol, enter_exit_no_volume K sd stack hvol⟩
  by_cases hmem : sd.object ∈ (stack_entries K stack).map VolumeStack.object
  · have h := enter_exit_object_present K sd stack hfront hmem
    exact ⟨stack, h, h⟩
  obtain ⟨s, rest, hsplit, hs⟩ := stack_split K stack hterm
  have hA := entries_absent_object K stack sd.object hmem
  by_cases hfull : (K.VOLUME_STACK_SIZE : Int) - 1 ≤ ((stack_entries K stack).length : Int)
  · have h := enter_full K sd (stack_entries K stack) rest s hfront hA hs hfull
    rw [← hsplit] at h
    exact ⟨stack, h, h⟩
  have hrest : rest ≠ [] := by
    intro h
    have hl := congrArg List.length hsplit
    rw [h] at hl
    simp at hl
    omega
  obtain ⟨nxt, rest1, hrest1⟩ := List.exists_cons_of_ne_nil hrest
  subst hrest1
  have hrun := enter_room K sd (stack_entries K stack) rest1 s nxt hvol hfront hA hs hfull
  rw [← hsplit] at hrun
  refine ⟨_, hrun, ?_⟩
  by_cases hsh : sd.shader = K.SHADER_NONE
  · exact enter_room K sd (stack_entries K stack) rest1 ⟨sd.object, sd.shader⟩
      { nxt with shader := K.SHADER_NONE } hvol hfront hA hsh hfull
  · exact enter_present K sd (stack_entries K stack) _ ⟨sd.object, sd.shader⟩ hfront hA hsh rfl

/-- Entering object 10 while it is on the stack, and entering object 30 twice. -/
theorem stack_enter_idempotent_witness :
    kernel_volume_stack_enter_exit sampleTypes ⟨8, 10, 7⟩
        [⟨10, 1⟩, ⟨0, -1⟩, ⟨0, 5⟩, ⟨5, 6⟩] = some [⟨10, 1⟩, ⟨0, -1⟩, ⟨0, 5⟩, ⟨5, 6⟩] ∧
    ∃ stack1, kernel_volume_stack_enter_exit sampleTypes ⟨8, 30, 3⟩
        [⟨10, 1⟩, ⟨0, -1⟩, ⟨0, 5⟩, ⟨5, 6⟩] = some stack1 ∧
      kernel_volume_stack_enter_exit sampleTypes ⟨8, 30, 3⟩ stack1 = some stack1 :=
  ⟨(stack_enter_idempotent sampleTypes ⟨8, 10, 7⟩ [⟨10, 1⟩, ⟨0, -1⟩, ⟨0, 5⟩, ⟨5, 6⟩]
      (by decide)).1 (by decide),
    (stack_enter_idempotent sampleTypes ⟨8, 30, 3⟩ [⟨10, 1⟩, ⟨0, -1⟩, ⟨0, 5⟩, ⟨5, 6⟩]
      (by decide)).2 (by decide) (by decide)⟩

/-- C4: on an array of `VOLUME_STACK_SIZE` cells that holds `VOLUME_STACK_SIZE - 1` entries
in front of the sentinel, a front-face `kernel_volume_stack_enter_exit` for an object id
that is not among the entries returns normally with the stack unchanged. -/
theorem stack_enter_full_unchanged (K : KernelTypes) (sd : ShaderData)
    (stack : List VolumeStack) (hfront : sd.flag &&& K.SD_BACKFACING = 0)
    (hlen : stack.length = K.VOLUME_STACK_SIZE)
    (hfull : (stack_entries K stack).length + 1 = K.VOLUME_STACK_SIZE)
    (hnot : sd.object ∉ (stack_entries K stack).map VolumeStack.object) :
    kernel_volume_stack_enter_exit K sd stack = some stack := by
  have hterm : stack_terminated K stack := by
    unfold stack_terminated; omega
  obtain ⟨s, rest, hsplit, hs⟩ := stack_split K stack hterm
  have hA := entries_absent_object K stack sd.object hnot
  have hcap : (K.VOLUME_STACK_SIZE : Int) - 1 ≤ ((stack_entries K stack).length : Int) := by
    omega
  have h := enter_full K sd (stack_entries K stack) rest s hfront hA hs hcap
  rw [← hsplit] at h
  exact h

/-- A full array of four cells (three entries) entered by a fourth object. -/
theorem stack_enter_full_unchanged_witness :
    (stack_entries sampleTypes [⟨10, 1⟩, ⟨20, 2⟩, ⟨40, 4⟩, ⟨5, -1⟩]).length + 1 =
        sampleTypes.VOLUME_STACK_SIZE ∧
    kernel_volume_stack_enter_exit sampleTypes ⟨8, 30, 3⟩
        [⟨10, 1⟩, ⟨20, 2⟩, ⟨40, 4⟩, ⟨5, -1⟩] = some [⟨10, 1⟩, ⟨20, 2⟩, ⟨40, 4⟩, ⟨5, -1⟩] :=
  ⟨by decide, stack_enter_full_unchanged sampleTypes ⟨8, 30, 3⟩
    [⟨10, 1⟩, ⟨20, 2⟩, ⟨40, 4⟩, ⟨5, -1⟩] (by decide) (by decide) (by decide) (by decide)⟩

/-! ## The volume stack: invariants of the reachable stacks -/

/-- C5: in every stack reachable from `kernel_volume_stack_init` by calls of
`kernel_volume_stack_enter_exit`, the object ids of the entries in front of the sentinel are
pairwise distinct. -/
theorem stack_object_ids_distinct (K : KernelTypes) (stack : List VolumeStack)
    (h : StackReachable K stack) :
    ((stack_entries K stack).map VolumeStack.object).Nodup := by
  induction h with
  | init background mem stack hmem hinit =>
    obtain ⟨_, _, hent⟩ := init_spec K background mem stack hinit
    rcases hent with h | h <;> rw [h] <;> simp
  | enter_exit sd stack stack1 hreach hrun ih =>
    obtain ⟨hl, hterm⟩ := reachable_shape K stack hreach
    obtain ⟨stack2, hrun2, _, _, hent⟩ := enter_exit_step K sd stack hl hterm
    rw [hrun] at hrun2
    cases hrun2
    rcases hent with h | h | ⟨h, hfresh⟩
    · rw [h]; exact ih
    · rw [h]
      exact ih.sublist ((List.eraseP_sublist _).map _)
    · rw [h, List.map_append, List.nodup_append]
      refine ⟨ih, by simp, ?_⟩
      intro a ha hb
      simp only [List.map_cons, List.map_nil, List.mem_singleton] at hb
      exact hfresh (hb ▸ ha)

/-- The stack after `init` with background shader 7 and one front-face crossing of
object 10. -/
theorem stack_object_ids_distinct_witness :
    ((stack_entries sampleTypes [⟨-1, 7⟩, ⟨10, 1⟩, ⟨0, -1⟩, ⟨5, 6⟩]).map
      VolumeStack.object).Nodup :=
  stack_object_ids_distinct sampleTypes [⟨-1, 7⟩, ⟨10, 1⟩, ⟨0, -1⟩, ⟨5, 6⟩]
    (StackReachable.enter_exit ⟨8, 10, 1⟩ [⟨-1, 7⟩, ⟨0, -1⟩, ⟨0, 5⟩, ⟨5, 6⟩] _
      (StackReachable.init ⟨7⟩ [⟨3, 3⟩, ⟨0, 4⟩, ⟨0, 5⟩, ⟨5, 6⟩] _ (by decide) (by decide))
      (by decide))

/-- C6: with `VOLUME_STACK_SIZE >= 2`, `kernel_volume_stack_init` returns on every array of
`VOLUME_STACK_SIZE` cells without an access outside the array, and every reachable stack is
an array of `VOLUME_STACK_SIZE` cells with a sentinel behind at most `VOLUME_STACK_SIZE - 1`
entries, on which `kernel_volume_stack_enter_exit` returns without an access outside the
array for every shading point. -/
theorem stack_accesses_in_bounds (K : KernelTypes) (hsize : 2 ≤ K.VOLUME_STACK_SIZE) :
    (∀ (background : KernelBackground) (mem : List VolumeStack),
      mem.length = K.VOLUME_STACK_SIZE →
      ∃ stack, kernel_volume_stack_init K background mem = some stack) ∧
    (∀ stack, StackReachable K stack →
      stack.length = K.VOLUME_STACK_SIZE ∧ stack_terminated K stack ∧
      (stack_entries K stack).length ≤ K.VOLUME_STACK_SIZE - 1 ∧
      ∀ sd, ∃ stack1, kernel_volume_stack_enter_exit K sd stack = some stack1 ∧
        stack1.length = K.VOLUME_STACK_SIZE) := by
  constructor
  · intro background mem hmem
    exact init_total K background mem (by omega)
  · intro stack hreach
    obtain ⟨hl, hterm⟩ := reachable_shape K stack hreach
    refine ⟨hl, hterm, ?_, ?_⟩
    · have h : (stack_entries K stack).length < stack.length := hterm
      omega
    · intro sd
      obtain ⟨stack1, hrun, hl1, _, _⟩ := enter_exit_step K sd stack hl hterm
      exact ⟨stack1, hrun, by rw [hl1, hl]⟩

/-- The bounds statement at the sample constants (`VOLUME_STACK_SIZE = 4`). -/
theorem stack_accesses_in_bounds_witness :
    (∀ (background : KernelBackground) (mem : List VolumeStack),
      mem.length = sampleTypes.VOLUME_STACK_SIZE →
      ∃ stack, kernel_volume_stack_init sampleTypes background mem = some stack) ∧
    (∀ stack, StackReachable sampleTypes stack →
      stack.length = sampleTypes.VOLUME_STACK_SIZE ∧ stack_terminated sampleTypes stack ∧
      (stack_entries sampleTypes stack).length ≤ sampleTypes.VOLUME_STACK_SIZE - 1 ∧
      ∀ sd, ∃ stack1, kernel_volume_stack_enter_exit sampleTypes sd stack = some stack1 ∧
        stack1.length = sampleTypes.VOLUME_STACK_SIZE) :=
  stack_accesses_in_bounds sampleTypes (by decide)

/-! ## Transmittance and distance sampling over the real numbers -/

theorem float3_mul_x {F : Type} [Mul F] (a b : float3 F) : (a * b).x = a.x * b.x := rfl
theorem float3_mul_y {F : Type} [Mul F] (a b : float3 F) : (a * b).y = a.y * b.y := rfl
theorem float3_mul_z {F : Type} [Mul F] (a b : float3 F) : (a * b).z = a.z * b.z := rfl
theorem float3_div_x {F : Type} [Div F] (a b : float3 F) : (a / b).x = a.x / b.x := rfl
theorem float3_div_y {F : Type} [Div F] (a b : float3 F) : (a / b).y = a.y / b.y := rfl
theorem float3_div_z {F : Type} [Div F] (a b : float3 F) : (a / b).z = a.z / b.z := rfl
theorem float3_sub_x {F : Type} [Sub F] (a b : float3 F) : (a - b).x = a.x - b.x := rfl
theorem float3_sub_y {F : Type} [Sub F] (a b : float3 F) : (a - b).y = a.y - b.y := rfl
theorem float3_sub_z {F : Type} [Sub F] (a b : float3 F) : (a - b).z = a.z - b.z := rfl

theorem exp_neg_mul_mem (sigma t : ℝ) (hs : 0 ≤ sigma) (ht : 0 ≤ t) :
    0 < Real.exp (-sigma * t) ∧ Real.exp (-sigma * t) ≤ 1 := by
  refine ⟨Real.exp_pos _, ?_⟩
  rw [Real.exp_le_one_iff]
  have := mul_nonneg hs ht
  linarith

/-- The transmittance range in exact arithmetic: with `expf` read as the real exponential,
every channel of `volume_color_transmittance sigma t` lies in `(0, 1]` when the channels of
`sigma` and `t` are non-negative, and `volume_color_transmittance sigma 0` is `(1, 1, 1)`
for every `sigma`. -/
theorem transmittance_range :
    (∀ (sigma : float3 ℝ) (t : ℝ), 0 ≤ sigma.x → 0 ≤ sigma.y → 0 ≤ sigma.z → 0 ≤ t →
      (0 < (volume_color_transmittance Real.exp sigma t).x ∧
        (volume_color_transmittance Real.exp sigma t).x ≤ 1) ∧
      (0 < (volume_color_transmittance Real.exp sigma t).y ∧
        (volume_color_transmittance Real.exp sigma t).y ≤ 1) ∧
      (0 < (volume_color_transmittance Real.exp sigma t).z ∧
        (volume_color_transmittance Real.exp sigma t).z ≤ 1)) ∧
    (∀ sigma : float3 ℝ, volume_color_transmittance Real.exp sigma 0 = make_float3 1 1 1) := by
  constructor
  · intro sigma t hx hy hz ht
    exact ⟨exp_neg_mul_mem sigma.x t hx ht, exp_neg_mul_mem sigma.y t hy ht,
      exp_neg_mul_mem sigma.z t hz ht⟩
  · intro sigma
    simp [volume_color_transmittance]

/-- The range statement at `sigma = (1, 2, 0)`, `t = 3`. -/
theorem transmittance_range_witness :
      (0 < (volume_color_transmittance Real.exp ⟨1, 2, 0⟩ 3).x ∧
        (volume_color_transmittance Real.exp ⟨1, 2, 0⟩ 3).x ≤ 1) ∧
      (0 < (volume_color_transmittance Real.exp ⟨1, 2, 0⟩ 3).y ∧
        (volume_color_transmittance Real.exp ⟨1, 2, 0⟩ 3).y ≤ 1) ∧
      (0 < (volume_color_transmittance Real.exp ⟨1, 2, 0⟩ 3).z ∧
        (volume_color_transmittance Real.exp ⟨1, 2, 0⟩ 3).z ≤ 1) :=
  transmittance_range.1 ⟨1, 2, 0⟩ 3 (by norm_num) (by norm_num) (by norm_num) (by norm_num)


theorem channel_get_transmittance {F : Type} [Mul F] [Neg F] (expf : F → F)
    (sigma : float3 F) (t : F) (channel : Int) :
    kernel_volume_channel_get (volume_color_transmittance expf sigma t) channel =
      expf (-(kernel_volume_channel_get sigma channel) * t) := by
  unfold kernel_volume_channel_get volume_color_transmittance make_float3
  split_ifs <;> rfl

/-- The analytic inversion behind distance sampling, for one channel. -/
theorem truncated_exp_inverse (sigma m xi : ℝ) (hs : 0 < sigma) (hm : 0 < m)
    (h0 : 0 ≤ xi) (h1 : xi < 1) :
    Real.exp (-sigma * m) < 1 ∧
    0 ≤ (-Real.log (1 - xi * (1 - Real.exp (-sigma * m)))) / sigma ∧
    (-Real.log (1 - xi * (1 - Real.exp (-sigma * m)))) / sigma < m ∧
    Real.exp (-sigma * ((-Real.log (1 - xi * (1 - Real.exp (-sigma * m)))) / sigma)) =
      1 - xi * (1 - Real.exp (-sigma * m)) := by
  have hT0 : 0 < Real.exp (-sigma * m) := Real.exp_pos _
  have hT1 : Real.exp (-sigma * m) < 1 := by
    rw [Real.exp_lt_one_iff]
    nlinarith
  have hgap : 0 < 1 - Real.exp (-sigma * m) := by linarith
  have hu_gt : Real.exp (-sigma * m) < 1 - xi * (1 - Real.exp (-sigma * m)) := by
    nlinarith
  have hu_pos : 0 < 1 - xi * (1 - Real.exp (-sigma * m)) := by linarith
  have hu_le : 1 - xi * (1 - Real.exp (-sigma * m)) ≤ 1 := by
    have := mul_nonneg h0 hgap.le
    linarith
  have hlog_le : Real.log (1 - xi * (1 - Real.exp (-sigma * m))) ≤ 0 :=
    Real.log_nonpos hu_pos.le hu_le
  have hlog_gt : -sigma * m < Real.log (1 - xi * (1 - Real.exp (-sigma * m))) := by
    rw [Real.lt_log_iff_exp_lt hu_pos]
    exact hu_gt
  refine ⟨hT1, ?_, ?_, ?_⟩
  · exact div_nonneg (by linarith) hs.le
  · rw [div_lt_iff₀ hs]
    nlinarith
  · have h : -sigma * ((-Real.log (1 - xi * (1 - Real.exp (-sigma * m)))) / sigma)
        = Real.log (1 - xi * (1 - Real.exp (-sigma * m))) := by
      field_simp
    rw [h, Real.exp_log hu_pos]

/-- Distance sampling in exact arithmetic: with `expf`, `logf` read as the real exponential
and logarithm, for `xi` in `[0, 1)`,
`max_t > 0` and a positive extinction in the selected channel, the distance returned by
`kernel_volume_distance_sample` lies in `[0, max_t)` and inverts the truncated-exponential
distribution function of that channel:
`(1 - exp(-sigma_c * sample_t)) / (1 - exp(-sigma_c * max_t)) = xi`. -/
theorem distance_sample_inverts_cdf (max_t xi : ℝ) (sigma_t : float3 ℝ) (channel : Int)
    (hxi0 : 0 ≤ xi) (hxi1 : xi < 1) (hmax : 0 < max_t)
    (hsig : 0 < kernel_volume_channel_get sigma_t channel) :
    0 ≤ (kernel_volume_distance_sample Real.exp Real.log max_t sigma_t channel xi).sample_t ∧
    (kernel_volume_distance_sample Real.exp Real.log max_t sigma_t channel xi).sample_t
      < max_t ∧
    (1 - Real.exp (-(kernel_volume_channel_get sigma_t channel) *
        (kernel_volume_distance_sample Real.exp Real.log max_t sigma_t channel xi).sample_t)) /
      (1 - Real.exp (-(kernel_volume_channel_get sigma_t channel) * max_t)) = xi := by
  obtain ⟨hT1, hd0, hdm, hexp⟩ :=
    truncated_exp_inverse (kernel_volume_channel_get sigma_t channel) max_t xi hsig hmax
      hxi0 hxi1
  have hsample : (kernel_volume_distance_sample Real.exp Real.log max_t sigma_t channel
      xi).sample_t = (-Real.log (1 - xi * (1 - Real.exp
        (-(kernel_volume_channel_get sigma_t channel) * max_t)))) /
        kernel_volume_channel_get sigma_t channel := by
    simp only [kernel_volume_distance_sample, channel_get_transmittance]
    exact min_eq_right hdm.le
  rw [hsample]
  refine ⟨hd0, hdm, ?_⟩
  rw [hexp]
  have hgap : (1 - Real.exp (-(kernel_volume_channel_get sigma_t channel) * max_t)) ≠ 0 := by
    linarith
  have hnum : 1 - (1 - xi * (1 - Real.exp
      (-(kernel_volume_channel_get sigma_t channel) * max_t))) =
      xi * (1 - Real.exp (-(kernel_volume_channel_get sigma_t channel) * max_t)) := by
    ring
  rw [hnum, mul_div_assoc, div_self hgap, mul_one]


/-- The truncated-exponential density of one channel integrates to one. -/
theorem truncated_exp_integral (sigma m : ℝ) (hs : 0 < sigma) (hm : 0 < m) :
    ∫ s in (0 : ℝ)..m, sigma * Real.exp (-sigma * s) / (1 - Real.exp (-sigma * m)) = 1 := by
  have hT1 : Real.exp (-sigma * m) < 1 := by
    rw [Real.exp_lt_one_iff]
    nlinarith
  have hgap : (1 - Real.exp (-sigma * m)) ≠ 0 := by linarith
  have hderiv : ∀ s ∈ Set.uIcc (0 : ℝ) m,
      HasDerivAt (fun u => -Real.exp (-sigma * u) / (1 - Real.exp (-sigma * m)))
        (sigma * Real.exp (-sigma * s) / (1 - Real.exp (-sigma * m))) s := by
    intro s _
    have h1 : HasDerivAt (fun u : ℝ => -sigma * u) (-sigma) s := by
      simpa using (hasDerivAt_id s).const_mul (-sigma)
    have h2 := ((h1.exp).neg).div_const (1 - Real.exp (-sigma * m))
    convert h2 using 1
    ring
  have hint : IntervalIntegrable
      (fun s => sigma * Real.exp (-sigma * s) / (1 - Real.exp (-sigma * m)))
      MeasureTheory.volume 0 m := by
    apply Continuous.intervalIntegrable
    continuity
  rw [intervalIntegral.integral_eq_sub_of_hasDerivAt hderiv hint]
  simp only [mul_zero, Real.exp_zero]
  rw [← sub_div, div_eq_one_iff_eq hgap]
  ring

/-- The inversion statement at `max_t = 1`, `sigma_t = (1, 1, 1)`, channel 0, `xi = 1/2`. -/
theorem distance_sample_inverts_cdf_witness :
    0 ≤ (kernel_volume_distance_sample Real.exp Real.log 1 ⟨1, 1, 1⟩ 0 (1 / 2)).sample_t ∧
    (kernel_volume_distance_sample Real.exp Real.log 1 ⟨1, 1, 1⟩ 0 (1 / 2)).sample_t < 1 ∧
    (1 - Real.exp (-(kernel_volume_channel_get (⟨1, 1, 1⟩ : float3 ℝ) 0) *
        (kernel_volume_distance_sample Real.exp Real.log 1 ⟨1, 1, 1⟩ 0 (1 / 2)).sample_t)) /
      (1 - Real.exp (-(kernel_volume_channel_get (⟨1, 1, 1⟩ : float3 ℝ) 0) * 1)) = 1 / 2 :=
  distance_sample_inverts_cdf 1 (1 / 2) ⟨1, 1, 1⟩ 0 (by norm_num) (by norm_num) (by norm_num)
    (by norm_num [kernel_volume_channel_get])

/-- C9: with `expf` read as the real exponential, for `max_t > 0` and positive extinction in
all channels, each channel of `kernel_volume_distance_pdf max_t sigma_t s` integrated over
`s` from `0` to `max_t` is `1`. -/
theorem distance_pdf_integrates_to_one (max_t : ℝ) (sigma_t : float3 ℝ) (hmax : 0 < max_t)
    (hx : 0 < sigma_t.x) (hy : 0 < sigma_t.y) (hz : 0 < sigma_t.z) :
    (∫ s in (0 : ℝ)..max_t, (kernel_volume_distance_pdf Real.exp max_t sigma_t s).x) = 1 ∧
    (∫ s in (0 : ℝ)..max_t, (kernel_volume_distance_pdf Real.exp max_t sigma_t s).y) = 1 ∧
    (∫ s in (0 : ℝ)..max_t, (kernel_volume_distance_pdf Real.exp max_t sigma_t s).z) = 1 := by
  have ex : ∀ s, (kernel_volume_distance_pdf Real.exp max_t sigma_t s).x =
      sigma_t.x * Real.exp (-sigma_t.x * s) / (1 - Real.exp (-sigma_t.x * max_t)) :=
    fun _ => rfl
  have ey : ∀ s, (kernel_volume_distance_pdf Real.exp max_t sigma_t s).y =
      sigma_t.y * Real.exp (-sigma_t.y * s) / (1 - Real.exp (-sigma_t.y * max_t)) :=
    fun _ => rfl
  have ez : ∀ s, (kernel_volume_distance_pdf Real.exp max_t sigma_t s).z =
      sigma_t.z * Real.exp (-sigma_t.z * s) / (1 - Real.exp (-sigma_t.z * max_t)) :=
    fun _ => rfl
  simp only [ex, ey, ez]
  exact ⟨truncated_exp_integral sigma_t.x max_t hx hmax,
    truncated_exp_integral sigma_t.y max_t hy hmax,
    truncated_exp_integral sigma_t.z max_t hz hmax⟩

/-- The integrals at `max_t = 1`, `sigma_t = (1, 2, 3)`. -/
theorem distance_pdf_integrates_to_one_witness :
    (∫ s in (0 : ℝ)..1, (kernel_volume_distance_pdf Real.exp 1 ⟨1, 2, 3⟩ s).x) = 1 ∧
    (∫ s in (0 : ℝ)..1, (kernel_volume_distance_pdf Real.exp 1 ⟨1, 2, 3⟩ s).y) = 1 ∧
    (∫ s in (0 : ℝ)..1, (kernel_volume_distance_pdf Real.exp 1 ⟨1, 2, 3⟩ s).z) = 1 :=
  distance_pdf_integrates_to_one 1 ⟨1, 2, 3⟩ (by norm_num) (by norm_num) (by norm_num)
    (by norm_num)

/-- C10: for every scalar arithmetic and every input, the transmittance written by
`kernel_volume_distance_sample` is `volume_color_transmittance sigma_t sample_t` for the
returned `sample_t`, and the pdf it writes is, channel by channel,
`sigma_t * transmittance(sigma_t, sample_t) / (1 - transmittance(sigma_t, max_t))`, which is
the value of `kernel_volume_distance_pdf max_t sigma_t sample_t`. -/
theorem distance_sample_pdf_consistent {F : Type} [Add F] [Sub F] [Mul F] [Div F] [Neg F]
    [One F] [Min F] (expf logf : F → F) (max_t : F) (sigma_t : float3 F) (channel : Int)
    (xi : F) :
    (kernel_volume_distance_sample expf logf max_t sigma_t channel xi).transmittance =
      volume_color_transmittance expf sigma_t
        (kernel_volume_distance_sample expf logf max_t sigma_t channel xi).sample_t ∧
    (kernel_volume_distance_sample expf logf max_t sigma_t channel xi).pdf =
      spec_distance_pdf expf max_t sigma_t
        (kernel_volume_distance_sample expf logf max_t sigma_t channel xi).sample_t ∧
    (kernel_volume_distance_sample expf logf max_t sigma_t channel xi).pdf =
      kernel_volume_distance_pdf expf max_t sigma_t
        (kernel_volume_distance_sample expf logf max_t sigma_t channel xi).sample_t := by
  refine ⟨rfl, rfl, rfl⟩

/-! ## Equiangular sampling over the real numbers -/

theorem tan_neg_atan2 (atan2f : ℝ → ℝ → ℝ) (hat : is_atan2 atan2f) (y x : ℝ) :
    Real.tan (atan2f y x) = y / x := by
  rw [hat y x, Complex.tan_arg]

theorem atan2_mem (atan2f : ℝ → ℝ → ℝ) (hat : is_atan2 atan2f) (y x : ℝ) (hx : 0 < x) :
    atan2f y x ∈ Set.Ioo (-(Real.pi / 2)) (Real.pi / 2) := by
  rw [hat y x]
  have h : |Complex.arg ⟨x, y⟩| < Real.pi / 2 :=
    Complex.abs_arg_lt_pi_div_two_iff.mpr (Or.inl hx)
  rw [abs_lt] at h
  exact ⟨h.1, h.2⟩


theorem sample_equiangular_D :
    equiangular_D Real.sqrt (⟨⟨0, 0, 0⟩, ⟨1, 0, 0⟩, 2, 0⟩ : Ray ℝ) ⟨1, 1, 0⟩ = 1 := by
  simp [equiangular_D, equiangular_delta, len_squared, dot, float3_sub_x, float3_sub_y,
    float3_sub_z]

/-- C11: with `sqrtf`, `atan2f`, `tan` read as the real functions, for `ray.t >= 0` and a
light position at perpendicular distance `D > 0` from the ray's line,
`kernel_volume_equiangular_sample` returns `0` for `xi = 0` and `ray.t` for `xi = 1`. -/
theorem equiangular_sample_endpoints (atan2f : ℝ → ℝ → ℝ) (hat : is_atan2 atan2f)
    (ray : Ray ℝ) (light_P : float3 ℝ) (ht : 0 ≤ ray.t)
    (hD : 0 < equiangular_D Real.sqrt ray light_P) :
    (kernel_volume_equiangular_sample Real.sqrt atan2f Real.tan ray light_P 0).sample_t = 0 ∧
    (kernel_volume_equiangular_sample Real.sqrt atan2f Real.tan ray light_P 1).sample_t
      = ray.t := by
  have hD0 : equiangular_D Real.sqrt ray light_P ≠ 0 := ne_of_gt hD
  constructor
  · simp only [kernel_volume_equiangular_sample, zero_mul, zero_add, sub_zero, one_mul,
      Real.tan_neg, tan_neg_atan2 atan2f hat]
    rw [mul_neg, mul_div_cancel₀ _ hD0, add_neg_cancel]
    exact min_eq_right ht
  · simp only [kernel_volume_equiangular_sample, one_mul, sub_self, zero_mul, add_zero,
      tan_neg_atan2 atan2f hat]
    rw [mul_div_cancel₀ _ hD0, add_sub_cancel]
    exact min_self _

/-- The ray from the origin along the first axis with `t = 2` and the light at `(1, 1, 0)`,
at perpendicular distance `D = 1`. -/
theorem equiangular_sample_endpoints_witness :
    (kernel_volume_equiangular_sample Real.sqrt (fun y x => Complex.arg ⟨x, y⟩) Real.tan
      (⟨⟨0, 0, 0⟩, ⟨1, 0, 0⟩, 2, 0⟩ : Ray ℝ) ⟨1, 1, 0⟩ 0).sample_t = 0 ∧
    (kernel_volume_equiangular_sample Real.sqrt (fun y x => Complex.arg ⟨x, y⟩) Real.tan
      (⟨⟨0, 0, 0⟩, ⟨1, 0, 0⟩, 2, 0⟩ : Ray ℝ) ⟨1, 1, 0⟩ 1).sample_t = 2 :=
  equiangular_sample_endpoints (fun y x => Complex.arg ⟨x, y⟩) (fun _ _ => rfl)
    ⟨⟨0, 0, 0⟩, ⟨1, 0, 0⟩, 2, 0⟩ ⟨1, 1, 0⟩ (by norm_num)
    (by rw [sample_equiangular_D]; norm_num)


/-- The angle interpolated by the equiangular sampler stays strictly between the two
extreme angles, hence inside `(-π/2, π/2)`, and the sampled distance stays below `ray.t`. -/
theorem equiangular_inside (atan2f : ℝ → ℝ → ℝ) (hat : is_atan2 atan2f)
    (ray : Ray ℝ) (light_P : float3 ℝ) (ht : 0 < ray.t)
    (hD : 0 < equiangular_D Real.sqrt ray light_P) (u : ℝ) (hu0 : 0 < u) (hu1 : u < 1) :
    -atan2f (equiangular_delta ray light_P) (equiangular_D Real.sqrt ray light_P) <
      atan2f (ray.t - equiangular_delta ray light_P) (equiangular_D Real.sqrt ray light_P) ∧
    0 < Real.cos (u * atan2f (ray.t - equiangular_delta ray light_P)
        (equiangular_D Real.sqrt ray light_P) +
      (1 - u) * -atan2f (equiangular_delta ray light_P)
        (equiangular_D Real.sqrt ray light_P)) ∧
    (kernel_volume_equiangular_sample Real.sqrt atan2f Real.tan ray light_P u).sample_t =
      equiangular_delta ray light_P + equiangular_D Real.sqrt ray light_P *
        Real.tan (u * atan2f (ray.t - equiangular_delta ray light_P)
            (equiangular_D Real.sqrt ray light_P) +
          (1 - u) * -atan2f (equiangular_delta ray light_P)
            (equiangular_D Real.sqrt ray light_P)) := by
  set delta := equiangular_delta ray light_P with hdelta
  set D := equiangular_D Real.sqrt ray light_P with hDdef
  set ta := -atan2f delta D with hta
  set tb := atan2f (ray.t - delta) D with htb
  have hD0 : D ≠ 0 := ne_of_gt hD
  have hb_mem : tb ∈ Set.Ioo (-(Real.pi / 2)) (Real.pi / 2) := atan2_mem atan2f hat _ _ hD
  have ha_mem : ta ∈ Set.Ioo (-(Real.pi / 2)) (Real.pi / 2) := by
    have h := atan2_mem atan2f hat delta D hD
    constructor
    · rw [hta]; linarith [h.2]
    · rw [hta]; linarith [h.1]
  have htan_a : Real.tan ta = -delta / D := by
    rw [hta, Real.tan_neg, tan_neg_atan2 atan2f hat, neg_div]
  have htan_b : Real.tan tb = (ray.t - delta) / D := tan_neg_atan2 atan2f hat _ _
  have hlt : ta < tb := by
    rw [← Real.strictMonoOn_tan.lt_iff_lt ha_mem hb_mem, htan_a, htan_b]
    exact div_lt_div_of_pos_right (by linarith) hD
  have hth_gt : ta < u * tb + (1 - u) * ta := by nlinarith
  have hth_lt : u * tb + (1 - u) * ta < tb := by nlinarith
  have hth_mem : u * tb + (1 - u) * ta ∈ Set.Ioo (-(Real.pi / 2)) (Real.pi / 2) :=
    ⟨lt_trans ha_mem.1 hth_gt, lt_trans hth_lt hb_mem.2⟩
  have hcos : 0 < Real.cos (u * tb + (1 - u) * ta) := Real.cos_pos_of_mem_Ioo hth_mem
  have htan_lt : Real.tan (u * tb + (1 - u) * ta) < (ray.t - delta) / D := by
    rw [← htan_b]
    exact Real.strictMonoOn_tan hth_mem hb_mem hth_lt
  have hdist : delta + D * Real.tan (u * tb + (1 - u) * ta) < ray.t := by
    have h := mul_lt_mul_of_pos_left htan_lt hD
    rw [mul_div_cancel₀ _ hD0] at h
    linarith
  refine ⟨hlt, hcos, ?_⟩
  simp only [kernel_volume_equiangular_sample]
  exact min_eq_right hdist.le

/-- C12: with `sqrtf`, `atan2f`, `tan` read as the real functions, for `ray.t > 0`, a light
position at perpendicular distance `D > 0` and `xi` in `(0, 1)`: the distance returned by
`kernel_volume_equiangular_sample` is `s(xi) = delta + D * tan(xi * theta_b + (1 - xi) *
theta_a)`, it is differentiable in `xi`, `kernel_volume_equiangular_pdf` at `s(xi)` times
`ds/dxi` is `1`, and the pdf written by the sampler is `kernel_volume_equiangular_pdf` at
the returned distance. -/
theorem equiangular_pdf_matches_transform (atan2f : ℝ → ℝ → ℝ) (hat : is_atan2 atan2f)
    (ray : Ray ℝ) (light_P : float3 ℝ) (xi : ℝ) (ht : 0 < ray.t)
    (hD : 0 < equiangular_D Real.sqrt ray light_P) (hxi0 : 0 < xi) (hxi1 : xi < 1) :
    (kernel_volume_equiangular_sample Real.sqrt atan2f Real.tan ray light_P xi).sample_t =
      equiangular_delta ray light_P + equiangular_D Real.sqrt ray light_P *
        Real.tan (xi * atan2f (ray.t - equiangular_delta ray light_P)
            (equiangular_D Real.sqrt ray light_P) +
          (1 - xi) * -atan2f (equiangular_delta ray light_P)
            (equiangular_D Real.sqrt ray light_P)) ∧
    (∃ d, HasDerivAt (fun u =>
        (kernel_volume_equiangular_sample Real.sqrt atan2f Real.tan ray light_P u).sample_t)
        d xi ∧
      kernel_volume_equiangular_pdf Real.sqrt atan2f ray light_P
        (kernel_volume_equiangular_sample Real.sqrt atan2f Real.tan ray light_P xi).sample_t
        * d = 1) ∧
    (kernel_volume_equiangular_sample Real.sqrt atan2f Real.tan ray light_P xi).pdf =
      kernel_volume_equiangular_pdf Real.sqrt atan2f ray light_P
        (kernel_volume_equiangular_sample Real.sqrt atan2f Real.tan ray light_P xi).sample_t
    := by
  obtain ⟨hlt, hcos, hs⟩ := equiangular_inside atan2f hat ray light_P ht hD xi hxi0 hxi1
  set delta := equiangular_delta ray light_P with hdelta
  set D := equiangular_D Real.sqrt ray light_P with hDdef
  set ta := -atan2f delta D with hta
  set tb := atan2f (ray.t - delta) D with htb
  have hD0 : D ≠ 0 := ne_of_gt hD
  have hcos0 : Real.cos (xi * tb + (1 - xi) * ta) ≠ 0 := ne_of_gt hcos
  have hgap : tb - ta ≠ 0 := by
    have : 0 < tb - ta := by linarith
    exact ne_of_gt this
  -- the derivative of the transform
  have hinner : HasDerivAt (fun u : ℝ => u * tb + (1 - u) * ta) (tb - ta) xi := by
    have h1 : HasDerivAt (fun u : ℝ => u * tb) tb xi := by
      simpa using (hasDerivAt_id xi).mul_const tb
    have h2 : HasDerivAt (fun u : ℝ => (1 - u) * ta) (-ta) xi := by
      have h := ((hasDerivAt_id xi).const_sub 1).mul_const ta
      simpa using h
    have h := h1.add h2
    convert h using 1
  have htan : HasDerivAt (fun u : ℝ => Real.tan (u * tb + (1 - u) * ta))
      (1 / Real.cos (xi * tb + (1 - xi) * ta) ^ 2 * (tb - ta)) xi :=
    (Real.hasDerivAt_tan hcos0).comp xi hinner
  have hformula : HasDerivAt
      (fun u : ℝ => delta + D * Real.tan (u * tb + (1 - u) * ta))
      (D * (1 / Real.cos (xi * tb + (1 - xi) * ta) ^ 2 * (tb - ta))) xi :=
    (htan.const_mul D).const_add delta
  have hev : (fun u =>
      (kernel_volume_equiangular_sample Real.sqrt atan2f Real.tan ray light_P u).sample_t)
      =ᶠ[nhds xi] (fun u : ℝ => delta + D * Real.tan (u * tb + (1 - u) * ta)) := by
    have hopen : Set.Ioo (0 : ℝ) 1 ∈ nhds xi := Ioo_mem_nhds hxi0 hxi1
    filter_upwards [hopen] with u hu
    exact (equiangular_inside atan2f hat ray light_P ht hD u hu.1 hu.2).2.2
  have hderiv := hformula.congr_of_eventuallyEq hev
  refine ⟨hs, ⟨_, hderiv, ?_⟩, ?_⟩
  · rw [hs]
    simp only [kernel_volume_equiangular_pdf, add_sub_cancel_left]
    rw [← hdelta, ← hDdef, ← hta, ← htb]
    have hsq : Real.tan (xi * tb + (1 - xi) * ta) =
        Real.sin (xi * tb + (1 - xi) * ta) / Real.cos (xi * tb + (1 - xi) * ta) :=
      Real.tan_eq_sin_div_cos _
    have hone := Real.sin_sq_add_cos_sq (xi * tb + (1 - xi) * ta)
    have hden : D * D + D * Real.tan (xi * tb + (1 - xi) * ta) *
        (D * Real.tan (xi * tb + (1 - xi) * ta)) =
        D * D / Real.cos (xi * tb + (1 - xi) * ta) ^ 2 := by
      rw [hsq]
      field_simp
      linear_combination (D * D * Real.cos (xi * tb + (1 - xi) * ta) ^ 2) * hone
    rw [hden]
    field_simp
    ring
  · rw [hs]
    simp only [kernel_volume_equiangular_sample, kernel_volume_equiangular_pdf,
      add_sub_cancel_left]

/-- The same ray and light at `xi = 1/2`: the written pdf is the pdf routine's value at the
returned distance. -/
theorem equiangular_pdf_matches_transform_witness :
    (kernel_volume_equiangular_sample Real.sqrt (fun y x => Complex.arg ⟨x, y⟩) Real.tan
      (⟨⟨0, 0, 0⟩, ⟨1, 0, 0⟩, 2, 0⟩ : Ray ℝ) ⟨1, 1, 0⟩ (1 / 2)).pdf =
    kernel_volume_equiangular_pdf Real.sqrt (fun y x => Complex.arg ⟨x, y⟩)
      (⟨⟨0, 0, 0⟩, ⟨1, 0, 0⟩, 2, 0⟩ : Ray ℝ) ⟨1, 1, 0⟩
      (kernel_volume_equiangular_sample Real.sqrt (fun y x => Complex.arg ⟨x, y⟩) Real.tan
        (⟨⟨0, 0, 0⟩, ⟨1, 0, 0⟩, 2, 0⟩ : Ray ℝ) ⟨1, 1, 0⟩ (1 / 2)).sample_t :=
  (equiangular_pdf_matches_transform (fun y x => Complex.arg ⟨x, y⟩) (fun _ _ => rfl)
    ⟨⟨0, 0, 0⟩, ⟨1, 0, 0⟩, 2, 0⟩ ⟨1, 1, 0⟩ (1 / 2) (by norm_num)
    (by rw [sample_equiangular_D]; norm_num) (by norm_num) (by norm_num)).2.2

/-! ## Flag words -/

theorem flag_any_iff (flag a b : Nat) :
    flag &&& (a ||| b) = 0 ↔ flag &&& a = 0 ∧ flag &&& b = 0 := by
  rw [Nat.and_or_distrib_left]
  constructor
  · intro h
    constructor
    · apply Nat.eq_of_testBit_eq
      intro i
      have hi := congrArg (fun n => Nat.testBit n i) h
      simp only [Nat.testBit_or, Nat.zero_testBit, Bool.or_eq_false_iff] at hi
      simp [hi.1]
    · apply Nat.eq_of_testBit_eq
      intro i
      have hi := congrArg (fun n => Nat.testBit n i) h
      simp only [Nat.testBit_or, Nat.zero_testBit, Bool.or_eq_false_iff] at hi
      simp [hi.2]
  · rintro ⟨h1, h2⟩
    rw [h1, h2]
    rfl

theorem flag_clear_and (flag a s : Nat) (h : a &&& s = 0) :
    (flag_clear flag s ||| a) &&& s = 0 := by
  apply Nat.eq_of_testBit_eq
  intro i
  have hi := congrArg (fun n => Nat.testBit n i) h
  simp only [Nat.testBit_and, Nat.zero_testBit] at hi
  simp only [flag_clear, Nat.testBit_and, Nat.testBit_or, Nat.testBit_xor, Nat.zero_testBit]
  cases hf : flag.testBit i <;> cases ha : a.testBit i <;> cases hs : s.testBit i <;>
    simp_all

theorem flag_set_and (flag a : Nat) : (flag ||| a) &&& a = a := by
  apply Nat.eq_of_testBit_eq
  intro i
  simp only [Nat.testBit_and, Nat.testBit_or]
  cases flag.testBit i <;> cases a.testBit i <;> rfl

/-! ## The medium coefficient sampler -/

theorem coefficients_fold (K : KernelFlags) {F : Type} [Add F] (l : List (ShaderClosure F)) :
    ∀ c : VolumeShaderCoefficients F,
      (l.foldl (coefficients_add K) c).sigma_a =
        (l.filter (is_absorption_closure K)).foldl (fun sum sc => sum + sc.weight) c.sigma_a ∧
      (l.foldl (coefficients_add K) c).sigma_s =
        (l.filter (is_scatter_closure K)).foldl (fun sum sc => sum + sc.weight) c.sigma_s ∧
      (l.foldl (coefficients_add K) c).emission =
        (l.filter (is_emission_closure K)).foldl (fun sum sc => sum + sc.weight) c.emission := by
  induction l with
  | nil => intro c; exact ⟨rfl, rfl, rfl⟩
  | cons sc l ih =>
    intro c
    have h := ih (coefficients_add K c sc)
    rw [List.foldl_cons]
    by_cases h1 : sc.type = K.CLOSURE_VOLUME_ABSORPTION_ID
    · have d1 : decide (sc.type = K.CLOSURE_VOLUME_ABSORPTION_ID) = true := decide_eq_true h1
      have d1n : decide (sc.type ≠ K.CLOSURE_VOLUME_ABSORPTION_ID) = false :=
        decide_eq_false (not_not.mpr h1)
      have pa : is_absorption_closure K sc = true := d1
      have ps : is_scatter_closure K sc = false := by
        unfold is_scatter_closure; rw [d1n]; rfl
      have pe : is_emission_closure K sc = false := by
        unfold is_emission_closure; rw [d1n]; rfl
      have hadd : coefficients_add K c sc = { c with sigma_a := c.sigma_a + sc.weight } := by
        unfold coefficients_add; rw [if_pos h1]
      rw [List.filter_cons_of_pos pa, List.filter_cons_of_neg (by rw [ps]; simp),
        List.filter_cons_of_neg (by rw [pe]; simp), List.foldl_cons]
      rw [hadd] at h ⊢
      exact h
    · have d1n : decide (sc.type ≠ K.CLOSURE_VOLUME_ABSORPTION_ID) = true := decide_eq_true h1
      have pa : is_absorption_closure K sc = false := decide_eq_false h1
      by_cases h2 : sc.type = K.CLOSURE_EMISSION_ID
      · have d2 : decide (sc.type = K.CLOSURE_EMISSION_ID) = true := decide_eq_true h2
        have d2n : decide (sc.type ≠ K.CLOSURE_EMISSION_ID) = false :=
          decide_eq_false (not_not.mpr h2)
        have ps : is_scatter_closure K sc = false := by
          unfold is_scatter_closure; rw [d1n, d2n]; rfl
        have pe : is_emission_closure K sc = true := by
          unfold is_emission_closure; rw [d1n, d2]; rfl
        have hadd : coefficients_add K c sc =
            { c with emission := c.emission + sc.weight } := by
          unfold coefficients_add; rw [if_neg h1, if_pos h2]
        rw [List.filter_cons_of_neg (by rw [pa]; simp),
          List.filter_cons_of_neg (by rw [ps]; simp), List.filter_cons_of_pos pe,
          List.foldl_cons]
        rw [hadd] at h ⊢
        exact h
      · have d2 : decide (sc.type = K.CLOSURE_EMISSION_ID) = false := decide_eq_false h2
        have d2n : decide (sc.type ≠ K.CLOSURE_EMISSION_ID) = true := decide_eq_true h2
        have pe : is_emission_closure K sc = false := by
          unfold is_emission_closure; rw [d1n, d2]; rfl
        by_cases h3 : K.CLOSURE_IS_VOLUME sc.type = true
        · have ps : is_scatter_closure K sc = true := by
            unfold is_scatter_closure; rw [d1n, d2n, h3]; rfl
          have hadd : coefficients_add K c sc =
              { c with sigma_s := c.sigma_s + sc.weight } := by
            unfold coefficients_add; rw [if_neg h1, if_neg h2, if_pos h3]
          rw [List.filter_cons_of_neg (by rw [pa]; simp), List.filter_cons_of_pos ps,
            List.filter_cons_of_neg (by rw [pe]; simp), List.foldl_cons]
          rw [hadd] at h ⊢
          exact h
        · have h3f : K.CLOSURE_IS_VOLUME sc.type = false := by
            cases hv : K.CLOSURE_IS_VOLUME sc.type
            · rfl
            · exact absurd hv h3
          have ps : is_scatter_closure K sc = false := by
            unfold is_scatter_closure; rw [d1n, d2n, h3f]; rfl
          have hadd : coefficients_add K c sc = c := by
            unfold coefficients_add; rw [if_neg h1, if_neg h2, if_neg h3]
          rw [List.filter_cons_of_neg (by rw [pa]; simp),
            List.filter_cons_of_neg (by rw [ps]; simp),
            List.filter_cons_of_neg (by rw [pe]; simp)]
          rw [hadd] at h ⊢
          exact h

theorem coefficients_sum_eq (K : KernelFlags) {F : Type} [Add F] [Zero F]
    (l : List (ShaderClosure F)) :
    coefficients_sum K l = ⟨category_sum (is_absorption_closure K) l,
      category_sum (is_scatter_closure K) l, category_sum (is_emission_closure K) l⟩ := by
  obtain ⟨h1, h2, h3⟩ := coefficients_fold K l
    ⟨make_float3 0 0 0, make_float3 0 0 0, make_float3 0 0 0⟩
  unfold coefficients_sum category_sum
  cases hc : l.foldl (coefficients_add K)
      ⟨make_float3 0 0 0, make_float3 0 0 0, make_float3 0 0 0⟩ with
  | mk a s e =>
    rw [hc] at h1 h2 h3
    simp only at h1 h2 h3
    rw [h1, h2, h3]

theorem float3_add_zero (a : float3 ℝ) : a + make_float3 0 0 0 = a := by
  cases a with
  | mk x y z =>
    show (⟨x + 0, y + 0, z + 0⟩ : float3 ℝ) = ⟨x, y, z⟩
    simp

/-- C16: when the shader flags scattering, `volume_shader_sample` at the bounce cap
(`volume_bounce >= max_volume_bounce`) returns `sigma_s = 0` and `sigma_a` equal to the sum
of the absorption weights plus the sum of the scattering weights, so that
`sigma_a + sigma_s` is what it is without the cap, and it leaves the scatter flag cleared
and the absorption flag set; below the cap it returns the per-category sums and leaves the
shading data as the shader evaluation left them. -/
theorem shader_sample_bounce_cap (K : KernelFlags) (ext : KernelExtern ℝ)
    (kg : KernelIntegrator ℝ) (sd : VolumeShaderData ℝ) (state : PathState) (P : float3 ℝ)
    (hscatter : (ext.shader_eval_volume ShaderContext.SHADER_CONTEXT_VOLUME
      { sd with P := P }).flag &&& K.SD_SCATTER ≠ 0)
    (hbits : K.SD_ABSORPTION &&& K.SD_SCATTER = 0) (habs : K.SD_ABSORPTION ≠ 0) :
    (kg.max_volume_bounce ≤ state.volume_bounce →
      ∃ coeff sd2, volume_shader_sample K ext kg sd state P = (some coeff, sd2) ∧
        coeff.sigma_s = make_float3 0 0 0 ∧
        coeff.sigma_a =
          category_sum (is_absorption_closure K) (ext.shader_eval_volume
            ShaderContext.SHADER_CONTEXT_VOLUME { sd with P := P }).closure +
          category_sum (is_scatter_closure K) (ext.shader_eval_volume
            ShaderContext.SHADER_CONTEXT_VOLUME { sd with P := P }).closure ∧
        coeff.sigma_a + coeff.sigma_s =
          category_sum (is_absorption_closure K) (ext.shader_eval_volume
            ShaderContext.SHADER_CONTEXT_VOLUME { sd with P := P }).closure +
          category_sum (is_scatter_closure K) (ext.shader_eval_volume
            ShaderContext.SHADER_CONTEXT_VOLUME { sd with P := P }).closure ∧
        coeff.emission =
          category_sum (is_emission_closure K) (ext.shader_eval_volume
            ShaderContext.SHADER_CONTEXT_VOLUME { sd with P := P }).closure ∧
        sd2.flag &&& K.SD_SCATTER = 0 ∧ sd2.flag &&& K.SD_ABSORPTION ≠ 0) ∧
    (state.volume_bounce < kg.max_volume_bounce →
      volume_shader_sample K ext kg sd state P =
        (some ⟨category_sum (is_absorption_closure K) (ext.shader_eval_volume
            ShaderContext.SHADER_CONTEXT_VOLUME { sd with P := P }).closure,
          category_sum (is_scatter_closure K) (ext.shader_eval_volume
            ShaderContext.SHADER_CONTEXT_VOLUME { sd with P := P }).closure,
          category_sum (is_emission_closure K) (ext.shader_eval_volume
            ShaderContext.SHADER_CONTEXT_VOLUME { sd with P := P }).closure⟩,
          ext.shader_eval_volume ShaderContext.SHADER_CONTEXT_VOLUME { sd with P := P })) := by
  have hany : ¬ ((ext.shader_eval_volume ShaderContext.SHADER_CONTEXT_VOLUME
      { sd with P := P }).flag &&& (K.SD_ABSORPTION ||| K.SD_SCATTER ||| K.SD_EMISSION) = 0) := by
    intro h
    have h1 := ((flag_any_iff _ _ _).mp h).1
    exact hscatter ((flag_any_iff _ _ _).mp h1).2
  constructor
  · intro hcap
    have hrun : volume_shader_sample K ext kg sd state P =
        (some { coefficients_sum K (ext.shader_eval_volume
            ShaderContext.SHADER_CONTEXT_VOLUME { sd with P := P }).closure with
          sigma_a := (coefficients_sum K (ext.shader_eval_volume
              ShaderContext.SHADER_CONTEXT_VOLUME { sd with P := P }).closure).sigma_a +
            (coefficients_sum K (ext.shader_eval_volume
              ShaderContext.SHADER_CONTEXT_VOLUME { sd with P := P }).closure).sigma_s,
          sigma_s := make_float3 0 0 0 },
        { ext.shader_eval_volume ShaderContext.SHADER_CONTEXT_VOLUME { sd with P := P } with
          flag := flag_clear (ext.shader_eval_volume ShaderContext.SHADER_CONTEXT_VOLUME
            { sd with P := P }).flag K.SD_SCATTER ||| K.SD_ABSORPTION }) := by
      unfold volume_shader_sample
      simp only [hany, if_false, hscatter, ne_eq, not_false_eq_true, if_true, hcap]
    refine ⟨_, _, hrun, ?_, ?_, ?_, ?_, ?_, ?_⟩
    · rfl
    · simp only [coefficients_sum_eq]
    · simp only [coefficients_sum_eq]
      exact float3_add_zero _
    · simp only [coefficients_sum_eq]
    · exact flag_clear_and _ _ _ hbits
    · show (flag_clear _ K.SD_SCATTER ||| K.SD_ABSORPTION) &&& K.SD_ABSORPTION ≠ 0
      rw [flag_set_and]
      exact habs
  · intro hlow
    have hnot : ¬ (kg.max_volume_bounce ≤ state.volume_bounce) := not_le.mpr hlow
    unfold volume_shader_sample
    simp only [hany, if_false, hscatter, ne_eq, not_false_eq_true, if_true, hnot,
      coefficients_sum_eq]

/-! ## The homogeneous integrator -/

theorem float3_mul_one (a : float3 ℝ) : a * make_float3 1 1 1 = a := by
  cases a with
  | mk x y z =>
    show (⟨x * 1, y * 1, z * 1⟩ : float3 ℝ) = ⟨x, y, z⟩
    simp

theorem transmittance_zero_sigma (t : ℝ) :
    volume_color_transmittance Real.exp (make_float3 0 0 0) t = make_float3 1 1 1 := by
  simp [volume_color_transmittance, make_float3]

/-- The homogeneous integrator on a medium for which the shader does not flag scattering:
the sampling block is the absorption branch or nothing, the shading data are the ones the
coefficient sampler left, and the segment is never shortened. -/
theorem homogeneous_no_scatter (K : KernelFlags) (m : KernelMath ℝ) (ext : KernelExtern ℝ)
    (kg : KernelIntegrator ℝ) (state : PathState) (ray : Ray ℝ) (sd : VolumeShaderData ℝ)
    (L : List (EmissionAccum ℝ)) (throughput : float3 ℝ) (rng : PathSamples ℝ)
    (branched : Bool) (undef : float3 ℝ) (coeff : VolumeShaderCoefficients ℝ)
    (sd1 : VolumeShaderData ℝ)
    (hs : volume_shader_sample K ext kg sd state ray.P = (some coeff, sd1))
    (hsc : sd1.flag &&& K.SD_SCATTER = 0) :
    kernel_volume_integrate_homogeneous K m ext kg state ray sd L throughput rng branched
        undef =
      if sd1.flag &&& K.SD_ABSORPTION ≠ 0 then
        ⟨VolumeIntegrateResult.VOLUME_PATH_ATTENUATED,
          throughput * volume_color_transmittance m.expf coeff.sigma_a ray.t,
          if sd1.flag &&& K.SD_EMISSION ≠ 0 then
            path_radiance_accum_emission L throughput
              (kernel_volume_emission_integrate K coeff sd1.flag
                (volume_color_transmittance m.expf coeff.sigma_a ray.t) ray.t) state.bounce
          else L, sd1, state⟩
      else
        ⟨VolumeIntegrateResult.VOLUME_PATH_ATTENUATED, throughput,
          if sd1.flag &&& K.SD_EMISSION ≠ 0 then
            path_radiance_accum_emission L throughput
              (kernel_volume_emission_integrate K coeff sd1.flag undef ray.t) state.bounce
          else L, sd1, state⟩ := by
  unfold kernel_volume_integrate_homogeneous
  rw [hs]
  by_cases habs : sd1.flag &&& K.SD_ABSORPTION = 0
  · have hany : sd1.flag &&& (K.SD_ABSORPTION ||| K.SD_SCATTER) = 0 :=
      (flag_any_iff _ _ _).mpr ⟨habs, hsc⟩
    simp only [hsc, habs, hany, ne_eq, not_true_eq_false, if_false]
  · have hany : ¬ (sd1.flag &&& (K.SD_ABSORPTION ||| K.SD_SCATTER) = 0) :=
      fun h => habs ((flag_any_iff _ _ _).mp h).1
    simp only [hsc, habs, hany, ne_eq, not_true_eq_false, not_false_eq_true, if_false,
      if_true, lt_irrefl]

/-- C13: when the medium at the segment start has only absorption (absorption flagged,
scattering and emission not flagged) with coefficient `sigma_a`,
`kernel_volume_integrate_homogeneous` returns `VOLUME_PATH_ATTENUATED` and the throughput
is the input throughput times `exp(-sigma_a * t)` per channel; the result is the same for
every value of the random numbers, in both modes. -/
theorem homogeneous_absorption_only (K : KernelFlags) (m : KernelMath ℝ)
    (ext : KernelExtern ℝ) (kg : KernelIntegrator ℝ) (state : PathState) (ray : Ray ℝ)
    (sd : VolumeShaderData ℝ) (L : List (EmissionAccum ℝ)) (throughput : float3 ℝ)
    (rng : PathSamples ℝ) (branched : Bool) (undef : float3 ℝ)
    (coeff : VolumeShaderCoefficients ℝ) (sd1 : VolumeShaderData ℝ)
    (hexp : m.expf = Real.exp)
    (hs : volume_shader_sample K ext kg sd state ray.P = (some coeff, sd1))
    (habs : sd1.flag &&& K.SD_ABSORPTION ≠ 0) (hsc : sd1.flag &&& K.SD_SCATTER = 0)
    (hem : sd1.flag &&& K.SD_EMISSION = 0) :
    kernel_volume_integrate_homogeneous K m ext kg state ray sd L throughput rng branched
        undef =
      ⟨VolumeIntegrateResult.VOLUME_PATH_ATTENUATED,
        ⟨throughput.x * Real.exp (-coeff.sigma_a.x * ray.t),
          throughput.y * Real.exp (-coeff.sigma_a.y * ray.t),
          throughput.z * Real.exp (-coeff.sigma_a.z * ray.t)⟩, L, sd1, state⟩ := by
  rw [homogeneous_no_scatter K m ext kg state ray sd L throughput rng branched undef coeff
    sd1 hs hsc, if_pos habs, hexp]
  simp only [hem, ne_eq, not_true_eq_false, if_false]
  rfl

/-- C14: when the medium at the segment start has `sigma_a = 0`, `sigma_s = 0`, emission
flagged with value `E` and scattering not flagged, `kernel_volume_integrate_homogeneous`
returns `VOLUME_PATH_ATTENUATED`, leaves the throughput as it was, and writes one emission
contribution `E * t` per channel, weighted by the input throughput. -/
theorem homogeneous_emission_only (K : KernelFlags) (m : KernelMath ℝ)
    (ext : KernelExtern ℝ) (kg : KernelIntegrator ℝ) (state : PathState) (ray : Ray ℝ)
    (sd : VolumeShaderData ℝ) (L : List (EmissionAccum ℝ)) (throughput : float3 ℝ)
    (rng : PathSamples ℝ) (branched : Bool) (undef : float3 ℝ)
    (coeff : VolumeShaderCoefficients ℝ) (sd1 : VolumeShaderData ℝ)
    (hexp : m.expf = Real.exp)
    (hs : volume_shader_sample K ext kg sd state ray.P = (some coeff, sd1))
    (hem : sd1.flag &&& K.SD_EMISSION ≠ 0) (hsc : sd1.flag &&& K.SD_SCATTER = 0)
    (ha : coeff.sigma_a = make_float3 0 0 0) (hss : coeff.sigma_s = make_float3 0 0 0) :
    kernel_volume_integrate_homogeneous K m ext kg state ray sd L throughput rng branched
        undef =
      ⟨VolumeIntegrateResult.VOLUME_PATH_ATTENUATED, throughput,
        L ++ [⟨throughput, ⟨coeff.emission.x * ray.t, coeff.emission.y * ray.t,
          coeff.emission.z * ray.t⟩, state.bounce⟩], sd1, state⟩ := by
  rw [homogeneous_no_scatter K m ext kg state ray sd L throughput rng branched undef coeff
    sd1 hs hsc, hexp]
  by_cases habs : sd1.flag &&& K.SD_ABSORPTION = 0
  · simp only [habs, hem, ne_eq, not_true_eq_false, not_false_eq_true, if_false, if_true,
      kernel_volume_emission_integrate, path_radiance_accum_emission, float3_mul_f]
  · have hsum : coeff.sigma_a + coeff.sigma_s = make_float3 0 0 0 := by
      rw [ha, hss]
      exact float3_add_zero _
    simp only [habs, hem, ne_eq, not_false_eq_true, if_true,
      kernel_volume_emission_integrate, path_radiance_accum_emission, hsum]
    rw [ha, transmittance_zero_sigma, float3_mul_one]
    simp [make_float3]

/-- The homogeneous integrator on a medium for which the shader flags scattering: what it
returns, given the locals that the scattering branch leaves. -/
theorem homogeneous_with_scatter (K : KernelFlags) (m : KernelMath ℝ) (ext : KernelExtern ℝ)
    (kg : KernelIntegrator ℝ) (state : PathState) (ray : Ray ℝ) (sd : VolumeShaderData ℝ)
    (L : List (EmissionAccum ℝ)) (throughput : float3 ℝ) (rng : PathSamples ℝ)
    (branched : Bool) (undef : float3 ℝ) (coeff : VolumeShaderCoefficients ℝ)
    (sd1 : VolumeShaderData ℝ)
    (hs : volume_shader_sample K ext kg sd state ray.P = (some coeff, sd1))
    (hsc : sd1.flag &&& K.SD_SCATTER ≠ 0) :
    kernel_volume_integrate_homogeneous K m ext kg state ray sd L throughput rng branched
        undef =
      match homogeneous_scatter m ext kg ray rng coeff throughput branched
          (m.float_to_int (rng.phase * 3)) rng.scatter_distance with
      | none => ⟨VolumeIntegrateResult.VOLUME_PATH_MISSED, throughput, L,
          { sd1 with randb_closure :=
            rng.phase * 3 - ((m.float_to_int (rng.phase * 3) : Int) : ℝ) }, state⟩
      | some v =>
        if v.t < ray.t then
          ⟨VolumeIntegrateResult.VOLUME_PATH_SCATTERED, v.new_tp,
            if sd1.flag &&& K.SD_EMISSION ≠ 0 then
              path_radiance_accum_emission L throughput
                (kernel_volume_emission_integrate K coeff sd1.flag v.transmittance v.t)
                state.bounce
            else L,
            { sd1 with
              randb_closure := rng.phase * 3 - ((m.float_to_int (rng.phase * 3) : Int) : ℝ),
              P := ray.P + float3_mul_f ray.D v.t }, state⟩
        else
          ⟨VolumeIntegrateResult.VOLUME_PATH_ATTENUATED, v.new_tp,
            if sd1.flag &&& K.SD_EMISSION ≠ 0 then
              path_radiance_accum_emission L throughput
                (kernel_volume_emission_integrate K coeff sd1.flag v.transmittance v.t)
                state.bounce
            else L,
            { sd1 with randb_closure :=
              rng.phase * 3 - ((m.float_to_int (rng.phase * 3) : Int) : ℝ) }, state⟩ := by
  have hany : ¬ (sd1.flag &&& (K.SD_ABSORPTION ||| K.SD_SCATTER) = 0) :=
    fun h => hsc ((flag_any_iff _ _ _).mp h).2
  unfold kernel_volume_integrate_homogeneous
  rw [hs]
  simp only [hsc, hany, ne_eq, not_false_eq_true, if_true]
  cases homogeneous_scatter m ext kg ray rng coeff throughput branched
      (m.float_to_int (rng.phase * 3)) rng.scatter_distance <;> rfl

theorem transmittance_sum_pos (sigma : float3 ℝ) (t : ℝ) :
    0 < (volume_color_transmittance Real.exp sigma t).x +
      (volume_color_transmittance Real.exp sigma t).y +
      (volume_color_transmittance Real.exp sigma t).z := by
  have hx : 0 < (volume_color_transmittance Real.exp sigma t).x := Real.exp_pos _
  have hy : 0 < (volume_color_transmittance Real.exp sigma t).y := Real.exp_pos _
  have hz : 0 < (volume_color_transmittance Real.exp sigma t).z := Real.exp_pos _
  linarith

theorem spec_miss_channels (throughput sigma : float3 ℝ) (t : ℝ) :
    spec_miss_throughput Real.exp throughput sigma t =
      ⟨throughput.x * (volume_color_transmittance Real.exp sigma t).x /
          (((volume_color_transmittance Real.exp sigma t).x +
            (volume_color_transmittance Real.exp sigma t).y +
            (volume_color_transmittance Real.exp sigma t).z) / 3),
        throughput.y * (volume_color_transmittance Real.exp sigma t).y /
          (((volume_color_transmittance Real.exp sigma t).x +
            (volume_color_transmittance Real.exp sigma t).y +
            (volume_color_transmittance Real.exp sigma t).z) / 3),
        throughput.z * (volume_color_transmittance Real.exp sigma t).z /
          (((volume_color_transmittance Real.exp sigma t).x +
            (volume_color_transmittance Real.exp sigma t).y +
            (volume_color_transmittance Real.exp sigma t).z) / 3)⟩ := by
  unfold spec_miss_throughput float3_div_f average
  simp only [float3_mul_x, float3_mul_y, float3_mul_z, mul_one_div]

/-- C18: in the non-branched homogeneous integrator on a medium for which the shader flags
scattering, with `T = transmittance(sigma_t, t)` and `T_c` its selected channel: the
sampling block takes the miss branch exactly when `xi < T_c`; the integrator then returns
`VOLUME_PATH_ATTENUATED` with throughput `tp * T / ((T_x + T_y + T_z) / 3)`; and this
throughput weighted by the miss probability `T_c` and averaged over the three channels with
probability `1/3` each is `tp * T` in every channel. -/
theorem homogeneous_miss_unbiased (K : KernelFlags) (m : KernelMath ℝ)
    (ext : KernelExtern ℝ) (kg : KernelIntegrator ℝ) (state : PathState) (ray : Ray ℝ)
    (sd : VolumeShaderData ℝ) (L : List (EmissionAccum ℝ)) (throughput : float3 ℝ)
    (rng : PathSamples ℝ) (undef : float3 ℝ) (coeff : VolumeShaderCoefficients ℝ)
    (sd1 : VolumeShaderData ℝ) (hexp : m.expf = Real.exp)
    (hs : volume_shader_sample K ext kg sd state ray.P = (some coeff, sd1))
    (hsc : sd1.flag &&& K.SD_SCATTER ≠ 0) :
    (homogeneous_scatter m ext kg ray rng coeff throughput false
        (m.float_to_int (rng.phase * 3)) rng.scatter_distance =
      if rng.scatter_distance < Real.exp (-(kernel_volume_channel_get
          (coeff.sigma_a + coeff.sigma_s) (m.float_to_int (rng.phase * 3))) * ray.t) then
        some ⟨spec_miss_throughput Real.exp throughput (coeff.sigma_a + coeff.sigma_s) ray.t,
          volume_color_transmittance Real.exp (coeff.sigma_a + coeff.sigma_s) ray.t, ray.t⟩
      else
        (homogeneous_scatter_distance m ext kg ray rng (coeff.sigma_a + coeff.sigma_s)
          (m.float_to_int (rng.phase * 3))
          ((rng.scatter_distance - Real.exp (-(kernel_volume_channel_get
              (coeff.sigma_a + coeff.sigma_s) (m.float_to_int (rng.phase * 3))) * ray.t)) /
            (1 - Real.exp (-(kernel_volume_channel_get
              (coeff.sigma_a + coeff.sigma_s) (m.float_to_int (rng.phase * 3))) * ray.t)))).map
          (fun d => ⟨float3_div_f (throughput * coeff.sigma_s * d.transmittance)
            (average (d.pdf * (make_float3 1 1 1 - volume_color_transmittance Real.exp
              (coeff.sigma_a + coeff.sigma_s) ray.t))), d.transmittance, d.sample_t⟩)) ∧
    (rng.scatter_distance < Real.exp (-(kernel_volume_channel_get
        (coeff.sigma_a + coeff.sigma_s) (m.float_to_int (rng.phase * 3))) * ray.t) →
      (kernel_volume_integrate_homogeneous K m ext kg state ray sd L throughput rng false
        undef).result = VolumeIntegrateResult.VOLUME_PATH_ATTENUATED ∧
      (kernel_volume_integrate_homogeneous K m ext kg state ray sd L throughput rng false
        undef).throughput =
        ⟨throughput.x * (volume_color_transmittance Real.exp
              (coeff.sigma_a + coeff.sigma_s) ray.t).x /
            (((volume_color_transmittance Real.exp (coeff.sigma_a + coeff.sigma_s) ray.t).x +
              (volume_color_transmittance Real.exp (coeff.sigma_a + coeff.sigma_s) ray.t).y +
              (volume_color_transmittance Real.exp (coeff.sigma_a + coeff.sigma_s) ray.t).z)
              / 3),
          throughput.y * (volume_color_transmittance Real.exp
              (coeff.sigma_a + coeff.sigma_s) ray.t).y /
            (((volume_color_transmittance Real.exp (coeff.sigma_a + coeff.sigma_s) ray.t).x +
              (volume_color_transmittance Real.exp (coeff.sigma_a + coeff.sigma_s) ray.t).y +
              (volume_color_transmittance Real.exp (coeff.sigma_a + coeff.sigma_s) ray.t).z)
              / 3),
          throughput.z * (volume_color_transmittance Real.exp
              (coeff.sigma_a + coeff.sigma_s) ray.t).z /
            (((volume_color_transmittance Real.exp (coeff.sigma_a + coeff.sigma_s) ray.t).x +
              (volume_color_transmittance Real.exp (coeff.sigma_a + coeff.sigma_s) ray.t).y +
              (volume_color_transmittance Real.exp (coeff.sigma_a + coeff.sigma_s) ray.t).z)
              / 3)⟩) ∧
    (1 / 3 * kernel_volume_channel_get (volume_color_transmittance Real.exp
          (coeff.sigma_a + coeff.sigma_s) ray.t) 0 *
        (spec_miss_throughput Real.exp throughput (coeff.sigma_a + coeff.sigma_s) ray.t).x +
      1 / 3 * kernel_volume_channel_get (volume_color_transmittance Real.exp
          (coeff.sigma_a + coeff.sigma_s) ray.t) 1 *
        (spec_miss_throughput Real.exp throughput (coeff.sigma_a + coeff.sigma_s) ray.t).x +
      1 / 3 * kernel_volume_channel_get (volume_color_transmittance Real.exp
          (coeff.sigma_a + coeff.sigma_s) ray.t) 2 *
        (spec_miss_throughput Real.exp throughput (coeff.sigma_a + coeff.sigma_s) ray.t).x =
      (throughput * volume_color_transmittance Real.exp
        (coeff.sigma_a + coeff.sigma_s) ray.t).x) ∧
    (1 / 3 * kernel_volume_channel_get (volume_color_transmittance Real.exp
          (coeff.sigma_a + coeff.sigma_s) ray.t) 0 *
        (spec_miss_throughput Real.exp throughput (coeff.sigma_a + coeff.sigma_s) ray.t).y +
      1 / 3 * kernel_volume_channel_get (volume_color_transmittance Real.exp
          (coeff.sigma_a + coeff.sigma_s) ray.t) 1 *
        (spec_miss_throughput Real.exp throughput (coeff.sigma_a + coeff.sigma_s) ray.t).y +
      1 / 3 * kernel_volume_channel_get (volume_color_transmittance Real.exp
          (coeff.sigma_a + coeff.sigma_s) ray.t) 2 *
        (spec_miss_throughput Real.exp throughput (coeff.sigma_a + coeff.sigma_s) ray.t).y =
      (throughput * volume_color_transmittance Real.exp
        (coeff.sigma_a + coeff.sigma_s) ray.t).y) ∧
    (1 / 3 * kernel_volume_channel_get (volume_color_transmittance Real.exp
          (coeff.sigma_a + coeff.sigma_s) ray.t) 0 *
        (spec_miss_throughput Real.exp throughput (coeff.sigma_a + coeff.sigma_s) ray.t).z +
      1 / 3 * kernel_volume_channel_get (volume_color_transmittance Real.exp
          (coeff.sigma_a + coeff.sigma_s) ray.t) 1 *
        (spec_miss_throughput Real.exp throughput (coeff.sigma_a + coeff.sigma_s) ray.t).z +
      1 / 3 * kernel_volume_channel_get (volume_color_transmittance Real.exp
          (coeff.sigma_a + coeff.sigma_s) ray.t) 2 *
        (spec_miss_throughput Real.exp throughput (coeff.sigma_a + coeff.sigma_s) ray.t).z =
      (throughput * volume_color_transmittance Real.exp
        (coeff.sigma_a + coeff.sigma_s) ray.t).z) := by
  have hblock : homogeneous_scatter m ext kg ray rng coeff throughput false
        (m.float_to_int (rng.phase * 3)) rng.scatter_distance =
      if rng.scatter_distance < Real.exp (-(kernel_volume_channel_get
          (coeff.sigma_a + coeff.sigma_s) (m.float_to_int (rng.phase * 3))) * ray.t) then
        some ⟨spec_miss_throughput Real.exp throughput (coeff.sigma_a + coeff.sigma_s) ray.t,
          volume_color_transmittance Real.exp (coeff.sigma_a + coeff.sigma_s) ray.t, ray.t⟩
      else
        (homogeneous_scatter_distance m ext kg ray rng (coeff.sigma_a + coeff.sigma_s)
          (m.float_to_int (rng.phase * 3))
          ((rng.scatter_distance - Real.exp (-(kernel_volume_channel_get
              (coeff.sigma_a + coeff.sigma_s) (m.float_to_int (rng.phase * 3))) * ray.t)) /
            (1 - Real.exp (-(kernel_volume_channel_get
              (coeff.sigma_a + coeff.sigma_s) (m.float_to_int (rng.phase * 3))) * ray.t)))).map
          (fun d => ⟨float3_div_f (throughput * coeff.sigma_s * d.transmittance)
            (average (d.pdf * (make_float3 1 1 1 - volume_color_transmittance Real.exp
              (coeff.sigma_a + coeff.sigma_s) ray.t))), d.transmittance, d.sample_t⟩) := by
    unfold homogeneous_scatter
    simp only [Bool.false_eq_true, if_false, hexp]
    by_cases hlt : rng.scatter_distance < Real.exp (-(kernel_volume_channel_get
        (coeff.sigma_a + coeff.sigma_s) (m.float_to_int (rng.phase * 3))) * ray.t)
    · rw [if_neg (not_le.mpr hlt), if_pos hlt]
      rfl
    · rw [if_pos (not_lt.mp hlt), if_neg hlt]
      cases homogeneous_scatter_distance m ext kg ray rng (coeff.sigma_a + coeff.sigma_s)
        (m.float_to_int (rng.phase * 3))
        ((rng.scatter_distance - Real.exp (-(kernel_volume_channel_get
            (coeff.sigma_a + coeff.sigma_s) (m.float_to_int (rng.phase * 3))) * ray.t)) /
          (1 - Real.exp (-(kernel_volume_channel_get
            (coeff.sigma_a + coeff.sigma_s) (m.float_to_int (rng.phase * 3))) * ray.t))) <;>
        rfl
  have hsum := transmittance_sum_pos (coeff.sigma_a + coeff.sigma_s) ray.t
  have hne := ne_of_gt hsum
  refine ⟨hblock, ?_, ?_, ?_, ?_⟩
  · intro hlt
    rw [homogeneous_with_scatter K m ext kg state ray sd L throughput rng false undef coeff
      sd1 hs hsc, hblock, if_pos hlt]
    simp only [lt_irrefl, if_false]
    exact ⟨trivial, spec_miss_channels throughput _ ray.t⟩
  · rw [spec_miss_channels]
    simp only [kernel_volume_channel_get, float3_mul_x]
    norm_num
    field_simp
    ring
  · rw [spec_miss_channels]
    simp only [kernel_volume_channel_get, float3_mul_y]
    norm_num
    field_simp
    ring
  · rw [spec_miss_channels]
    simp only [kernel_volume_channel_get, float3_mul_z]
    norm_num
    field_simp
    ring

/-! ## The sample media -/

theorem float3_add_def {F : Type} [Add F] (a b : float3 F) :
    a + b = ⟨a.x + b.x, a.y + b.y, a.z + b.z⟩ := rfl

/-- The coefficient sampler on the sample medium with one absorption closure. -/
theorem sample_absorbing (kg : KernelIntegrator ℝ) (sd : VolumeShaderData ℝ)
    (state : PathState) (P : float3 ℝ) :
    volume_shader_sample sampleFlags (sampleExtern 4 [⟨11, ⟨1, 2, 3⟩⟩] 0) kg sd state P =
      (some ⟨⟨1, 2, 3⟩, ⟨0, 0, 0⟩, ⟨0, 0, 0⟩⟩, ⟨P, 4, [⟨11, ⟨1, 2, 3⟩⟩], sd.randb_closure⟩) := by
  have h48 : (4 : Nat) &&& 8 = 0 := by decide
  simp [volume_shader_sample, sampleExtern, sampleFlags, coefficients_sum, coefficients_add,
    make_float3, float3_add_def, h48]

/-- The coefficient sampler on the sample medium with one emission closure. -/
theorem sample_emitting (kg : KernelIntegrator ℝ) (sd : VolumeShaderData ℝ)
    (state : PathState) (P : float3 ℝ) :
    volume_shader_sample sampleFlags (sampleExtern 2 [⟨1, ⟨1, 2, 3⟩⟩] 0) kg sd state P =
      (some ⟨⟨0, 0, 0⟩, ⟨0, 0, 0⟩, ⟨1, 2, 3⟩⟩, ⟨P, 2, [⟨1, ⟨1, 2, 3⟩⟩], sd.randb_closure⟩) := by
  have h28 : (2 : Nat) &&& 8 = 0 := by decide
  simp [volume_shader_sample, sampleExtern, sampleFlags, coefficients_sum, coefficients_add,
    make_float3, float3_add_def, h28]

/-- The coefficient sampler on the sample medium with one scattering closure, below the
bounce cap. -/
theorem sample_scattering (kg : KernelIntegrator ℝ) (sd : VolumeShaderData ℝ)
    (state : PathState) (P : float3 ℝ) (h : state.volume_bounce < kg.max_volume_bounce) :
    volume_shader_sample sampleFlags (sampleExtern 8 [⟨12, ⟨1, 1, 1⟩⟩] 0) kg sd state P =
      (some ⟨⟨0, 0, 0⟩, ⟨1, 1, 1⟩, ⟨0, 0, 0⟩⟩, ⟨P, 8, [⟨12, ⟨1, 1, 1⟩⟩], sd.randb_closure⟩) := by
  have hn : ¬ (kg.max_volume_bounce ≤ state.volume_bounce) := not_le.mpr h
  simp [volume_shader_sample, sampleExtern, sampleFlags, coefficients_sum, coefficients_add,
    make_float3, float3_add_def, hn]

/-- The sample absorbing medium with `sigma_a = (1, 2, 3)` on a segment of length 2. -/
theorem homogeneous_absorption_only_witness :
    kernel_volume_integrate_homogeneous sampleFlags
        ⟨Real.exp, Real.log, Real.sqrt, fun y x => Complex.arg ⟨x, y⟩, Real.tan, Int.floor⟩
        (sampleExtern 4 [⟨11, ⟨1, 2, 3⟩⟩] 0) ⟨4, 3, 1, 0, 0⟩ ⟨0, 0, 0, []⟩
        ⟨⟨0, 0, 0⟩, ⟨1, 0, 0⟩, 2, 0⟩ ⟨⟨0, 0, 0⟩, 0, [], 0⟩ [] ⟨1, 1, 1⟩ ⟨0, 0, 0, 0, 0⟩ false
        ⟨0, 0, 0⟩ =
      ⟨VolumeIntegrateResult.VOLUME_PATH_ATTENUATED,
        ⟨1 * Real.exp (-1 * 2), 1 * Real.exp (-2 * 2), 1 * Real.exp (-3 * 2)⟩, [],
        ⟨⟨0, 0, 0⟩, 4, [⟨11, ⟨1, 2, 3⟩⟩], 0⟩, ⟨0, 0, 0, []⟩⟩ :=
  homogeneous_absorption_only sampleFlags
    ⟨Real.exp, Real.log, Real.sqrt, fun y x => Complex.arg ⟨x, y⟩, Real.tan, Int.floor⟩
    (sampleExtern 4 [⟨11, ⟨1, 2, 3⟩⟩] 0) ⟨4, 3, 1, 0, 0⟩ ⟨0, 0, 0, []⟩
    ⟨⟨0, 0, 0⟩, ⟨1, 0, 0⟩, 2, 0⟩ ⟨⟨0, 0, 0⟩, 0, [], 0⟩ [] ⟨1, 1, 1⟩ ⟨0, 0, 0, 0, 0⟩ false
    ⟨0, 0, 0⟩ ⟨⟨1, 2, 3⟩, ⟨0, 0, 0⟩, ⟨0, 0, 0⟩⟩ ⟨⟨0, 0, 0⟩, 4, [⟨11, ⟨1, 2, 3⟩⟩], 0⟩ rfl
    (sample_absorbing _ _ _ _) (by decide) (by decide) (by decide)

/-- The sample emitting medium with `E = (1, 2, 3)` on a segment of length 2. -/
theorem homogeneous_emission_only_witness :
    kernel_volume_integrate_homogeneous sampleFlags
        ⟨Real.exp, Real.log, Real.sqrt, fun y x => Complex.arg ⟨x, y⟩, Real.tan, Int.floor⟩
        (sampleExtern 2 [⟨1, ⟨1, 2, 3⟩⟩] 0) ⟨4, 3, 1, 0, 0⟩ ⟨0, 0, 0, []⟩
        ⟨⟨0, 0, 0⟩, ⟨1, 0, 0⟩, 2, 0⟩ ⟨⟨0, 0, 0⟩, 0, [], 0⟩ [] ⟨1, 1, 1⟩ ⟨0, 0, 0, 0, 0⟩ false
        ⟨0, 0, 0⟩ =
      ⟨VolumeIntegrateResult.VOLUME_PATH_ATTENUATED, ⟨1, 1, 1⟩,
        [] ++ [⟨⟨1, 1, 1⟩, ⟨1 * 2, 2 * 2, 3 * 2⟩, 0⟩],
        ⟨⟨0, 0, 0⟩, 2, [⟨1, ⟨1, 2, 3⟩⟩], 0⟩, ⟨0, 0, 0, []⟩⟩ :=
  homogeneous_emission_only sampleFlags
    ⟨Real.exp, Real.log, Real.sqrt, fun y x => Complex.arg ⟨x, y⟩, Real.tan, Int.floor⟩
    (sampleExtern 2 [⟨1, ⟨1, 2, 3⟩⟩] 0) ⟨4, 3, 1, 0, 0⟩ ⟨0, 0, 0, []⟩
    ⟨⟨0, 0, 0⟩, ⟨1, 0, 0⟩, 2, 0⟩ ⟨⟨0, 0, 0⟩, 0, [], 0⟩ [] ⟨1, 1, 1⟩ ⟨0, 0, 0, 0, 0⟩ false
    ⟨0, 0, 0⟩ ⟨⟨0, 0, 0⟩, ⟨0, 0, 0⟩, ⟨1, 2, 3⟩⟩ ⟨⟨0, 0, 0⟩, 2, [⟨1, ⟨1, 2, 3⟩⟩], 0⟩ rfl
    (sample_emitting _ _ _ _) (by decide) (by decide) rfl rfl

/-- The sample scattering medium with `xi = 0`, which is below every transmittance. -/
theorem homogeneous_miss_unbiased_witness :
    (kernel_volume_integrate_homogeneous sampleFlags
        ⟨Real.exp, Real.log, Real.sqrt, fun y x => Complex.arg ⟨x, y⟩, Real.tan, Int.floor⟩
        (sampleExtern 8 [⟨12, ⟨1, 1, 1⟩⟩] 0) ⟨4, 3, 1, 0, 0⟩ ⟨0, 0, 0, []⟩
        ⟨⟨0, 0, 0⟩, ⟨1, 0, 0⟩, 2, 0⟩ ⟨⟨0, 0, 0⟩, 0, [], 0⟩ [] ⟨1, 1, 1⟩ ⟨0, 0, 0, 0, 0⟩ false
        ⟨0, 0, 0⟩).result = VolumeIntegrateResult.VOLUME_PATH_ATTENUATED :=
  ((homogeneous_miss_unbiased sampleFlags
    ⟨Real.exp, Real.log, Real.sqrt, fun y x => Complex.arg ⟨x, y⟩, Real.tan, Int.floor⟩
    (sampleExtern 8 [⟨12, ⟨1, 1, 1⟩⟩] 0) ⟨4, 3, 1, 0, 0⟩ ⟨0, 0, 0, []⟩
    ⟨⟨0, 0, 0⟩, ⟨1, 0, 0⟩, 2, 0⟩ ⟨⟨0, 0, 0⟩, 0, [], 0⟩ [] ⟨1, 1, 1⟩ ⟨0, 0, 0, 0, 0⟩
    ⟨0, 0, 0⟩ ⟨⟨0, 0, 0⟩, ⟨1, 1, 1⟩, ⟨0, 0, 0⟩⟩ ⟨⟨0, 0, 0⟩, 8, [⟨12, ⟨1, 1, 1⟩⟩], 0⟩ rfl
    (sample_scattering _ _ _ _ (by decide)) (by decide)).2.1 (Real.exp_pos _)).1

/-- A medium with one scattering and one absorption closure, sampled at the bounce cap. -/
theorem shader_sample_bounce_cap_witness :
    ∃ coeff sd2, volume_shader_sample sampleFlags
        (sampleExtern 8 [⟨12, ⟨1, 1, 1⟩⟩, ⟨11, ⟨1, 2, 3⟩⟩] 0) ⟨1, 3, 1, 0, 0⟩
        ⟨⟨0, 0, 0⟩, 0, [], 0⟩ ⟨0, 1, 0, []⟩ (⟨0, 0, 0⟩ : float3 ℝ) = (some coeff, sd2) ∧
      coeff.sigma_s = make_float3 0 0 0 ∧
      sd2.flag &&& sampleFlags.SD_SCATTER = 0 ∧ sd2.flag &&& sampleFlags.SD_ABSORPTION ≠ 0 := by
  obtain ⟨coeff, sd2, h1, h2, _, _, _, h6, h7⟩ :=
    (shader_sample_bounce_cap sampleFlags
      (sampleExtern 8 [⟨12, ⟨1, 1, 1⟩⟩, ⟨11, ⟨1, 2, 3⟩⟩] 0) ⟨1, 3, 1, 0, 0⟩
      ⟨⟨0, 0, 0⟩, 0, [], 0⟩ ⟨0, 1, 0, []⟩ (⟨0, 0, 0⟩ : float3 ℝ) (by decide) (by decide)
      (by decide)).1 (by decide)
  exact ⟨coeff, sd2, h1, h2, h6, h7⟩

/-- C15: a medium that scatters and emits but has no absorption closure: the flags are
`SD_SCATTER | SD_EMISSION`, `sigma_s = (1, 1, 1)`, `E = (1, 1, 1)`, `t = 1`.
`kernel_volume_emission_integrate` returns `E * t = (1, 1, 1)`, while
`E * (1 - T) / sigma_t` is `1 - exp(-1)`, which is not `1`. -/
theorem emission_integrate_scatter_only :
    kernel_volume_emission_integrate sampleFlags
        (⟨⟨0, 0, 0⟩, ⟨1, 1, 1⟩, ⟨1, 1, 1⟩⟩ : VolumeShaderCoefficients ℝ) 10
        (volume_color_transmittance Real.exp ⟨1, 1, 1⟩ 1) 1 = ⟨1, 1, 1⟩ ∧
    (1 : ℝ) * (1 - (volume_color_transmittance Real.exp (⟨1, 1, 1⟩ : float3 ℝ) 1).x) / 1 ≠ 1 := by
  constructor
  · have h : (10 : Nat) &&& 4 = 0 := by decide
    simp [kernel_volume_emission_integrate, sampleFlags, float3_mul_f, h]
  · simp [volume_color_transmittance, make_float3]


/-! ## Ray marching: control flow -/

section MarchingFlow

set_option linter.unusedSectionVars false

variable {F : Type} [Add F] [Sub F] [Mul F] [Div F] [Neg F] [Zero F] [One F] [OfNat F 3]
  [OfScientific F] [NatCast F] [IntCast F] [Min F] [LT F] [LE F]
  [DecidableRel (fun a b : F => a < b)] [DecidableRel (fun a b : F => a ≤ b)]
  [DecidableEq F]

/-- One iteration of the shadow marcher appends one record; the iteration leaves the
recorded throughput, and it ends the loop when the shader returned an extinction and the
recorded throughput is below the threshold. -/
theorem shadow_step_record (K : KernelFlags) (m : KernelMath F) (ext : KernelExtern F)
    (kg : KernelIntegrator F) (ray : Ray F) (i : Nat) (s : ShadowMarch F) :
    ∃ rec, (shadow_step K m ext kg ray i s).1.shaded = s.shaded ++ [rec] ∧
      (shadow_step K m ext kg ray i s).1.tp = rec.tp ∧
      (rec.closure_flag.isSome = true → below_tp_eps rec.tp = true →
        (shadow_step K m ext kg ray i s).2 = false) := by
  unfold shadow_step
  dsimp only
  split
  · rename_i sigma_t sd1 _
    split
    · rename_i hb
      exact ⟨_, rfl, rfl, fun _ _ => rfl⟩
    · rename_i hb
      refine ⟨_, rfl, rfl, fun _ h => ?_⟩
      exact absurd h hb
  · exact ⟨_, rfl, rfl, fun h _ => by simp at h⟩

/-- The records of the shadow marching loop: a record with an extinction and a throughput
below the threshold is the last one, and its throughput is the one the loop leaves. -/
theorem shadow_loop_records (K : KernelFlags) (m : KernelMath F) (ext : KernelExtern F)
    (kg : KernelIntegrator F) (ray : Ray F) (n : Nat) :
    ∀ (i : Nat) (s : ShadowMarch F), ∃ l,
      (shadow_loop K m ext kg ray n i s).shaded = s.shaded ++ l ∧
      ∀ (k : Nat) (rec : MarchRecord F), l[k]? = some rec →
        rec.closure_flag.isSome = true → below_tp_eps rec.tp = true →
        l.length = k + 1 ∧ (shadow_loop K m ext kg ray n i s).tp = rec.tp := by
  induction n with
  | zero =>
    intro i s
    exact ⟨[], by simp [shadow_loop], fun k rec h => by simp at h⟩
  | succ n ih =>
    intro i s
    obtain ⟨rec0, hsh, htp, hstop⟩ := shadow_step_record K m ext kg ray i s
    rw [shadow_loop]
    by_cases hgo : (shadow_step K m ext kg ray i s).2 = true
    · simp only [hgo, if_true]
      obtain ⟨l, hl, hrec⟩ := ih (i + 1) (shadow_step K m ext kg ray i s).1
      refine ⟨rec0 :: l, ?_, ?_⟩
      · rw [hl, hsh]; simp
      · intro k rec hk hsome hbelow
        cases k with
        | zero =>
          simp only [List.getElem?_cons_zero, Option.some.injEq] at hk
          subst hk
          have := hstop hsome hbelow
          rw [hgo] at this
          cases this
        | succ k =>
          simp only [List.getElem?_cons_succ] at hk
          obtain ⟨h1, h2⟩ := hrec k rec hk hsome hbelow
          exact ⟨by simp [h1], h2⟩
    · simp only [hgo, if_false]
      refine ⟨[rec0], hsh, ?_⟩
      intro k rec hk _ _
      cases k with
      | zero =>
        simp only [List.getElem?_cons_zero, Option.some.injEq] at hk
        subst hk
        exact ⟨rfl, htp⟩
      | succ k => simp at hk

/-- C20 (amended): in every run of `kernel_volume_shadow_heterogeneous`, if at step `k + 1`
the extinction shader returns an extinction and after that step all three throughput
channels are below `1e-10`, then the shader is evaluated exactly `k + 1` times and the
throughput returned is the one of that step, with all three channels below `1e-10`. -/
theorem shadow_early_exit (K : KernelFlags) (m : KernelMath F) (ext : KernelExtern F)
    (kg : KernelIntegrator F) (state : PathState) (ray : Ray F) (sd : VolumeShaderData F)
    (throughput : float3 F) (k : Nat) (rec : MarchRecord F)
    (hk : (kernel_volume_shadow_heterogeneous K m ext kg state ray sd throughput).shaded[k]?
      = some rec)
    (hsome : rec.closure_flag.isSome = true) (hbelow : below_tp_eps rec.tp = true) :
    (kernel_volume_shadow_heterogeneous K m ext kg state ray sd throughput).shaded.length
      = k + 1 ∧
    (kernel_volume_shadow_heterogeneous K m ext kg state ray sd throughput).throughput
      = rec.tp ∧
    below_tp_eps
      (kernel_volume_shadow_heterogeneous K m ext kg state ray sd throughput).throughput
      = true := by
  unfold kernel_volume_shadow_heterogeneous at hk ⊢
  simp only at hk ⊢
  obtain ⟨l, hl, hrec⟩ := shadow_loop_records K m ext kg ray kg.volume_max_steps.toNat 0
    ⟨throughput, 0, (ext.lcg_step_float state.rng_congruential).1 * kg.volume_step_size,
      (ext.lcg_step_float state.rng_congruential).2, sd, []⟩
  rw [hl] at hk ⊢
  simp only [List.nil_append] at hk ⊢
  obtain ⟨h1, h2⟩ := hrec k rec hk hsome hbelow
  exact ⟨h1, h2, by rw [h2]; exact hbelow⟩

/-- One iteration of the heterogeneous integrator appends one record.  When the record
says that the shader returned no coefficients, the iteration is not a scatter exit and it
leaves the throughput, the radiance accumulator and `has_scatter` as they were. -/
theorem heterogeneous_step_record (K : KernelFlags) (m : KernelMath F) (ext : KernelExtern F)
    (kg : KernelIntegrator F) (state : PathState) (ray : Ray F) (rng : PathSamples F)
    (undef : float3 F) (i : Nat) (s : IntegrateMarch F) :
    ∃ rec s1,
      (heterogeneous_step K m ext kg state ray rng undef i s = MarchStep.next s1 ∨
        heterogeneous_step K m ext kg state ray rng undef i s = MarchStep.stop s1 ∨
        (heterogeneous_step K m ext kg state ray rng undef i s = MarchStep.scattered s1 ∧
          rec.closure_flag ≠ none)) ∧
      s1.shaded = s.shaded ++ [rec] ∧
      (rec.closure_flag = none →
        s1.tp = s.tp ∧ s1.L = s.L ∧ s1.has_scatter = s.has_scatter) := by
  unfold heterogeneous_step
  dsimp only
  split
  · rename_i coeff sd1 _
    split
    · split
      · exact ⟨_, _, Or.inr (Or.inl rfl), rfl, fun h => by simp at h⟩
      · split
        · exact ⟨_, _, Or.inr (Or.inr ⟨rfl, by simp⟩), rfl, fun h => by simp at h⟩
        · split
          · exact ⟨_, _, Or.inr (Or.inl rfl), rfl, fun h => by simp at h⟩
          · exact ⟨_, _, Or.inl rfl, rfl, fun h => by simp at h⟩
    · split
      · exact ⟨_, _, Or.inr (Or.inl rfl), rfl, fun h => by simp at h⟩
      · exact ⟨_, _, Or.inl rfl, rfl, fun h => by simp at h⟩
  · split
    · exact ⟨_, _, Or.inr (Or.inl rfl), rfl, fun _ => ⟨rfl, rfl, rfl⟩⟩
    · exact ⟨_, _, Or.inl rfl, rfl, fun _ => ⟨rfl, rfl, rfl⟩⟩

/-- The records of the heterogeneous marching loop: when every record of the loop says
that the shader returned no coefficients, the loop is not left by a scatter exit and it
leaves the throughput, the radiance accumulator and `has_scatter` as they were. -/
theorem heterogeneous_loop_records (K : KernelFlags) (m : KernelMath F)
    (ext : KernelExtern F) (kg : KernelIntegrator F) (state : PathState) (ray : Ray F)
    (rng : PathSamples F) (undef : float3 F) (n : Nat) :
    ∀ (i : Nat) (s : IntegrateMarch F), ∃ l,
      (heterogeneous_loop K m ext kg state ray rng undef n i s).1.shaded = s.shaded ++ l ∧
      ((∀ rec ∈ l, rec.closure_flag = none) →
        (heterogeneous_loop K m ext kg state ray rng undef n i s).2 = false ∧
        (heterogeneous_loop K m ext kg state ray rng undef n i s).1.tp = s.tp ∧
        (heterogeneous_loop K m ext kg state ray rng undef n i s).1.L = s.L ∧
        (heterogeneous_loop K m ext kg state ray rng undef n i s).1.has_scatter
          = s.has_scatter) := by
  induction n with
  | zero =>
    intro i s
    exact ⟨[], by simp [heterogeneous_loop], fun _ => ⟨rfl, rfl, rfl, rfl⟩⟩
  | succ n ih =>
    intro i s
    obtain ⟨rec0, s1, hstep, hsh, hkeep⟩ :=
      heterogeneous_step_record K m ext kg state ray rng undef i s
    rw [heterogeneous_loop]
    rcases hstep with h | h | ⟨h, hflag⟩
    · rw [h]
      obtain ⟨l, hl, hall⟩ := ih (i + 1) s1
      refine ⟨rec0 :: l, ?_, ?_⟩
      · show (heterogeneous_loop K m ext kg state ray rng undef n (i + 1) s1).1.shaded = _
        rw [hl, hsh]; simp
      · intro hnone
        obtain ⟨k1, k2, k3⟩ := hkeep (hnone rec0 (List.mem_cons_self _ _))
        obtain ⟨a1, a2, a3, a4⟩ := hall (fun r hr => hnone r (List.mem_cons_of_mem _ hr))
        exact ⟨a1, a2.trans k1, a3.trans k2, a4.trans k3⟩
    · rw [h]
      refine ⟨[rec0], hsh, ?_⟩
      intro hnone
      obtain ⟨k1, k2, k3⟩ := hkeep (hnone rec0 (List.mem_cons_self _ _))
      exact ⟨rfl, k1, k2, k3⟩
    · rw [h]
      refine ⟨[rec0], hsh, ?_⟩
      intro hnone
      exact absurd (hnone rec0 (List.mem_cons_self _ _)) hflag

/-- C17 (amended): when the shader produces none of the absorption, scattering and emission
flags, `kernel_volume_integrate` returns `VOLUME_PATH_MISSED` for a homogeneous stack (flags
at the segment start); for a heterogeneous stack (flags at every march step) it returns
`VOLUME_PATH_ATTENUATED` and leaves the throughput and the radiance accumulator as they
were. -/
theorem integrate_without_coefficients (KT : KernelTypes) (K : KernelFlags)
    (m : KernelMath F) (ext : KernelExtern F) (kg : KernelIntegrator F) (state : PathState)
    (sd : VolumeShaderData F) (ray : Ray F) (L : List (EmissionAccum F))
    (throughput : float3 F) (rng : PathSamples F) (branched : Bool) (undef : float3 F) :
    (volume_stack_is_heterogeneous KT K ext state.volume_stack = some false →
      (ext.shader_eval_volume ShaderContext.SHADER_CONTEXT_VOLUME
        { ext.shader_setup_from_volume sd ray state.bounce with P := ray.P }).flag &&&
        (K.SD_ABSORPTION ||| K.SD_SCATTER ||| K.SD_EMISSION) = 0 →
      ∃ r, kernel_volume_integrate KT K m ext kg state sd ray L throughput rng branched undef
          = some r ∧
        r.out.result = VolumeIntegrateResult.VOLUME_PATH_MISSED ∧
        r.out.throughput = throughput ∧ r.out.L = L) ∧
    (volume_stack_is_heterogeneous KT K ext state.volume_stack = some true →
      ∃ r, kernel_volume_integrate KT K m ext kg state sd ray L throughput rng branched undef
          = some r ∧
        ((∀ rec ∈ r.shaded, rec.closure_flag = none) →
          r.out.result = VolumeIntegrateResult.VOLUME_PATH_ATTENUATED ∧
          r.out.throughput = throughput ∧ r.out.L = L)) := by
  constructor
  · intro hstack hflags
    have hrun : kernel_volume_integrate KT K m ext kg state sd ray L throughput rng branched
        undef = some ⟨kernel_volume_integrate_homogeneous K m ext kg state ray
          (ext.shader_setup_from_volume sd ray state.bounce) L throughput rng branched
          undef, []⟩ := by
      unfold kernel_volume_integrate
      rw [hstack]
      rfl
    refine ⟨_, hrun, ?_⟩
    simp only [kernel_volume_integrate_homogeneous, volume_shader_sample, hflags, if_true]
    exact ⟨trivial, trivial, trivial⟩
  · intro hstack
    have hrun : kernel_volume_integrate KT K m ext kg state sd ray L throughput rng branched
        undef = some (kernel_volume_integrate_heterogeneous K m ext kg state ray
          (ext.shader_setup_from_volume sd ray state.bounce) L throughput rng undef) := by
      unfold kernel_volume_integrate
      rw [hstack]
      rfl
    refine ⟨_, hrun, ?_⟩
    intro hnone
    obtain ⟨l, hl, hall⟩ := heterogeneous_loop_records K m ext kg state ray rng undef
      kg.volume_max_steps.toNat 0
      ⟨throughput, 0, (ext.lcg_step_float state.rng_congruential).1 * kg.volume_step_size,
        make_float3 1 1 1, make_float3 0 0 0, make_float3 0 0 0, undef.x, -1, false,
        (ext.lcg_step_float state.rng_congruential).2,
        ext.shader_setup_from_volume sd ray state.bounce, L, []⟩
    have hshaded : (kernel_volume_integrate_heterogeneous K m ext kg state ray
        (ext.shader_setup_from_volume sd ray state.bounce) L throughput rng undef).shaded
        = l := by
      unfold kernel_volume_integrate_heterogeneous
      dsimp only
      split <;> simpa using hl
    rw [hshaded] at hnone
    obtain ⟨a1, a2, a3, a4⟩ := hall hnone
    unfold kernel_volume_integrate_heterogeneous
    dsimp only
    rw [a1]
    simp only [Bool.false_eq_true, if_false, a4, false_and, a2, a3]
    exact ⟨trivial, trivial, trivial⟩

end MarchingFlow

/-- C17 (as stated) fails for a heterogeneous stack: the shader flags nothing at any of
the three march steps, and `kernel_volume_integrate` returns `VOLUME_PATH_ATTENUATED`, not
`VOLUME_PATH_MISSED`. -/
theorem integrate_heterogeneous_not_missed :
    ∃ r, kernel_volume_integrate sampleTypes sampleFlags
        ⟨Real.exp, Real.log, Real.sqrt, fun y x => Complex.arg ⟨x, y⟩, Real.tan, Int.floor⟩
        (sampleExtern 0 [] 16) ⟨4, 3, 1, 0, 0⟩
        ⟨0, 0, 0, [⟨10, 1⟩, ⟨0, -1⟩, ⟨0, -1⟩, ⟨0, -1⟩]⟩ ⟨⟨0, 0, 0⟩, 0, [], 0⟩
        ⟨⟨0, 0, 0⟩, ⟨1, 0, 0⟩, 3, 0⟩ [] ⟨1, 1, 1⟩ ⟨0, 0, 0, 0, 0⟩ false ⟨0, 0, 0⟩ = some r ∧
      r.shaded.map (fun rec => rec.closure_flag) = [none, none, none] ∧
      r.out.result = VolumeIntegrateResult.VOLUME_PATH_ATTENUATED ∧
      r.out.result ≠ VolumeIntegrateResult.VOLUME_PATH_MISSED := by
  have hstack : volume_stack_is_heterogeneous sampleTypes sampleFlags
      (sampleExtern 0 [] 16 : KernelExtern ℝ) [⟨10, 1⟩, ⟨0, -1⟩, ⟨0, -1⟩, ⟨0, -1⟩]
      = some true := by decide
  have hrun : kernel_volume_integrate sampleTypes sampleFlags
      ⟨Real.exp, Real.log, Real.sqrt, fun y x => Complex.arg ⟨x, y⟩, Real.tan, Int.floor⟩
      (sampleExtern 0 [] 16) ⟨4, 3, 1, 0, 0⟩
      ⟨0, 0, 0, [⟨10, 1⟩, ⟨0, -1⟩, ⟨0, -1⟩, ⟨0, -1⟩]⟩ ⟨⟨0, 0, 0⟩, 0, [], 0⟩
      ⟨⟨0, 0, 0⟩, ⟨1, 0, 0⟩, 3, 0⟩ [] ⟨1, 1, 1⟩ ⟨0, 0, 0, 0, 0⟩ false ⟨0, 0, 0⟩ =
      some (kernel_volume_integrate_heterogeneous sampleFlags
        ⟨Real.exp, Real.log, Real.sqrt, fun y x => Complex.arg ⟨x, y⟩, Real.tan, Int.floor⟩
        (sampleExtern 0 [] 16) ⟨4, 3, 1, 0, 0⟩
        ⟨0, 0, 0, [⟨10, 1⟩, ⟨0, -1⟩, ⟨0, -1⟩, ⟨0, -1⟩]⟩ ⟨⟨0, 0, 0⟩, ⟨1, 0, 0⟩, 3, 0⟩
        ((sampleExtern 0 [] 16 : KernelExtern ℝ).shader_setup_from_volume
          ⟨⟨0, 0, 0⟩, 0, [], 0⟩ ⟨⟨0, 0, 0⟩, ⟨1, 0, 0⟩, 3, 0⟩ 0)
        [] ⟨1, 1, 1⟩ ⟨0, 0, 0, 0, 0⟩ ⟨0, 0, 0⟩) := by
    unfold kernel_volume_integrate
    simp only [hstack]
    rfl
  have hflags : (kernel_volume_integrate_heterogeneous sampleFlags
        ⟨Real.exp, Real.log, Real.sqrt, fun y x => Complex.arg ⟨x, y⟩, Real.tan, Int.floor⟩
        (sampleExtern 0 [] 16) ⟨4, 3, 1, 0, 0⟩
        ⟨0, 0, 0, [⟨10, 1⟩, ⟨0, -1⟩, ⟨0, -1⟩, ⟨0, -1⟩]⟩ ⟨⟨0, 0, 0⟩, ⟨1, 0, 0⟩, 3, 0⟩
        ((sampleExtern 0 [] 16 : KernelExtern ℝ).shader_setup_from_volume
          ⟨⟨0, 0, 0⟩, 0, [], 0⟩ ⟨⟨0, 0, 0⟩, ⟨1, 0, 0⟩, 3, 0⟩ 0)
        [] ⟨1, 1, 1⟩ ⟨0, 0, 0, 0, 0⟩ ⟨0, 0, 0⟩).shaded.map (fun rec => rec.closure_flag)
      = [none, none, none] := by
    simp [kernel_volume_integrate_heterogeneous, heterogeneous_loop, heterogeneous_step,
      volume_shader_sample, sampleExtern, sampleFlags]
    norm_num
  have hres : (kernel_volume_integrate_heterogeneous sampleFlags
        ⟨Real.exp, Real.log, Real.sqrt, fun y x => Complex.arg ⟨x, y⟩, Real.tan, Int.floor⟩
        (sampleExtern 0 [] 16) ⟨4, 3, 1, 0, 0⟩
        ⟨0, 0, 0, [⟨10, 1⟩, ⟨0, -1⟩, ⟨0, -1⟩, ⟨0, -1⟩]⟩ ⟨⟨0, 0, 0⟩, ⟨1, 0, 0⟩, 3, 0⟩
        ((sampleExtern 0 [] 16 : KernelExtern ℝ).shader_setup_from_volume
          ⟨⟨0, 0, 0⟩, 0, [], 0⟩ ⟨⟨0, 0, 0⟩, ⟨1, 0, 0⟩, 3, 0⟩ 0)
        [] ⟨1, 1, 1⟩ ⟨0, 0, 0, 0, 0⟩ ⟨0, 0, 0⟩).out.result
      = VolumeIntegrateResult.VOLUME_PATH_ATTENUATED := by
    simp [kernel_volume_integrate_heterogeneous, heterogeneous_loop, heterogeneous_step,
      volume_shader_sample, sampleExtern, sampleFlags]
    norm_num
  refine ⟨_, hrun, hflags, hres, ?_⟩
  rw [hres]
  decide

/-- C20 (as stated) fails: the shadow marcher run with throughput `(0, 0, 0)`, three steps
of size 1 on a segment of length 3 and a shader that flags neither absorption nor
scattering.  After the first step all channels are below `1e-10`, and the shader is still
evaluated at all three steps. -/
theorem shadow_no_exit_without_extinction :
    (kernel_volume_shadow_heterogeneous sampleFlags
        ⟨Real.exp, Real.log, Real.sqrt, fun y x => Complex.arg ⟨x, y⟩, Real.tan, Int.floor⟩
        (sampleExtern 0 [] 0) ⟨4, 3, 1, 0, 0⟩ ⟨0, 0, 0, []⟩ ⟨⟨0, 0, 0⟩, ⟨1, 0, 0⟩, 3, 0⟩
        ⟨⟨0, 0, 0⟩, 0, [], 0⟩ ⟨0, 0, 0⟩).shaded.map (fun rec => below_tp_eps rec.tp)
      = [true, true, true] ∧
    ¬ (∀ (k : Nat) (rec : MarchRecord ℝ),
      (kernel_volume_shadow_heterogeneous sampleFlags
        ⟨Real.exp, Real.log, Real.sqrt, fun y x => Complex.arg ⟨x, y⟩, Real.tan, Int.floor⟩
        (sampleExtern 0 [] 0) ⟨4, 3, 1, 0, 0⟩ ⟨0, 0, 0, []⟩ ⟨⟨0, 0, 0⟩, ⟨1, 0, 0⟩, 3, 0⟩
        ⟨⟨0, 0, 0⟩, 0, [], 0⟩ ⟨0, 0, 0⟩).shaded[k]? = some rec →
      below_tp_eps rec.tp = true →
      (kernel_volume_shadow_heterogeneous sampleFlags
        ⟨Real.exp, Real.log, Real.sqrt, fun y x => Complex.arg ⟨x, y⟩, Real.tan, Int.floor⟩
        (sampleExtern 0 [] 0) ⟨4, 3, 1, 0, 0⟩ ⟨0, 0, 0, []⟩ ⟨⟨0, 0, 0⟩, ⟨1, 0, 0⟩, 3, 0⟩
        ⟨⟨0, 0, 0⟩, 0, [], 0⟩ ⟨0, 0, 0⟩).shaded.length = k + 1) := by
  have hmap : (kernel_volume_shadow_heterogeneous sampleFlags
        ⟨Real.exp, Real.log, Real.sqrt, fun y x => Complex.arg ⟨x, y⟩, Real.tan, Int.floor⟩
        (sampleExtern 0 [] 0) ⟨4, 3, 1, 0, 0⟩ ⟨0, 0, 0, []⟩ ⟨⟨0, 0, 0⟩, ⟨1, 0, 0⟩, 3, 0⟩
        ⟨⟨0, 0, 0⟩, 0, [], 0⟩ ⟨0, 0, 0⟩).shaded.map (fun rec => below_tp_eps rec.tp)
      = [true, true, true] := by
    simp [kernel_volume_shadow_heterogeneous, shadow_loop, shadow_step,
      volume_shader_extinction_sample, sampleExtern, sampleFlags, below_tp_eps]
    norm_num
  refine ⟨hmap, ?_⟩
  intro hall
  generalize (kernel_volume_shadow_heterogeneous sampleFlags
        ⟨Real.exp, Real.log, Real.sqrt, fun y x => Complex.arg ⟨x, y⟩, Real.tan, Int.floor⟩
        (sampleExtern 0 [] 0) ⟨4, 3, 1, 0, 0⟩ ⟨0, 0, 0, []⟩ ⟨⟨0, 0, 0⟩, ⟨1, 0, 0⟩, 3, 0⟩
        ⟨⟨0, 0, 0⟩, 0, [], 0⟩ ⟨0, 0, 0⟩).shaded = l at hmap hall
  match l, hmap, hall with
  | [], hmap, _ => simp at hmap
  | rec0 :: rest, hmap, hall =>
    have hlen := congrArg List.length hmap
    simp only [List.map_cons, List.cons.injEq] at hmap
    have h1 := hall 0 rec0 (by simp) hmap.1
    simp only [List.length_map, List.length_cons] at hlen h1
    omega

theorem float3_zero_mul (a : float3 ℝ) : (⟨0, 0, 0⟩ : float3 ℝ) * a = ⟨0, 0, 0⟩ := by
  show (⟨0 * a.x, 0 * a.y, 0 * a.z⟩ : float3 ℝ) = ⟨0, 0, 0⟩
  simp

/-- The shadow marcher on the sample absorbing medium with throughput `(0, 0, 0)`: the
first step multiplies the throughput by a transmittance and ends the loop. -/
theorem shadow_early_exit_witness :
    (kernel_volume_shadow_heterogeneous sampleFlags
        ⟨Real.exp, Real.log, Real.sqrt, fun y x => Complex.arg ⟨x, y⟩, Real.tan, Int.floor⟩
        (sampleExtern 4 [⟨11, ⟨1, 1, 1⟩⟩] 0) ⟨4, 3, 1, 0, 0⟩ ⟨0, 0, 0, []⟩
        ⟨⟨0, 0, 0⟩, ⟨1, 0, 0⟩, 3, 0⟩ ⟨⟨0, 0, 0⟩, 0, [], 0⟩ ⟨0, 0, 0⟩).shaded.length = 0 + 1 :=
  (shadow_early_exit sampleFlags
    ⟨Real.exp, Real.log, Real.sqrt, fun y x => Complex.arg ⟨x, y⟩, Real.tan, Int.floor⟩
    (sampleExtern 4 [⟨11, ⟨1, 1, 1⟩⟩] 0) ⟨4, 3, 1, 0, 0⟩ ⟨0, 0, 0, []⟩
    ⟨⟨0, 0, 0⟩, ⟨1, 0, 0⟩, 3, 0⟩ ⟨⟨0, 0, 0⟩, 0, [], 0⟩ ⟨0, 0, 0⟩ 0
    ⟨0, 0, 1, 0, some 4, ⟨0, 0, 0⟩⟩
    (by
      have h48 : (4 : Nat) &&& (4 ||| 8) = 4 := by decide
      simp [kernel_volume_shadow_heterogeneous, shadow_loop, shadow_step,
        volume_shader_extinction_sample, sampleExtern, sampleFlags, below_tp_eps, h48,
        volume_color_transmittance, make_float3, float3_zero_mul]
      norm_num)
    rfl
    (by simp [below_tp_eps]; norm_num)).1

/-- The sample medium that flags nothing, under a stack whose shader is not heterogeneous:
the homogeneous integrator is taken and reports a miss. -/
theorem integrate_without_coefficients_witness :
    ∃ r, kernel_volume_integrate sampleTypes sampleFlags
        ⟨Real.exp, Real.log, Real.sqrt, fun y x => Complex.arg ⟨x, y⟩, Real.tan, Int.floor⟩
        (sampleExtern 0 [] 0) ⟨4, 3, 1, 0, 0⟩
        ⟨0, 0, 0, [⟨10, 1⟩, ⟨0, -1⟩, ⟨0, -1⟩, ⟨0, -1⟩]⟩ ⟨⟨0, 0, 0⟩, 0, [], 0⟩
        ⟨⟨0, 0, 0⟩, ⟨1, 0, 0⟩, 3, 0⟩ [] ⟨1, 1, 1⟩ ⟨0, 0, 0, 0, 0⟩ false ⟨0, 0, 0⟩ = some r ∧
      r.out.result = VolumeIntegrateResult.VOLUME_PATH_MISSED ∧
      r.out.throughput = ⟨1, 1, 1⟩ ∧ r.out.L = [] :=
  (integrate_without_coefficients sampleTypes sampleFlags
    ⟨Real.exp, Real.log, Real.sqrt, fun y x => Complex.arg ⟨x, y⟩, Real.tan, Int.floor⟩
    (sampleExtern 0 [] 0) ⟨4, 3, 1, 0, 0⟩
    ⟨0, 0, 0, [⟨10, 1⟩, ⟨0, -1⟩, ⟨0, -1⟩, ⟨0, -1⟩]⟩ ⟨⟨0, 0, 0⟩, 0, [], 0⟩
    ⟨⟨0, 0, 0⟩, ⟨1, 0, 0⟩, 3, 0⟩ [] ⟨1, 1, 1⟩ ⟨0, 0, 0, 0, 0⟩ false ⟨0, 0, 0⟩).1
    (by decide) (by decide)

/-! ## The heterogeneous integrator on a medium of constant coefficients -/

theorem float3_eq_of_channels (a b : float3 ℝ) (hx : a.x = b.x) (hy : a.y = b.y)
    (hz : a.z = b.z) : a = b := by
  cases a
  cases b
  simp only at hx hy hz
  rw [hx, hy, hz]

theorem float3_mul_f_x (a : float3 ℝ) (f : ℝ) : (float3_mul_f a f).x = a.x * f := rfl
theorem float3_mul_f_y (a : float3 ℝ) (f : ℝ) : (float3_mul_f a f).y = a.y * f := rfl
theorem float3_mul_f_z (a : float3 ℝ) (f : ℝ) : (float3_mul_f a f).z = a.z * f := rfl
theorem float3_div_f_x (a : float3 ℝ) (f : ℝ) : (float3_div_f a f).x = a.x / f := rfl
theorem float3_div_f_y (a : float3 ℝ) (f : ℝ) : (float3_div_f a f).y = a.y / f := rfl
theorem float3_div_f_z (a : float3 ℝ) (f : ℝ) : (float3_div_f a f).z = a.z / f := rfl
theorem float3_add_x (a b : float3 ℝ) : (a + b).x = a.x + b.x := rfl
theorem float3_add_y (a b : float3 ℝ) : (a + b).y = a.y + b.y := rfl
theorem float3_add_z (a b : float3 ℝ) : (a + b).z = a.z + b.z := rfl
theorem transmittance_x (sigma : float3 ℝ) (t : ℝ) :
    (volume_color_transmittance Real.exp sigma t).x = Real.exp (-sigma.x * t) := rfl
theorem transmittance_y (sigma : float3 ℝ) (t : ℝ) :
    (volume_color_transmittance Real.exp sigma t).y = Real.exp (-sigma.y * t) := rfl
theorem transmittance_z (sigma : float3 ℝ) (t : ℝ) :
    (volume_color_transmittance Real.exp sigma t).z = Real.exp (-sigma.z * t) := rfl

/-- Transmittances over consecutive stretches multiply. -/
theorem transmittance_add (sigma : float3 ℝ) (a b : ℝ) :
    volume_color_transmittance Real.exp sigma a * volume_color_transmittance Real.exp sigma b =
      volume_color_transmittance Real.exp sigma (a + b) := by
  apply float3_eq_of_channels
  · rw [float3_mul_x, transmittance_x, transmittance_x, transmittance_x, ← Real.exp_add]
    congr 1
    ring
  · rw [float3_mul_y, transmittance_y, transmittance_y, transmittance_y, ← Real.exp_add]
    congr 1
    ring
  · rw [float3_mul_z, transmittance_z, transmittance_z, transmittance_z, ← Real.exp_add]
    congr 1
    ring

theorem float3_mul_f_add (sigma : float3 ℝ) (a b : ℝ) :
    float3_mul_f sigma a + float3_mul_f sigma b = float3_mul_f sigma (a + b) := by
  apply float3_eq_of_channels
  · rw [float3_add_x, float3_mul_f_x, float3_mul_f_x, float3_mul_f_x]
    ring
  · rw [float3_add_y, float3_mul_f_y, float3_mul_f_y, float3_mul_f_y]
    ring
  · rw [float3_add_z, float3_mul_f_z, float3_mul_f_z, float3_mul_f_z]
    ring

theorem float3_div_mul_f (sigma : float3 ℝ) (a : ℝ) (ha : a ≠ 0) :
    float3_div_f (float3_mul_f sigma a) a = sigma := by
  apply float3_eq_of_channels
  · rw [float3_div_f_x, float3_mul_f_x]
    field_simp
  · rw [float3_div_f_y, float3_mul_f_y]
    field_simp
  · rw [float3_div_f_z, float3_mul_f_z]
    field_simp

theorem channel_get_mul_f (sigma : float3 ℝ) (a : ℝ) (c : Int) :
    kernel_volume_channel_get (float3_mul_f sigma a) c =
      kernel_volume_channel_get sigma c * a := by
  unfold kernel_volume_channel_get
  split_ifs <;> rfl

theorem channel_get_pos (sigma : float3 ℝ) (c : Int)
    (h : 0 < sigma.x ∧ 0 < sigma.y ∧ 0 < sigma.z) : 0 < kernel_volume_channel_get sigma c := by
  unfold kernel_volume_channel_get
  split_ifs
  · exact h.1
  · exact h.2.1
  · exact h.2.2

theorem float3_mul_assoc (a b c : float3 ℝ) : a * b * c = a * (b * c) := by
  apply float3_eq_of_channels
  · simp only [float3_mul_x]
    ring
  · simp only [float3_mul_y]
    ring
  · simp only [float3_mul_z]
    ring

theorem float3_mul_right_comm (a b c : float3 ℝ) : a * b * c = a * c * b := by
  apply float3_eq_of_channels
  · simp only [float3_mul_x]
    ring
  · simp only [float3_mul_y]
    ring
  · simp only [float3_mul_z]
    ring

/-- The sampling block of one iteration of the heterogeneous integrator on a medium of
constant coefficients for which the shader flags scattering: the block scatters exactly
when `-log(1 - xi)` is below the extinction of the selected channel times the step end. -/
theorem segment_constant (K : KernelFlags) (m : KernelMath ℝ) (rng : PathSamples ℝ)
    (s : IntegrateMarch ℝ) (coeff : VolumeShaderCoefficients ℝ) (closure_flag : Nat)
    (new_t dt : ℝ) (undef : float3 ℝ) (v : StepLocals ℝ)
    (hv : heterogeneous_segment K m rng s coeff closure_flag new_t dt undef = v)
    (throughput : float3 ℝ)
    (hexp : m.expf = Real.exp) (hlog : m.logf = Real.log)
    (hf : closure_flag &&& K.SD_SCATTER ≠ 0)
    (hdt : dt = new_t - s.t) (hnew : 0 < new_t)
    (hxi0 : 0 < rng.scatter_distance) (hxi1 : rng.scatter_distance < 1)
    (hsigma : 0 < (coeff.sigma_a + coeff.sigma_s).x ∧ 0 < (coeff.sigma_a + coeff.sigma_s).y ∧
      0 < (coeff.sigma_a + coeff.sigma_s).z)
    (htp : s.tp = throughput *
      volume_color_transmittance Real.exp (coeff.sigma_a + coeff.sigma_s) s.t)
    (hat : s.accum_transmittance =
      volume_color_transmittance Real.exp (coeff.sigma_a + coeff.sigma_s) s.t)
    (hst : s.accum_sigma_t = float3_mul_f (coeff.sigma_a + coeff.sigma_s) s.t)
    (hss : s.accum_sigma_s = float3_mul_f coeff.sigma_s s.t)
    (hch : s.channel = -1 ∨ (s.channel = m.float_to_int (rng.phase * 3) ∧
      s.nlogxi = -Real.log (1 - rng.scatter_distance))) :
    (-Real.log (1 - rng.scatter_distance) <
        kernel_volume_channel_get (coeff.sigma_a + coeff.sigma_s)
          (m.float_to_int (rng.phase * 3)) * new_t →
      v.scatter = true ∧
      v.new_t = -Real.log (1 - rng.scatter_distance) /
        kernel_volume_channel_get (coeff.sigma_a + coeff.sigma_s)
          (m.float_to_int (rng.phase * 3)) ∧
      v.new_tp = spec_scatter_throughput Real.exp throughput coeff.sigma_s
        (coeff.sigma_a + coeff.sigma_s)
        (-Real.log (1 - rng.scatter_distance) /
          kernel_volume_channel_get (coeff.sigma_a + coeff.sigma_s)
            (m.float_to_int (rng.phase * 3)))) ∧
    (¬ -Real.log (1 - rng.scatter_distance) <
        kernel_volume_channel_get (coeff.sigma_a + coeff.sigma_s)
          (m.float_to_int (rng.phase * 3)) * new_t →
      v.scatter = false ∧ v.new_t = new_t ∧
      v.new_tp = throughput *
        volume_color_transmittance Real.exp (coeff.sigma_a + coeff.sigma_s) new_t ∧
      v.accum_transmittance =
        volume_color_transmittance Real.exp (coeff.sigma_a + coeff.sigma_s) new_t ∧
      v.accum_sigma_t = float3_mul_f (coeff.sigma_a + coeff.sigma_s) new_t ∧
      v.accum_sigma_s = float3_mul_f coeff.sigma_s new_t ∧
      v.channel = m.float_to_int (rng.phase * 3) ∧
      v.nlogxi = -Real.log (1 - rng.scatter_distance) ∧
      v.has_scatter = true) := by
  have hc := channel_get_pos (coeff.sigma_a + coeff.sigma_s) (m.float_to_int (rng.phase * 3))
    hsigma
  have hnu : 0 < -Real.log (1 - rng.scatter_distance) := by
    have : Real.log (1 - rng.scatter_distance) < 0 :=
      Real.log_neg (by linarith) (by linarith)
    linarith
  have hchan : (if s.channel = -1 then m.float_to_int (rng.phase * 3) else s.channel) =
      m.float_to_int (rng.phase * 3) := by
    rcases hch with h | h
    · rw [if_pos h]
    · split_ifs with h1
      · rfl
      · exact h.1
  have hnl : (if s.channel = -1 then -m.logf (1 - rng.scatter_distance) else s.nlogxi) =
      -Real.log (1 - rng.scatter_distance) := by
    rcases hch with h | h
    · rw [if_pos h, hlog]
    · split_ifs with h1
      · rw [hlog]
      · exact h.2
  have hsum : ∀ a : ℝ, s.t + (a - s.t) = a := fun a => by ring
  subst hv
  unfold heterogeneous_segment
  simp only [hf, ne_eq, not_false_eq_true, true_or, if_true, hchan, hnl, hst, hss, hat, htp,
    hexp, hdt, float3_mul_f_add, transmittance_add, hsum, channel_get_mul_f]
  constructor
  · intro hlt
    have hne : new_t ≠ 0 := ne_of_gt hnew
    have hd : kernel_volume_channel_get (coeff.sigma_a + coeff.sigma_s)
        (m.float_to_int (rng.phase * 3)) * new_t / new_t =
        kernel_volume_channel_get (coeff.sigma_a + coeff.sigma_s)
          (m.float_to_int (rng.phase * 3)) := by
      field_simp
    have hs0 : -Real.log (1 - rng.scatter_distance) /
        kernel_volume_channel_get (coeff.sigma_a + coeff.sigma_s)
          (m.float_to_int (rng.phase * 3)) ≠ 0 := ne_of_gt (div_pos hnu hc)
    simp only [hlt, if_true, hd, float3_div_mul_f _ _ hs0, true_and]
    unfold spec_scatter_throughput
    rw [float3_mul_right_comm, float3_mul_assoc throughput, transmittance_add, hsum,
      float3_mul_right_comm]
  · intro hlt
    simp only [hlt, if_false, true_and, and_self]
    refine ⟨?_, trivial⟩
    rw [float3_mul_assoc, transmittance_add, hsum]

/-- One iteration of the heterogeneous integrator on a medium of constant coefficients for
which the shader flags scattering, entered in a state of `constant_medium_state`: the
iteration appends one record; when the throughput of that record is not below the
threshold, the iteration scatters, ends the march at the segment end, or goes on in a state
of `constant_medium_state`, according to the position of `-log(1 - xi)`. -/
theorem heterogeneous_step_constant (K : KernelFlags) (m : KernelMath ℝ)
    (ext : KernelExtern ℝ) (kg : KernelIntegrator ℝ) (state : PathState) (ray : Ray ℝ)
    (rng : PathSamples ℝ) (undef : float3 ℝ) (coeff : VolumeShaderCoefficients ℝ)
    (sdf : VolumeShaderData ℝ → float3 ℝ → VolumeShaderData ℝ) (throughput : float3 ℝ)
    (hexp : m.expf = Real.exp) (hlog : m.logf = Real.log)
    (hmed : ∀ sd1 P, volume_shader_sample K ext kg sd1 state P = (some coeff, sdf sd1 P))
    (hflag : ∀ sd1 P, (sdf sd1 P).flag &&& K.SD_SCATTER ≠ 0)
    (hsigma : 0 < (coeff.sigma_a + coeff.sigma_s).x ∧ 0 < (coeff.sigma_a + coeff.sigma_s).y ∧
      0 < (coeff.sigma_a + coeff.sigma_s).z)
    (hstep : 0 < kg.volume_step_size) (ht : 0 < ray.t)
    (hxi0 : 0 < rng.scatter_distance) (hxi1 : rng.scatter_distance < 1)
    (i : Nat) (s : IntegrateMarch ℝ)
    (hinv : constant_medium_state kg.volume_step_size ray.t throughput
      (coeff.sigma_a + coeff.sigma_s) coeff.sigma_s (m.float_to_int (rng.phase * 3))
      (-Real.log (1 - rng.scatter_distance)) i s) :
    ∃ rec s1,
      (heterogeneous_step K m ext kg state ray rng undef i s = MarchStep.next s1 ∨
        heterogeneous_step K m ext kg state ray rng undef i s = MarchStep.stop s1 ∨
        heterogeneous_step K m ext kg state ray rng undef i s = MarchStep.scattered s1) ∧
      s1.shaded = s.shaded ++ [rec] ∧
      (below_tp_eps rec.tp = false →
        (-Real.log (1 - rng.scatter_distance) <
            kernel_volume_channel_get (coeff.sigma_a + coeff.sigma_s)
              (m.float_to_int (rng.phase * 3)) *
              min ray.t (((i + 1 : Nat) : ℝ) * kg.volume_step_size) →
          heterogeneous_step K m ext kg state ray rng undef i s = MarchStep.scattered s1 ∧
          s1.tp = spec_scatter_throughput Real.exp throughput coeff.sigma_s
            (coeff.sigma_a + coeff.sigma_s)
            (-Real.log (1 - rng.scatter_distance) /
              kernel_volume_channel_get (coeff.sigma_a + coeff.sigma_s)
                (m.float_to_int (rng.phase * 3))) ∧
          s1.sd.P = ray.P + float3_mul_f ray.D
            (-Real.log (1 - rng.scatter_distance) /
              kernel_volume_channel_get (coeff.sigma_a + coeff.sigma_s)
                (m.float_to_int (rng.phase * 3)))) ∧
        (¬ -Real.log (1 - rng.scatter_distance) <
            kernel_volume_channel_get (coeff.sigma_a + coeff.sigma_s)
              (m.float_to_int (rng.phase * 3)) *
              min ray.t (((i + 1 : Nat) : ℝ) * kg.volume_step_size) →
          (min ray.t (((i + 1 : Nat) : ℝ) * kg.volume_step_size) = ray.t →
            heterogeneous_step K m ext kg state ray rng undef i s = MarchStep.stop s1 ∧
            s1.tp = throughput *
              volume_color_transmittance Real.exp (coeff.sigma_a + coeff.sigma_s) ray.t ∧
            s1.accum_transmittance =
              volume_color_transmittance Real.exp (coeff.sigma_a + coeff.sigma_s) ray.t ∧
            s1.has_scatter = true) ∧
          (min ray.t (((i + 1 : Nat) : ℝ) * kg.volume_step_size) ≠ ray.t →
            heterogeneous_step K m ext kg state ray rng undef i s = MarchStep.next s1 ∧
            constant_medium_state kg.volume_step_size ray.t throughput
              (coeff.sigma_a + coeff.sigma_s) coeff.sigma_s (m.float_to_int (rng.phase * 3))
              (-Real.log (1 - rng.scatter_distance)) (i + 1) s1))) ∧
      rec.tp =
        if -Real.log (1 - rng.scatter_distance) <
            kernel_volume_channel_get (coeff.sigma_a + coeff.sigma_s)
              (m.float_to_int (rng.phase * 3)) *
              min ray.t (((i + 1 : Nat) : ℝ) * kg.volume_step_size) then
          spec_scatter_throughput Real.exp throughput coeff.sigma_s
            (coeff.sigma_a + coeff.sigma_s)
            (-Real.log (1 - rng.scatter_distance) /
              kernel_volume_channel_get (coeff.sigma_a + coeff.sigma_s)
                (m.float_to_int (rng.phase * 3)))
        else throughput * volume_color_transmittance Real.exp (coeff.sigma_a + coeff.sigma_s)
          (min ray.t (((i + 1 : Nat) : ℝ) * kg.volume_step_size)) := by
  obtain ⟨h_t, h_lt, h_tp, h_at, h_st, h_ss, h_ch⟩ := hinv
  have hnew : 0 < min ray.t (((i + 1 : Nat) : ℝ) * kg.volume_step_size) := by
    apply lt_min ht
    have : (0 : ℝ) < ((i + 1 : Nat) : ℝ) := by exact_mod_cast Nat.succ_pos i
    exact mul_pos this hstep
  have hany : ∀ sd1 P, ¬ ((sdf sd1 P).flag &&& (K.SD_ABSORPTION ||| K.SD_SCATTER) = 0) :=
    fun sd1 P h => hflag sd1 P ((flag_any_iff _ _ _).mp h).2
  unfold heterogeneous_step
  simp only [hmed, hany, ne_eq, not_false_eq_true, if_true]
  generalize hv : heterogeneous_segment K m rng _ coeff _ _ _ undef = v
  have hseg := segment_constant K m rng _ coeff _ _ _ undef v hv throughput hexp hlog
    (hflag _ _) rfl hnew hxi0 hxi1 hsigma h_tp h_at h_st h_ss h_ch
  by_cases hnu : -Real.log (1 - rng.scatter_distance) <
      kernel_volume_channel_get (coeff.sigma_a + coeff.sigma_s)
        (m.float_to_int (rng.phase * 3)) *
        min ray.t (((i + 1 : Nat) : ℝ) * kg.volume_step_size)
  · obtain ⟨hsc, hnt, hntp⟩ := hseg.1 hnu
    rw [if_pos hnu]
    by_cases hb : below_tp_eps v.new_tp = true
    · rw [if_pos hb]
      refine ⟨_, _, Or.inr (Or.inl rfl), rfl, ?_, hntp⟩
      intro hnb
      rw [hb] at hnb
      exact absurd hnb (by simp)
    · rw [if_neg hb, if_pos hsc]
      refine ⟨_, _, Or.inr (Or.inr rfl), rfl, ?_, hntp⟩
      intro _
      refine ⟨fun _ => ⟨rfl, hntp, ?_⟩, fun h => absurd hnu h⟩
      show ray.P + float3_mul_f ray.D v.new_t = _
      rw [hnt]
  · obtain ⟨hsc, hnt, hntp, hat, hst, hss, hchan, hnl, hhs⟩ := hseg.2 hnu
    rw [if_neg hnu]
    have hsc1 : ¬ (v.scatter = true) := by
      rw [hsc]
      simp
    by_cases hb : below_tp_eps v.new_tp = true
    · rw [if_pos hb]
      refine ⟨_, _, Or.inr (Or.inl rfl), rfl, ?_, hntp⟩
      intro hnb
      rw [hb] at hnb
      exact absurd hnb (by simp)
    · rw [if_neg hb, if_neg hsc1, hnt]
      by_cases he : min ray.t (((i + 1 : Nat) : ℝ) * kg.volume_step_size) = ray.t
      · rw [if_pos he]
        refine ⟨_, _, Or.inr (Or.inl rfl), rfl, ?_, hntp⟩
        intro _
        refine ⟨fun h => absurd h hnu, fun _ => ⟨fun _ => ⟨rfl, ?_, ?_, hhs⟩,
          fun h => absurd he h⟩⟩
        · show v.new_tp = _
          rw [hntp, he]
        · show v.accum_transmittance = _
          rw [hat, he]
      · rw [if_neg he]
        refine ⟨_, _, Or.inl rfl, rfl, ?_, hntp⟩
        intro _
        refine ⟨fun h => absurd h hnu, fun _ => ⟨fun h => absurd h he, fun _ => ⟨rfl, ?_⟩⟩⟩
        have hmin : min ray.t (((i + 1 : Nat) : ℝ) * kg.volume_step_size) =
            ((i + 1 : Nat) : ℝ) * kg.volume_step_size := by
          rcases min_choice ray.t (((i + 1 : Nat) : ℝ) * kg.volume_step_size) with h | h
          · exact absurd h he
          · exact h
        have hlt : ((i + 1 : Nat) : ℝ) * kg.volume_step_size < ray.t := by
          rcases lt_or_eq_of_le (min_le_left ray.t
            (((i + 1 : Nat) : ℝ) * kg.volume_step_size)) with h | h
          · rw [hmin] at h
            exact h
          · exact absurd h he
        exact ⟨hmin, lt_of_eq_of_lt hmin hlt, hntp, hat, hst, hss, Or.inr ⟨hchan, hnl⟩⟩

theorem march_step_next_ne_stop {s1 s2 : IntegrateMarch ℝ} {x : MarchStep ℝ}
    (h1 : x = MarchStep.next s1) (h2 : x = MarchStep.stop s2) : False := by
  rw [h1] at h2
  cases h2

theorem march_step_next_ne_scattered {s1 s2 : IntegrateMarch ℝ} {x : MarchStep ℝ}
    (h1 : x = MarchStep.next s1) (h2 : x = MarchStep.scattered s2) : False := by
  rw [h1] at h2
  cases h2

theorem march_step_stop_ne_scattered {s1 s2 : IntegrateMarch ℝ} {x : MarchStep ℝ}
    (h1 : x = MarchStep.stop s1) (h2 : x = MarchStep.scattered s2) : False := by
  rw [h1] at h2
  cases h2

/-- The marching loop of the heterogeneous integrator on a medium of constant coefficients
for which the shader flags scattering, entered in a state of `constant_medium_state` with
enough iterations left to reach the segment end: when no record of the loop has a
throughput below the threshold, the loop is left by the scatter exit exactly when
`nu = -log(1 - xi)` is below `sigma_c * ray.t`. -/
theorem heterogeneous_loop_constant (K : KernelFlags) (m : KernelMath ℝ)
    (ext : KernelExtern ℝ) (kg : KernelIntegrator ℝ) (state : PathState) (ray : Ray ℝ)
    (rng : PathSamples ℝ) (undef : float3 ℝ) (coeff : VolumeShaderCoefficients ℝ)
    (sdf : VolumeShaderData ℝ → float3 ℝ → VolumeShaderData ℝ) (throughput : float3 ℝ)
    (hexp : m.expf = Real.exp) (hlog : m.logf = Real.log)
    (hmed : ∀ sd1 P, volume_shader_sample K ext kg sd1 state P = (some coeff, sdf sd1 P))
    (hflag : ∀ sd1 P, (sdf sd1 P).flag &&& K.SD_SCATTER ≠ 0)
    (hsigma : 0 < (coeff.sigma_a + coeff.sigma_s).x ∧ 0 < (coeff.sigma_a + coeff.sigma_s).y ∧
      0 < (coeff.sigma_a + coeff.sigma_s).z)
    (hstep : 0 < kg.volume_step_size) (ht : 0 < ray.t)
    (hxi0 : 0 < rng.scatter_distance) (hxi1 : rng.scatter_distance < 1)
    (nu sc : ℝ) (hnu : nu = -Real.log (1 - rng.scatter_distance))
    (hsc : sc = kernel_volume_channel_get (coeff.sigma_a + coeff.sigma_s)
      (m.float_to_int (rng.phase * 3))) (n : Nat) :
    ∀ (i : Nat) (s : IntegrateMarch ℝ),
      constant_medium_state kg.volume_step_size ray.t throughput
        (coeff.sigma_a + coeff.sigma_s) coeff.sigma_s (m.float_to_int (rng.phase * 3))
        nu i s →
      ray.t ≤ ((i + n : Nat) : ℝ) * kg.volume_step_size →
      (∀ rec ∈ ((heterogeneous_loop K m ext kg state ray rng undef n i s).1.shaded).drop
          s.shaded.length, below_tp_eps rec.tp = false) →
      (nu < sc * ray.t →
        (heterogeneous_loop K m ext kg state ray rng undef n i s).2 = true ∧
        (heterogeneous_loop K m ext kg state ray rng undef n i s).1.tp =
          spec_scatter_throughput Real.exp throughput coeff.sigma_s
            (coeff.sigma_a + coeff.sigma_s) (nu / sc) ∧
        (heterogeneous_loop K m ext kg state ray rng undef n i s).1.sd.P =
          ray.P + float3_mul_f ray.D (nu / sc)) ∧
      (¬ nu < sc * ray.t →
        (heterogeneous_loop K m ext kg state ray rng undef n i s).2 = false ∧
        (heterogeneous_loop K m ext kg state ray rng undef n i s).1.tp =
          throughput *
            volume_color_transmittance Real.exp (coeff.sigma_a + coeff.sigma_s) ray.t ∧
        (heterogeneous_loop K m ext kg state ray rng undef n i s).1.accum_transmittance =
          volume_color_transmittance Real.exp (coeff.sigma_a + coeff.sigma_s) ray.t ∧
        (heterogeneous_loop K m ext kg state ray rng undef n i s).1.has_scatter = true) := by
  subst hnu
  subst hsc
  have hc := channel_get_pos (coeff.sigma_a + coeff.sigma_s) (m.float_to_int (rng.phase * 3))
    hsigma
  induction n with
  | zero =>
    intro i s hinv hb _
    exfalso
    have h1 := hinv.1
    have h2 := hinv.2.1
    simp only [Nat.add_zero] at hb
    linarith
  | succ n ih =>
    intro i s hinv hb hthr
    obtain ⟨rec, s1, hcase, hsh, hres, _⟩ := heterogeneous_step_constant K m ext kg state ray rng
      undef coeff sdf throughput hexp hlog hmed hflag hsigma hstep ht hxi0 hxi1 i s hinv
    have hle : kernel_volume_channel_get (coeff.sigma_a + coeff.sigma_s)
        (m.float_to_int (rng.phase * 3)) *
          min ray.t (((i + 1 : Nat) : ℝ) * kg.volume_step_size) ≤
        kernel_volume_channel_get (coeff.sigma_a + coeff.sigma_s)
          (m.float_to_int (rng.phase * 3)) * ray.t :=
      mul_le_mul_of_nonneg_left (min_le_left _ _) (le_of_lt hc)
    rcases hcase with h | h | h
    · have e : heterogeneous_loop K m ext kg state ray rng undef (n + 1) i s =
          heterogeneous_loop K m ext kg state ray rng undef n (i + 1) s1 := by
        simp only [heterogeneous_loop, h]
      obtain ⟨l, hl, _⟩ := heterogeneous_loop_records K m ext kg state ray rng undef n
        (i + 1) s1
      rw [e] at hthr ⊢
      have hdrop : ((heterogeneous_loop K m ext kg state ray rng undef n (i + 1)
          s1).1.shaded).drop s.shaded.length = rec :: l := by
        rw [hl, hsh, List.append_assoc, List.drop_left]
        rfl
      have hnb : below_tp_eps rec.tp = false :=
        hthr rec (by rw [hdrop]; exact List.mem_cons_self _ _)
      obtain ⟨hA, hB⟩ := hres hnb
      by_cases hlt : -Real.log (1 - rng.scatter_distance) <
          kernel_volume_channel_get (coeff.sigma_a + coeff.sigma_s)
            (m.float_to_int (rng.phase * 3)) *
            min ray.t (((i + 1 : Nat) : ℝ) * kg.volume_step_size)
      · exact (march_step_next_ne_scattered h (hA hlt).1).elim
      · obtain ⟨hB1, hB2⟩ := hB hlt
        by_cases he : min ray.t (((i + 1 : Nat) : ℝ) * kg.volume_step_size) = ray.t
        · exact (march_step_next_ne_stop h (hB1 he).1).elim
        · have hidx : i + (n + 1) = i + 1 + n := by omega
          rw [hidx] at hb
          refine ih (i + 1) s1 (hB2 he).2 hb ?_
          intro r hr
          rw [hl, List.drop_left] at hr
          exact hthr r (by rw [hdrop]; exact List.mem_cons_of_mem _ hr)
    · have e : heterogeneous_loop K m ext kg state ray rng undef (n + 1) i s = (s1, false) := by
        simp only [heterogeneous_loop, h]
      rw [e] at hthr ⊢
      have hnb : below_tp_eps rec.tp = false :=
        hthr rec (by
          show rec ∈ List.drop s.shaded.length s1.shaded
          rw [hsh, List.drop_left]
          exact List.mem_singleton_self _)
      obtain ⟨hA, hB⟩ := hres hnb
      by_cases hlt : -Real.log (1 - rng.scatter_distance) <
          kernel_volume_channel_get (coeff.sigma_a + coeff.sigma_s)
            (m.float_to_int (rng.phase * 3)) *
            min ray.t (((i + 1 : Nat) : ℝ) * kg.volume_step_size)
      · exact (march_step_stop_ne_scattered h (hA hlt).1).elim
      · obtain ⟨hB1, hB2⟩ := hB hlt
        by_cases he : min ray.t (((i + 1 : Nat) : ℝ) * kg.volume_step_size) = ray.t
        · rw [he] at hlt
          obtain ⟨_, h2, h3, h4⟩ := hB1 he
          exact ⟨fun hh => absurd hh hlt, fun _ => ⟨rfl, h2, h3, h4⟩⟩
        · exact (march_step_next_ne_stop (hB2 he).1 h).elim
    · have e : heterogeneous_loop K m ext kg state ray rng undef (n + 1) i s = (s1, true) := by
        simp only [heterogeneous_loop, h]
      rw [e] at hthr ⊢
      have hnb : below_tp_eps rec.tp = false :=
        hthr rec (by
          show rec ∈ List.drop s.shaded.length s1.shaded
          rw [hsh, List.drop_left]
          exact List.mem_singleton_self _)
      obtain ⟨hA, hB⟩ := hres hnb
      by_cases hlt : -Real.log (1 - rng.scatter_distance) <
          kernel_volume_channel_get (coeff.sigma_a + coeff.sigma_s)
            (m.float_to_int (rng.phase * 3)) *
            min ray.t (((i + 1 : Nat) : ℝ) * kg.volume_step_size)
      · obtain ⟨_, h2, h3⟩ := hA hlt
        exact ⟨fun _ => ⟨rfl, h2, h3⟩, fun hh => absurd (lt_of_lt_of_le hlt hle) hh⟩
      · obtain ⟨hB1, hB2⟩ := hB hlt
        by_cases he : min ray.t (((i + 1 : Nat) : ℝ) * kg.volume_step_size) = ray.t
        · exact (march_step_stop_ne_scattered (hB1 he).1 h).elim
        · exact (march_step_next_ne_scattered (hB2 he).1 h).elim

theorem float3_div_third (a : float3 ℝ) (d : ℝ) :
    float3_div_f a (d * (1 / 3)) = float3_mul_f a (3 / d) := by
  have key : ∀ x : ℝ, x / (d * (1 / 3)) = x * (3 / d) := by
    intro x
    by_cases hd : d = 0
    · rw [hd]
      simp
    · field_simp
  apply float3_eq_of_channels
  · exact key a.x
  · exact key a.y
  · exact key a.z

theorem float3_div_mul_cancel (a b : float3 ℝ) (hx : b.x ≠ 0) (hy : b.y ≠ 0)
    (hz : b.z ≠ 0) : a / b * b = a := by
  apply float3_eq_of_channels
  · exact div_mul_cancel₀ a.x hx
  · exact div_mul_cancel₀ a.y hy
  · exact div_mul_cancel₀ a.z hz

theorem average_mul (a b : float3 ℝ) : average (a * b) = dot a b * (1 / 3) := rfl

/-- The non-branched homogeneous integrator with distance sampling on a medium for which
the shader flags scattering and whose extinction is positive in every channel: with
`T_c = exp(-sigma_c * ray.t)`, it scatters when `T_c <= xi`, at the distance
`d = -log(1 - (xi - T_c)) / sigma_c` and with the throughput
`tp * sigma_s * T(d) * 3 / dot(sigma_t, T(d))`; it returns `VOLUME_PATH_ATTENUATED` with
the throughput `tp * T(ray.t) * 3 / (T_x + T_y + T_z)` when `xi < T_c`. -/
theorem homogeneous_constant (K : KernelFlags) (m : KernelMath ℝ) (ext : KernelExtern ℝ)
    (kg : KernelIntegrator ℝ) (state : PathState) (ray : Ray ℝ) (sd : VolumeShaderData ℝ)
    (L : List (EmissionAccum ℝ)) (throughput : float3 ℝ) (rng : PathSamples ℝ)
    (undef : float3 ℝ) (coeff : VolumeShaderCoefficients ℝ) (sd1 : VolumeShaderData ℝ)
    (hexp : m.expf = Real.exp) (hlog : m.logf = Real.log)
    (hs : volume_shader_sample K ext kg sd state ray.P = (some coeff, sd1))
    (hsc : sd1.flag &&& K.SD_SCATTER ≠ 0)
    (hdist : kg.volume_homogeneous_sampling = 0 ∨ kg.num_all_lights = 0)
    (hsigma : 0 < (coeff.sigma_a + coeff.sigma_s).x ∧ 0 < (coeff.sigma_a + coeff.sigma_s).y ∧
      0 < (coeff.sigma_a + coeff.sigma_s).z)
    (ht : 0 < ray.t) (hxi1 : rng.scatter_distance < 1)
    (sc : ℝ) (hscdef : sc = kernel_volume_channel_get (coeff.sigma_a + coeff.sigma_s)
      (m.float_to_int (rng.phase * 3))) :
    (Real.exp (-sc * ray.t) ≤ rng.scatter_distance →
      (kernel_volume_integrate_homogeneous K m ext kg state ray sd L throughput rng false
        undef).result = VolumeIntegrateResult.VOLUME_PATH_SCATTERED ∧
      (kernel_volume_integrate_homogeneous K m ext kg state ray sd L throughput rng false
        undef).sd.P = ray.P + float3_mul_f ray.D
          (-Real.log (1 - (rng.scatter_distance - Real.exp (-sc * ray.t))) / sc) ∧
      (kernel_volume_integrate_homogeneous K m ext kg state ray sd L throughput rng false
        undef).throughput = spec_scatter_throughput Real.exp throughput coeff.sigma_s
          (coeff.sigma_a + coeff.sigma_s)
          (-Real.log (1 - (rng.scatter_distance - Real.exp (-sc * ray.t))) / sc)) ∧
    (rng.scatter_distance < Real.exp (-sc * ray.t) →
      (kernel_volume_integrate_homogeneous K m ext kg state ray sd L throughput rng false
        undef).result = VolumeIntegrateResult.VOLUME_PATH_ATTENUATED ∧
      (kernel_volume_integrate_homogeneous K m ext kg state ray sd L throughput rng false
        undef).throughput = spec_attenuated_throughput Real.exp throughput
          (coeff.sigma_a + coeff.sigma_s) ray.t) := by
  subst hscdef
  have hc := channel_get_pos (coeff.sigma_a + coeff.sigma_s) (m.float_to_int (rng.phase * 3))
    hsigma
  have hT1 : Real.exp (-kernel_volume_channel_get (coeff.sigma_a + coeff.sigma_s)
      (m.float_to_int (rng.phase * 3)) * ray.t) < 1 := by
    rw [Real.exp_lt_one_iff]
    nlinarith
  have hTx : Real.exp (-(coeff.sigma_a + coeff.sigma_s).x * ray.t) < 1 := by
    rw [Real.exp_lt_one_iff]
    nlinarith [hsigma.1]
  have hTy : Real.exp (-(coeff.sigma_a + coeff.sigma_s).y * ray.t) < 1 := by
    rw [Real.exp_lt_one_iff]
    nlinarith [hsigma.2.1]
  have hTz : Real.exp (-(coeff.sigma_a + coeff.sigma_s).z * ray.t) < 1 := by
    rw [Real.exp_lt_one_iff]
    nlinarith [hsigma.2.2]
  rw [homogeneous_with_scatter K m ext kg state ray sd L throughput rng false undef coeff sd1
    hs hsc]
  unfold homogeneous_scatter homogeneous_scatter_distance
  simp only [hdist, if_true, hexp, hlog, Bool.false_eq_true, if_false]
  constructor
  · intro hle
    have hgap : (1 : ℝ) - Real.exp (-kernel_volume_channel_get (coeff.sigma_a + coeff.sigma_s)
        (m.float_to_int (rng.phase * 3)) * ray.t) ≠ 0 := by linarith
    have hxi : (rng.scatter_distance - Real.exp (-kernel_volume_channel_get
          (coeff.sigma_a + coeff.sigma_s) (m.float_to_int (rng.phase * 3)) * ray.t)) /
        (1 - Real.exp (-kernel_volume_channel_get (coeff.sigma_a + coeff.sigma_s)
          (m.float_to_int (rng.phase * 3)) * ray.t)) *
        (1 - Real.exp (-kernel_volume_channel_get (coeff.sigma_a + coeff.sigma_s)
          (m.float_to_int (rng.phase * 3)) * ray.t)) =
        rng.scatter_distance - Real.exp (-kernel_volume_channel_get
          (coeff.sigma_a + coeff.sigma_s) (m.float_to_int (rng.phase * 3)) * ray.t) :=
      div_mul_cancel₀ _ hgap
    have hd : -Real.log (1 - (rng.scatter_distance - Real.exp (-kernel_volume_channel_get
          (coeff.sigma_a + coeff.sigma_s) (m.float_to_int (rng.phase * 3)) * ray.t))) /
        kernel_volume_channel_get (coeff.sigma_a + coeff.sigma_s)
          (m.float_to_int (rng.phase * 3)) < ray.t := by
      rw [div_lt_iff₀ hc]
      have hpos : 0 < Real.exp (-kernel_volume_channel_get (coeff.sigma_a + coeff.sigma_s)
          (m.float_to_int (rng.phase * 3)) * ray.t) := Real.exp_pos _
      have hlt : Real.exp (-kernel_volume_channel_get (coeff.sigma_a + coeff.sigma_s)
          (m.float_to_int (rng.phase * 3)) * ray.t) <
          1 - (rng.scatter_distance - Real.exp (-kernel_volume_channel_get
            (coeff.sigma_a + coeff.sigma_s) (m.float_to_int (rng.phase * 3)) * ray.t)) := by
        linarith
      have := Real.log_lt_log hpos hlt
      rw [Real.log_exp] at this
      linarith
    simp only [hle, if_true, kernel_volume_distance_sample, channel_get_transmittance, hxi,
      min_eq_right (le_of_lt hd), hd]
    refine ⟨trivial, trivial, ?_⟩
    unfold spec_scatter_throughput
    rw [float3_div_mul_cancel _ _ (by
        show (1 : ℝ) - Real.exp (-(coeff.sigma_a + coeff.sigma_s).x * ray.t) ≠ 0
        linarith) (by
        show (1 : ℝ) - Real.exp (-(coeff.sigma_a + coeff.sigma_s).y * ray.t) ≠ 0
        linarith) (by
        show (1 : ℝ) - Real.exp (-(coeff.sigma_a + coeff.sigma_s).z * ray.t) ≠ 0
        linarith), average_mul, float3_div_third]
  · intro hlt
    have hnle : ¬ Real.exp (-kernel_volume_channel_get (coeff.sigma_a + coeff.sigma_s)
        (m.float_to_int (rng.phase * 3)) * ray.t) ≤ rng.scatter_distance := not_le.mpr hlt
    simp only [hnle, if_false, lt_irrefl]
    refine ⟨trivial, ?_⟩
    unfold spec_attenuated_throughput
    rw [float3_div_third]

theorem transmittance_at_zero (sigma : float3 ℝ) :
    volume_color_transmittance Real.exp sigma 0 = make_float3 1 1 1 := by
  simp [volume_color_transmittance, make_float3]

theorem float3_mul_f_zero (sigma : float3 ℝ) : float3_mul_f sigma 0 = make_float3 0 0 0 := by
  simp [float3_mul_f, make_float3]

/-- The scatter test of the heterogeneous integrator in terms of the random number. -/
theorem scatter_condition_iff (x a : ℝ) (hx : x < 1) :
    -Real.log (1 - x) < a ↔ x < 1 - Real.exp (-a) := by
  have hpos : 0 < 1 - x := by linarith
  have h : -a < Real.log (1 - x) ↔ Real.exp (-a) < 1 - x := Real.lt_log_iff_exp_lt hpos
  constructor
  · intro hlt
    have : -a < Real.log (1 - x) := by linarith
    have := h.mp this
    linarith
  · intro hlt
    have : Real.exp (-a) < 1 - x := by linarith
    have := h.mpr this
    linarith

/-- The locals with which `kernel_volume_integrate_heterogeneous` enters its loop are a
state of `constant_medium_state` at index 0. -/
theorem constant_medium_initial (step_size ray_t : ℝ) (throughput sigma_t sigma_s : float3 ℝ)
    (c : Int) (nu : ℝ) (jitter nlogxi : ℝ) (rng_congruential : Nat)
    (sd : VolumeShaderData ℝ) (L : List (EmissionAccum ℝ)) (ht : 0 < ray_t) :
    constant_medium_state step_size ray_t throughput sigma_t sigma_s c nu 0
      ⟨throughput, 0, jitter, make_float3 1 1 1, make_float3 0 0 0, make_float3 0 0 0,
        nlogxi, -1, false, rng_congruential, sd, L, []⟩ := by
  refine ⟨?_, ht, ?_, ?_, ?_, ?_, Or.inl rfl⟩
  · show (0 : ℝ) = ((0 : Nat) : ℝ) * step_size
    simp
  · show throughput = throughput * volume_color_transmittance Real.exp _ 0
    rw [transmittance_at_zero, float3_mul_one]
  · show make_float3 1 1 1 = volume_color_transmittance Real.exp _ 0
    rw [transmittance_at_zero]
  · show make_float3 0 0 0 = float3_mul_f _ 0
    rw [float3_mul_f_zero]
  · show make_float3 0 0 0 = float3_mul_f _ 0
    rw [float3_mul_f_zero]

/-- The records of a march of one step through a medium of constant coefficients for which
the shader flags scattering: the march leaves one record, whose throughput is the scatter
throughput or the attenuated throughput, according to the scatter test. -/
theorem heterogeneous_one_step_records (K : KernelFlags) (m : KernelMath ℝ)
    (ext : KernelExtern ℝ) (kg : KernelIntegrator ℝ) (state : PathState) (ray : Ray ℝ)
    (sd : VolumeShaderData ℝ) (L : List (EmissionAccum ℝ)) (throughput : float3 ℝ)
    (rng : PathSamples ℝ) (undef : float3 ℝ) (coeff : VolumeShaderCoefficients ℝ)
    (hexp : m.expf = Real.exp) (hlog : m.logf = Real.log)
    (hmed : ∀ sd1 P, ∃ sd2, volume_shader_sample K ext kg sd1 state P = (some coeff, sd2) ∧
      sd2.flag &&& K.SD_SCATTER ≠ 0)
    (hsigma : 0 < (coeff.sigma_a + coeff.sigma_s).x ∧ 0 < (coeff.sigma_a + coeff.sigma_s).y ∧
      0 < (coeff.sigma_a + coeff.sigma_s).z)
    (hstep : 0 < kg.volume_step_size) (ht : 0 < ray.t)
    (hxi0 : 0 < rng.scatter_distance) (hxi1 : rng.scatter_distance < 1)
    (hone : kg.volume_max_steps = 1)
    (hb : below_tp_eps
      (if -Real.log (1 - rng.scatter_distance) <
          kernel_volume_channel_get (coeff.sigma_a + coeff.sigma_s)
            (m.float_to_int (rng.phase * 3)) *
            min ray.t (((0 + 1 : Nat) : ℝ) * kg.volume_step_size) then
        spec_scatter_throughput Real.exp throughput coeff.sigma_s
          (coeff.sigma_a + coeff.sigma_s)
          (-Real.log (1 - rng.scatter_distance) /
            kernel_volume_channel_get (coeff.sigma_a + coeff.sigma_s)
              (m.float_to_int (rng.phase * 3)))
      else throughput * volume_color_transmittance Real.exp (coeff.sigma_a + coeff.sigma_s)
        (min ray.t (((0 + 1 : Nat) : ℝ) * kg.volume_step_size))) = false) :
    ∀ rec ∈ (kernel_volume_integrate_heterogeneous K m ext kg state ray sd L throughput rng
      undef).shaded, below_tp_eps rec.tp = false := by
  have hmed1 : ∀ sd1 P, volume_shader_sample K ext kg sd1 state P =
      (some coeff, (volume_shader_sample K ext kg sd1 state P).2) := by
    intro sd1 P
    obtain ⟨sd2, h1, _⟩ := hmed sd1 P
    rw [h1]
  have hflag1 : ∀ sd1 P, (volume_shader_sample K ext kg sd1 state P).2.flag &&&
      K.SD_SCATTER ≠ 0 := by
    intro sd1 P
    obtain ⟨sd2, h1, h2⟩ := hmed sd1 P
    rw [h1]
    exact h2
  have hinv := constant_medium_initial kg.volume_step_size ray.t throughput
    (coeff.sigma_a + coeff.sigma_s) coeff.sigma_s (m.float_to_int (rng.phase * 3))
    (-Real.log (1 - rng.scatter_distance))
    ((ext.lcg_step_float state.rng_congruential).1 * kg.volume_step_size) undef.x
    (ext.lcg_step_float state.rng_congruential).2 sd L ht
  obtain ⟨rec, s1, hcase, hsh, _, htp⟩ := heterogeneous_step_constant K m ext kg state ray rng
    undef coeff (fun sd1 P => (volume_shader_sample K ext kg sd1 state P).2) throughput hexp
    hlog hmed1 hflag1 hsigma hstep ht hxi0 hxi1 0 _ hinv
  have hsh0 : (kernel_volume_integrate_heterogeneous K m ext kg state ray sd L throughput rng
      undef).shaded = [rec] := by
    have hloop : (heterogeneous_loop K m ext kg state ray rng undef 1 0
        ⟨throughput, 0, (ext.lcg_step_float state.rng_congruential).1 * kg.volume_step_size,
          make_float3 1 1 1, make_float3 0 0 0, make_float3 0 0 0, undef.x, -1, false,
          (ext.lcg_step_float state.rng_congruential).2, sd, L, []⟩).1.shaded = [rec] := by
      rcases hcase with h | h | h
      · simp only [heterogeneous_loop, h]
        exact hsh
      · simp only [heterogeneous_loop, h]
        exact hsh
      · simp only [heterogeneous_loop, h]
        exact hsh
    unfold kernel_volume_integrate_heterogeneous
    dsimp only
    rw [hone]
    split
    · exact hloop
    · exact hloop
  intro r hr
  rw [hsh0, List.mem_singleton] at hr
  rw [hr, htp]
  exact hb

/-- C19: a medium with position-independent coefficients for which the shader flags
scattering and whose extinction `sigma_t` is positive in every channel, `step_size > 0`,
`max_steps * step_size >= ray.t > 0`, `xi` in `(0, 1)`, selected channel `c`, and no record
of the march below the early-exit threshold.  With `nu = -log(1 - xi)`, `sc = sigma_t,c` and
`Tc = exp(-sc * ray.t)`: `kernel_volume_integrate_heterogeneous` returns
`VOLUME_PATH_SCATTERED` when `nu < sc * ray.t`, at the distance `nu / sc` and with the
throughput `tp * sigma_s * T(s) * 3 / dot(sigma_t, T(s))`, and the non-branched
distance-sampling homogeneous integrator run with the random number `xi + Tc` scatters at
the same position with the same throughput; otherwise it returns `VOLUME_PATH_ATTENUATED`
with the throughput `tp * T(ray.t) * 3 / (T_x + T_y + T_z)`.  The homogeneous integrator,
for every random number `x < 1`, scatters when `Tc <= x`, with the same throughput formula
at its own distance, and otherwise returns `VOLUME_PATH_ATTENUATED` with the throughput of
the heterogeneous miss.  The heterogeneous scatter test holds exactly when `xi < 1 - Tc`,
and the sets of random numbers for which the two integrators scatter both have measure
`1 - Tc`. -/
theorem heterogeneous_matches_homogeneous (K : KernelFlags) (m : KernelMath ℝ)
    (ext : KernelExtern ℝ) (kg : KernelIntegrator ℝ) (state : PathState) (ray : Ray ℝ)
    (sd : VolumeShaderData ℝ) (L : List (EmissionAccum ℝ)) (throughput : float3 ℝ)
    (rng : PathSamples ℝ) (undef : float3 ℝ) (coeff : VolumeShaderCoefficients ℝ)
    (hexp : m.expf = Real.exp) (hlog : m.logf = Real.log)
    (hmed : ∀ sd1 P, ∃ sd2, volume_shader_sample K ext kg sd1 state P = (some coeff, sd2) ∧
      sd2.flag &&& K.SD_SCATTER ≠ 0)
    (hsigma : 0 < (coeff.sigma_a + coeff.sigma_s).x ∧ 0 < (coeff.sigma_a + coeff.sigma_s).y ∧
      0 < (coeff.sigma_a + coeff.sigma_s).z)
    (hstep : 0 < kg.volume_step_size) (ht : 0 < ray.t)
    (hmax : ray.t ≤ ((kg.volume_max_steps : ℤ) : ℝ) * kg.volume_step_size)
    (hxi0 : 0 < rng.scatter_distance) (hxi1 : rng.scatter_distance < 1)
    (hthr : ∀ rec ∈ (kernel_volume_integrate_heterogeneous K m ext kg state ray sd L
      throughput rng undef).shaded, below_tp_eps rec.tp = false)
    (hdist : kg.volume_homogeneous_sampling = 0 ∨ kg.num_all_lights = 0)
    (nu sc Tc : ℝ) (hnu : nu = -Real.log (1 - rng.scatter_distance))
    (hsc : sc = kernel_volume_channel_get (coeff.sigma_a + coeff.sigma_s)
      (m.float_to_int (rng.phase * 3)))
    (hTc : Tc = Real.exp (-sc * ray.t)) :
    (nu < sc * ray.t →
      (kernel_volume_integrate_heterogeneous K m ext kg state ray sd L throughput rng
        undef).out.result = VolumeIntegrateResult.VOLUME_PATH_SCATTERED ∧
      (kernel_volume_integrate_heterogeneous K m ext kg state ray sd L throughput rng
        undef).out.sd.P = ray.P + float3_mul_f ray.D (nu / sc) ∧
      (kernel_volume_integrate_heterogeneous K m ext kg state ray sd L throughput rng
        undef).out.throughput = spec_scatter_throughput Real.exp throughput coeff.sigma_s
          (coeff.sigma_a + coeff.sigma_s) (nu / sc) ∧
      (kernel_volume_integrate_homogeneous K m ext kg state ray sd L throughput
        { rng with scatter_distance := rng.scatter_distance + Tc } false undef).result =
          VolumeIntegrateResult.VOLUME_PATH_SCATTERED ∧
      (kernel_volume_integrate_homogeneous K m ext kg state ray sd L throughput
        { rng with scatter_distance := rng.scatter_distance + Tc } false undef).sd.P =
          ray.P + float3_mul_f ray.D (nu / sc) ∧
      (kernel_volume_integrate_homogeneous K m ext kg state ray sd L throughput
        { rng with scatter_distance := rng.scatter_distance + Tc } false undef).throughput =
        (kernel_volume_integrate_heterogeneous K m ext kg state ray sd L throughput rng
          undef).out.throughput) ∧
    (¬ nu < sc * ray.t →
      (kernel_volume_integrate_heterogeneous K m ext kg state ray sd L throughput rng
        undef).out.result = VolumeIntegrateResult.VOLUME_PATH_ATTENUATED ∧
      (kernel_volume_integrate_heterogeneous K m ext kg state ray sd L throughput rng
        undef).out.throughput = spec_attenuated_throughput Real.exp throughput
          (coeff.sigma_a + coeff.sigma_s) ray.t) ∧
    (∀ x : ℝ, x < 1 →
      (Tc ≤ x →
        (kernel_volume_integrate_homogeneous K m ext kg state ray sd L throughput
          { rng with scatter_distance := x } false undef).result =
            VolumeIntegrateResult.VOLUME_PATH_SCATTERED ∧
        (kernel_volume_integrate_homogeneous K m ext kg state ray sd L throughput
          { rng with scatter_distance := x } false undef).sd.P =
            ray.P + float3_mul_f ray.D (-Real.log (1 - (x - Tc)) / sc) ∧
        (kernel_volume_integrate_homogeneous K m ext kg state ray sd L throughput
          { rng with scatter_distance := x } false undef).throughput =
            spec_scatter_throughput Real.exp throughput coeff.sigma_s
              (coeff.sigma_a + coeff.sigma_s) (-Real.log (1 - (x - Tc)) / sc)) ∧
      (x < Tc →
        (kernel_volume_integrate_homogeneous K m ext kg state ray sd L throughput
          { rng with scatter_distance := x } false undef).result =
            VolumeIntegrateResult.VOLUME_PATH_ATTENUATED ∧
        (kernel_volume_integrate_homogeneous K m ext kg state ray sd L throughput
          { rng with scatter_distance := x } false undef).throughput =
            spec_attenuated_throughput Real.exp throughput
              (coeff.sigma_a + coeff.sigma_s) ray.t)) ∧
    (nu < sc * ray.t ↔ rng.scatter_distance < 1 - Tc) ∧
    MeasureTheory.volume {x : ℝ | 0 < x ∧ x < 1 ∧ -Real.log (1 - x) < sc * ray.t} =
      ENNReal.ofReal (1 - Tc) ∧
    MeasureTheory.volume {x : ℝ | 0 ≤ x ∧ x < 1 ∧ Tc ≤ x} = ENNReal.ofReal (1 - Tc) := by
  have hc : 0 < sc := by
    rw [hsc]
    exact channel_get_pos _ _ hsigma
  have hTc0 : 0 < Tc := by
    rw [hTc]
    exact Real.exp_pos _
  have hTc1 : Tc < 1 := by
    rw [hTc, Real.exp_lt_one_iff]
    nlinarith
  have hTc2 : Tc = Real.exp (-(sc * ray.t)) := by
    rw [hTc, neg_mul]
  have hiff : ∀ x : ℝ, x < 1 → (-Real.log (1 - x) < sc * ray.t ↔ x < 1 - Tc) := by
    intro x hx
    rw [hTc2]
    exact scatter_condition_iff x (sc * ray.t) hx
  -- the coefficient sampler as a function
  have hmed1 : ∀ sd1 P, volume_shader_sample K ext kg sd1 state P =
      (some coeff, (volume_shader_sample K ext kg sd1 state P).2) := by
    intro sd1 P
    obtain ⟨sd2, h1, _⟩ := hmed sd1 P
    rw [h1]
  have hflag1 : ∀ sd1 P, (volume_shader_sample K ext kg sd1 state P).2.flag &&&
      K.SD_SCATTER ≠ 0 := by
    intro sd1 P
    obtain ⟨sd2, h1, h2⟩ := hmed sd1 P
    rw [h1]
    exact h2
  -- the homogeneous integrator for every random number
  have hhom : ∀ x : ℝ, x < 1 →
      (Tc ≤ x →
        (kernel_volume_integrate_homogeneous K m ext kg state ray sd L throughput
          { rng with scatter_distance := x } false undef).result =
            VolumeIntegrateResult.VOLUME_PATH_SCATTERED ∧
        (kernel_volume_integrate_homogeneous K m ext kg state ray sd L throughput
          { rng with scatter_distance := x } false undef).sd.P =
            ray.P + float3_mul_f ray.D (-Real.log (1 - (x - Tc)) / sc) ∧
        (kernel_volume_integrate_homogeneous K m ext kg state ray sd L throughput
          { rng with scatter_distance := x } false undef).throughput =
            spec_scatter_throughput Real.exp throughput coeff.sigma_s
              (coeff.sigma_a + coeff.sigma_s) (-Real.log (1 - (x - Tc)) / sc)) ∧
      (x < Tc →
        (kernel_volume_integrate_homogeneous K m ext kg state ray sd L throughput
          { rng with scatter_distance := x } false undef).result =
            VolumeIntegrateResult.VOLUME_PATH_ATTENUATED ∧
        (kernel_volume_integrate_homogeneous K m ext kg state ray sd L throughput
          { rng with scatter_distance := x } false undef).throughput =
            spec_attenuated_throughput Real.exp throughput
              (coeff.sigma_a + coeff.sigma_s) ray.t) := by
    intro x hx
    obtain ⟨sd2, h1, h2⟩ := hmed sd ray.P
    have h := homogeneous_constant K m ext kg state ray sd L throughput
      { rng with scatter_distance := x } undef coeff sd2 hexp hlog h1 h2 hdist hsigma ht hx
      sc hsc
    rw [← hTc] at h
    exact h
  -- the marching loop
  have hsteps : ((kg.volume_max_steps.toNat : Nat) : ℝ) = ((kg.volume_max_steps : ℤ) : ℝ) := by
    have hpos : 0 < ((kg.volume_max_steps : ℤ) : ℝ) := by
      by_contra hneg
      have : ((kg.volume_max_steps : ℤ) : ℝ) * kg.volume_step_size ≤ 0 :=
        mul_nonpos_of_nonpos_of_nonneg (not_lt.mp hneg) (le_of_lt hstep)
      linarith
    have hnn : (0 : ℤ) ≤ kg.volume_max_steps := by
      have : (0 : ℤ) < kg.volume_max_steps := by exact_mod_cast hpos
      exact le_of_lt this
    have := Int.toNat_of_nonneg hnn
    exact_mod_cast this
  have hsh : (kernel_volume_integrate_heterogeneous K m ext kg state ray sd L throughput rng
      undef).shaded =
      (heterogeneous_loop K m ext kg state ray rng undef kg.volume_max_steps.toNat 0
        ⟨throughput, 0, (ext.lcg_step_float state.rng_congruential).1 * kg.volume_step_size,
          make_float3 1 1 1, make_float3 0 0 0, make_float3 0 0 0, undef.x, -1, false,
          (ext.lcg_step_float state.rng_congruential).2, sd, L, []⟩).1.shaded := by
    unfold kernel_volume_integrate_heterogeneous
    dsimp only
    split <;> rfl
  have hinv := constant_medium_initial kg.volume_step_size ray.t throughput
    (coeff.sigma_a + coeff.sigma_s) coeff.sigma_s (m.float_to_int (rng.phase * 3)) nu
    ((ext.lcg_step_float state.rng_congruential).1 * kg.volume_step_size) undef.x
    (ext.lcg_step_float state.rng_congruential).2 sd L ht
  have hbound : ray.t ≤ ((0 + kg.volume_max_steps.toNat : Nat) : ℝ) * kg.volume_step_size := by
    rw [Nat.zero_add, hsteps]
    exact hmax
  have hloop := heterogeneous_loop_constant K m ext kg state ray rng undef coeff
    (fun sd1 P => (volume_shader_sample K ext kg sd1 state P).2) throughput hexp hlog hmed1
    hflag1 hsigma hstep ht hxi0 hxi1 nu sc hnu hsc kg.volume_max_steps.toNat 0 _ hinv hbound
    (fun rec hr => hthr rec (by rw [hsh]; exact hr))
  have hhet1 : nu < sc * ray.t →
      (kernel_volume_integrate_heterogeneous K m ext kg state ray sd L throughput rng
        undef).out.result = VolumeIntegrateResult.VOLUME_PATH_SCATTERED ∧
      (kernel_volume_integrate_heterogeneous K m ext kg state ray sd L throughput rng
        undef).out.sd.P = ray.P + float3_mul_f ray.D (nu / sc) ∧
      (kernel_volume_integrate_heterogeneous K m ext kg state ray sd L throughput rng
        undef).out.throughput = spec_scatter_throughput Real.exp throughput coeff.sigma_s
          (coeff.sigma_a + coeff.sigma_s) (nu / sc) := by
    intro hlt
    obtain ⟨h1, h2, h3⟩ := hloop.1 hlt
    unfold kernel_volume_integrate_heterogeneous
    dsimp only
    rw [if_pos h1]
    exact ⟨rfl, h3, h2⟩
  refine ⟨?_, ?_, hhom, ?_, ?_, ?_⟩
  · intro hlt
    obtain ⟨h1, h2, h3⟩ := hhet1 hlt
    have hx1 : rng.scatter_distance + Tc < 1 := by
      have := (hiff rng.scatter_distance hxi1).mp (by rw [← hnu]; exact hlt)
      linarith
    obtain ⟨g1, g2, g3⟩ := (hhom (rng.scatter_distance + Tc) hx1).1 (by linarith)
    rw [add_sub_cancel_right, ← hnu] at g2 g3
    exact ⟨h1, h2, h3, g1, g2, g3.trans h3.symm⟩
  · intro hlt
    obtain ⟨h1, h2, h3, h4⟩ := hloop.2 hlt
    have hf : ¬ ((heterogeneous_loop K m ext kg state ray rng undef
        kg.volume_max_steps.toNat 0
        ⟨throughput, 0, (ext.lcg_step_float state.rng_congruential).1 * kg.volume_step_size,
          make_float3 1 1 1, make_float3 0 0 0, make_float3 0 0 0, undef.x, -1, false,
          (ext.lcg_step_float state.rng_congruential).2, sd, L, []⟩).2 = true) := by
      rw [h1]
      simp
    unfold kernel_volume_integrate_heterogeneous
    dsimp only
    rw [if_neg hf, h2, h3, h4]
    have hpos := transmittance_sum_pos (coeff.sigma_a + coeff.sigma_s) ray.t
    rw [if_pos ⟨rfl, hpos⟩]
    exact ⟨rfl, rfl⟩
  · rw [hnu]
    exact hiff rng.scatter_distance hxi1
  · have hset : {x : ℝ | 0 < x ∧ x < 1 ∧ -Real.log (1 - x) < sc * ray.t} =
        Set.Ioo 0 (1 - Tc) := by
      ext x
      simp only [Set.mem_setOf_eq, Set.mem_Ioo]
      constructor
      · rintro ⟨h0, h1, h2⟩
        exact ⟨h0, (hiff x h1).mp h2⟩
      · rintro ⟨h0, h1⟩
        have hx1 : x < 1 := by linarith
        exact ⟨h0, hx1, (hiff x hx1).mpr h1⟩
    rw [hset, Real.volume_Ioo, sub_zero]
  · have hset : {x : ℝ | 0 ≤ x ∧ x < 1 ∧ Tc ≤ x} = Set.Ico Tc 1 := by
      ext x
      simp only [Set.mem_setOf_eq, Set.mem_Ico]
      constructor
      · rintro ⟨_, h1, h2⟩
        exact ⟨h2, h1⟩
      · rintro ⟨h0, h1⟩
        exact ⟨by linarith, h1, h0⟩
    rw [hset, Real.volume_Ico]

/-- A medium with `sigma_s = (1, 1, 1)` and no absorption, one march step of size 2 over a
segment of length 2, and the random number `xi = 1 - exp(-1)`, for which
`-log(1 - xi) = 1 < 2`: the heterogeneous integrator scatters. -/
theorem heterogeneous_matches_homogeneous_witness :
    (kernel_volume_integrate_heterogeneous sampleFlags
        ⟨Real.exp, Real.log, Real.sqrt, fun y x => Complex.arg ⟨x, y⟩, Real.tan, Int.floor⟩
        (sampleExtern 8 [⟨12, ⟨1, 1, 1⟩⟩] 0) ⟨4, 1, 2, 0, 0⟩ ⟨0, 0, 0, []⟩
        ⟨⟨0, 0, 0⟩, ⟨1, 0, 0⟩, 2, 0⟩ ⟨⟨0, 0, 0⟩, 0, [], 0⟩ [] ⟨1, 1, 1⟩
        ⟨0, 1 - Real.exp (-1), 0, 0, 0⟩ ⟨0, 0, 0⟩).out.result =
      VolumeIntegrateResult.VOLUME_PATH_SCATTERED := by
  have he0 : (0 : ℝ) < Real.exp (-1) := Real.exp_pos _
  have he1 : Real.exp (-1) < 1 := by
    rw [Real.exp_lt_one_iff]
    norm_num
  have hmed : ∀ (sd1 : VolumeShaderData ℝ) (P : float3 ℝ), ∃ sd2,
      volume_shader_sample sampleFlags (sampleExtern 8 [⟨12, ⟨1, 1, 1⟩⟩] 0)
        (⟨4, 1, 2, 0, 0⟩ : KernelIntegrator ℝ) sd1 ⟨0, 0, 0, []⟩ P =
        (some ⟨⟨0, 0, 0⟩, ⟨1, 1, 1⟩, ⟨0, 0, 0⟩⟩, sd2) ∧
      sd2.flag &&& sampleFlags.SD_SCATTER ≠ 0 :=
    fun sd1 P => ⟨_, sample_scattering _ sd1 _ P (by decide), by
      show (8 : Nat) &&& 8 ≠ 0
      decide⟩
  have hsigma : (0 : ℝ) < ((⟨0, 0, 0⟩ : float3 ℝ) + ⟨1, 1, 1⟩).x ∧
      (0 : ℝ) < ((⟨0, 0, 0⟩ : float3 ℝ) + ⟨1, 1, 1⟩).y ∧
      (0 : ℝ) < ((⟨0, 0, 0⟩ : float3 ℝ) + ⟨1, 1, 1⟩).z := by
    simp [float3_add_def]
  have hx0 : (0 : ℝ) < 1 - Real.exp (-1) := by linarith
  have hx1 : (1 : ℝ) - Real.exp (-1) < 1 := by linarith
  have hnu : -Real.log (1 - (1 - Real.exp (-1))) = 1 := by
    rw [sub_sub_cancel, Real.log_exp, neg_neg]
  have hsc : kernel_volume_channel_get ((⟨0, 0, 0⟩ : float3 ℝ) + ⟨1, 1, 1⟩)
      (Int.floor ((0 : ℝ) * 3)) = 1 := by
    simp [kernel_volume_channel_get, float3_add_def]
  have hval : spec_scatter_throughput Real.exp (⟨1, 1, 1⟩ : float3 ℝ) ⟨1, 1, 1⟩
      (⟨0, 0, 0⟩ + ⟨1, 1, 1⟩) (1 / 1) = ⟨1, 1, 1⟩ := by
    have hpos : (0 : ℝ) < Real.exp (-1) := Real.exp_pos _
    have hne : Real.exp (-1) + Real.exp (-1) + Real.exp (-1) ≠ 0 := by linarith
    simp only [spec_scatter_throughput, float3_mul_f, dot, float3_add_def, float3_mul_x,
      float3_mul_y, float3_mul_z, transmittance_x, transmittance_y, transmittance_z,
      zero_add, one_mul, div_one, neg_mul, mul_one]
    have h3 : Real.exp (-1) * (3 / (Real.exp (-1) + Real.exp (-1) + Real.exp (-1))) = 1 := by
      field_simp
      ring
    rw [h3]
  have hthr := heterogeneous_one_step_records sampleFlags
    ⟨Real.exp, Real.log, Real.sqrt, fun y x => Complex.arg ⟨x, y⟩, Real.tan, Int.floor⟩
    (sampleExtern 8 [⟨12, ⟨1, 1, 1⟩⟩] 0) ⟨4, 1, 2, 0, 0⟩ ⟨0, 0, 0, []⟩
    ⟨⟨0, 0, 0⟩, ⟨1, 0, 0⟩, 2, 0⟩ ⟨⟨0, 0, 0⟩, 0, [], 0⟩ [] ⟨1, 1, 1⟩
    ⟨0, 1 - Real.exp (-1), 0, 0, 0⟩ ⟨0, 0, 0⟩ ⟨⟨0, 0, 0⟩, ⟨1, 1, 1⟩, ⟨0, 0, 0⟩⟩ rfl rfl hmed
    hsigma (by norm_num) (by norm_num) hx0 hx1 rfl (by
      dsimp only
      rw [hnu, hsc, if_pos (by norm_num), hval]
      simp only [below_tp_eps]
      norm_num)
  exact ((heterogeneous_matches_homogeneous sampleFlags
    ⟨Real.exp, Real.log, Real.sqrt, fun y x => Complex.arg ⟨x, y⟩, Real.tan, Int.floor⟩
    (sampleExtern 8 [⟨12, ⟨1, 1, 1⟩⟩] 0) ⟨4, 1, 2, 0, 0⟩ ⟨0, 0, 0, []⟩
    ⟨⟨0, 0, 0⟩, ⟨1, 0, 0⟩, 2, 0⟩ ⟨⟨0, 0, 0⟩, 0, [], 0⟩ [] ⟨1, 1, 1⟩
    ⟨0, 1 - Real.exp (-1), 0, 0, 0⟩ ⟨0, 0, 0⟩ ⟨⟨0, 0, 0⟩, ⟨1, 1, 1⟩, ⟨0, 0, 0⟩⟩ rfl rfl hmed
    hsigma (by norm_num) (by norm_num) (by norm_num) hx0 hx1 hthr
    (Or.inl rfl) _ _ _ rfl rfl rfl).1 (by
      show -Real.log (1 - (1 - Real.exp (-1))) <
        kernel_volume_channel_get ((⟨0, 0, 0⟩ : float3 ℝ) + ⟨1, 1, 1⟩)
          (Int.floor ((0 : ℝ) * 3)) * 2
      rw [hnu, hsc]
      norm_num)).1

/-! ## Entering and leaving an object -/

/-- C27: on an array of `VOLUME_STACK_SIZE` cells holding fewer than
`VOLUME_STACK_SIZE - 1` entries, for an object id that is not among the entries, a
front-face `kernel_volume_stack_enter_exit` for that object followed by a back-face
`kernel_volume_stack_enter_exit` for the same object both return, and the entries before
the sentinel are the original ones, in order. -/
theorem stack_enter_then_exit (K : KernelTypes) (sd1 sd2 : ShaderData)
    (stack : List VolumeStack)
    (hvol1 : sd1.flag &&& K.SD_HAS_VOLUME ≠ 0) (hfront : sd1.flag &&& K.SD_BACKFACING = 0)
    (hvol2 : sd2.flag &&& K.SD_HAS_VOLUME ≠ 0) (hback : sd2.flag &&& K.SD_BACKFACING ≠ 0)
    (hobj : sd2.object = sd1.object)
    (hlen : stack.length = K.VOLUME_STACK_SIZE)
    (hroom : (stack_entries K stack).length + 1 < K.VOLUME_STACK_SIZE)
    (hnot : sd1.object ∉ (stack_entries K stack).map VolumeStack.object) :
    ∃ stack1 stack2, kernel_volume_stack_enter_exit K sd1 stack = some stack1 ∧
      kernel_volume_stack_enter_exit K sd2 stack1 = some stack2 ∧
      stack_entries K stack2 = stack_entries K stack := by
  have hterm : stack_terminated K stack := by
    unfold stack_terminated
    omega
  obtain ⟨s, rest, hsplit, hs⟩ := stack_split K stack hterm
  have hA := entries_absent_object K stack sd1.object hnot
  have hA2 : ∀ a ∈ stack_entries K stack, a.shader ≠ K.SHADER_NONE ∧ a.object ≠ sd2.object := by
    intro a ha
    rw [hobj]
    exact hA a ha
  have hrest : rest ≠ [] := by
    intro h
    have hl := congrArg List.length hsplit
    rw [h] at hl
    simp at hl
    omega
  obtain ⟨nxt, rest1, hrest1⟩ := List.exists_cons_of_ne_nil hrest
  subst hrest1
  have hfit : ¬ ((K.VOLUME_STACK_SIZE : Int) - 1 ≤ ((stack_entries K stack).length : Int)) := by
    omega
  have hrun := enter_room K sd1 (stack_entries K stack) rest1 s nxt hvol1 hfront hA hs hfit
  rw [← hsplit] at hrun
  have hshA : ∀ a ∈ stack_entries K stack, a.shader ≠ K.SHADER_NONE := fun a ha => (hA a ha).1
  by_cases hsh : sd1.shader = K.SHADER_NONE
  · have hexit := exit_absent K sd2 (stack_entries K stack)
      ({ nxt with shader := K.SHADER_NONE } :: rest1) ⟨sd1.object, sd1.shader⟩ hback hA2 hsh
    refine ⟨_, _, hrun, hexit, ?_⟩
    exact stack_entries_append K _ _ _ hshA hsh
  · have hexit := exit_found K sd2 (stack_entries K stack) [] rest1 ⟨sd1.object, sd1.shader⟩
      { nxt with shader := K.SHADER_NONE } hvol2 hback hA2 hsh hobj.symm
      (fun m hm => absurd hm (List.not_mem_nil m)) rfl
    refine ⟨_, _, hrun, hexit, ?_⟩
    exact stack_entries_append K _ _ _ hshA rfl

/-- Stack `[A]` in an array of four cells: object 30 is entered through a front face and
left through a back face, and the entry `A` is what remains. -/
theorem stack_enter_then_exit_witness :
    ∃ stack1 stack2,
      kernel_volume_stack_enter_exit sampleTypes ⟨8, 30, 3⟩
        [⟨10, 1⟩, ⟨0, -1⟩, ⟨0, 5⟩, ⟨5, 6⟩] = some stack1 ∧
      kernel_volume_stack_enter_exit sampleTypes ⟨9, 30, 3⟩ stack1 = some stack2 ∧
      stack_entries sampleTypes stack2 =
        stack_entries sampleTypes [⟨10, 1⟩, ⟨0, -1⟩, ⟨0, 5⟩, ⟨5, 6⟩] :=
  stack_enter_then_exit sampleTypes ⟨8, 30, 3⟩ ⟨9, 30, 3⟩ [⟨10, 1⟩, ⟨0, -1⟩, ⟨0, 5⟩, ⟨5, 6⟩]
    (by decide) (by decide) (by decide) (by decide) rfl (by decide) (by decide) (by decide)

/-! ## The homogeneous integrator with distance sampling -/

/-- The distance `kernel_volume_distance_sample` returns for a positive extinction in the
selected channel, `max_t > 0` and `xi` in `[0, 1)`: the clamp by `max_t` is not active, and
the distance lies in `[0, max_t)`. -/
theorem distance_sample_range (max_t xi : ℝ) (sigma_t : float3 ℝ) (channel : Int)
    (hxi0 : 0 ≤ xi) (hxi1 : xi < 1) (hmax : 0 < max_t)
    (hsig : 0 < kernel_volume_channel_get sigma_t channel) :
    (kernel_volume_distance_sample Real.exp Real.log max_t sigma_t channel xi).sample_t =
      (-Real.log (1 - xi * (1 - Real.exp
        (-(kernel_volume_channel_get sigma_t channel) * max_t)))) /
        kernel_volume_channel_get sigma_t channel ∧
    0 ≤ (kernel_volume_distance_sample Real.exp Real.log max_t sigma_t channel xi).sample_t ∧
    (kernel_volume_distance_sample Real.exp Real.log max_t sigma_t channel xi).sample_t
      < max_t := by
  obtain ⟨_, hd0, hdm, _⟩ :=
    truncated_exp_inverse (kernel_volume_channel_get sigma_t channel) max_t xi hsig hmax
      hxi0 hxi1
  have hsample : (kernel_volume_distance_sample Real.exp Real.log max_t sigma_t channel
      xi).sample_t = (-Real.log (1 - xi * (1 - Real.exp
        (-(kernel_volume_channel_get sigma_t channel) * max_t)))) /
        kernel_volume_channel_get sigma_t channel := by
    simp only [kernel_volume_distance_sample, channel_get_transmittance]
    exact min_eq_right hdm.le
  rw [hsample]
  exact ⟨rfl, hd0, hdm⟩

/-- The branched mode in exact arithmetic (`expf`, `logf` the real exponential and
logarithm): in branched mode with distance sampling, on a medium for which the shader flags
scattering and whose extinction in the selected channel is positive, with `ray.t > 0` and
`xi` in `[0, 1)`: `kernel_volume_integrate_homogeneous` returns `VOLUME_PATH_SCATTERED`,
the distance `sample_t` of `kernel_volume_distance_sample` lies in `[0, ray.t)`, the
shading point is moved to `ray.P + sample_t * ray.D`, and the throughput is
`tp * sigma_s * transmittance(sample_t) / average(pdf)`. -/
theorem homogeneous_branched_scatters (K : KernelFlags) (m : KernelMath ℝ)
    (ext : KernelExtern ℝ) (kg : KernelIntegrator ℝ) (state : PathState) (ray : Ray ℝ)
    (sd : VolumeShaderData ℝ) (L : List (EmissionAccum ℝ)) (throughput : float3 ℝ)
    (rng : PathSamples ℝ) (undef : float3 ℝ) (coeff : VolumeShaderCoefficients ℝ)
    (sd1 : VolumeShaderData ℝ) (hexp : m.expf = Real.exp) (hlog : m.logf = Real.log)
    (hs : volume_shader_sample K ext kg sd state ray.P = (some coeff, sd1))
    (hsc : sd1.flag &&& K.SD_SCATTER ≠ 0)
    (hdist : kg.volume_homogeneous_sampling = 0 ∨ kg.num_all_lights = 0)
    (hsig : 0 < kernel_volume_channel_get (coeff.sigma_a + coeff.sigma_s)
      (m.float_to_int (rng.phase * 3)))
    (ht : 0 < ray.t) (hxi0 : 0 ≤ rng.scatter_distance) (hxi1 : rng.scatter_distance < 1) :
    (kernel_volume_integrate_homogeneous K m ext kg state ray sd L throughput rng true
      undef).result = VolumeIntegrateResult.VOLUME_PATH_SCATTERED ∧
    0 ≤ (kernel_volume_distance_sample Real.exp Real.log ray.t (coeff.sigma_a + coeff.sigma_s)
      (m.float_to_int (rng.phase * 3)) rng.scatter_distance).sample_t ∧
    (kernel_volume_distance_sample Real.exp Real.log ray.t (coeff.sigma_a + coeff.sigma_s)
      (m.float_to_int (rng.phase * 3)) rng.scatter_distance).sample_t < ray.t ∧
    (kernel_volume_integrate_homogeneous K m ext kg state ray sd L throughput rng true
      undef).sd.P = ray.P + float3_mul_f ray.D
        (kernel_volume_distance_sample Real.exp Real.log ray.t (coeff.sigma_a + coeff.sigma_s)
          (m.float_to_int (rng.phase * 3)) rng.scatter_distance).sample_t ∧
    (kernel_volume_integrate_homogeneous K m ext kg state ray sd L throughput rng true
      undef).throughput =
      float3_div_f (throughput * coeff.sigma_s *
          volume_color_transmittance Real.exp (coeff.sigma_a + coeff.sigma_s)
            (kernel_volume_distance_sample Real.exp Real.log ray.t
              (coeff.sigma_a + coeff.sigma_s) (m.float_to_int (rng.phase * 3))
              rng.scatter_distance).sample_t)
        (average (kernel_volume_distance_sample Real.exp Real.log ray.t
          (coeff.sigma_a + coeff.sigma_s) (m.float_to_int (rng.phase * 3))
          rng.scatter_distance).pdf) := by
  obtain ⟨_, hd0, hdm⟩ := distance_sample_range ray.t rng.scatter_distance
    (coeff.sigma_a + coeff.sigma_s) (m.float_to_int (rng.phase * 3)) hxi0 hxi1 ht hsig
  rw [homogeneous_with_scatter K m ext kg state ray sd L throughput rng true undef coeff sd1
    hs hsc]
  unfold homogeneous_scatter homogeneous_scatter_distance
  simp only [hdist, if_true, hexp, hlog, hdm]
  exact ⟨trivial, hd0, trivial, trivial, rfl⟩

/-- The non-branched mode in exact arithmetic (`expf`, `logf` the real exponential and
logarithm): in non-branched mode with distance sampling, on a medium for which the shader
flags scattering and whose extinction in the selected channel is positive, with
`ray.t > 0` and `xi` in `[0, 1)`: `kernel_volume_integrate_homogeneous` returns
`VOLUME_PATH_SCATTERED` when `xi >= exp(-sigma_c * ray.t)` and `VOLUME_PATH_ATTENUATED`
otherwise, and in the scatter case the rescaled number `(xi - T_c) / (1 - T_c)` handed to
the distance sampler lies in `[0, 1)`. -/
theorem homogeneous_hit_or_miss (K : KernelFlags) (m : KernelMath ℝ)
    (ext : KernelExtern ℝ) (kg : KernelIntegrator ℝ) (state : PathState) (ray : Ray ℝ)
    (sd : VolumeShaderData ℝ) (L : List (EmissionAccum ℝ)) (throughput : float3 ℝ)
    (rng : PathSamples ℝ) (undef : float3 ℝ) (coeff : VolumeShaderCoefficients ℝ)
    (sd1 : VolumeShaderData ℝ) (hexp : m.expf = Real.exp) (hlog : m.logf = Real.log)
    (hs : volume_shader_sample K ext kg sd state ray.P = (some coeff, sd1))
    (hsc : sd1.flag &&& K.SD_SCATTER ≠ 0)
    (hdist : kg.volume_homogeneous_sampling = 0 ∨ kg.num_all_lights = 0)
    (hsig : 0 < kernel_volume_channel_get (coeff.sigma_a + coeff.sigma_s)
      (m.float_to_int (rng.phase * 3)))
    (ht : 0 < ray.t) (hxi1 : rng.scatter_distance < 1) :
    ((kernel_volume_integrate_homogeneous K m ext kg state ray sd L throughput rng false
        undef).result = VolumeIntegrateResult.VOLUME_PATH_SCATTERED ↔
      Real.exp (-kernel_volume_channel_get (coeff.sigma_a + coeff.sigma_s)
        (m.float_to_int (rng.phase * 3)) * ray.t) ≤ rng.scatter_distance) ∧
    ((kernel_volume_integrate_homogeneous K m ext kg state ray sd L throughput rng false
        undef).result = VolumeIntegrateResult.VOLUME_PATH_ATTENUATED ↔
      rng.scatter_distance < Real.exp (-kernel_volume_channel_get
        (coeff.sigma_a + coeff.sigma_s) (m.float_to_int (rng.phase * 3)) * ray.t)) ∧
    (Real.exp (-kernel_volume_channel_get (coeff.sigma_a + coeff.sigma_s)
        (m.float_to_int (rng.phase * 3)) * ray.t) ≤ rng.scatter_distance →
      homogeneous_scatter m ext kg ray rng coeff throughput false
          (m.float_to_int (rng.phase * 3)) rng.scatter_distance =
        (homogeneous_scatter_distance m ext kg ray rng (coeff.sigma_a + coeff.sigma_s)
          (m.float_to_int (rng.phase * 3))
          ((rng.scatter_distance - Real.exp (-kernel_volume_channel_get
              (coeff.sigma_a + coeff.sigma_s) (m.float_to_int (rng.phase * 3)) * ray.t)) /
            (1 - Real.exp (-kernel_volume_channel_get
              (coeff.sigma_a + coeff.sigma_s) (m.float_to_int (rng.phase * 3)) * ray.t)))).map
          (fun d => ⟨float3_div_f (throughput * coeff.sigma_s * d.transmittance)
            (average (d.pdf * (make_float3 1 1 1 - volume_color_transmittance Real.exp
              (coeff.sigma_a + coeff.sigma_s) ray.t))), d.transmittance, d.sample_t⟩) ∧
      0 ≤ (rng.scatter_distance - Real.exp (-kernel_volume_channel_get
            (coeff.sigma_a + coeff.sigma_s) (m.float_to_int (rng.phase * 3)) * ray.t)) /
          (1 - Real.exp (-kernel_volume_channel_get
            (coeff.sigma_a + coeff.sigma_s) (m.float_to_int (rng.phase * 3)) * ray.t)) ∧
      (rng.scatter_distance - Real.exp (-kernel_volume_channel_get
            (coeff.sigma_a + coeff.sigma_s) (m.float_to_int (rng.phase * 3)) * ray.t)) /
          (1 - Real.exp (-kernel_volume_channel_get
            (coeff.sigma_a + coeff.sigma_s) (m.float_to_int (rng.phase * 3)) * ray.t)) < 1) := by
  have hT1 : Real.exp (-kernel_volume_channel_get (coeff.sigma_a + coeff.sigma_s)
      (m.float_to_int (rng.phase * 3)) * ray.t) < 1 := by
    rw [Real.exp_lt_one_iff]
    nlinarith
  have hgap : 0 < 1 - Real.exp (-kernel_volume_channel_get (coeff.sigma_a + coeff.sigma_s)
      (m.float_to_int (rng.phase * 3)) * ray.t) := by linarith
  have hresc : Real.exp (-kernel_volume_channel_get (coeff.sigma_a + coeff.sigma_s)
        (m.float_to_int (rng.phase * 3)) * ray.t) ≤ rng.scatter_distance →
      0 ≤ (rng.scatter_distance - Real.exp (-kernel_volume_channel_get
            (coeff.sigma_a + coeff.sigma_s) (m.float_to_int (rng.phase * 3)) * ray.t)) /
          (1 - Real.exp (-kernel_volume_channel_get
            (coeff.sigma_a + coeff.sigma_s) (m.float_to_int (rng.phase * 3)) * ray.t)) ∧
      (rng.scatter_distance - Real.exp (-kernel_volume_channel_get
            (coeff.sigma_a + coeff.sigma_s) (m.float_to_int (rng.phase * 3)) * ray.t)) /
          (1 - Real.exp (-kernel_volume_channel_get
            (coeff.sigma_a + coeff.sigma_s) (m.float_to_int (rng.phase * 3)) * ray.t)) < 1 := by
    intro hle
    constructor
    · exact div_nonneg (by linarith) (le_of_lt hgap)
    · rw [div_lt_one hgap]
      linarith
  have hrun := homogeneous_with_scatter K m ext kg state ray sd L throughput rng false undef
    coeff sd1 hs hsc
  by_cases hle : Real.exp (-kernel_volume_channel_get (coeff.sigma_a + coeff.sigma_s)
      (m.float_to_int (rng.phase * 3)) * ray.t) ≤ rng.scatter_distance
  · obtain ⟨hr0, hr1⟩ := hresc hle
    obtain ⟨_, _, hdm⟩ := distance_sample_range ray.t _ (coeff.sigma_a + coeff.sigma_s)
      (m.float_to_int (rng.phase * 3)) hr0 hr1 ht hsig
    have hsct : homogeneous_scatter m ext kg ray rng coeff throughput false
          (m.float_to_int (rng.phase * 3)) rng.scatter_distance =
        (homogeneous_scatter_distance m ext kg ray rng (coeff.sigma_a + coeff.sigma_s)
          (m.float_to_int (rng.phase * 3))
          ((rng.scatter_distance - Real.exp (-kernel_volume_channel_get
              (coeff.sigma_a + coeff.sigma_s) (m.float_to_int (rng.phase * 3)) * ray.t)) /
            (1 - Real.exp (-kernel_volume_channel_get
              (coeff.sigma_a + coeff.sigma_s) (m.float_to_int (rng.phase * 3)) * ray.t)))).map
          (fun d => ⟨float3_div_f (throughput * coeff.sigma_s * d.transmittance)
            (average (d.pdf * (make_float3 1 1 1 - volume_color_transmittance Real.exp
              (coeff.sigma_a + coeff.sigma_s) ray.t))), d.transmittance, d.sample_t⟩) := by
      unfold homogeneous_scatter
      simp only [hexp, Bool.false_eq_true, if_false, hle, if_true]
      cases homogeneous_scatter_distance m ext kg ray rng (coeff.sigma_a + coeff.sigma_s)
        (m.float_to_int (rng.phase * 3))
        ((rng.scatter_distance - Real.exp (-kernel_volume_channel_get
            (coeff.sigma_a + coeff.sigma_s) (m.float_to_int (rng.phase * 3)) * ray.t)) /
          (1 - Real.exp (-kernel_volume_channel_get
            (coeff.sigma_a + coeff.sigma_s) (m.float_to_int (rng.phase * 3)) * ray.t))) <;> rfl
    have hres : (kernel_volume_integrate_homogeneous K m ext kg state ray sd L throughput rng
        false undef).result = VolumeIntegrateResult.VOLUME_PATH_SCATTERED := by
      rw [hrun, hsct]
      unfold homogeneous_scatter_distance
      simp only [hdist, if_true, hexp, hlog, Option.map_some', hdm]
    refine ⟨⟨fun _ => hle, fun _ => hres⟩, ⟨fun h => ?_, fun h => absurd hle (not_le.mpr h)⟩,
      fun _ => ⟨hsct, hr0, hr1⟩⟩
    rw [hres] at h
    cases h
  · have hlt := not_le.mp hle
    have hres : (kernel_volume_integrate_homogeneous K m ext kg state ray sd L throughput rng
        false undef).result = VolumeIntegrateResult.VOLUME_PATH_ATTENUATED := by
      rw [hrun]
      unfold homogeneous_scatter
      simp only [hexp, Bool.false_eq_true, if_false, hle, lt_irrefl]
    refine ⟨⟨fun h => ?_, fun h => absurd h hle⟩, ⟨fun _ => hlt, fun _ => hres⟩,
      fun h => absurd h hle⟩
    rw [hres] at h
    cases h

/-- The sample scattering medium with `sigma_s = (1, 1, 1)` on a segment of length 2, in
branched mode with `xi = 0`: the integrator scatters. -/
theorem homogeneous_branched_scatters_witness :
    (kernel_volume_integrate_homogeneous sampleFlags
        ⟨Real.exp, Real.log, Real.sqrt, fun y x => Complex.arg ⟨x, y⟩, Real.tan, Int.floor⟩
        (sampleExtern 8 [⟨12, ⟨1, 1, 1⟩⟩] 0) ⟨4, 3, 1, 0, 0⟩ ⟨0, 0, 0, []⟩
        ⟨⟨0, 0, 0⟩, ⟨1, 0, 0⟩, 2, 0⟩ ⟨⟨0, 0, 0⟩, 0, [], 0⟩ [] ⟨1, 1, 1⟩ ⟨0, 0, 0, 0, 0⟩ true
        ⟨0, 0, 0⟩).result = VolumeIntegrateResult.VOLUME_PATH_SCATTERED :=
  (homogeneous_branched_scatters sampleFlags
    ⟨Real.exp, Real.log, Real.sqrt, fun y x => Complex.arg ⟨x, y⟩, Real.tan, Int.floor⟩
    (sampleExtern 8 [⟨12, ⟨1, 1, 1⟩⟩] 0) ⟨4, 3, 1, 0, 0⟩ ⟨0, 0, 0, []⟩
    ⟨⟨0, 0, 0⟩, ⟨1, 0, 0⟩, 2, 0⟩ ⟨⟨0, 0, 0⟩, 0, [], 0⟩ [] ⟨1, 1, 1⟩ ⟨0, 0, 0, 0, 0⟩ ⟨0, 0, 0⟩
    ⟨⟨0, 0, 0⟩, ⟨1, 1, 1⟩, ⟨0, 0, 0⟩⟩ _ rfl rfl (sample_scattering _ _ _ _ (by decide))
    (by decide) (Or.inl rfl) (by simp [kernel_volume_channel_get, float3_add_def])
    (by norm_num) (by norm_num) (by norm_num)).1

/-- The sample scattering medium with `sigma_s = (1, 1, 1)` on a segment of length 2, in
non-branched mode with `xi = 0`, which is below `exp(-2)`: the integrator does not
scatter. -/
theorem homogeneous_hit_or_miss_witness :
    (kernel_volume_integrate_homogeneous sampleFlags
        ⟨Real.exp, Real.log, Real.sqrt, fun y x => Complex.arg ⟨x, y⟩, Real.tan, Int.floor⟩
        (sampleExtern 8 [⟨12, ⟨1, 1, 1⟩⟩] 0) ⟨4, 3, 1, 0, 0⟩ ⟨0, 0, 0, []⟩
        ⟨⟨0, 0, 0⟩, ⟨1, 0, 0⟩, 2, 0⟩ ⟨⟨0, 0, 0⟩, 0, [], 0⟩ [] ⟨1, 1, 1⟩ ⟨0, 0, 0, 0, 0⟩ false
        ⟨0, 0, 0⟩).result = VolumeIntegrateResult.VOLUME_PATH_ATTENUATED :=
  (homogeneous_hit_or_miss sampleFlags
    ⟨Real.exp, Real.log, Real.sqrt, fun y x => Complex.arg ⟨x, y⟩, Real.tan, Int.floor⟩
    (sampleExtern 8 [⟨12, ⟨1, 1, 1⟩⟩] 0) ⟨4, 3, 1, 0, 0⟩ ⟨0, 0, 0, []⟩
    ⟨⟨0, 0, 0⟩, ⟨1, 0, 0⟩, 2, 0⟩ ⟨⟨0, 0, 0⟩, 0, [], 0⟩ [] ⟨1, 1, 1⟩ ⟨0, 0, 0, 0, 0⟩ ⟨0, 0, 0⟩
    ⟨⟨0, 0, 0⟩, ⟨1, 1, 1⟩, ⟨0, 0, 0⟩⟩ _ rfl rfl (sample_scattering _ _ _ _ (by decide))
    (by decide) (Or.inl rfl) (by simp [kernel_volume_channel_get, float3_add_def])
    (by norm_num) (by norm_num)).2.1.mpr (Real.exp_pos _)

/-! ## Numerical safety of the distance samplers -/

/-- C23: a medium whose only closure scatters with the weight `(1, 0, 1)`, in branched mode
with `rphase = 1/2`: the shader flags scattering, the selected channel is 1, the distance
sampler is called, and the extinction of the selected channel, by which the sampler
divides, is zero. -/
theorem distance_sample_zero_channel :
    volume_shader_sample sampleFlags (sampleExtern 8 [⟨12, ⟨1, 0, 1⟩⟩] 0)
        (⟨4, 3, 1, 0, 0⟩ : KernelIntegrator ℝ) ⟨⟨0, 0, 0⟩, 0, [], 0⟩ ⟨0, 0, 0, []⟩ ⟨0, 0, 0⟩ =
      (some ⟨⟨0, 0, 0⟩, ⟨1, 0, 1⟩, ⟨0, 0, 0⟩⟩, ⟨⟨0, 0, 0⟩, 8, [⟨12, ⟨1, 0, 1⟩⟩], 0⟩) ∧
    (8 : Nat) &&& sampleFlags.SD_SCATTER ≠ 0 ∧
    Int.floor ((1 / 2 : ℝ) * 3) = 1 ∧
    kernel_volume_channel_get ((⟨0, 0, 0⟩ : float3 ℝ) + ⟨1, 0, 1⟩)
      (Int.floor ((1 / 2 : ℝ) * 3)) = 0 ∧
    homogeneous_scatter
        ⟨Real.exp, Real.log, Real.sqrt, fun y x => Complex.arg ⟨x, y⟩, Real.tan, Int.floor⟩
        (sampleExtern 8 [⟨12, ⟨1, 0, 1⟩⟩] 0) ⟨4, 3, 1, 0, 0⟩ ⟨⟨0, 0, 0⟩, ⟨1, 0, 0⟩, 2, 0⟩
        ⟨1 / 2, 1 / 2, 0, 0, 0⟩ ⟨⟨0, 0, 0⟩, ⟨1, 0, 1⟩, ⟨0, 0, 0⟩⟩ ⟨1, 1, 1⟩ true
        (Int.floor ((1 / 2 : ℝ) * 3)) (1 / 2) =
      some ⟨float3_div_f ((⟨1, 1, 1⟩ : float3 ℝ) * ⟨1, 0, 1⟩ *
          (kernel_volume_distance_sample Real.exp Real.log 2 (⟨0, 0, 0⟩ + ⟨1, 0, 1⟩) 1
            (1 / 2)).transmittance)
          (average (kernel_volume_distance_sample Real.exp Real.log 2 (⟨0, 0, 0⟩ + ⟨1, 0, 1⟩)
            1 (1 / 2)).pdf),
        (kernel_volume_distance_sample Real.exp Real.log 2 (⟨0, 0, 0⟩ + ⟨1, 0, 1⟩) 1
          (1 / 2)).transmittance,
        (kernel_volume_distance_sample Real.exp Real.log 2 (⟨0, 0, 0⟩ + ⟨1, 0, 1⟩) 1
          (1 / 2)).sample_t⟩ := by
  have hfloor : Int.floor ((1 / 2 : ℝ) * 3) = 1 := by
    rw [Int.floor_eq_iff]
    constructor <;> norm_num
  refine ⟨?_, by decide, hfloor, ?_, ?_⟩
  · have h88 : (8 : Nat) &&& 8 = 8 := by decide
    have h4 : (8 : Nat) &&& (4 ||| 8 ||| 2) = 8 := by decide
    simp [volume_shader_sample, sampleExtern, sampleFlags, coefficients_sum,
      coefficients_add, make_float3, float3_add_def, h88, h4]
  · rw [hfloor]
    simp [kernel_volume_channel_get, float3_add_def]
  · rw [hfloor]
    simp [homogeneous_scatter, homogeneous_scatter_distance]

theorem layered_sample_empty (kg : KernelIntegrator ℝ) (sd : VolumeShaderData ℝ)
    (state : PathState) (P : float3 ℝ) (hP : P.x < 1) :
    volume_shader_sample sampleFlags sampleLayeredExtern kg sd state P =
      (none, ⟨P, 0, [], sd.randb_closure⟩) := by
  simp [volume_shader_sample, sampleLayeredExtern, sampleFlags, hP]

theorem layered_sample_scattering (kg : KernelIntegrator ℝ) (sd : VolumeShaderData ℝ)
    (state : PathState) (P : float3 ℝ) (hP : ¬ P.x < 1)
    (h : state.volume_bounce < kg.max_volume_bounce) :
    volume_shader_sample sampleFlags sampleLayeredExtern kg sd state P =
      (some ⟨⟨0, 0, 0⟩, ⟨1, 1, 1⟩, ⟨0, 0, 0⟩⟩, ⟨P, 8, [⟨12, ⟨1, 1, 1⟩⟩], sd.randb_closure⟩) := by
  have hn : ¬ (kg.max_volume_bounce ≤ state.volume_bounce) := not_le.mpr h
  have h88 : (8 : Nat) &&& 8 = 8 := by decide
  have h4 : (8 : Nat) &&& (4 ||| 8 ||| 2) = 8 := by decide
  simp [volume_shader_sample, sampleLayeredExtern, sampleFlags, coefficients_sum,
    coefficients_add, make_float3, float3_add_def, hn, hP, h88, h4]

theorem layered_step_zero :
    heterogeneous_step sampleFlags
        ⟨Real.exp, Real.log, Real.sqrt, fun y x => Complex.arg ⟨x, y⟩, Real.tan, Int.floor⟩
        sampleLayeredExtern ⟨4, 2, 1, 0, 0⟩ ⟨0, 0, 0, []⟩ ⟨⟨0, 0, 0⟩, ⟨1, 0, 0⟩, 2, 0⟩
        ⟨0, 1 - Real.exp (-(1 / 4)), 0, 0, 0⟩ ⟨0, 0, 0⟩ 0
        ⟨⟨1, 1, 1⟩, 0, 0, ⟨1, 1, 1⟩, ⟨0, 0, 0⟩, ⟨0, 0, 0⟩, 0, -1, false, 1,
          ⟨⟨0, 0, 0⟩, 0, [], 0⟩, [], []⟩ =
      MarchStep.next ⟨⟨1, 1, 1⟩, 1, 0, ⟨1, 1, 1⟩, ⟨0, 0, 0⟩, ⟨0, 0, 0⟩, 0, -1, false, 1,
          ⟨⟨0, 0, 0⟩, 0, [], 0⟩, [], [⟨0, 0, 1, 0, none, ⟨1, 1, 1⟩⟩]⟩ := by
  have hmin : min (2 : ℝ) 1 = 1 := by norm_num
  have h12 : ¬ ((1 : ℝ) = 2) := by norm_num
  unfold heterogeneous_step
  simp only [Nat.zero_add, Nat.cast_one, one_mul, hmin, h12, if_false]
  rw [layered_sample_empty]
  · simp [float3_add_def, float3_mul_f]
  · show (0 : ℝ) + 1 * (0 + 0) < 1
    norm_num

theorem layered_segment (s : IntegrateMarch ℝ) (v : StepLocals ℝ)
    (hv : heterogeneous_segment sampleFlags
        ⟨Real.exp, Real.log, Real.sqrt, fun y x => Complex.arg ⟨x, y⟩, Real.tan, Int.floor⟩
        ⟨0, 1 - Real.exp (-(1 / 4)), 0, 0, 0⟩ s ⟨⟨0, 0, 0⟩, ⟨1, 1, 1⟩, ⟨0, 0, 0⟩⟩ 8 2 (2 - 1)
        ⟨0, 0, 0⟩ = v)
    (ht : s.t = 1)
    (htp : s.tp = ⟨1, 1, 1⟩) (hat : s.accum_transmittance = ⟨1, 1, 1⟩)
    (hst : s.accum_sigma_t = ⟨0, 0, 0⟩) (hss : s.accum_sigma_s = ⟨0, 0, 0⟩)
    (hch : s.channel = -1) :
    v.scatter = true ∧ v.new_t = 1 / 2 ∧ v.dt = -(1 / 2) ∧ v.new_tp = ⟨1, 1, 1⟩ := by
  have h88 : (8 : Nat) &&& sampleFlags.SD_SCATTER ≠ 0 := by decide
  have hnl : -Real.log (1 - (1 - Real.exp (-(1 / 4)))) = 1 / 4 := by
    rw [sub_sub_cancel, Real.log_exp, neg_neg]
  have hfl : Int.floor ((0 : ℝ) * 3) = 0 := by simp
  have hsamp : kernel_volume_channel_get ((⟨0, 0, 0⟩ : float3 ℝ) +
      float3_mul_f (⟨0, 0, 0⟩ + ⟨1, 1, 1⟩) (2 - 1)) 0 = 1 := by
    simp [kernel_volume_channel_get, float3_add_def, float3_mul_f]
    norm_num
  have hlt : (1 / 4 : ℝ) < 1 := by norm_num
  have hnt : (1 / 4 : ℝ) / (1 / 2) = 1 / 2 := by norm_num
  have hdt : (1 / 2 : ℝ) - 1 = -(1 / 2) := by norm_num
  subst hv
  unfold heterogeneous_segment
  simp only [h88, ne_eq, not_false_eq_true, true_or, if_true, hch, hnl, hfl, hst, hss, hat,
    htp, ht, hsamp, hlt, hnt, hdt]
  refine ⟨trivial, trivial, trivial, ?_⟩
  have hE : Real.exp (-(0 + 1) * -(1 / 2)) ≠ 0 := ne_of_gt (Real.exp_pos _)
  have key : (1 : ℝ) * ((0 + 1 * -(1 / 2)) / (1 / 2)) * Real.exp (-(0 + 1) * -(1 / 2)) *
      (3 / ((0 + (0 + 1) * -(1 / 2)) / (1 / 2) * (1 * Real.exp (-(0 + 1) * -(1 / 2))) +
        (0 + (0 + 1) * -(1 / 2)) / (1 / 2) * (1 * Real.exp (-(0 + 1) * -(1 / 2))) +
        (0 + (0 + 1) * -(1 / 2)) / (1 / 2) * (1 * Real.exp (-(0 + 1) * -(1 / 2))))) = 1 := by
    generalize Real.exp (-(0 + 1) * -(1 / 2)) = e at hE
    have h1 : ((0 : ℝ) + 1 * -(1 / 2)) / (1 / 2) = -1 := by norm_num
    have h2 : ((0 : ℝ) + (0 + 1) * -(1 / 2)) / (1 / 2) = -1 := by norm_num
    have hden : (-1 : ℝ) * (1 * e) + -1 * (1 * e) + -1 * (1 * e) = -3 * e := by ring
    have hne : (-3 : ℝ) * e ≠ 0 := mul_ne_zero (by norm_num) hE
    rw [h1, h2, hden, mul_div_assoc', div_eq_iff hne]
    ring
  apply float3_eq_of_channels
  · exact key
  · exact key
  · exact key

theorem layered_step_one :
    ∃ s2, heterogeneous_step sampleFlags
        ⟨Real.exp, Real.log, Real.sqrt, fun y x => Complex.arg ⟨x, y⟩, Real.tan, Int.floor⟩
        sampleLayeredExtern ⟨4, 2, 1, 0, 0⟩ ⟨0, 0, 0, []⟩ ⟨⟨0, 0, 0⟩, ⟨1, 0, 0⟩, 2, 0⟩
        ⟨0, 1 - Real.exp (-(1 / 4)), 0, 0, 0⟩ ⟨0, 0, 0⟩ 1
        ⟨⟨1, 1, 1⟩, 1, 0, ⟨1, 1, 1⟩, ⟨0, 0, 0⟩, ⟨0, 0, 0⟩, 0, -1, false, 1,
          ⟨⟨0, 0, 0⟩, 0, [], 0⟩, [], [⟨0, 0, 1, 0, none, ⟨1, 1, 1⟩⟩]⟩ =
      MarchStep.scattered s2 ∧ s2.sd.P = ⟨1 / 2, 0, 0⟩ ∧
      s2.shaded.map (fun rec => (rec.t, rec.new_t)) = [(0, 1), (1, 2)] := by
  have hmin : min (2 : ℝ) (((1 + 1 : Nat) : ℝ) * 1) = 2 := by norm_num
  unfold heterogeneous_step
  simp only [hmin, if_true]
  rw [layered_sample_scattering]
  · dsimp only
    generalize hv : heterogeneous_segment sampleFlags (_ : KernelMath ℝ) _ _ _ _ _ _ _ = v
    obtain ⟨h1, h2, _, h4⟩ := layered_segment _ v hv rfl rfl rfl rfl rfl rfl
    have hflag : (8 : Nat) &&& (sampleFlags.SD_ABSORPTION ||| sampleFlags.SD_SCATTER) ≠ 0 := by
      decide
    have hb : ¬ (below_tp_eps v.new_tp = true) := by
      rw [h4]
      simp only [below_tp_eps]
      norm_num
    rw [if_pos hflag, if_neg hb, if_pos h1]
    refine ⟨_, rfl, ?_, ?_⟩
    · show (⟨0, 0, 0⟩ : float3 ℝ) + float3_mul_f ⟨1, 0, 0⟩ v.new_t = ⟨1 / 2, 0, 0⟩
      rw [h2]
      simp [float3_add_def, float3_mul_f]
    · simp
  · show ¬ ((0 : ℝ) + 1 * (1 + 0 * (2 - 1)) < 1)
    norm_num
  · decide

/-- C24: a medium that is empty where `x < 1` and scatters with `sigma_s = (1, 1, 1)`
elsewhere, marched in two steps of size 1 along the x axis with `-log(1 - xi) = 1/4`.  The
second step covers `[1, 2]` and detects the crossing; the integrator returns
`VOLUME_PATH_SCATTERED` with the shading point at distance `1/2`, which lies before the
start of that step, in the empty layer. -/
theorem heterogeneous_scatter_before_step :
    (kernel_volume_integrate_heterogeneous sampleFlags
        ⟨Real.exp, Real.log, Real.sqrt, fun y x => Complex.arg ⟨x, y⟩, Real.tan, Int.floor⟩
        sampleLayeredExtern ⟨4, 2, 1, 0, 0⟩ ⟨0, 0, 0, []⟩ ⟨⟨0, 0, 0⟩, ⟨1, 0, 0⟩, 2, 0⟩
        ⟨⟨0, 0, 0⟩, 0, [], 0⟩ [] ⟨1, 1, 1⟩ ⟨0, 1 - Real.exp (-(1 / 4)), 0, 0, 0⟩
        ⟨0, 0, 0⟩).out.result = VolumeIntegrateResult.VOLUME_PATH_SCATTERED ∧
    (kernel_volume_integrate_heterogeneous sampleFlags
        ⟨Real.exp, Real.log, Real.sqrt, fun y x => Complex.arg ⟨x, y⟩, Real.tan, Int.floor⟩
        sampleLayeredExtern ⟨4, 2, 1, 0, 0⟩ ⟨0, 0, 0, []⟩ ⟨⟨0, 0, 0⟩, ⟨1, 0, 0⟩, 2, 0⟩
        ⟨⟨0, 0, 0⟩, 0, [], 0⟩ [] ⟨1, 1, 1⟩ ⟨0, 1 - Real.exp (-(1 / 4)), 0, 0, 0⟩
        ⟨0, 0, 0⟩).out.sd.P = ⟨1 / 2, 0, 0⟩ ∧
    (kernel_volume_integrate_heterogeneous sampleFlags
        ⟨Real.exp, Real.log, Real.sqrt, fun y x => Complex.arg ⟨x, y⟩, Real.tan, Int.floor⟩
        sampleLayeredExtern ⟨4, 2, 1, 0, 0⟩ ⟨0, 0, 0, []⟩ ⟨⟨0, 0, 0⟩, ⟨1, 0, 0⟩, 2, 0⟩
        ⟨⟨0, 0, 0⟩, 0, [], 0⟩ [] ⟨1, 1, 1⟩ ⟨0, 1 - Real.exp (-(1 / 4)), 0, 0, 0⟩
        ⟨0, 0, 0⟩).shaded.map (fun rec => (rec.t, rec.new_t)) = [(0, 1), (1, 2)] := by
  obtain ⟨s2, hs2, hP, hrec⟩ := layered_step_one
  have hloop : heterogeneous_loop sampleFlags
      ⟨Real.exp, Real.log, Real.sqrt, fun y x => Complex.arg ⟨x, y⟩, Real.tan, Int.floor⟩
      sampleLayeredExtern ⟨4, 2, 1, 0, 0⟩ ⟨0, 0, 0, []⟩ ⟨⟨0, 0, 0⟩, ⟨1, 0, 0⟩, 2, 0⟩
      ⟨0, 1 - Real.exp (-(1 / 4)), 0, 0, 0⟩ ⟨0, 0, 0⟩ 2 0
      ⟨⟨1, 1, 1⟩, 0, 0, ⟨1, 1, 1⟩, ⟨0, 0, 0⟩, ⟨0, 0, 0⟩, 0, -1, false, 1,
        ⟨⟨0, 0, 0⟩, 0, [], 0⟩, [], []⟩ = (s2, true) := by
    simp only [heterogeneous_loop, layered_step_zero, hs2]
  have hrun : kernel_volume_integrate_heterogeneous sampleFlags
      ⟨Real.exp, Real.log, Real.sqrt, fun y x => Complex.arg ⟨x, y⟩, Real.tan, Int.floor⟩
      sampleLayeredExtern ⟨4, 2, 1, 0, 0⟩ ⟨0, 0, 0, []⟩ ⟨⟨0, 0, 0⟩, ⟨1, 0, 0⟩, 2, 0⟩
      ⟨⟨0, 0, 0⟩, 0, [], 0⟩ [] ⟨1, 1, 1⟩ ⟨0, 1 - Real.exp (-(1 / 4)), 0, 0, 0⟩ ⟨0, 0, 0⟩ =
      ⟨⟨VolumeIntegrateResult.VOLUME_PATH_SCATTERED, s2.tp, s2.L, s2.sd,
        ⟨0, 0, s2.rng_congruential, []⟩⟩, s2.shaded⟩ := by
    unfold kernel_volume_integrate_heterogeneous
    have hinit : (make_float3 1 1 1 : float3 ℝ) = ⟨1, 1, 1⟩ := rfl
    have hzero : (make_float3 0 0 0 : float3 ℝ) = ⟨0, 0, 0⟩ := rfl
    have hdraw : (sampleLayeredExtern : KernelExtern ℝ).lcg_step_float 0 = (0, 1) := rfl
    have hsteps : ((2 : Int)).toNat = 2 := rfl
    simp only [hinit, hzero, hdraw, hsteps, zero_mul, hloop, if_true]
  rw [hrun]
  exact ⟨rfl, hP, hrec⟩

/-! ## The shadow marcher: bounds and the constant medium -/

theorem step_end_ge (ray_t step_size t : ℝ) (i : Nat) (hstep : 0 < step_size)
    (ht : t = (i : ℝ) * step_size) (hle : t ≤ ray_t) :
    t ≤ min ray_t (((i + 1 : Nat) : ℝ) * step_size) := by
  apply le_min hle
  rw [ht]
  push_cast
  nlinarith

theorem step_end_next (ray_t step_size : ℝ) (i : Nat)
    (hne : min ray_t (((i + 1 : Nat) : ℝ) * step_size) ≠ ray_t) :
    min ray_t (((i + 1 : Nat) : ℝ) * step_size) = ((i + 1 : Nat) : ℝ) * step_size ∧
    ((i + 1 : Nat) : ℝ) * step_size < ray_t := by
  have hmin : min ray_t (((i + 1 : Nat) : ℝ) * step_size) =
      ((i + 1 : Nat) : ℝ) * step_size := by
    rcases min_choice ray_t (((i + 1 : Nat) : ℝ) * step_size) with h | h
    · exact absurd h hne
    · exact h
  refine ⟨hmin, ?_⟩
  rcases lt_or_eq_of_le (min_le_left ray_t (((i + 1 : Nat) : ℝ) * step_size)) with h | h
  · rw [hmin] at h
    exact h
  · exact absurd h hne

/-- A factor `exp(-sigma * dt)` with `sigma >= 0` and `dt >= 0` keeps a non-negative
number non-negative and does not increase it. -/
theorem attenuate_bounds (a b sigma dt : ℝ) (h0 : 0 ≤ a) (hb : a ≤ b) (hs : 0 ≤ sigma)
    (hd : 0 ≤ dt) : 0 ≤ a * Real.exp (-sigma * dt) ∧ a * Real.exp (-sigma * dt) ≤ b := by
  have hpos : 0 < Real.exp (-sigma * dt) := Real.exp_pos _
  have hle : Real.exp (-sigma * dt) ≤ 1 := by
    rw [Real.exp_le_one_iff]
    nlinarith
  constructor
  · exact mul_nonneg h0 (le_of_lt hpos)
  · nlinarith

/-- One iteration of the shadow marcher on a medium of non-negative extinction, entered at
`t = i * step_size <= ray.t` with a throughput between zero and the input throughput:
the throughput stays in that range, and when the loop goes on the next iteration is
entered at `t = (i + 1) * step_size < ray.t`. -/
theorem shadow_step_bounds (K : KernelFlags) (m : KernelMath ℝ) (ext : KernelExtern ℝ)
    (kg : KernelIntegrator ℝ) (ray : Ray ℝ) (throughput : float3 ℝ)
    (hexp : m.expf = Real.exp)
    (hnonneg : ∀ sd1 P sigma_t sd2,
      volume_shader_extinction_sample K ext sd1 P = (some sigma_t, sd2) →
      0 ≤ sigma_t.x ∧ 0 ≤ sigma_t.y ∧ 0 ≤ sigma_t.z)
    (hstep : 0 < kg.volume_step_size) (i : Nat) (s : ShadowMarch ℝ)
    (ht : s.t = (i : ℝ) * kg.volume_step_size) (hle : s.t ≤ ray.t)
    (hx : 0 ≤ s.tp.x ∧ s.tp.x ≤ throughput.x) (hy : 0 ≤ s.tp.y ∧ s.tp.y ≤ throughput.y)
    (hz : 0 ≤ s.tp.z ∧ s.tp.z ≤ throughput.z) :
    (0 ≤ (shadow_step K m ext kg ray i s).1.tp.x ∧
      (shadow_step K m ext kg ray i s).1.tp.x ≤ throughput.x) ∧
    (0 ≤ (shadow_step K m ext kg ray i s).1.tp.y ∧
      (shadow_step K m ext kg ray i s).1.tp.y ≤ throughput.y) ∧
    (0 ≤ (shadow_step K m ext kg ray i s).1.tp.z ∧
      (shadow_step K m ext kg ray i s).1.tp.z ≤ throughput.z) ∧
    ((shadow_step K m ext kg ray i s).2 = true →
      (shadow_step K m ext kg ray i s).1.t = ((i + 1 : Nat) : ℝ) * kg.volume_step_size ∧
      (shadow_step K m ext kg ray i s).1.t ≤ ray.t) := by
  have hdt := step_end_ge ray.t kg.volume_step_size s.t i hstep ht hle
  have hdt0 : 0 ≤ min ray.t (((i + 1 : Nat) : ℝ) * kg.volume_step_size) - s.t := by linarith
  have hnext : decide (min ray.t (((i + 1 : Nat) : ℝ) * kg.volume_step_size) ≠ ray.t) = true →
      min ray.t (((i + 1 : Nat) : ℝ) * kg.volume_step_size) =
        ((i + 1 : Nat) : ℝ) * kg.volume_step_size ∧
      min ray.t (((i + 1 : Nat) : ℝ) * kg.volume_step_size) ≤ ray.t := by
    intro h
    have hne := of_decide_eq_true h
    exact ⟨(step_end_next ray.t kg.volume_step_size i hne).1, min_le_left _ _⟩
  unfold shadow_step
  dsimp only
  split
  · rename_i sigma_t sd1 heq
    obtain ⟨sx, sy, sz⟩ := hnonneg _ _ _ _ heq
    have bx := attenuate_bounds s.tp.x throughput.x sigma_t.x _ hx.1 hx.2 sx hdt0
    have by1 := attenuate_bounds s.tp.y throughput.y sigma_t.y _ hy.1 hy.2 sy hdt0
    have bz := attenuate_bounds s.tp.z throughput.z sigma_t.z _ hz.1 hz.2 sz hdt0
    rw [hexp]
    split
    · exact ⟨bx, by1, bz, fun h => by simp at h⟩
    · exact ⟨bx, by1, bz, hnext⟩
  · exact ⟨hx, hy, hz, hnext⟩

/-- The loop of the shadow marcher on a medium of non-negative extinction keeps the
throughput between zero and the input throughput. -/
theorem shadow_loop_bounds (K : KernelFlags) (m : KernelMath ℝ) (ext : KernelExtern ℝ)
    (kg : KernelIntegrator ℝ) (ray : Ray ℝ) (throughput : float3 ℝ)
    (hexp : m.expf = Real.exp)
    (hnonneg : ∀ sd1 P sigma_t sd2,
      volume_shader_extinction_sample K ext sd1 P = (some sigma_t, sd2) →
      0 ≤ sigma_t.x ∧ 0 ≤ sigma_t.y ∧ 0 ≤ sigma_t.z)
    (hstep : 0 < kg.volume_step_size) (n : Nat) :
    ∀ (i : Nat) (s : ShadowMarch ℝ),
      s.t = (i : ℝ) * kg.volume_step_size → s.t ≤ ray.t →
      (0 ≤ s.tp.x ∧ s.tp.x ≤ throughput.x) → (0 ≤ s.tp.y ∧ s.tp.y ≤ throughput.y) →
      (0 ≤ s.tp.z ∧ s.tp.z ≤ throughput.z) →
      (0 ≤ (shadow_loop K m ext kg ray n i s).tp.x ∧
        (shadow_loop K m ext kg ray n i s).tp.x ≤ throughput.x) ∧
      (0 ≤ (shadow_loop K m ext kg ray n i s).tp.y ∧
        (shadow_loop K m ext kg ray n i s).tp.y ≤ throughput.y) ∧
      (0 ≤ (shadow_loop K m ext kg ray n i s).tp.z ∧
        (shadow_loop K m ext kg ray n i s).tp.z ≤ throughput.z) := by
  induction n with
  | zero =>
    intro i s _ _ hx hy hz
    exact ⟨hx, hy, hz⟩
  | succ n ih =>
    intro i s ht hle hx hy hz
    obtain ⟨bx, by1, bz, hgo⟩ := shadow_step_bounds K m ext kg ray throughput hexp hnonneg
      hstep i s ht hle hx hy hz
    rw [shadow_loop]
    by_cases h : (shadow_step K m ext kg ray i s).2 = true
    · simp only [h, if_true]
      obtain ⟨h1, h2⟩ := hgo h
      exact ih (i + 1) _ h1 h2 bx by1 bz
    · simp only [h, if_false]
      exact ⟨bx, by1, bz⟩

/-- C29: for a medium whose extinction is non-negative wherever the shader returns one, a
non-negative input throughput, `step_size > 0` and `ray.t >= 0`, `kernel_volume_shadow`
returns, with either strategy, a throughput that is non-negative and not larger than the
input throughput in every channel. -/
theorem shadow_throughput_bounds (KT : KernelTypes) (K : KernelFlags) (m : KernelMath ℝ)
    (ext : KernelExtern ℝ) (kg : KernelIntegrator ℝ) (state : PathState) (ray : Ray ℝ)
    (throughput : float3 ℝ) (sd : VolumeShaderData ℝ) (heterogeneous : Bool)
    (hexp : m.expf = Real.exp)
    (hstack : volume_stack_is_heterogeneous KT K ext state.volume_stack = some heterogeneous)
    (hnonneg : ∀ sd1 P sigma_t sd2,
      volume_shader_extinction_sample K ext sd1 P = (some sigma_t, sd2) →
      0 ≤ sigma_t.x ∧ 0 ≤ sigma_t.y ∧ 0 ≤ sigma_t.z)
    (hx : 0 ≤ throughput.x) (hy : 0 ≤ throughput.y) (hz : 0 ≤ throughput.z)
    (hstep : 0 < kg.volume_step_size) (hray : 0 ≤ ray.t) :
    ∃ r, kernel_volume_shadow KT K m ext kg state ray throughput sd = some r ∧
      (0 ≤ r.throughput.x ∧ r.throughput.x ≤ throughput.x) ∧
      (0 ≤ r.throughput.y ∧ r.throughput.y ≤ throughput.y) ∧
      (0 ≤ r.throughput.z ∧ r.throughput.z ≤ throughput.z) := by
  unfold kernel_volume_shadow
  rw [hstack]
  cases heterogeneous with
  | true =>
    refine ⟨_, rfl, ?_⟩
    unfold kernel_volume_shadow_heterogeneous
    dsimp only
    exact shadow_loop_bounds K m ext kg ray throughput hexp hnonneg hstep _ 0 _
      (by simp) hray ⟨hx, le_refl _⟩ ⟨hy, le_refl _⟩ ⟨hz, le_refl _⟩
  | false =>
    refine ⟨_, rfl, ?_⟩
    unfold kernel_volume_shadow_homogeneous
    dsimp only
    split
    · rename_i sigma_t heq
      have hpair : volume_shader_extinction_sample K ext
          (ext.shader_setup_from_volume sd ray state.bounce) ray.P =
          (some sigma_t, (volume_shader_extinction_sample K ext
            (ext.shader_setup_from_volume sd ray state.bounce) ray.P).2) := by
        rw [← heq]
      obtain ⟨sx, sy, sz⟩ := hnonneg _ _ _ _ hpair
      rw [hexp]
      exact ⟨attenuate_bounds _ _ _ _ hx (le_refl _) sx hray,
        attenuate_bounds _ _ _ _ hy (le_refl _) sy hray,
        attenuate_bounds _ _ _ _ hz (le_refl _) sz hray⟩
    · exact ⟨⟨hx, le_refl _⟩, ⟨hy, le_refl _⟩, ⟨hz, le_refl _⟩⟩

theorem sample_extinction_nonneg (sd1 : VolumeShaderData ℝ) (P sigma_t : float3 ℝ)
    (sd2 : VolumeShaderData ℝ)
    (h : volume_shader_extinction_sample sampleFlags (sampleExtern 4 [⟨11, ⟨1, 1, 1⟩⟩] 0)
      sd1 P = (some sigma_t, sd2)) :
    0 ≤ sigma_t.x ∧ 0 ≤ sigma_t.y ∧ 0 ≤ sigma_t.z := by
  have h44 : (4 : Nat) &&& (4 ||| 8) = 4 := by decide
  simp [volume_shader_extinction_sample, sampleExtern, sampleFlags, extinction_sum,
    make_float3, float3_add_def, h44] at h
  obtain ⟨h1, _⟩ := h
  rw [← h1]
  norm_num

/-- The sample absorbing medium under a stack whose shader is not heterogeneous, with
input throughput `(1, 1, 1)` on a segment of length 2. -/
theorem shadow_throughput_bounds_witness :
    ∃ r, kernel_volume_shadow sampleTypes sampleFlags
        ⟨Real.exp, Real.log, Real.sqrt, fun y x => Complex.arg ⟨x, y⟩, Real.tan, Int.floor⟩
        (sampleExtern 4 [⟨11, ⟨1, 1, 1⟩⟩] 0) ⟨4, 3, 1, 0, 0⟩
        ⟨0, 0, 0, [⟨10, 1⟩, ⟨0, -1⟩, ⟨0, -1⟩, ⟨0, -1⟩]⟩ ⟨⟨0, 0, 0⟩, ⟨1, 0, 0⟩, 2, 0⟩
        ⟨1, 1, 1⟩ ⟨⟨0, 0, 0⟩, 0, [], 0⟩ = some r ∧
      (0 ≤ r.throughput.x ∧ r.throughput.x ≤ (1 : ℝ)) ∧
      (0 ≤ r.throughput.y ∧ r.throughput.y ≤ (1 : ℝ)) ∧
      (0 ≤ r.throughput.z ∧ r.throughput.z ≤ (1 : ℝ)) :=
  shadow_throughput_bounds sampleTypes sampleFlags
    ⟨Real.exp, Real.log, Real.sqrt, fun y x => Complex.arg ⟨x, y⟩, Real.tan, Int.floor⟩
    (sampleExtern 4 [⟨11, ⟨1, 1, 1⟩⟩] 0) ⟨4, 3, 1, 0, 0⟩
    ⟨0, 0, 0, [⟨10, 1⟩, ⟨0, -1⟩, ⟨0, -1⟩, ⟨0, -1⟩]⟩ ⟨⟨0, 0, 0⟩, ⟨1, 0, 0⟩, 2, 0⟩
    ⟨1, 1, 1⟩ ⟨⟨0, 0, 0⟩, 0, [], 0⟩ false rfl (by decide) sample_extinction_nonneg
    (by norm_num) (by norm_num) (by norm_num) (by norm_num) (by norm_num)

theorem integrate_heterogeneous_shaded (K : KernelFlags) (m : KernelMath ℝ)
    (ext : KernelExtern ℝ) (kg : KernelIntegrator ℝ) (state : PathState) (ray : Ray ℝ)
    (sd : VolumeShaderData ℝ) (L : List (EmissionAccum ℝ)) (throughput : float3 ℝ)
    (rng : PathSamples ℝ) (undef : float3 ℝ) :
    (kernel_volume_integrate_heterogeneous K m ext kg state ray sd L throughput rng
      undef).shaded =
      (heterogeneous_loop K m ext kg state ray rng undef kg.volume_max_steps.toNat 0
        (heterogeneous_initial ext kg state sd L throughput undef)).1.shaded := by
  unfold kernel_volume_integrate_heterogeneous heterogeneous_initial
  dsimp only
  split <;> rfl

theorem float3_zero_mul_f (c : ℝ) : float3_mul_f (make_float3 0 0 0) c = make_float3 0 0 0 := by
  simp [float3_mul_f, make_float3]

/-- The sampling block entered with the throughput `(0, 0, 0)` while the shader flags
scattering: the new throughput is `(0, 0, 0)`, with or without a crossing. -/
theorem segment_dark (K : KernelFlags) (m : KernelMath ℝ) (rng : PathSamples ℝ)
    (s : IntegrateMarch ℝ) (coeff : VolumeShaderCoefficients ℝ) (closure_flag : Nat)
    (new_t dt : ℝ) (undef : float3 ℝ) (v : StepLocals ℝ)
    (hv : heterogeneous_segment K m rng s coeff closure_flag new_t dt undef = v)
    (hf : closure_flag &&& K.SD_SCATTER ≠ 0) (htp : s.tp = ⟨0, 0, 0⟩) :
    v.new_tp = ⟨0, 0, 0⟩ := by
  subst hv
  unfold heterogeneous_segment
  simp only [hf, ne_eq, not_false_eq_true, true_or, if_true, htp]
  split_ifs
  all_goals first
    | exact float3_zero_mul _
    | (show float3_mul_f _ _ = _
       rw [float3_zero_mul, float3_zero_mul]
       exact float3_zero_mul_f _)

theorem flag_any_cases (f a b : Nat) (h : f &&& (a ||| b) ≠ 0) : f &&& a ≠ 0 ∨ f &&& b ≠ 0 := by
  by_contra hcon
  push_neg at hcon
  exact h ((flag_any_iff f a b).mpr hcon)

/-- The sampling block of one iteration of the heterogeneous integrator when it does not
detect a crossing.  With absorption or scattering flagged it attenuates over the step by
one extinction `sigma`, which is `sigma_a + sigma_s` or `sigma_a`: the throughput and the
accumulated transmittance are multiplied by `transmittance = exp(-sigma * dt)` and
`sigma * dt` is added to `accum_sigma_t`; the sampling variables stay set up, and the
failed scatter test is recorded.  With neither flagged it leaves the accumulators and
the sampling variables as they were. -/
theorem segment_no_crossing (K : KernelFlags) (m : KernelMath ℝ) (rng : PathSamples ℝ)
    (s : IntegrateMarch ℝ) (coeff : VolumeShaderCoefficients ℝ) (closure_flag : Nat)
    (new_t dt : ℝ) (undef : float3 ℝ) (v : StepLocals ℝ)
    (hv : heterogeneous_segment K m rng s coeff closure_flag new_t dt undef = v) :
    (closure_flag &&& (K.SD_ABSORPTION ||| K.SD_SCATTER) ≠ 0 → v.scatter = false →
      ∃ sigma, (sigma = coeff.sigma_a + coeff.sigma_s ∨ sigma = coeff.sigma_a) ∧
        v.transmittance = volume_color_transmittance m.expf sigma dt ∧
        v.new_tp = s.tp * v.transmittance ∧
        v.accum_transmittance = s.accum_transmittance * v.transmittance ∧
        v.accum_sigma_t = s.accum_sigma_t + float3_mul_f sigma dt ∧
        v.new_t = new_t ∧
        (sampling_set_up (m.float_to_int (rng.phase * 3))
            (-m.logf (1 - rng.scatter_distance)) s.channel s.nlogxi →
          sampling_set_up (m.float_to_int (rng.phase * 3))
            (-m.logf (1 - rng.scatter_distance)) v.channel v.nlogxi ∧
          no_crossing_yet (m.float_to_int (rng.phase * 3))
            (-m.logf (1 - rng.scatter_distance)) v.has_scatter v.accum_sigma_t)) ∧
    (closure_flag &&& (K.SD_ABSORPTION ||| K.SD_SCATTER) = 0 →
      v.scatter = false ∧ v.accum_transmittance = s.accum_transmittance ∧
      v.accum_sigma_t = s.accum_sigma_t ∧ v.new_t = new_t ∧ v.nlogxi = s.nlogxi ∧
      v.channel = s.channel ∧ v.has_scatter = s.has_scatter) := by
  subst hv
  constructor
  · intro hflag hns
    unfold heterogeneous_segment at hns ⊢
    by_cases h1 : closure_flag &&& K.SD_SCATTER ≠ 0 ∨
        (s.has_scatter = true ∧ closure_flag &&& K.SD_ABSORPTION ≠ 0)
    · rw [if_pos h1] at hns ⊢
      dsimp only at hns ⊢
      by_cases h2 : (if s.channel = -1 then -m.logf (1 - rng.scatter_distance) else s.nlogxi) <
          kernel_volume_channel_get
            (s.accum_sigma_t + float3_mul_f (coeff.sigma_a + coeff.sigma_s) dt)
            (if s.channel = -1 then m.float_to_int (rng.phase * 3) else s.channel)
      · rw [if_pos h2] at hns
        simp at hns
      · rw [if_neg h2]
        refine ⟨coeff.sigma_a + coeff.sigma_s, Or.inl rfl, rfl, rfl, rfl, rfl, rfl, ?_⟩
        intro hset
        have hchan : (if s.channel = -1 then m.float_to_int (rng.phase * 3) else s.channel) =
            m.float_to_int (rng.phase * 3) := by
          rcases hset with h | h
          · rw [if_pos h]
          · split_ifs with h3
            · rfl
            · exact h.1
        have hnl : (if s.channel = -1 then -m.logf (1 - rng.scatter_distance)
            else s.nlogxi) = -m.logf (1 - rng.scatter_distance) := by
          rcases hset with h | h
          · rw [if_pos h]
          · split_ifs with h3
            · rfl
            · exact h.2
        rw [hchan, hnl] at h2
        refine ⟨Or.inr ⟨hchan, hnl⟩, ?_⟩
        intro _
        exact h2
    · rw [if_neg h1] at hns ⊢
      have hnS : ¬ (closure_flag &&& K.SD_SCATTER ≠ 0) := fun h => h1 (Or.inl h)
      have hA : closure_flag &&& K.SD_ABSORPTION ≠ 0 := by
        rcases flag_any_cases _ _ _ hflag with h | h
        · exact h
        · exact absurd h hnS
      have hhs : ¬ (s.has_scatter = true) := fun h => h1 (Or.inr ⟨h, hA⟩)
      rw [if_pos hA]
      refine ⟨coeff.sigma_a, Or.inr rfl, rfl, rfl, rfl, rfl, rfl, ?_⟩
      intro hset
      exact ⟨hset, fun h => absurd h hhs⟩
  · intro hflag
    obtain ⟨hA, hS⟩ := (flag_any_iff _ _ _).mp hflag
    unfold heterogeneous_segment
    have h1 : ¬ (closure_flag &&& K.SD_SCATTER ≠ 0 ∨
        (s.has_scatter = true ∧ closure_flag &&& K.SD_ABSORPTION ≠ 0)) := by
      rintro (h | h)
      · exact h hS
      · exact h.2 hA
    have h2 : ¬ (closure_flag &&& K.SD_ABSORPTION ≠ 0) := fun h => h hA
    rw [if_neg h1, if_neg h2]
    exact ⟨rfl, rfl, rfl, rfl, rfl, rfl, rfl⟩

theorem float3_add_mul_f_zero (a : float3 ℝ) (dt : ℝ) :
    a + float3_mul_f (make_float3 0 0 0) dt = a := by
  rw [float3_zero_mul_f, float3_add_zero]

/-- One iteration of the heterogeneous integrator that neither scatters nor takes the
early exit attenuates over the step `[t, new_t]` by one extinction `sigma`, which is
zero or comes from the coefficients the shader returned: the throughput and the
accumulated transmittance are multiplied by the transmittance of the step,
`exp(-sigma * dt)`, and `sigma * dt` is added to `accum_sigma_t`; `t` becomes `new_t`,
which is not `ray.t` when the loop goes on; the sampling variables stay set up and the
record of the failed scatter tests is kept. -/
theorem heterogeneous_step_attenuates (K : KernelFlags) (m : KernelMath ℝ)
    (ext : KernelExtern ℝ) (kg : KernelIntegrator ℝ) (state : PathState) (ray : Ray ℝ)
    (rng : PathSamples ℝ) (undef : float3 ℝ) (hexp : m.expf = Real.exp) (i : Nat)
    (s : IntegrateMarch ℝ) :
    ∃ rec s1,
      (heterogeneous_step K m ext kg state ray rng undef i s = MarchStep.next s1 ∨
        heterogeneous_step K m ext kg state ray rng undef i s = MarchStep.stop s1 ∨
        heterogeneous_step K m ext kg state ray rng undef i s = MarchStep.scattered s1) ∧
      s1.shaded = s.shaded ++ [rec] ∧
      ((heterogeneous_step K m ext kg state ray rng undef i s = MarchStep.next s1 ∨
          (heterogeneous_step K m ext kg state ray rng undef i s = MarchStep.stop s1 ∧
            threshold_hit K rec = false)) →
        ∃ sigma,
          (sigma = make_float3 0 0 0 ∨ ∃ sdx P coeff sd2,
            volume_shader_sample K ext kg sdx state P = (some coeff, sd2) ∧
            (sigma = coeff.sigma_a + coeff.sigma_s ∨ sigma = coeff.sigma_a)) ∧
          heterogeneous_step_transmittance K m ext kg state ray rng undef i s =
            volume_color_transmittance Real.exp sigma
              (min ray.t (((i + 1 : Nat) : ℝ) * kg.volume_step_size) - s.t) ∧
          s1.accum_transmittance = s.accum_transmittance *
            heterogeneous_step_transmittance K m ext kg state ray rng undef i s ∧
          s1.tp = s.tp * heterogeneous_step_transmittance K m ext kg state ray rng undef i s ∧
          s1.accum_sigma_t = s.accum_sigma_t + float3_mul_f sigma
            (min ray.t (((i + 1 : Nat) : ℝ) * kg.volume_step_size) - s.t) ∧
          s1.t = min ray.t (((i + 1 : Nat) : ℝ) * kg.volume_step_size) ∧
          (heterogeneous_step K m ext kg state ray rng undef i s = MarchStep.next s1 →
            min ray.t (((i + 1 : Nat) : ℝ) * kg.volume_step_size) ≠ ray.t) ∧
          (sampling_set_up (m.float_to_int (rng.phase * 3))
              (-m.logf (1 - rng.scatter_distance)) s.channel s.nlogxi →
            sampling_set_up (m.float_to_int (rng.phase * 3))
              (-m.logf (1 - rng.scatter_distance)) s1.channel s1.nlogxi ∧
            (no_crossing_yet (m.float_to_int (rng.phase * 3))
                (-m.logf (1 - rng.scatter_distance)) s.has_scatter s.accum_sigma_t →
              no_crossing_yet (m.float_to_int (rng.phase * 3))
                (-m.logf (1 - rng.scatter_distance)) s1.has_scatter s1.accum_sigma_t))) := by
  unfold heterogeneous_step heterogeneous_step_transmittance
  dsimp only
  generalize hvs : volume_shader_sample K ext kg _ state _ = r
  rcases r with ⟨_ | coeff, sd1⟩
  · -- the shader returned no coefficients
    dsimp only
    have hskip : ∃ sigma : float3 ℝ,
        (sigma = make_float3 0 0 0 ∨ ∃ sdx P coeff sd2,
          volume_shader_sample K ext kg sdx state P = (some coeff, sd2) ∧
          (sigma = coeff.sigma_a + coeff.sigma_s ∨ sigma = coeff.sigma_a)) ∧
        make_float3 1 1 1 = volume_color_transmittance Real.exp sigma
          (min ray.t (((i + 1 : Nat) : ℝ) * kg.volume_step_size) - s.t) ∧
        s.accum_transmittance = s.accum_transmittance * make_float3 1 1 1 ∧
        s.tp = s.tp * make_float3 1 1 1 ∧
        s.accum_sigma_t = s.accum_sigma_t + float3_mul_f sigma
          (min ray.t (((i + 1 : Nat) : ℝ) * kg.volume_step_size) - s.t) :=
      ⟨make_float3 0 0 0, Or.inl rfl, (transmittance_zero_sigma _).symm,
        (float3_mul_one _).symm, (float3_mul_one _).symm, (float3_add_mul_f_zero _ _).symm⟩
    obtain ⟨sigma, h1, h2, h3, h4, h5⟩ := hskip
    split
    · rename_i hend
      refine ⟨_, _, Or.inr (Or.inl rfl), rfl, fun _ => ?_⟩
      exact ⟨sigma, h1, h2, h3, h4, h5, rfl, (fun h => by cases h), fun hset => ⟨hset, id⟩⟩
    · rename_i hend
      refine ⟨_, _, Or.inl rfl, rfl, fun _ => ?_⟩
      exact ⟨sigma, h1, h2, h3, h4, h5, rfl, fun _ => hend, fun hset => ⟨hset, id⟩⟩
  · dsimp only
    generalize hv : heterogeneous_segment K m rng _ coeff _ _ _ undef = v
    obtain ⟨hfl, hun⟩ := segment_no_crossing K m rng _ coeff _ _ _ undef v hv
    by_cases hflag : sd1.flag &&& (K.SD_ABSORPTION ||| K.SD_SCATTER) ≠ 0
    · rw [if_pos hflag, if_pos hflag]
      by_cases hb : below_tp_eps v.new_tp = true
      · rw [if_pos hb]
        refine ⟨_, _, Or.inr (Or.inl rfl), rfl, ?_⟩
        rintro (h | ⟨_, h⟩)
        · cases h
        · exfalso
          have : threshold_hit K (⟨i, s.t, min ray.t (((i + 1 : Nat) : ℝ) * kg.volume_step_size),
              (if min ray.t (((i + 1 : Nat) : ℝ) * kg.volume_step_size) = ray.t then
                (ext.lcg_step_float s.rng_congruential).1 *
                  (min ray.t (((i + 1 : Nat) : ℝ) * kg.volume_step_size) - s.t)
              else s.random_jitter_offset), some sd1.flag, v.new_tp⟩ : MarchRecord ℝ) = true := by
            simp only [threshold_hit, hflag, hb, ne_eq, not_false_eq_true, decide_True,
              Bool.and_self]
          rw [this] at h
          cases h
      · rw [if_neg hb]
        by_cases hs : v.scatter = true
        · rw [if_pos hs]
          refine ⟨_, _, Or.inr (Or.inr rfl), rfl, ?_⟩
          rintro (h | ⟨h, _⟩) <;> cases h
        · rw [if_neg hs]
          have hns : v.scatter = false := by simpa using hs
          obtain ⟨sigma, hsig, htr, hntp, hat, hst, hnt, hset⟩ := hfl hflag hns
          have hsig1 : sigma = make_float3 0 0 0 ∨ ∃ sdx P coeff sd2,
              volume_shader_sample K ext kg sdx state P = (some coeff, sd2) ∧
              (sigma = coeff.sigma_a + coeff.sigma_s ∨ sigma = coeff.sigma_a) :=
            Or.inr ⟨_, _, coeff, sd1, hvs, hsig⟩
          rw [hexp] at htr
          split
          · rename_i hend
            refine ⟨_, _, Or.inr (Or.inl rfl), rfl, fun _ => ?_⟩
            exact ⟨sigma, hsig1, htr, hat, hntp, hst, hnt, (fun h => by cases h),
              fun h => ⟨(hset h).1, fun _ => (hset h).2⟩⟩
          · rename_i hend
            refine ⟨_, _, Or.inl rfl, rfl, fun _ => ?_⟩
            rw [hnt] at hend
            exact ⟨sigma, hsig1, htr, hat, hntp, hst, hnt, fun _ => hend,
              fun h => ⟨(hset h).1, fun _ => (hset h).2⟩⟩
    · rw [if_neg hflag, if_neg hflag]
      have hzero : sd1.flag &&& (K.SD_ABSORPTION ||| K.SD_SCATTER) = 0 := by
        simpa using hflag
      obtain ⟨_, hat, hst, hnt, hnl, hch, hhs⟩ := hun hzero
      have hskip : ∃ sigma : float3 ℝ,
          (sigma = make_float3 0 0 0 ∨ ∃ sdx P coeff sd2,
            volume_shader_sample K ext kg sdx state P = (some coeff, sd2) ∧
            (sigma = coeff.sigma_a + coeff.sigma_s ∨ sigma = coeff.sigma_a)) ∧
          make_float3 1 1 1 = volume_color_transmittance Real.exp sigma
            (min ray.t (((i + 1 : Nat) : ℝ) * kg.volume_step_size) - s.t) ∧
          v.accum_transmittance = s.accum_transmittance * make_float3 1 1 1 ∧
          s.tp = s.tp * make_float3 1 1 1 ∧
          v.accum_sigma_t = s.accum_sigma_t + float3_mul_f sigma
            (min ray.t (((i + 1 : Nat) : ℝ) * kg.volume_step_size) - s.t) :=
        ⟨make_float3 0 0 0, Or.inl rfl, (transmittance_zero_sigma _).symm,
          by rw [hat, float3_mul_one], (float3_mul_one _).symm,
          by rw [hst, float3_add_mul_f_zero]⟩
      obtain ⟨sigma, h1, h2, h3, h4, h5⟩ := hskip
      have hkeep : sampling_set_up (m.float_to_int (rng.phase * 3))
            (-m.logf (1 - rng.scatter_distance)) s.channel s.nlogxi →
          sampling_set_up (m.float_to_int (rng.phase * 3))
            (-m.logf (1 - rng.scatter_distance)) v.channel v.nlogxi ∧
          (no_crossing_yet (m.float_to_int (rng.phase * 3))
              (-m.logf (1 - rng.scatter_distance)) s.has_scatter s.accum_sigma_t →
            no_crossing_yet (m.float_to_int (rng.phase * 3))
              (-m.logf (1 - rng.scatter_distance)) v.has_scatter v.accum_sigma_t) := by
        intro hset
        rw [hch, hnl, hhs, hst]
        exact ⟨hset, id⟩
      split
      · rename_i hend
        refine ⟨_, _, Or.inr (Or.inl rfl), rfl, fun _ => ?_⟩
        exact ⟨sigma, h1, h2, h3, h4, h5, hnt, (fun h => by cases h), hkeep⟩
      · rename_i hend
        refine ⟨_, _, Or.inl rfl, rfl, fun _ => ?_⟩
        rw [hnt] at hend
        exact ⟨sigma, h1, h2, h3, h4, h5, hnt, fun _ => hend, hkeep⟩


theorem float3_one_mul (a : float3 ℝ) : make_float3 1 1 1 * a = a := by
  apply float3_eq_of_channels
  · show 1 * a.x = a.x
    ring
  · show 1 * a.y = a.y
    ring
  · show 1 * a.z = a.z
    ring

/-- Attenuating an accumulated transmittance `exp(-A)` by `exp(-sigma * dt)` gives
`exp(-(A + sigma * dt))`. -/
theorem transmittance_accumulates (A sigma : float3 ℝ) (dt : ℝ) :
    volume_color_transmittance Real.exp A 1 * volume_color_transmittance Real.exp sigma dt =
      volume_color_transmittance Real.exp (A + float3_mul_f sigma dt) 1 := by
  apply float3_eq_of_channels
  · rw [float3_mul_x, transmittance_x, transmittance_x, transmittance_x, ← Real.exp_add,
      float3_add_x, float3_mul_f_x]
    congr 1
    ring
  · rw [float3_mul_y, transmittance_y, transmittance_y, transmittance_y, ← Real.exp_add,
      float3_add_y, float3_mul_f_y]
    congr 1
    ring
  · rw [float3_mul_z, transmittance_z, transmittance_z, transmittance_z, ← Real.exp_add,
      float3_add_z, float3_mul_f_z]
    congr 1
    ring

theorem transmittance_pos (sigma : float3 ℝ) (t : ℝ) :
    0 < (volume_color_transmittance Real.exp sigma t).x ∧
    0 < (volume_color_transmittance Real.exp sigma t).y ∧
    0 < (volume_color_transmittance Real.exp sigma t).z :=
  ⟨Real.exp_pos _, Real.exp_pos _, Real.exp_pos _⟩

theorem float3_mul_pos (a b : float3 ℝ) (ha : 0 < a.x ∧ 0 < a.y ∧ 0 < a.z)
    (hb : 0 < b.x ∧ 0 < b.y ∧ 0 < b.z) :
    0 < (a * b).x ∧ 0 < (a * b).y ∧ 0 < (a * b).z :=
  ⟨mul_pos ha.1 hb.1, mul_pos ha.2.1 hb.2.1, mul_pos ha.2.2 hb.2.2⟩

/-- The loop of the heterogeneous integrator, when it is left without a scatter exit and
no record has hit the threshold: the accumulated transmittance and the throughput are
multiplied by the product of the step transmittances, which is positive in every channel;
`accum_transmittance = exp(-accum_sigma_t)` is kept; the sampling variables stay set up
and the record of the failed scatter tests is kept. -/
theorem heterogeneous_loop_attenuates (K : KernelFlags) (m : KernelMath ℝ)
    (ext : KernelExtern ℝ) (kg : KernelIntegrator ℝ) (state : PathState) (ray : Ray ℝ)
    (rng : PathSamples ℝ) (undef : float3 ℝ) (hexp : m.expf = Real.exp) (n : Nat) :
    ∀ (i : Nat) (s : IntegrateMarch ℝ),
      (heterogeneous_loop K m ext kg state ray rng undef n i s).2 = false →
      (∀ rec ∈ ((heterogeneous_loop K m ext kg state ray rng undef n i s).1.shaded).drop
          s.shaded.length, threshold_hit K rec = false) →
      (heterogeneous_loop K m ext kg state ray rng undef n i s).1.accum_transmittance =
        s.accum_transmittance *
          heterogeneous_loop_transmittance K m ext kg state ray rng undef n i s ∧
      (heterogeneous_loop K m ext kg state ray rng undef n i s).1.tp =
        s.tp * heterogeneous_loop_transmittance K m ext kg state ray rng undef n i s ∧
      (0 < (heterogeneous_loop_transmittance K m ext kg state ray rng undef n i s).x ∧
        0 < (heterogeneous_loop_transmittance K m ext kg state ray rng undef n i s).y ∧
        0 < (heterogeneous_loop_transmittance K m ext kg state ray rng undef n i s).z) ∧
      (s.accum_transmittance = volume_color_transmittance Real.exp s.accum_sigma_t 1 →
        (heterogeneous_loop K m ext kg state ray rng undef n i s).1.accum_transmittance =
          volume_color_transmittance Real.exp
            (heterogeneous_loop K m ext kg state ray rng undef n i s).1.accum_sigma_t 1) ∧
      (sampling_set_up (m.float_to_int (rng.phase * 3))
          (-m.logf (1 - rng.scatter_distance)) s.channel s.nlogxi →
        no_crossing_yet (m.float_to_int (rng.phase * 3))
          (-m.logf (1 - rng.scatter_distance)) s.has_scatter s.accum_sigma_t →
        no_crossing_yet (m.float_to_int (rng.phase * 3))
          (-m.logf (1 - rng.scatter_distance))
          (heterogeneous_loop K m ext kg state ray rng undef n i s).1.has_scatter
          (heterogeneous_loop K m ext kg state ray rng undef n i s).1.accum_sigma_t) := by
  induction n with
  | zero =>
    intro i s _ _
    simp only [heterogeneous_loop, heterogeneous_loop_transmittance]
    refine ⟨(float3_mul_one _).symm, (float3_mul_one _).symm, ?_, id, fun _ h => h⟩
    simp [make_float3]
  | succ n ih =>
    intro i s hns hne
    obtain ⟨rec, s1, hcase, hsh, hcore⟩ := heterogeneous_step_attenuates K m ext kg state ray
      rng undef hexp i s
    rcases hcase with h | h | h
    · have e : heterogeneous_loop K m ext kg state ray rng undef (n + 1) i s =
          heterogeneous_loop K m ext kg state ray rng undef n (i + 1) s1 := by
        simp only [heterogeneous_loop, h]
      have et : heterogeneous_loop_transmittance K m ext kg state ray rng undef (n + 1) i s =
          heterogeneous_step_transmittance K m ext kg state ray rng undef i s *
            heterogeneous_loop_transmittance K m ext kg state ray rng undef n (i + 1) s1 := by
        simp only [heterogeneous_loop_transmittance, h]
      obtain ⟨l, hl, _⟩ := heterogeneous_loop_records K m ext kg state ray rng undef n
        (i + 1) s1
      rw [e] at hns hne ⊢
      rw [et]
      obtain ⟨sigma, _, htr, hat, htp, hst, _, _, hset⟩ := hcore (Or.inl h)
      have hne1 : ∀ rec ∈ ((heterogeneous_loop K m ext kg state ray rng undef n (i + 1)
          s1).1.shaded).drop s1.shaded.length, threshold_hit K rec = false := by
        intro r hr
        rw [hl, List.drop_left] at hr
        apply hne r
        rw [hl, hsh, List.append_assoc, List.drop_left]
        exact List.mem_append_right _ hr
      obtain ⟨g1, g2, g3, g4, g5⟩ := ih (i + 1) s1 hns hne1
      refine ⟨?_, ?_, ?_, ?_, ?_⟩
      · rw [g1, hat, float3_mul_assoc]
      · rw [g2, htp, float3_mul_assoc]
      · apply float3_mul_pos _ _ _ g3
        rw [htr]
        exact transmittance_pos _ _
      · intro hc
        apply g4
        rw [hat, hst, htr, hc]
        exact transmittance_accumulates _ _ _
      · intro hs hj
        exact g5 (hset hs).1 ((hset hs).2 hj)
    · have e : heterogeneous_loop K m ext kg state ray rng undef (n + 1) i s = (s1, false) := by
        simp only [heterogeneous_loop, h]
      have et : heterogeneous_loop_transmittance K m ext kg state ray rng undef (n + 1) i s =
          heterogeneous_step_transmittance K m ext kg state ray rng undef i s := by
        simp only [heterogeneous_loop_transmittance, h]
      rw [e] at hne ⊢
      rw [et]
      have hnh : threshold_hit K rec = false :=
        hne rec (by
          show rec ∈ List.drop s.shaded.length s1.shaded
          rw [hsh, List.drop_left]
          exact List.mem_singleton_self _)
      obtain ⟨sigma, _, htr, hat, htp, hst, _, _, hset⟩ := hcore (Or.inr ⟨h, hnh⟩)
      refine ⟨hat, htp, ?_, ?_, ?_⟩
      · rw [htr]
        exact transmittance_pos _ _
      · intro hc
        show s1.accum_transmittance = volume_color_transmittance Real.exp s1.accum_sigma_t 1
        rw [hat, hst, htr, hc]
        exact transmittance_accumulates _ _ _
      · intro hs hj
        exact (hset hs).2 hj
    · have e : heterogeneous_loop K m ext kg state ray rng undef (n + 1) i s = (s1, true) := by
        simp only [heterogeneous_loop, h]
      rw [e] at hns
      cases hns

/-- C22: in every run of `kernel_volume_integrate_heterogeneous` that ends without a
scatter event and without the early exit, the outcome is `VOLUME_PATH_ATTENUATED`, the
accumulated transmittance `A` is the componentwise product of the transmittances of all
marched steps, and the output throughput is `tp_in * A` when scattering was never
encountered (`has_scatter` false) and `tp_in * A * 3 / (A_x + A_y + A_z)` when it was. -/
theorem integrate_heterogeneous_attenuated (K : KernelFlags) (m : KernelMath ℝ)
    (ext : KernelExtern ℝ) (kg : KernelIntegrator ℝ) (state : PathState) (ray : Ray ℝ)
    (sd : VolumeShaderData ℝ) (L : List (EmissionAccum ℝ)) (throughput : float3 ℝ)
    (rng : PathSamples ℝ) (undef : float3 ℝ) (hexp : m.expf = Real.exp)
    (hnoscatter : (heterogeneous_loop K m ext kg state ray rng undef
      kg.volume_max_steps.toNat 0
      (heterogeneous_initial ext kg state sd L throughput undef)).2 = false)
    (hnoexit : ∀ rec ∈ (kernel_volume_integrate_heterogeneous K m ext kg state ray sd L
      throughput rng undef).shaded, threshold_hit K rec = false) :
    (kernel_volume_integrate_heterogeneous K m ext kg state ray sd L throughput rng
      undef).out.result = VolumeIntegrateResult.VOLUME_PATH_ATTENUATED ∧
    (heterogeneous_loop K m ext kg state ray rng undef kg.volume_max_steps.toNat 0
      (heterogeneous_initial ext kg state sd L throughput undef)).1.accum_transmittance =
      heterogeneous_loop_transmittance K m ext kg state ray rng undef
        kg.volume_max_steps.toNat 0
        (heterogeneous_initial ext kg state sd L throughput undef) ∧
    ((heterogeneous_loop K m ext kg state ray rng undef kg.volume_max_steps.toNat 0
        (heterogeneous_initial ext kg state sd L throughput undef)).1.has_scatter = false →
      (kernel_volume_integrate_heterogeneous K m ext kg state ray sd L throughput rng
        undef).out.throughput =
        throughput * heterogeneous_loop_transmittance K m ext kg state ray rng undef
          kg.volume_max_steps.toNat 0
          (heterogeneous_initial ext kg state sd L throughput undef)) ∧
    ((heterogeneous_loop K m ext kg state ray rng undef kg.volume_max_steps.toNat 0
        (heterogeneous_initial ext kg state sd L throughput undef)).1.has_scatter = true →
      (kernel_volume_integrate_heterogeneous K m ext kg state ray sd L throughput rng
        undef).out.throughput =
        spec_attenuated_product throughput
          (heterogeneous_loop_transmittance K m ext kg state ray rng undef
            kg.volume_max_steps.toNat 0
            (heterogeneous_initial ext kg state sd L throughput undef))) := by
  rw [integrate_heterogeneous_shaded] at hnoexit
  obtain ⟨g1, g2, g3, _, _⟩ := heterogeneous_loop_attenuates K m ext kg state ray rng undef
    hexp kg.volume_max_steps.toNat 0
    (heterogeneous_initial ext kg state sd L throughput undef) hnoscatter hnoexit
  have hA : (heterogeneous_loop K m ext kg state ray rng undef kg.volume_max_steps.toNat 0
      (heterogeneous_initial ext kg state sd L throughput undef)).1.accum_transmittance =
      heterogeneous_loop_transmittance K m ext kg state ray rng undef
        kg.volume_max_steps.toNat 0
        (heterogeneous_initial ext kg state sd L throughput undef) := by
    rw [g1]
    exact float3_one_mul _
  have htp : (heterogeneous_loop K m ext kg state ray rng undef kg.volume_max_steps.toNat 0
      (heterogeneous_initial ext kg state sd L throughput undef)).1.tp =
      throughput * heterogeneous_loop_transmittance K m ext kg state ray rng undef
        kg.volume_max_steps.toNat 0
        (heterogeneous_initial ext kg state sd L throughput undef) := g2
  have hne : ¬ ((heterogeneous_loop K m ext kg state ray rng undef kg.volume_max_steps.toNat 0
      (heterogeneous_initial ext kg state sd L throughput undef)).2 = true) := by
    rw [hnoscatter]
    simp
  have hrun : (kernel_volume_integrate_heterogeneous K m ext kg state ray sd L throughput
      rng undef).out.result = VolumeIntegrateResult.VOLUME_PATH_ATTENUATED ∧
      (kernel_volume_integrate_heterogeneous K m ext kg state ray sd L throughput rng
        undef).out.throughput =
      if (heterogeneous_loop K m ext kg state ray rng undef kg.volume_max_steps.toNat 0
          (heterogeneous_initial ext kg state sd L throughput undef)).1.has_scatter = true ∧
          0 < (heterogeneous_loop K m ext kg state ray rng undef kg.volume_max_steps.toNat 0
            (heterogeneous_initial ext kg state sd L throughput undef)).1.accum_transmittance.x +
            (heterogeneous_loop K m ext kg state ray rng undef kg.volume_max_steps.toNat 0
            (heterogeneous_initial ext kg state sd L throughput undef)).1.accum_transmittance.y +
            (heterogeneous_loop K m ext kg state ray rng undef kg.volume_max_steps.toNat 0
            (heterogeneous_initial ext kg state sd L throughput undef)).1.accum_transmittance.z
      then float3_mul_f (heterogeneous_loop K m ext kg state ray rng undef
          kg.volume_max_steps.toNat 0
          (heterogeneous_initial ext kg state sd L throughput undef)).1.tp
        (3 / ((heterogeneous_loop K m ext kg state ray rng undef kg.volume_max_steps.toNat 0
            (heterogeneous_initial ext kg state sd L throughput undef)).1.accum_transmittance.x +
            (heterogeneous_loop K m ext kg state ray rng undef kg.volume_max_steps.toNat 0
            (heterogeneous_initial ext kg state sd L throughput undef)).1.accum_transmittance.y +
            (heterogeneous_loop K m ext kg state ray rng undef kg.volume_max_steps.toNat 0
            (heterogeneous_initial ext kg state sd L throughput undef)).1.accum_transmittance.z))
      else (heterogeneous_loop K m ext kg state ray rng undef kg.volume_max_steps.toNat 0
          (heterogeneous_initial ext kg state sd L throughput undef)).1.tp := by
    unfold kernel_volume_integrate_heterogeneous
    unfold heterogeneous_initial at hne ⊢
    dsimp only
    rw [if_neg hne]
    exact ⟨rfl, rfl⟩
  refine ⟨hrun.1, hA, ?_, ?_⟩
  · intro hhs
    rw [hrun.2, htp]
    have : ¬ ((heterogeneous_loop K m ext kg state ray rng undef kg.volume_max_steps.toNat 0
        (heterogeneous_initial ext kg state sd L throughput undef)).1.has_scatter = true ∧
        0 < (heterogeneous_loop K m ext kg state ray rng undef kg.volume_max_steps.toNat 0
          (heterogeneous_initial ext kg state sd L throughput undef)).1.accum_transmittance.x +
          (heterogeneous_loop K m ext kg state ray rng undef kg.volume_max_steps.toNat 0
          (heterogeneous_initial ext kg state sd L throughput undef)).1.accum_transmittance.y +
          (heterogeneous_loop K m ext kg state ray rng undef kg.volume_max_steps.toNat 0
          (heterogeneous_initial ext kg state sd L throughput undef)).1.accum_transmittance.z) := by
      rw [hhs]
      simp
    rw [if_neg this]
  · intro hhs
    rw [hrun.2, htp, hA]
    have hpos : 0 < (heterogeneous_loop_transmittance K m ext kg state ray rng undef
          kg.volume_max_steps.toNat 0
          (heterogeneous_initial ext kg state sd L throughput undef)).x +
        (heterogeneous_loop_transmittance K m ext kg state ray rng undef
          kg.volume_max_steps.toNat 0
          (heterogeneous_initial ext kg state sd L throughput undef)).y +
        (heterogeneous_loop_transmittance K m ext kg state ray rng undef
          kg.volume_max_steps.toNat 0
          (heterogeneous_initial ext kg state sd L throughput undef)).z := by
      linarith [g3.1, g3.2.1, g3.2.2]
    rw [if_pos ⟨hhs, hpos⟩]
    rfl


/-- The sampling block on an absorbing step before any scattering was met: no crossing,
the throughput is attenuated by `exp(-sigma_a * dt)`. -/
theorem segment_absorbing (K : KernelFlags) (m : KernelMath ℝ) (rng : PathSamples ℝ)
    (s : IntegrateMarch ℝ) (coeff : VolumeShaderCoefficients ℝ) (closure_flag : Nat)
    (new_t dt : ℝ) (undef : float3 ℝ) (v : StepLocals ℝ)
    (hv : heterogeneous_segment K m rng s coeff closure_flag new_t dt undef = v)
    (hs : closure_flag &&& K.SD_SCATTER = 0) (ha : closure_flag &&& K.SD_ABSORPTION ≠ 0)
    (hhs : s.has_scatter = false) :
    v.scatter = false ∧ v.new_t = new_t ∧
      v.new_tp = s.tp * volume_color_transmittance m.expf coeff.sigma_a dt := by
  subst hv
  unfold heterogeneous_segment
  have hno : ¬ (closure_flag &&& K.SD_SCATTER ≠ 0 ∨
      (s.has_scatter = true ∧ closure_flag &&& K.SD_ABSORPTION ≠ 0)) := by
    rw [hs, hhs]
    simp
  rw [if_neg hno, if_pos ha]
  exact ⟨rfl, rfl, rfl⟩

/-- The sample absorbing medium marched in one step of length `1 / 2` with the throughput
`(1, 1, 1)`: no scatter event and no early exit, the outcome is `VOLUME_PATH_ATTENUATED`
and the throughput is the product of the step transmittances. -/
theorem integrate_heterogeneous_attenuated_witness :
    (kernel_volume_integrate_heterogeneous sampleFlags
        ⟨Real.exp, Real.log, Real.sqrt, fun y x => Complex.arg ⟨x, y⟩, Real.tan, Int.floor⟩
        (sampleExtern 4 [⟨11, ⟨1, 2, 3⟩⟩] 0) ⟨4, 2, 1, 0, 0⟩ ⟨0, 0, 0, []⟩
        ⟨⟨0, 0, 0⟩, ⟨1, 0, 0⟩, 1 / 2, 0⟩ ⟨⟨0, 0, 0⟩, 0, [], 0⟩ [] ⟨1, 1, 1⟩
        ⟨0, 0, 0, 0, 0⟩ ⟨0, 0, 0⟩).out.result =
      VolumeIntegrateResult.VOLUME_PATH_ATTENUATED ∧
    (heterogeneous_loop sampleFlags
        ⟨Real.exp, Real.log, Real.sqrt, fun y x => Complex.arg ⟨x, y⟩, Real.tan, Int.floor⟩
        (sampleExtern 4 [⟨11, ⟨1, 2, 3⟩⟩] 0) ⟨4, 2, 1, 0, 0⟩ ⟨0, 0, 0, []⟩
        ⟨⟨0, 0, 0⟩, ⟨1, 0, 0⟩, 1 / 2, 0⟩ ⟨0, 0, 0, 0, 0⟩ ⟨0, 0, 0⟩
        (KernelIntegrator.volume_max_steps (⟨4, 2, 1, 0, 0⟩ : KernelIntegrator ℝ)).toNat 0
        (heterogeneous_initial (sampleExtern 4 [⟨11, ⟨1, 2, 3⟩⟩] 0) ⟨4, 2, 1, 0, 0⟩
          ⟨0, 0, 0, []⟩ ⟨⟨0, 0, 0⟩, 0, [], 0⟩ [] ⟨1, 1, 1⟩ ⟨0, 0, 0⟩)).1.accum_transmittance =
      heterogeneous_loop_transmittance sampleFlags
        ⟨Real.exp, Real.log, Real.sqrt, fun y x => Complex.arg ⟨x, y⟩, Real.tan, Int.floor⟩
        (sampleExtern 4 [⟨11, ⟨1, 2, 3⟩⟩] 0) ⟨4, 2, 1, 0, 0⟩ ⟨0, 0, 0, []⟩
        ⟨⟨0, 0, 0⟩, ⟨1, 0, 0⟩, 1 / 2, 0⟩ ⟨0, 0, 0, 0, 0⟩ ⟨0, 0, 0⟩
        (KernelIntegrator.volume_max_steps (⟨4, 2, 1, 0, 0⟩ : KernelIntegrator ℝ)).toNat 0
        (heterogeneous_initial (sampleExtern 4 [⟨11, ⟨1, 2, 3⟩⟩] 0) ⟨4, 2, 1, 0, 0⟩
          ⟨0, 0, 0, []⟩ ⟨⟨0, 0, 0⟩, 0, [], 0⟩ [] ⟨1, 1, 1⟩ ⟨0, 0, 0⟩) ∧
    ((heterogeneous_loop sampleFlags
        ⟨Real.exp, Real.log, Real.sqrt, fun y x => Complex.arg ⟨x, y⟩, Real.tan, Int.floor⟩
        (sampleExtern 4 [⟨11, ⟨1, 2, 3⟩⟩] 0) ⟨4, 2, 1, 0, 0⟩ ⟨0, 0, 0, []⟩
        ⟨⟨0, 0, 0⟩, ⟨1, 0, 0⟩, 1 / 2, 0⟩ ⟨0, 0, 0, 0, 0⟩ ⟨0, 0, 0⟩
        (KernelIntegrator.volume_max_steps (⟨4, 2, 1, 0, 0⟩ : KernelIntegrator ℝ)).toNat 0
        (heterogeneous_initial (sampleExtern 4 [⟨11, ⟨1, 2, 3⟩⟩] 0) ⟨4, 2, 1, 0, 0⟩
          ⟨0, 0, 0, []⟩ ⟨⟨0, 0, 0⟩, 0, [], 0⟩ [] ⟨1, 1, 1⟩ ⟨0, 0, 0⟩)).1.has_scatter = false →
      (kernel_volume_integrate_heterogeneous sampleFlags
        ⟨Real.exp, Real.log, Real.sqrt, fun y x => Complex.arg ⟨x, y⟩, Real.tan, Int.floor⟩
        (sampleExtern 4 [⟨11, ⟨1, 2, 3⟩⟩] 0) ⟨4, 2, 1, 0, 0⟩ ⟨0, 0, 0, []⟩
        ⟨⟨0, 0, 0⟩, ⟨1, 0, 0⟩, 1 / 2, 0⟩ ⟨⟨0, 0, 0⟩, 0, [], 0⟩ [] ⟨1, 1, 1⟩
        ⟨0, 0, 0, 0, 0⟩ ⟨0, 0, 0⟩).out.throughput =
      ⟨1, 1, 1⟩ * heterogeneous_loop_transmittance sampleFlags
        ⟨Real.exp, Real.log, Real.sqrt, fun y x => Complex.arg ⟨x, y⟩, Real.tan, Int.floor⟩
        (sampleExtern 4 [⟨11, ⟨1, 2, 3⟩⟩] 0) ⟨4, 2, 1, 0, 0⟩ ⟨0, 0, 0, []⟩
        ⟨⟨0, 0, 0⟩, ⟨1, 0, 0⟩, 1 / 2, 0⟩ ⟨0, 0, 0, 0, 0⟩ ⟨0, 0, 0⟩
        (KernelIntegrator.volume_max_steps (⟨4, 2, 1, 0, 0⟩ : KernelIntegrator ℝ)).toNat 0
        (heterogeneous_initial (sampleExtern 4 [⟨11, ⟨1, 2, 3⟩⟩] 0) ⟨4, 2, 1, 0, 0⟩
          ⟨0, 0, 0, []⟩ ⟨⟨0, 0, 0⟩, 0, [], 0⟩ [] ⟨1, 1, 1⟩ ⟨0, 0, 0⟩)) ∧
    ((heterogeneous_loop sampleFlags
        ⟨Real.exp, Real.log, Real.sqrt, fun y x => Complex.arg ⟨x, y⟩, Real.tan, Int.floor⟩
        (sampleExtern 4 [⟨11, ⟨1, 2, 3⟩⟩] 0) ⟨4, 2, 1, 0, 0⟩ ⟨0, 0, 0, []⟩
        ⟨⟨0, 0, 0⟩, ⟨1, 0, 0⟩, 1 / 2, 0⟩ ⟨0, 0, 0, 0, 0⟩ ⟨0, 0, 0⟩
        (KernelIntegrator.volume_max_steps (⟨4, 2, 1, 0, 0⟩ : KernelIntegrator ℝ)).toNat 0
        (heterogeneous_initial (sampleExtern 4 [⟨11, ⟨1, 2, 3⟩⟩] 0) ⟨4, 2, 1, 0, 0⟩
          ⟨0, 0, 0, []⟩ ⟨⟨0, 0, 0⟩, 0, [], 0⟩ [] ⟨1, 1, 1⟩ ⟨0, 0, 0⟩)).1.has_scatter = true →
      (kernel_volume_integrate_heterogeneous sampleFlags
        ⟨Real.exp, Real.log, Real.sqrt, fun y x => Complex.arg ⟨x, y⟩, Real.tan, Int.floor⟩
        (sampleExtern 4 [⟨11, ⟨1, 2, 3⟩⟩] 0) ⟨4, 2, 1, 0, 0⟩ ⟨0, 0, 0, []⟩
        ⟨⟨0, 0, 0⟩, ⟨1, 0, 0⟩, 1 / 2, 0⟩ ⟨⟨0, 0, 0⟩, 0, [], 0⟩ [] ⟨1, 1, 1⟩
        ⟨0, 0, 0, 0, 0⟩ ⟨0, 0, 0⟩).out.throughput =
      spec_attenuated_product ⟨1, 1, 1⟩ (heterogeneous_loop_transmittance sampleFlags
        ⟨Real.exp, Real.log, Real.sqrt, fun y x => Complex.arg ⟨x, y⟩, Real.tan, Int.floor⟩
        (sampleExtern 4 [⟨11, ⟨1, 2, 3⟩⟩] 0) ⟨4, 2, 1, 0, 0⟩ ⟨0, 0, 0, []⟩
        ⟨⟨0, 0, 0⟩, ⟨1, 0, 0⟩, 1 / 2, 0⟩ ⟨0, 0, 0, 0, 0⟩ ⟨0, 0, 0⟩
        (KernelIntegrator.volume_max_steps (⟨4, 2, 1, 0, 0⟩ : KernelIntegrator ℝ)).toNat 0
        (heterogeneous_initial (sampleExtern 4 [⟨11, ⟨1, 2, 3⟩⟩] 0) ⟨4, 2, 1, 0, 0⟩
          ⟨0, 0, 0, []⟩ ⟨⟨0, 0, 0⟩, 0, [], 0⟩ [] ⟨1, 1, 1⟩ ⟨0, 0, 0⟩))) := by
  have hstep : ∃ s1 rec, heterogeneous_step sampleFlags
      ⟨Real.exp, Real.log, Real.sqrt, fun y x => Complex.arg ⟨x, y⟩, Real.tan, Int.floor⟩
      (sampleExtern 4 [⟨11, ⟨1, 2, 3⟩⟩] 0) ⟨4, 2, 1, 0, 0⟩ ⟨0, 0, 0, []⟩
      ⟨⟨0, 0, 0⟩, ⟨1, 0, 0⟩, 1 / 2, 0⟩ ⟨0, 0, 0, 0, 0⟩ ⟨0, 0, 0⟩ 0
      ⟨⟨1, 1, 1⟩, 0, 0, ⟨1, 1, 1⟩, ⟨0, 0, 0⟩, ⟨0, 0, 0⟩, 0, -1, false, 1,
        ⟨⟨0, 0, 0⟩, 0, [], 0⟩, [], []⟩ = MarchStep.stop s1 ∧
      s1.shaded = [rec] ∧ threshold_hit sampleFlags rec = false := by
    have hmin : min (1 / 2 : ℝ) (((0 + 1 : Nat) : ℝ) * 1) = 1 / 2 := by norm_num
    unfold heterogeneous_step
    simp only [hmin, if_true]
    rw [sample_absorbing]
    dsimp only
    generalize hv : heterogeneous_segment sampleFlags (_ : KernelMath ℝ) _ _ _ _ _ _ _ = v
    obtain ⟨hsc, hnt, htp⟩ := segment_absorbing _ _ _ _ _ _ _ _ _ v hv (by decide) (by decide) rfl
    have hflag : (4 : Nat) &&& (sampleFlags.SD_ABSORPTION ||| sampleFlags.SD_SCATTER) ≠ 0 := by
      decide
    have hx : (1 / 2 : ℝ) ≤ v.new_tp.x := by
      rw [htp]
      show (1 / 2 : ℝ) ≤ 1 * Real.exp (-1 * (1 / 2 - 0))
      have := Real.add_one_le_exp (-1 * (1 / 2 - 0) : ℝ)
      linarith
    have hb : ¬ (below_tp_eps v.new_tp = true) := by
      simp only [below_tp_eps, Bool.and_eq_true, decide_eq_true_eq, not_and, not_lt]
      intro h
      exfalso
      have : (1e-10 : ℝ) < 1 / 2 := by norm_num
      linarith
    have hns : ¬ (v.scatter = true) := by
      rw [hsc]
      simp
    rw [if_pos hflag, if_neg hb, if_neg hns, if_pos hnt]
    refine ⟨_, _, rfl, rfl, ?_⟩
    simp only [threshold_hit, Bool.and_eq_false_imp]
    intro _
    simpa using hb
  obtain ⟨s1, rec, hs1, hrec, hnh⟩ := hstep
  have hinit : heterogeneous_initial (sampleExtern 4 [⟨11, ⟨1, 2, 3⟩⟩] 0)
      (⟨4, 2, 1, 0, 0⟩ : KernelIntegrator ℝ) ⟨0, 0, 0, []⟩ ⟨⟨0, 0, 0⟩, 0, [], 0⟩ []
      ⟨1, 1, 1⟩ ⟨0, 0, 0⟩ =
      ⟨⟨1, 1, 1⟩, 0, 0, ⟨1, 1, 1⟩, ⟨0, 0, 0⟩, ⟨0, 0, 0⟩, 0, -1, false, 1,
        ⟨⟨0, 0, 0⟩, 0, [], 0⟩, [], []⟩ := by
    simp [heterogeneous_initial, sampleExtern, make_float3]
  have hsteps : ((2 : Int)).toNat = 2 := rfl
  have hloop : heterogeneous_loop sampleFlags
      ⟨Real.exp, Real.log, Real.sqrt, fun y x => Complex.arg ⟨x, y⟩, Real.tan, Int.floor⟩
      (sampleExtern 4 [⟨11, ⟨1, 2, 3⟩⟩] 0) ⟨4, 2, 1, 0, 0⟩ ⟨0, 0, 0, []⟩
      ⟨⟨0, 0, 0⟩, ⟨1, 0, 0⟩, 1 / 2, 0⟩ ⟨0, 0, 0, 0, 0⟩ ⟨0, 0, 0⟩
      (KernelIntegrator.volume_max_steps (⟨4, 2, 1, 0, 0⟩ : KernelIntegrator ℝ)).toNat 0
      (heterogeneous_initial (sampleExtern 4 [⟨11, ⟨1, 2, 3⟩⟩] 0) ⟨4, 2, 1, 0, 0⟩
        ⟨0, 0, 0, []⟩ ⟨⟨0, 0, 0⟩, 0, [], 0⟩ [] ⟨1, 1, 1⟩ ⟨0, 0, 0⟩) = (s1, false) := by
    simp only [hinit, hsteps, heterogeneous_loop, hs1]
  exact integrate_heterogeneous_attenuated sampleFlags
    ⟨Real.exp, Real.log, Real.sqrt, fun y x => Complex.arg ⟨x, y⟩, Real.tan, Int.floor⟩
    (sampleExtern 4 [⟨11, ⟨1, 2, 3⟩⟩] 0) ⟨4, 2, 1, 0, 0⟩ ⟨0, 0, 0, []⟩
    ⟨⟨0, 0, 0⟩, ⟨1, 0, 0⟩, 1 / 2, 0⟩ ⟨⟨0, 0, 0⟩, 0, [], 0⟩ [] ⟨1, 1, 1⟩
    ⟨0, 0, 0, 0, 0⟩ ⟨0, 0, 0⟩ rfl (by rw [hloop])
    (by
      rw [integrate_heterogeneous_shaded, hloop]
      intro r hr
      rw [show (s1, false).1.shaded = [rec] from hrec, List.mem_singleton] at hr
      rw [hr]
      exact hnh)

/-! ## The heterogeneous integrator: the inverse-CDF structure of the march -/

theorem channel_get_add (a b : float3 ℝ) (c : Int) :
    kernel_volume_channel_get (a + b) c =
      kernel_volume_channel_get a c + kernel_volume_channel_get b c := by
  unfold kernel_volume_channel_get
  split_ifs <;> rfl

theorem channel_get_nonneg (sigma : float3 ℝ) (c : Int)
    (h : 0 ≤ sigma.x ∧ 0 ≤ sigma.y ∧ 0 ≤ sigma.z) : 0 ≤ kernel_volume_channel_get sigma c := by
  unfold kernel_volume_channel_get
  split_ifs
  · exact h.1
  · exact h.2.1
  · exact h.2.2

/-- With non-negative coefficients and a positive step size, the loop of the heterogeneous
integrator entered at `t = i * step_size <= ray.t` and left without a scatter exit and
without a threshold hit does not decrease any channel of `accum_sigma_t`. -/
theorem heterogeneous_loop_monotone (K : KernelFlags) (m : KernelMath ℝ)
    (ext : KernelExtern ℝ) (kg : KernelIntegrator ℝ) (state : PathState) (ray : Ray ℝ)
    (rng : PathSamples ℝ) (undef : float3 ℝ) (hexp : m.expf = Real.exp)
    (hcoef : ∀ sdx P coeff sd2, volume_shader_sample K ext kg sdx state P = (some coeff, sd2) →
      (0 ≤ coeff.sigma_a.x ∧ 0 ≤ coeff.sigma_a.y ∧ 0 ≤ coeff.sigma_a.z) ∧
      (0 ≤ coeff.sigma_s.x ∧ 0 ≤ coeff.sigma_s.y ∧ 0 ≤ coeff.sigma_s.z))
    (hstep : 0 < kg.volume_step_size) (c : Int) (n : Nat) :
    ∀ (i : Nat) (s : IntegrateMarch ℝ), s.t = (i : ℝ) * kg.volume_step_size → s.t ≤ ray.t →
      (heterogeneous_loop K m ext kg state ray rng undef n i s).2 = false →
      (∀ rec ∈ ((heterogeneous_loop K m ext kg state ray rng undef n i s).1.shaded).drop
          s.shaded.length, threshold_hit K rec = false) →
      kernel_volume_channel_get s.accum_sigma_t c ≤
        kernel_volume_channel_get
          (heterogeneous_loop K m ext kg state ray rng undef n i s).1.accum_sigma_t c := by
  induction n with
  | zero =>
    intro i s _ _ _ _
    exact le_refl _
  | succ n ih =>
    intro i s ht hle hns hne
    obtain ⟨rec, s1, hcase, hsh, hcore⟩ := heterogeneous_step_attenuates K m ext kg state ray
      rng undef hexp i s
    have hstepc : ∀ sigma : float3 ℝ,
        (sigma = make_float3 0 0 0 ∨ ∃ sdx P coeff sd2,
          volume_shader_sample K ext kg sdx state P = (some coeff, sd2) ∧
          (sigma = coeff.sigma_a + coeff.sigma_s ∨ sigma = coeff.sigma_a)) →
        s1.accum_sigma_t = s.accum_sigma_t + float3_mul_f sigma
          (min ray.t (((i + 1 : Nat) : ℝ) * kg.volume_step_size) - s.t) →
        kernel_volume_channel_get s.accum_sigma_t c ≤
          kernel_volume_channel_get s1.accum_sigma_t c := by
      intro sigma hsig hst
      have hdt : 0 ≤ min ray.t (((i + 1 : Nat) : ℝ) * kg.volume_step_size) - s.t :=
        sub_nonneg.mpr (step_end_ge _ _ _ _ hstep ht hle)
      have hs0 : 0 ≤ sigma.x ∧ 0 ≤ sigma.y ∧ 0 ≤ sigma.z := by
        rcases hsig with h | ⟨sdx, P, coeff, sd2, hvs, h | h⟩
        · rw [h]
          simp [make_float3]
        · obtain ⟨ha, hs⟩ := hcoef sdx P coeff sd2 hvs
          rw [h]
          exact ⟨add_nonneg ha.1 hs.1, add_nonneg ha.2.1 hs.2.1, add_nonneg ha.2.2 hs.2.2⟩
        · rw [h]
          exact (hcoef sdx P coeff sd2 hvs).1
      rw [hst, channel_get_add, channel_get_mul_f]
      have := mul_nonneg (channel_get_nonneg sigma c hs0) hdt
      linarith
    rcases hcase with h | h | h
    · have e : heterogeneous_loop K m ext kg state ray rng undef (n + 1) i s =
          heterogeneous_loop K m ext kg state ray rng undef n (i + 1) s1 := by
        simp only [heterogeneous_loop, h]
      obtain ⟨l, hl, _⟩ := heterogeneous_loop_records K m ext kg state ray rng undef n
        (i + 1) s1
      rw [e] at hns hne ⊢
      obtain ⟨sigma, hsig, _, _, _, hst, ht1, hnext, _⟩ := hcore (Or.inl h)
      have hne1 : ∀ rec ∈ ((heterogeneous_loop K m ext kg state ray rng undef n (i + 1)
          s1).1.shaded).drop s1.shaded.length, threshold_hit K rec = false := by
        intro r hr
        rw [hl, List.drop_left] at hr
        apply hne r
        rw [hl, hsh, List.append_assoc, List.drop_left]
        exact List.mem_append_right _ hr
      obtain ⟨hmin, hlt⟩ := step_end_next _ _ _ (hnext h)
      have ht1a : s1.t = ((i + 1 : Nat) : ℝ) * kg.volume_step_size := by
        rw [ht1, hmin]
      exact le_trans (hstepc sigma hsig hst)
        (ih (i + 1) s1 ht1a (by rw [ht1a]; exact le_of_lt hlt) hns hne1)
    · have e : heterogeneous_loop K m ext kg state ray rng undef (n + 1) i s = (s1, false) := by
        simp only [heterogeneous_loop, h]
      rw [e] at hne ⊢
      have hnh : threshold_hit K rec = false :=
        hne rec (by
          show rec ∈ List.drop s.shaded.length s1.shaded
          rw [hsh, List.drop_left]
          exact List.mem_singleton_self _)
      obtain ⟨sigma, hsig, _, _, _, hst, _⟩ := hcore (Or.inr ⟨h, hnh⟩)
      exact hstepc sigma hsig hst
    · have e : heterogeneous_loop K m ext kg state ray rng undef (n + 1) i s = (s1, true) := by
        simp only [heterogeneous_loop, h]
      rw [e] at hns
      cases hns

/-- Two calls of the sampling block that differ in the random number `xi` only, on locals
that differ in `nlogxi` only, with the sampling variables set up or not yet assigned in
both: when the second call detects no crossing, either the first detects none and leaves
the same locals up to `nlogxi`, or it detects one and its `-log(1 - xi)` is below the
accumulated extinction of the second. -/
theorem segment_lockstep (K : KernelFlags) (m : KernelMath ℝ) (rng : PathSamples ℝ) (x : ℝ)
    (s : IntegrateMarch ℝ) (y : ℝ) (coeff : VolumeShaderCoefficients ℝ) (closure_flag : Nat)
    (new_t dt : ℝ) (undef : float3 ℝ) (v v2 : StepLocals ℝ)
    (hv : heterogeneous_segment K m rng s coeff closure_flag new_t dt undef = v)
    (hv2 : heterogeneous_segment K m { rng with scatter_distance := x }
      { s with nlogxi := y } coeff closure_flag new_t dt undef = v2)
    (hset : sampling_set_up (m.float_to_int (rng.phase * 3))
      (-m.logf (1 - rng.scatter_distance)) s.channel s.nlogxi)
    (hset2 : sampling_set_up (m.float_to_int (rng.phase * 3)) (-m.logf (1 - x)) s.channel y)
    (hns2 : v2.scatter = false) :
    (v.scatter = false ∧ (∃ y1, v2 = { v with nlogxi := y1 } ∧
        sampling_set_up (m.float_to_int (rng.phase * 3)) (-m.logf (1 - x)) v.channel y1) ∧
      sampling_set_up (m.float_to_int (rng.phase * 3))
        (-m.logf (1 - rng.scatter_distance)) v.channel v.nlogxi) ∨
    (v.scatter = true ∧
      -m.logf (1 - rng.scatter_distance) <
        kernel_volume_channel_get v2.accum_sigma_t (m.float_to_int (rng.phase * 3))) := by
  subst hv
  subst hv2
  unfold heterogeneous_segment at hns2 ⊢
  dsimp only at hns2 ⊢
  by_cases h1 : closure_flag &&& K.SD_SCATTER ≠ 0 ∨
      (s.has_scatter = true ∧ closure_flag &&& K.SD_ABSORPTION ≠ 0)
  · have hchan : (if s.channel = -1 then m.float_to_int (rng.phase * 3) else s.channel) =
        m.float_to_int (rng.phase * 3) := by
      rcases hset with h | h
      · rw [if_pos h]
      · split_ifs with h3
        · rfl
        · exact h.1
    have hnl : (if s.channel = -1 then -m.logf (1 - rng.scatter_distance)
        else s.nlogxi) = -m.logf (1 - rng.scatter_distance) := by
      rcases hset with h | h
      · rw [if_pos h]
      · split_ifs with h3
        · rfl
        · exact h.2
    have hnl2 : (if s.channel = -1 then -m.logf (1 - x) else y) = -m.logf (1 - x) := by
      rcases hset2 with h | h
      · rw [if_pos h]
      · split_ifs with h3
        · rfl
        · exact h.2
    simp only [if_pos h1, hchan, hnl, hnl2] at hns2 ⊢
    by_cases h2 : -m.logf (1 - x) < kernel_volume_channel_get
        (s.accum_sigma_t + float3_mul_f (coeff.sigma_a + coeff.sigma_s) dt)
        (m.float_to_int (rng.phase * 3))
    · rw [if_pos h2] at hns2
      simp at hns2
    · rw [if_neg h2]
      by_cases h3 : -m.logf (1 - rng.scatter_distance) < kernel_volume_channel_get
          (s.accum_sigma_t + float3_mul_f (coeff.sigma_a + coeff.sigma_s) dt)
          (m.float_to_int (rng.phase * 3))
      · right
        rw [if_pos h3]
        exact ⟨rfl, h3⟩
      · left
        rw [if_neg h3]
        exact ⟨rfl, ⟨_, rfl, Or.inr ⟨rfl, rfl⟩⟩, Or.inr ⟨rfl, rfl⟩⟩
  · left
    rw [if_neg h1, if_neg h1]
    by_cases hA : closure_flag &&& K.SD_ABSORPTION ≠ 0
    · rw [if_pos hA, if_pos hA]
      exact ⟨rfl, ⟨_, rfl, hset2⟩, hset⟩
    · rw [if_neg hA, if_neg hA]
      exact ⟨rfl, ⟨_, rfl, hset2⟩, hset⟩


/-- Two iterations of the heterogeneous integrator that differ in the random number `xi`
only, on locals that differ in `nlogxi` only, with the sampling variables set up or not
yet assigned in both: when the second neither scatters nor hits the threshold, either the
first ends the same way and leaves the same locals up to `nlogxi`, or the first detects a
crossing (it returns the scatter event, or hits the threshold) and its `-log(1 - xi)` is
below the accumulated extinction of the second after the step. -/
theorem heterogeneous_step_lockstep (K : KernelFlags) (m : KernelMath ℝ)
    (ext : KernelExtern ℝ) (kg : KernelIntegrator ℝ) (state : PathState) (ray : Ray ℝ)
    (rng : PathSamples ℝ) (undef : float3 ℝ) (x : ℝ) (i : Nat) (s : IntegrateMarch ℝ) (y : ℝ)
    (hset : sampling_set_up (m.float_to_int (rng.phase * 3))
      (-m.logf (1 - rng.scatter_distance)) s.channel s.nlogxi)
    (hset2 : sampling_set_up (m.float_to_int (rng.phase * 3)) (-m.logf (1 - x)) s.channel y)
    (s2 : IntegrateMarch ℝ)
    (h2 : heterogeneous_step K m ext kg state ray { rng with scatter_distance := x } undef i
        { s with nlogxi := y } = MarchStep.next s2 ∨
      heterogeneous_step K m ext kg state ray { rng with scatter_distance := x } undef i
        { s with nlogxi := y } = MarchStep.stop s2)
    (hnh2 : ∀ rec ∈ s2.shaded.drop s.shaded.length, threshold_hit K rec = false) :
    (∃ s1 y1,
      ((heterogeneous_step K m ext kg state ray rng undef i s = MarchStep.next s1 ∧
          heterogeneous_step K m ext kg state ray { rng with scatter_distance := x } undef i
            { s with nlogxi := y } = MarchStep.next s2) ∨
        (heterogeneous_step K m ext kg state ray rng undef i s = MarchStep.stop s1 ∧
          heterogeneous_step K m ext kg state ray { rng with scatter_distance := x } undef i
            { s with nlogxi := y } = MarchStep.stop s2)) ∧
      s2 = { s1 with nlogxi := y1 } ∧
      sampling_set_up (m.float_to_int (rng.phase * 3))
        (-m.logf (1 - rng.scatter_distance)) s1.channel s1.nlogxi ∧
      sampling_set_up (m.float_to_int (rng.phase * 3)) (-m.logf (1 - x)) s1.channel y1) ∨
    (-m.logf (1 - rng.scatter_distance) <
        kernel_volume_channel_get s2.accum_sigma_t (m.float_to_int (rng.phase * 3)) ∧
      ∃ s1 rec, s1.shaded = s.shaded ++ [rec] ∧
        (heterogeneous_step K m ext kg state ray rng undef i s = MarchStep.scattered s1 ∨
          (heterogeneous_step K m ext kg state ray rng undef i s = MarchStep.stop s1 ∧
            threshold_hit K rec = true))) := by
  generalize hst : heterogeneous_step K m ext kg state ray rng undef i s = st
  generalize hst2 : heterogeneous_step K m ext kg state ray
    { rng with scatter_distance := x } undef i { s with nlogxi := y } = st2 at h2
  unfold heterogeneous_step at hst hst2
  dsimp only at hst hst2
  generalize hvs : volume_shader_sample K ext kg _ state _ = r at hst hst2
  rcases r with ⟨_ | coeff, sd1⟩
  · dsimp only at hst hst2
    by_cases hend : min ray.t (((i + 1 : Nat) : ℝ) * kg.volume_step_size) = ray.t
    · simp only [if_pos hend] at hst hst2
      subst hst
      subst hst2
      rcases h2 with h | h
      · cases h
      · cases h
        exact Or.inl ⟨_, y, Or.inr ⟨rfl, rfl⟩, rfl, hset, hset2⟩
    · simp only [if_neg hend] at hst hst2
      subst hst
      subst hst2
      rcases h2 with h | h
      · cases h
        exact Or.inl ⟨_, y, Or.inl ⟨rfl, rfl⟩, rfl, hset, hset2⟩
      · cases h
  · dsimp only at hst hst2
    generalize hv : heterogeneous_segment K m rng _ coeff _ _ _ undef = v at hst
    generalize hv2 : heterogeneous_segment K m _ _ coeff _ _ _ undef = v2 at hst2
    by_cases hflag : sd1.flag &&& (K.SD_ABSORPTION ||| K.SD_SCATTER) ≠ 0
    · simp only [if_pos hflag] at hst hst2
      by_cases hb2 : below_tp_eps v2.new_tp = true
      · rw [if_pos hb2] at hst2
        subst hst2
        exfalso
        rcases h2 with h | h
        · cases h
        · cases h
          have hr := hnh2 _ (by
            rw [List.drop_left]
            exact List.mem_singleton_self _)
          simp [threshold_hit, hflag, hb2] at hr
      · rw [if_neg hb2] at hst2
        by_cases hs2 : v2.scatter = true
        · rw [if_pos hs2] at hst2
          subst hst2
          rcases h2 with h | h <;> cases h
        · rw [if_neg hs2] at hst2
          have hs2f : v2.scatter = false := by simpa using hs2
          rcases segment_lockstep K m rng x _ y coeff _ _ _ undef v v2 hv hv2 hset hset2 hs2f
            with ⟨hs1, ⟨y1, hrel, hsety⟩, hsetv⟩ | ⟨hs1, hlt⟩
          · subst hrel
            dsimp only at hst2 hb2
            left
            have hs1n : ¬ (v.scatter = true) := by
              rw [hs1]
              simp
            rw [if_neg hb2, if_neg hs1n] at hst
            by_cases hend : v.new_t = ray.t
            · rw [if_pos hend] at hst hst2
              subst hst
              subst hst2
              rcases h2 with h | h
              · cases h
              · cases h
                exact ⟨_, y1, Or.inr ⟨rfl, rfl⟩, rfl, hsetv, hsety⟩
            · rw [if_neg hend] at hst hst2
              subst hst
              subst hst2
              rcases h2 with h | h
              · cases h
                exact ⟨_, y1, Or.inl ⟨rfl, rfl⟩, rfl, hsetv, hsety⟩
              · cases h
          · right
            constructor
            · by_cases hend : v2.new_t = ray.t
              · rw [if_pos hend] at hst2
                subst hst2
                rcases h2 with h | h
                · cases h
                · cases h
                  exact hlt
              · rw [if_neg hend] at hst2
                subst hst2
                rcases h2 with h | h
                · cases h
                  exact hlt
                · cases h
            · by_cases hb : below_tp_eps v.new_tp = true
              · rw [if_pos hb] at hst
                subst hst
                refine ⟨_, _, rfl, Or.inr ⟨rfl, ?_⟩⟩
                simp [threshold_hit, hflag, hb]
              · rw [if_neg hb, if_pos hs1] at hst
                subst hst
                exact ⟨_, _, rfl, Or.inl rfl⟩
    · simp only [if_neg hflag] at hst hst2
      have hflag0 : sd1.flag &&& (K.SD_ABSORPTION ||| K.SD_SCATTER) = 0 := not_not.mp hflag
      have hs1 := ((segment_no_crossing K m rng _ coeff _ _ _ undef v hv).2 hflag0).1
      have hs2f := ((segment_no_crossing K m _ _ coeff _ _ _ undef v2 hv2).2 hflag0).1
      rcases segment_lockstep K m rng x _ y coeff _ _ _ undef v v2 hv hv2 hset hset2 hs2f
        with ⟨_, ⟨y1, hrel, hsety⟩, hsetv⟩ | ⟨hs1t, _⟩
      · subst hrel
        dsimp only at hst2
        left
        by_cases hend : v.new_t = ray.t
        · rw [if_pos hend] at hst hst2
          subst hst
          subst hst2
          rcases h2 with h | h
          · cases h
          · cases h
            exact ⟨_, y1, Or.inr ⟨rfl, rfl⟩, rfl, hsetv, hsety⟩
        · rw [if_neg hend] at hst hst2
          subst hst
          subst hst2
          rcases h2 with h | h
          · cases h
            exact ⟨_, y1, Or.inl ⟨rfl, rfl⟩, rfl, hsetv, hsety⟩
          · cases h
      · rw [hs1] at hs1t
        cases hs1t


/-- Two runs of the loop of the heterogeneous integrator that differ in the random number
`xi` only, the second left without a scatter exit, neither with a threshold hit: either
the first is left by the scatter exit and its `-log(1 - xi)` is below channel `c` of the
`accum_sigma_t` with which the second ends, or the first is left without a scatter exit
in the same locals up to `nlogxi`. -/
theorem heterogeneous_loop_lockstep (K : KernelFlags) (m : KernelMath ℝ)
    (ext : KernelExtern ℝ) (kg : KernelIntegrator ℝ) (state : PathState) (ray : Ray ℝ)
    (rng : PathSamples ℝ) (undef : float3 ℝ) (hexp : m.expf = Real.exp)
    (hcoef : ∀ sdx P coeff sd2, volume_shader_sample K ext kg sdx state P = (some coeff, sd2) →
      (0 ≤ coeff.sigma_a.x ∧ 0 ≤ coeff.sigma_a.y ∧ 0 ≤ coeff.sigma_a.z) ∧
      (0 ≤ coeff.sigma_s.x ∧ 0 ≤ coeff.sigma_s.y ∧ 0 ≤ coeff.sigma_s.z))
    (hstep : 0 < kg.volume_step_size) (x : ℝ) (n : Nat) :
    ∀ (i : Nat) (s : IntegrateMarch ℝ) (y : ℝ),
      s.t = (i : ℝ) * kg.volume_step_size → s.t ≤ ray.t →
      sampling_set_up (m.float_to_int (rng.phase * 3))
        (-m.logf (1 - rng.scatter_distance)) s.channel s.nlogxi →
      sampling_set_up (m.float_to_int (rng.phase * 3)) (-m.logf (1 - x)) s.channel y →
      (heterogeneous_loop K m ext kg state ray { rng with scatter_distance := x } undef n i
        { s with nlogxi := y }).2 = false →
      (∀ rec ∈ ((heterogeneous_loop K m ext kg state ray { rng with scatter_distance := x }
          undef n i { s with nlogxi := y }).1.shaded).drop s.shaded.length,
        threshold_hit K rec = false) →
      (∀ rec ∈ ((heterogeneous_loop K m ext kg state ray rng undef n i s).1.shaded).drop
          s.shaded.length, threshold_hit K rec = false) →
      ((heterogeneous_loop K m ext kg state ray rng undef n i s).2 = true ∧
        -m.logf (1 - rng.scatter_distance) <
          kernel_volume_channel_get
            (heterogeneous_loop K m ext kg state ray { rng with scatter_distance := x } undef
              n i { s with nlogxi := y }).1.accum_sigma_t (m.float_to_int (rng.phase * 3))) ∨
      ((heterogeneous_loop K m ext kg state ray rng undef n i s).2 = false ∧
        ∃ y1, (heterogeneous_loop K m ext kg state ray { rng with scatter_distance := x }
          undef n i { s with nlogxi := y }).1 =
          { (heterogeneous_loop K m ext kg state ray rng undef n i s).1 with
            nlogxi := y1 }) := by
  induction n with
  | zero =>
    intro i s y _ _ _ _ _ _ _
    exact Or.inr ⟨rfl, y, rfl⟩
  | succ n ih =>
    intro i s y ht hle hset hset2 hns2 hne2 hne1
    obtain ⟨rec2, s2, hcase2, hsh2, hcore2⟩ := heterogeneous_step_attenuates K m ext kg state
      ray { rng with scatter_distance := x } undef hexp i { s with nlogxi := y }
    have hsh2a : s2.shaded = s.shaded ++ [rec2] := hsh2
    rcases hcase2 with h | h | h
    · have e2 : heterogeneous_loop K m ext kg state ray { rng with scatter_distance := x }
          undef (n + 1) i { s with nlogxi := y } =
          heterogeneous_loop K m ext kg state ray { rng with scatter_distance := x } undef n
            (i + 1) s2 := by
        simp only [heterogeneous_loop, h]
      obtain ⟨l2, hl2, _⟩ := heterogeneous_loop_records K m ext kg state ray
        { rng with scatter_distance := x } undef n (i + 1) s2
      rw [e2] at hns2 hne2 ⊢
      have hne2a : ∀ rec ∈ ((heterogeneous_loop K m ext kg state ray
          { rng with scatter_distance := x } undef n (i + 1) s2).1.shaded).drop
          s2.shaded.length, threshold_hit K rec = false := by
        intro r hr
        rw [hl2, List.drop_left] at hr
        apply hne2 r
        rw [hl2, hsh2a, List.append_assoc, List.drop_left]
        exact List.mem_append_right _ hr
      have hnh2 : ∀ rec ∈ s2.shaded.drop s.shaded.length, threshold_hit K rec = false := by
        intro r hr
        rw [hsh2a, List.drop_left] at hr
        apply hne2 r
        rw [hl2, hsh2a, List.append_assoc, List.drop_left]
        exact List.mem_append_left _ hr
      obtain ⟨_, _, _, _, _, _, ht2, hnext, _⟩ := hcore2 (Or.inl h)
      obtain ⟨hmin, hlt⟩ := step_end_next _ _ _ (hnext h)
      have ht2a : s2.t = ((i + 1 : Nat) : ℝ) * kg.volume_step_size := by
        rw [ht2, hmin]
      have hle2 : s2.t ≤ ray.t := by
        rw [ht2a]
        exact le_of_lt hlt
      rcases heterogeneous_step_lockstep K m ext kg state ray rng undef x i s y hset hset2 s2
        (Or.inl h) hnh2 with ⟨s1, y1, hst, hrel, hset1, hsety⟩ | ⟨hlt1, s1, rec, hsh1, hst⟩
      · rcases hst with ⟨h1, _⟩ | ⟨_, h2s⟩
        · have e1 : heterogeneous_loop K m ext kg state ray rng undef (n + 1) i s =
              heterogeneous_loop K m ext kg state ray rng undef n (i + 1) s1 := by
            simp only [heterogeneous_loop, h1]
          subst hrel
          rw [e1] at hne1 ⊢
          obtain ⟨l1, hl1, _⟩ := heterogeneous_loop_records K m ext kg state ray rng undef n
            (i + 1) s1
          have hsh1 : s1.shaded = s.shaded ++ [rec2] := hsh2a
          have hne1a : ∀ rec ∈ ((heterogeneous_loop K m ext kg state ray rng undef n (i + 1)
              s1).1.shaded).drop s1.shaded.length, threshold_hit K rec = false := by
            intro r hr
            rw [hl1, List.drop_left] at hr
            apply hne1 r
            rw [hl1, hsh1, List.append_assoc, List.drop_left]
            exact List.mem_append_right _ hr
          exact ih (i + 1) s1 y1 ht2a hle2 hset1 hsety hns2 hne2a hne1a
        · rw [h] at h2s
          cases h2s
      · rcases hst with h1 | ⟨h1, hth⟩
        · have e1 : heterogeneous_loop K m ext kg state ray rng undef (n + 1) i s =
              (s1, true) := by
            simp only [heterogeneous_loop, h1]
          rw [e1]
          exact Or.inl ⟨rfl, lt_of_lt_of_le hlt1 (heterogeneous_loop_monotone K m ext kg state
            ray { rng with scatter_distance := x } undef hexp hcoef hstep _ n (i + 1) s2 ht2a
            hle2 hns2 hne2a)⟩
        · have e1 : heterogeneous_loop K m ext kg state ray rng undef (n + 1) i s =
              (s1, false) := by
            simp only [heterogeneous_loop, h1]
          rw [e1] at hne1
          have hf := hne1 rec (by
            show rec ∈ List.drop s.shaded.length s1.shaded
            rw [hsh1, List.drop_left]
            exact List.mem_singleton_self _)
          rw [hth] at hf
          cases hf
    · have e2 : heterogeneous_loop K m ext kg state ray { rng with scatter_distance := x }
          undef (n + 1) i { s with nlogxi := y } = (s2, false) := by
        simp only [heterogeneous_loop, h]
      rw [e2] at hne2 ⊢
      have hnh2 : ∀ rec ∈ s2.shaded.drop s.shaded.length, threshold_hit K rec = false := hne2
      rcases heterogeneous_step_lockstep K m ext kg state ray rng undef x i s y hset hset2 s2
        (Or.inr h) hnh2 with ⟨s1, y1, hst, hrel, hset1, hsety⟩ | ⟨hlt1, s1, rec, hsh1, hst⟩
      · rcases hst with ⟨_, h2s⟩ | ⟨h1, _⟩
        · rw [h] at h2s
          cases h2s
        · have e1 : heterogeneous_loop K m ext kg state ray rng undef (n + 1) i s =
              (s1, false) := by
            simp only [heterogeneous_loop, h1]
          rw [e1]
          exact Or.inr ⟨rfl, y1, hrel⟩
      · rcases hst with h1 | ⟨h1, hth⟩
        · have e1 : heterogeneous_loop K m ext kg state ray rng undef (n + 1) i s =
              (s1, true) := by
            simp only [heterogeneous_loop, h1]
          rw [e1]
          exact Or.inl ⟨rfl, hlt1⟩
        · have e1 : heterogeneous_loop K m ext kg state ray rng undef (n + 1) i s =
              (s1, false) := by
            simp only [heterogeneous_loop, h1]
          rw [e1] at hne1
          have hf := hne1 rec (by
            show rec ∈ List.drop s.shaded.length s1.shaded
            rw [hsh1, List.drop_left]
            exact List.mem_singleton_self _)
          rw [hth] at hf
          cases hf
    · have e2 : heterogeneous_loop K m ext kg state ray { rng with scatter_distance := x }
          undef (n + 1) i { s with nlogxi := y } = (s2, true) := by
        simp only [heterogeneous_loop, h]
      rw [e2] at hns2
      cases hns2


theorem integrate_heterogeneous_result (K : KernelFlags) (m : KernelMath ℝ)
    (ext : KernelExtern ℝ) (kg : KernelIntegrator ℝ) (state : PathState) (ray : Ray ℝ)
    (sd : VolumeShaderData ℝ) (L : List (EmissionAccum ℝ)) (throughput : float3 ℝ)
    (rng : PathSamples ℝ) (undef : float3 ℝ) :
    (kernel_volume_integrate_heterogeneous K m ext kg state ray sd L throughput rng
      undef).out.result =
      if (heterogeneous_loop K m ext kg state ray rng undef kg.volume_max_steps.toNat 0
        (heterogeneous_initial ext kg state sd L throughput undef)).2 = true
      then VolumeIntegrateResult.VOLUME_PATH_SCATTERED
      else VolumeIntegrateResult.VOLUME_PATH_ATTENUATED := by
  unfold kernel_volume_integrate_heterogeneous heterogeneous_initial
  dsimp only
  split_ifs <;> rfl

/-- The heads of the iterations of the heterogeneous march keep
`accum_transmittance = exp(-accum_sigma_t)` and `tp = tp_in * accum_transmittance`. -/
theorem heterogeneous_state_invariants (K : KernelFlags) (m : KernelMath ℝ)
    (ext : KernelExtern ℝ) (kg : KernelIntegrator ℝ) (state : PathState) (ray : Ray ℝ)
    (rng : PathSamples ℝ) (undef : float3 ℝ) (hexp : m.expf = Real.exp)
    (s0 : IntegrateMarch ℝ) (throughput : float3 ℝ)
    (h0 : s0.accum_transmittance = volume_color_transmittance Real.exp s0.accum_sigma_t 1)
    (h0tp : s0.tp = throughput * s0.accum_transmittance) (k : Nat) :
    ∀ s, heterogeneous_state_at K m ext kg state ray rng undef s0 k = some s →
      s.accum_transmittance = volume_color_transmittance Real.exp s.accum_sigma_t 1 ∧
      s.tp = throughput * s.accum_transmittance := by
  induction k with
  | zero =>
    intro s hs
    simp only [heterogeneous_state_at, Option.some.injEq] at hs
    subst hs
    exact ⟨h0, h0tp⟩
  | succ k ih =>
    intro s1 hs
    simp only [heterogeneous_state_at] at hs
    generalize hprev : heterogeneous_state_at K m ext kg state ray rng undef s0 k = prev at hs
    rcases prev with _ | s
    · cases hs
    · dsimp only at hs
      obtain ⟨hc, htp⟩ := ih s hprev
      obtain ⟨rec, s1a, hcase, _, hcore⟩ := heterogeneous_step_attenuates K m ext kg state ray
        rng undef hexp k s
      rcases hcase with h | h | h
      · rw [h] at hs
        simp only [Option.some.injEq] at hs
        subst hs
        obtain ⟨sigma, _, htr, hat, htp1, hsig, _⟩ := hcore (Or.inl h)
        constructor
        · rw [hat, hsig, htr, hc]
          exact transmittance_accumulates _ _ _
        · rw [htp1, hat, htp, float3_mul_assoc]
      · rw [h] at hs
        cases hs
      · rw [h] at hs
        cases hs


theorem no_scatter_measure (tau : ℝ) (htau : 0 ≤ tau) :
    MeasureTheory.volume {u : ℝ | 0 ≤ u ∧ u < 1 ∧ tau ≤ -Real.log (1 - u)} =
      ENNReal.ofReal (Real.exp (-tau)) := by
  have hset : {u : ℝ | 0 ≤ u ∧ u < 1 ∧ tau ≤ -Real.log (1 - u)} =
      Set.Ico (1 - Real.exp (-tau)) 1 := by
    ext u
    simp only [Set.mem_setOf_eq, Set.mem_Ico]
    have he : Real.exp (-tau) ≤ 1 := by
      rw [Real.exp_le_one_iff]
      linarith
    constructor
    · rintro ⟨_, hu1, hu⟩
      refine ⟨?_, hu1⟩
      have hpos : 0 < 1 - u := by linarith
      have h1 : Real.log (1 - u) ≤ -tau := by linarith
      have h2 := (Real.log_le_iff_le_exp hpos).mp h1
      linarith
    · rintro ⟨hu0, hu1⟩
      refine ⟨by linarith, hu1, ?_⟩
      have hpos : 0 < 1 - u := by linarith
      have h2 : 1 - u ≤ Real.exp (-tau) := by linarith
      have h1 := (Real.log_le_iff_le_exp hpos).mpr h2
      linarith
  rw [hset, Real.volume_Ico]
  congr 1
  ring

theorem attenuated_product_average (throughput A : float3 ℝ)
    (hA : 0 < A.x ∧ 0 < A.y ∧ 0 < A.z) :
    float3_mul_f (spec_attenuated_product throughput A)
        (1 / 3 * kernel_volume_channel_get A 0) +
      float3_mul_f (spec_attenuated_product throughput A)
        (1 / 3 * kernel_volume_channel_get A 1) +
      float3_mul_f (spec_attenuated_product throughput A)
        (1 / 3 * kernel_volume_channel_get A 2) = throughput * A := by
  have hsum : A.x + A.y + A.z ≠ 0 := by
    have := hA.1
    have := hA.2.1
    have := hA.2.2
    linarith
  have h0 : kernel_volume_channel_get A 0 = A.x := by simp [kernel_volume_channel_get]
  have h1 : kernel_volume_channel_get A 1 = A.y := by simp [kernel_volume_channel_get]
  have h2 : kernel_volume_channel_get A 2 = A.z := by simp [kernel_volume_channel_get]
  rw [h0, h1, h2]
  unfold spec_attenuated_product
  apply float3_eq_of_channels
  · simp only [float3_add_x, float3_mul_f_x, float3_mul_x]
    field_simp
    ring
  · simp only [float3_add_y, float3_mul_f_y, float3_mul_y]
    field_simp
    ring
  · simp only [float3_add_z, float3_mul_f_z, float3_mul_z]
    field_simp
    ring


/-- C30 (amended): in `kernel_volume_integrate_heterogeneous` with non-negative
coefficients, the heads of the iterations and the end of a march without scatter event
satisfy `accum_transmittance = exp(-accum_sigma_t)` and `tp = tp_in * accum_transmittance`.
Let a march of the medium with some random number end without scatter event and without
the early exit, after scattering has been encountered, with the accumulated extinction
`accum_sigma_t` and the accumulated transmittance `A`.  Then a march with the random
number `xi` that does not take the early exit finds no scatter event iff
`-log(1 - xi) >= accum_sigma_t.c`; the set of `xi` in `[0, 1)` with
`-log(1 - xi) >= accum_sigma_t.c` has measure `A_c`; and the channel average of
`(1/3) * A_c * (tp_in * A * 3 / (A_x + A_y + A_z))` is `tp_in * A`. -/
theorem heterogeneous_inverse_cdf (K : KernelFlags) (m : KernelMath ℝ)
    (ext : KernelExtern ℝ) (kg : KernelIntegrator ℝ) (state : PathState) (ray : Ray ℝ)
    (sd : VolumeShaderData ℝ) (L : List (EmissionAccum ℝ)) (throughput : float3 ℝ)
    (rng : PathSamples ℝ) (undef : float3 ℝ) (hexp : m.expf = Real.exp)
    (hlog : m.logf = Real.log)
    (hcoef : ∀ sdx P coeff sd2, volume_shader_sample K ext kg sdx state P = (some coeff, sd2) →
      (0 ≤ coeff.sigma_a.x ∧ 0 ≤ coeff.sigma_a.y ∧ 0 ≤ coeff.sigma_a.z) ∧
      (0 ≤ coeff.sigma_s.x ∧ 0 ≤ coeff.sigma_s.y ∧ 0 ≤ coeff.sigma_s.z))
    (hstep : 0 < kg.volume_step_size) (hray : 0 ≤ ray.t)
    (x : ℝ) (ref : IntegrateMarch ℝ)
    (href : heterogeneous_loop K m ext kg state ray { rng with scatter_distance := x } undef
      kg.volume_max_steps.toNat 0 (heterogeneous_initial ext kg state sd L throughput undef) =
      (ref, false))
    (hrefexit : ∀ rec ∈ ref.shaded, threshold_hit K rec = false)
    (hrefscatter : ref.has_scatter = true)
    (hexit : ∀ rec ∈ (kernel_volume_integrate_heterogeneous K m ext kg state ray sd L
      throughput rng undef).shaded, threshold_hit K rec = false) :
    (∀ k s, heterogeneous_state_at K m ext kg state ray rng undef
        (heterogeneous_initial ext kg state sd L throughput undef) k = some s →
      s.accum_transmittance = volume_color_transmittance Real.exp s.accum_sigma_t 1 ∧
      s.tp = throughput * s.accum_transmittance) ∧
    (ref.accum_transmittance = volume_color_transmittance Real.exp ref.accum_sigma_t 1 ∧
      ref.tp = throughput * ref.accum_transmittance) ∧
    ((kernel_volume_integrate_heterogeneous K m ext kg state ray sd L throughput rng
        undef).out.result ≠ VolumeIntegrateResult.VOLUME_PATH_SCATTERED ↔
      kernel_volume_channel_get ref.accum_sigma_t (m.float_to_int (rng.phase * 3)) ≤
        -Real.log (1 - rng.scatter_distance)) ∧
    MeasureTheory.volume {u : ℝ | 0 ≤ u ∧ u < 1 ∧
        kernel_volume_channel_get ref.accum_sigma_t (m.float_to_int (rng.phase * 3)) ≤
          -Real.log (1 - u)} =
      ENNReal.ofReal (kernel_volume_channel_get ref.accum_transmittance
        (m.float_to_int (rng.phase * 3))) ∧
    float3_mul_f (spec_attenuated_product throughput ref.accum_transmittance)
        (1 / 3 * kernel_volume_channel_get ref.accum_transmittance 0) +
      float3_mul_f (spec_attenuated_product throughput ref.accum_transmittance)
        (1 / 3 * kernel_volume_channel_get ref.accum_transmittance 1) +
      float3_mul_f (spec_attenuated_product throughput ref.accum_transmittance)
        (1 / 3 * kernel_volume_channel_get ref.accum_transmittance 2) =
      throughput * ref.accum_transmittance := by
  have hinit_c : (heterogeneous_initial ext kg state sd L throughput undef).accum_transmittance =
      volume_color_transmittance Real.exp
        (heterogeneous_initial ext kg state sd L throughput undef).accum_sigma_t 1 := by
    show make_float3 1 1 1 = volume_color_transmittance Real.exp (make_float3 0 0 0) 1
    simp [volume_color_transmittance, make_float3]
  have hinit_tp : (heterogeneous_initial ext kg state sd L throughput undef).tp =
      throughput * (heterogeneous_initial ext kg state sd L throughput undef).accum_transmittance := by
    show throughput = throughput * make_float3 1 1 1
    rw [float3_mul_one]
  have hinit_t : (heterogeneous_initial ext kg state sd L throughput undef).t =
      ((0 : Nat) : ℝ) * kg.volume_step_size := by
    show (0 : ℝ) = ((0 : Nat) : ℝ) * kg.volume_step_size
    simp
  have hinit_le : (heterogeneous_initial ext kg state sd L throughput undef).t ≤ ray.t := hray
  have hns2 : (heterogeneous_loop K m ext kg state ray { rng with scatter_distance := x } undef
      kg.volume_max_steps.toNat 0
      (heterogeneous_initial ext kg state sd L throughput undef)).2 = false := by
    rw [href]
  have hne2 : ∀ rec ∈ ((heterogeneous_loop K m ext kg state ray
      { rng with scatter_distance := x } undef kg.volume_max_steps.toNat 0
      (heterogeneous_initial ext kg state sd L throughput undef)).1.shaded).drop
      (heterogeneous_initial ext kg state sd L throughput undef).shaded.length,
      threshold_hit K rec = false := by
    rw [href]
    exact hrefexit
  rw [integrate_heterogeneous_shaded] at hexit
  have hne1 : ∀ rec ∈ ((heterogeneous_loop K m ext kg state ray rng undef
      kg.volume_max_steps.toNat 0
      (heterogeneous_initial ext kg state sd L throughput undef)).1.shaded).drop
      (heterogeneous_initial ext kg state sd L throughput undef).shaded.length,
      threshold_hit K rec = false := hexit
  obtain ⟨g1, g2, g3, g4, _⟩ := heterogeneous_loop_attenuates K m ext kg state ray
    { rng with scatter_distance := x } undef hexp kg.volume_max_steps.toNat 0
    (heterogeneous_initial ext kg state sd L throughput undef) hns2 hne2
  rw [href] at g1 g2 g4
  have hrefc : ref.accum_transmittance =
      volume_color_transmittance Real.exp ref.accum_sigma_t 1 := g4 hinit_c
  have hreftp : ref.tp = throughput * ref.accum_transmittance := by
    have e1 : ref.accum_transmittance = make_float3 1 1 1 *
        heterogeneous_loop_transmittance K m ext kg state ray
          { rng with scatter_distance := x } undef kg.volume_max_steps.toNat 0
          (heterogeneous_initial ext kg state sd L throughput undef) := g1
    have e2 : ref.tp = throughput *
        heterogeneous_loop_transmittance K m ext kg state ray
          { rng with scatter_distance := x } undef kg.volume_max_steps.toNat 0
          (heterogeneous_initial ext kg state sd L throughput undef) := g2
    rw [e2, e1, float3_one_mul]
  have hmono := heterogeneous_loop_monotone K m ext kg state ray
    { rng with scatter_distance := x } undef hexp hcoef hstep
    (m.float_to_int (rng.phase * 3)) kg.volume_max_steps.toNat 0
    (heterogeneous_initial ext kg state sd L throughput undef) hinit_t hinit_le hns2 hne2
  rw [href] at hmono
  have htau : 0 ≤ kernel_volume_channel_get ref.accum_sigma_t
      (m.float_to_int (rng.phase * 3)) := by
    refine le_trans ?_ hmono
    show 0 ≤ kernel_volume_channel_get (make_float3 0 0 0) (m.float_to_int (rng.phase * 3))
    apply channel_get_nonneg
    simp [make_float3]
  have hApos : 0 < ref.accum_transmittance.x ∧ 0 < ref.accum_transmittance.y ∧
      0 < ref.accum_transmittance.z := by
    rw [hrefc]
    exact transmittance_pos _ _
  refine ⟨?_, ⟨hrefc, hreftp⟩, ?_, ?_, attenuated_product_average _ _ hApos⟩
  · intro k s hs
    exact heterogeneous_state_invariants K m ext kg state ray rng undef hexp _ throughput
      hinit_c hinit_tp k s hs
  · have hlock := heterogeneous_loop_lockstep K m ext kg state ray rng undef hexp hcoef hstep
      x kg.volume_max_steps.toNat 0
      (heterogeneous_initial ext kg state sd L throughput undef) undef.x hinit_t hinit_le
      (Or.inl rfl) (Or.inl rfl) hns2 hne2 hne1
    have hrefl : heterogeneous_loop K m ext kg state ray { rng with scatter_distance := x }
        undef kg.volume_max_steps.toNat 0
        { heterogeneous_initial ext kg state sd L throughput undef with nlogxi := undef.x } =
        (ref, false) := href
    rw [hrefl, hlog] at hlock
    rw [integrate_heterogeneous_result]
    rcases hlock with ⟨hsc, hlt⟩ | ⟨hsc, y1, hrel⟩
    · rw [if_pos hsc]
      constructor
      · intro h
        exact absurd rfl h
      · intro h
        exact absurd hlt (not_lt.mpr h)
    · have hnsc : ¬ ((heterogeneous_loop K m ext kg state ray rng undef
          kg.volume_max_steps.toNat 0
          (heterogeneous_initial ext kg state sd L throughput undef)).2 = true) := by
        rw [hsc]
        simp
      rw [if_neg hnsc]
      obtain ⟨_, _, _, _, g5⟩ := heterogeneous_loop_attenuates K m ext kg state ray rng undef
        hexp kg.volume_max_steps.toNat 0
        (heterogeneous_initial ext kg state sd L throughput undef) hsc hne1
      have hj := g5 (Or.inl rfl) (fun h => by cases h)
      have hrel1 : (ref, false).1 = _ := hrel
      have hhs : (heterogeneous_loop K m ext kg state ray rng undef
          kg.volume_max_steps.toNat 0
          (heterogeneous_initial ext kg state sd L throughput undef)).1.has_scatter = true := by
        rw [← hrefscatter]
        exact (congrArg IntegrateMarch.has_scatter hrel1).symm
      have hst : (heterogeneous_loop K m ext kg state ray rng undef
          kg.volume_max_steps.toNat 0
          (heterogeneous_initial ext kg state sd L throughput undef)).1.accum_sigma_t =
          ref.accum_sigma_t := (congrArg IntegrateMarch.accum_sigma_t hrel1).symm
      have hj1 := hj hhs
      rw [hst, hlog] at hj1
      constructor
      · intro _
        exact not_lt.mp hj1
      · intro _ h
        cases h
  · rw [no_scatter_measure _ htau, hrefc, channel_get_transmittance, mul_one]


/-- The sampling block on a step that flags scattering, entered before the sampling
variables are set up: they are set up with `-log(1 - xi)` and the channel of `rphase`, and
the scatter test compares `-log(1 - xi)` with the accumulated extinction after the step.
When the test fails the step is attenuated; when it succeeds the accumulated extinction is
replaced by its average up to the scatter distance. -/
theorem segment_first_scatter (K : KernelFlags) (m : KernelMath ℝ) (rng : PathSamples ℝ)
    (s : IntegrateMarch ℝ) (coeff : VolumeShaderCoefficients ℝ) (closure_flag : Nat)
    (new_t dt : ℝ) (undef : float3 ℝ) (v : StepLocals ℝ)
    (hv : heterogeneous_segment K m rng s coeff closure_flag new_t dt undef = v)
    (hf : closure_flag &&& K.SD_SCATTER ≠ 0) (hch : s.channel = -1) :
    v.has_scatter = true ∧
    (¬ (-m.logf (1 - rng.scatter_distance) < kernel_volume_channel_get
        (s.accum_sigma_t + float3_mul_f (coeff.sigma_a + coeff.sigma_s) dt)
        (m.float_to_int (rng.phase * 3))) →
      v.scatter = false ∧ v.new_t = new_t ∧
      v.new_tp = s.tp * volume_color_transmittance m.expf (coeff.sigma_a + coeff.sigma_s) dt) ∧
    (-m.logf (1 - rng.scatter_distance) < kernel_volume_channel_get
        (s.accum_sigma_t + float3_mul_f (coeff.sigma_a + coeff.sigma_s) dt)
        (m.float_to_int (rng.phase * 3)) →
      v.scatter = true ∧
      v.accum_sigma_t = float3_div_f
        (s.accum_sigma_t + float3_mul_f (coeff.sigma_a + coeff.sigma_s)
          (-m.logf (1 - rng.scatter_distance) /
            (kernel_volume_channel_get
              (s.accum_sigma_t + float3_mul_f (coeff.sigma_a + coeff.sigma_s) dt)
              (m.float_to_int (rng.phase * 3)) / new_t) - s.t))
        (-m.logf (1 - rng.scatter_distance) /
          (kernel_volume_channel_get
            (s.accum_sigma_t + float3_mul_f (coeff.sigma_a + coeff.sigma_s) dt)
            (m.float_to_int (rng.phase * 3)) / new_t))) := by
  subst hv
  unfold heterogeneous_segment
  have h1 : closure_flag &&& K.SD_SCATTER ≠ 0 ∨
      (s.has_scatter = true ∧ closure_flag &&& K.SD_ABSORPTION ≠ 0) := Or.inl hf
  rw [if_pos h1]
  dsimp only
  rw [if_pos hch, if_pos hch]
  by_cases h2 : -m.logf (1 - rng.scatter_distance) < kernel_volume_channel_get
      (s.accum_sigma_t + float3_mul_f (coeff.sigma_a + coeff.sigma_s) dt)
      (m.float_to_int (rng.phase * 3))
  · rw [if_pos h2]
    exact ⟨rfl, fun h => absurd h2 h, fun _ => ⟨rfl, rfl⟩⟩
  · rw [if_neg h2]
    exact ⟨rfl, fun _ => ⟨rfl, rfl, rfl⟩, fun h => absurd h h2⟩


/-- The sample scattering medium entered with the throughput `(0, 0, 0)` and
`-log(1 - xi) = 1 / 4`: the first step flags scattering and detects the crossing, but the
throughput is below the threshold, so the march ends without a scatter event although
`-log(1 - xi)` is below channel `c` of the final `accum_sigma_t`, which is `1`. -/
theorem heterogeneous_exit_before_scatter :
    (kernel_volume_integrate_heterogeneous sampleFlags
        ⟨Real.exp, Real.log, Real.sqrt, fun y x => Complex.arg ⟨x, y⟩, Real.tan, Int.floor⟩
        (sampleExtern 8 [⟨12, ⟨1, 1, 1⟩⟩] 0) ⟨4, 2, 1, 0, 0⟩ ⟨0, 0, 0, []⟩
        ⟨⟨0, 0, 0⟩, ⟨1, 0, 0⟩, 2, 0⟩ ⟨⟨0, 0, 0⟩, 0, [], 0⟩ [] ⟨0, 0, 0⟩
        ⟨0, 1 - Real.exp (-(1 / 4)), 0, 0, 0⟩ ⟨0, 0, 0⟩).out.result =
      VolumeIntegrateResult.VOLUME_PATH_ATTENUATED ∧
    (heterogeneous_loop sampleFlags
        ⟨Real.exp, Real.log, Real.sqrt, fun y x => Complex.arg ⟨x, y⟩, Real.tan, Int.floor⟩
        (sampleExtern 8 [⟨12, ⟨1, 1, 1⟩⟩] 0) ⟨4, 2, 1, 0, 0⟩ ⟨0, 0, 0, []⟩
        ⟨⟨0, 0, 0⟩, ⟨1, 0, 0⟩, 2, 0⟩ ⟨0, 1 - Real.exp (-(1 / 4)), 0, 0, 0⟩ ⟨0, 0, 0⟩ 2 0
        (heterogeneous_initial (sampleExtern 8 [⟨12, ⟨1, 1, 1⟩⟩] 0) ⟨4, 2, 1, 0, 0⟩
          ⟨0, 0, 0, []⟩ ⟨⟨0, 0, 0⟩, 0, [], 0⟩ [] ⟨0, 0, 0⟩ ⟨0, 0, 0⟩)).1.has_scatter = true ∧
    ¬ (kernel_volume_channel_get (heterogeneous_loop sampleFlags
        ⟨Real.exp, Real.log, Real.sqrt, fun y x => Complex.arg ⟨x, y⟩, Real.tan, Int.floor⟩
        (sampleExtern 8 [⟨12, ⟨1, 1, 1⟩⟩] 0) ⟨4, 2, 1, 0, 0⟩ ⟨0, 0, 0, []⟩
        ⟨⟨0, 0, 0⟩, ⟨1, 0, 0⟩, 2, 0⟩ ⟨0, 1 - Real.exp (-(1 / 4)), 0, 0, 0⟩ ⟨0, 0, 0⟩ 2 0
        (heterogeneous_initial (sampleExtern 8 [⟨12, ⟨1, 1, 1⟩⟩] 0) ⟨4, 2, 1, 0, 0⟩
          ⟨0, 0, 0, []⟩ ⟨⟨0, 0, 0⟩, 0, [], 0⟩ [] ⟨0, 0, 0⟩ ⟨0, 0, 0⟩)).1.accum_sigma_t
        (Int.floor ((0 : ℝ) * 3)) ≤ -Real.log (1 - (1 - Real.exp (-(1 / 4))))) := by
  have hstep : ∃ s1, heterogeneous_step sampleFlags
      ⟨Real.exp, Real.log, Real.sqrt, fun y x => Complex.arg ⟨x, y⟩, Real.tan, Int.floor⟩
      (sampleExtern 8 [⟨12, ⟨1, 1, 1⟩⟩] 0) ⟨4, 2, 1, 0, 0⟩ ⟨0, 0, 0, []⟩
      ⟨⟨0, 0, 0⟩, ⟨1, 0, 0⟩, 2, 0⟩ ⟨0, 1 - Real.exp (-(1 / 4)), 0, 0, 0⟩ ⟨0, 0, 0⟩ 0
      ⟨⟨0, 0, 0⟩, 0, 0, ⟨1, 1, 1⟩, ⟨0, 0, 0⟩, ⟨0, 0, 0⟩, 0, -1, false, 1,
        ⟨⟨0, 0, 0⟩, 0, [], 0⟩, [], []⟩ = MarchStep.stop s1 ∧
      s1.has_scatter = true ∧ s1.accum_sigma_t = ⟨1, 1, 1⟩ := by
    have hmin : min (2 : ℝ) (((0 + 1 : Nat) : ℝ) * 1) = 1 := by norm_num
    have h12 : ¬ ((1 : ℝ) = 2) := by norm_num
    unfold heterogeneous_step
    simp only [hmin, h12, if_false]
    rw [sample_scattering _ _ _ _ (by decide)]
    dsimp only
    generalize hv : heterogeneous_segment sampleFlags (_ : KernelMath ℝ) _ _ _ _ _ _ _ = v
    have hv0 := segment_dark _ _ _ _ _ _ _ _ _ v hv (by decide) rfl
    obtain ⟨hhs, _, hcross⟩ := segment_first_scatter _ _ _ _ _ _ _ _ _ v hv (by decide) rfl
    have hnl : -Real.log (1 - (1 - Real.exp (-(1 / 4)))) = 1 / 4 := by
      rw [sub_sub_cancel, Real.log_exp, neg_neg]
    have hfl : Int.floor ((0 : ℝ) * 3) = 0 := by simp
    have hsamp : kernel_volume_channel_get ((⟨0, 0, 0⟩ : float3 ℝ) +
        float3_mul_f (⟨0, 0, 0⟩ + ⟨1, 1, 1⟩) (1 - 0)) 0 = 1 := by
      simp [kernel_volume_channel_get, float3_add_def, float3_mul_f]
    dsimp only at hcross
    rw [hnl, hfl, hsamp] at hcross
    obtain ⟨_, hacc⟩ := hcross (by norm_num)
    have hflag : (8 : Nat) &&& (sampleFlags.SD_ABSORPTION ||| sampleFlags.SD_SCATTER) ≠ 0 := by
      decide
    have hb : below_tp_eps v.new_tp = true := by
      rw [hv0]
      simp only [below_tp_eps]
      norm_num
    rw [if_pos hflag, if_pos hb]
    refine ⟨_, rfl, hhs, ?_⟩
    show v.accum_sigma_t = _
    rw [hacc]
    apply float3_eq_of_channels
    · simp [float3_div_f, float3_add_def, float3_mul_f]
    · simp [float3_div_f, float3_add_def, float3_mul_f]
    · simp [float3_div_f, float3_add_def, float3_mul_f]
  obtain ⟨s1, hs1, hhs, hacc⟩ := hstep
  have hinit : heterogeneous_initial (sampleExtern 8 [⟨12, ⟨1, 1, 1⟩⟩] 0)
      (⟨4, 2, 1, 0, 0⟩ : KernelIntegrator ℝ) ⟨0, 0, 0, []⟩ ⟨⟨0, 0, 0⟩, 0, [], 0⟩ []
      ⟨0, 0, 0⟩ ⟨0, 0, 0⟩ =
      ⟨⟨0, 0, 0⟩, 0, 0, ⟨1, 1, 1⟩, ⟨0, 0, 0⟩, ⟨0, 0, 0⟩, 0, -1, false, 1,
        ⟨⟨0, 0, 0⟩, 0, [], 0⟩, [], []⟩ := by
    simp [heterogeneous_initial, sampleExtern, make_float3]
  have hloop : heterogeneous_loop sampleFlags
      ⟨Real.exp, Real.log, Real.sqrt, fun y x => Complex.arg ⟨x, y⟩, Real.tan, Int.floor⟩
      (sampleExtern 8 [⟨12, ⟨1, 1, 1⟩⟩] 0) ⟨4, 2, 1, 0, 0⟩ ⟨0, 0, 0, []⟩
      ⟨⟨0, 0, 0⟩, ⟨1, 0, 0⟩, 2, 0⟩ ⟨0, 1 - Real.exp (-(1 / 4)), 0, 0, 0⟩ ⟨0, 0, 0⟩ 2 0
      (heterogeneous_initial (sampleExtern 8 [⟨12, ⟨1, 1, 1⟩⟩] 0) ⟨4, 2, 1, 0, 0⟩
        ⟨0, 0, 0, []⟩ ⟨⟨0, 0, 0⟩, 0, [], 0⟩ [] ⟨0, 0, 0⟩ ⟨0, 0, 0⟩) = (s1, false) := by
    simp only [hinit, heterogeneous_loop, hs1]
  refine ⟨?_, ?_, ?_⟩
  · rw [integrate_heterogeneous_result]
    have hsteps : (KernelIntegrator.volume_max_steps
        (⟨4, 2, 1, 0, 0⟩ : KernelIntegrator ℝ)).toNat = 2 := rfl
    rw [hsteps, hloop]
    simp
  · rw [hloop]
    exact hhs
  · rw [hloop]
    show ¬ (kernel_volume_channel_get s1.accum_sigma_t _ ≤ _)
    rw [hacc, sub_sub_cancel, Real.log_exp, neg_neg]
    simp [kernel_volume_channel_get]
    norm_num


/-- The sample scattering medium marched in one step of length `1 / 2` with the throughput
`(1, 1, 1)` and `-log(1 - xi) = 1`: scattering is encountered, no crossing is detected
and the threshold is not hit, and the march finds no scatter event exactly because
`-log(1 - xi)` is not below channel `c` of the final `accum_sigma_t`. -/
theorem heterogeneous_inverse_cdf_witness :
    (heterogeneous_loop sampleFlags
        ⟨Real.exp, Real.log, Real.sqrt, fun y x => Complex.arg ⟨x, y⟩, Real.tan, Int.floor⟩
        (sampleExtern 8 [⟨12, ⟨1, 1, 1⟩⟩] 0) ⟨4, 2, 1, 0, 0⟩ ⟨0, 0, 0, []⟩
        ⟨⟨0, 0, 0⟩, ⟨1, 0, 0⟩, 1 / 2, 0⟩ ⟨0, 1 - Real.exp (-1), 0, 0, 0⟩ ⟨0, 0, 0⟩ 2 0
        (heterogeneous_initial (sampleExtern 8 [⟨12, ⟨1, 1, 1⟩⟩] 0) ⟨4, 2, 1, 0, 0⟩
          ⟨0, 0, 0, []⟩ ⟨⟨0, 0, 0⟩, 0, [], 0⟩ [] ⟨1, 1, 1⟩ ⟨0, 0, 0⟩)).1.has_scatter = true ∧
    ((kernel_volume_integrate_heterogeneous sampleFlags
        ⟨Real.exp, Real.log, Real.sqrt, fun y x => Complex.arg ⟨x, y⟩, Real.tan, Int.floor⟩
        (sampleExtern 8 [⟨12, ⟨1, 1, 1⟩⟩] 0) ⟨4, 2, 1, 0, 0⟩ ⟨0, 0, 0, []⟩
        ⟨⟨0, 0, 0⟩, ⟨1, 0, 0⟩, 1 / 2, 0⟩ ⟨⟨0, 0, 0⟩, 0, [], 0⟩ [] ⟨1, 1, 1⟩
        ⟨0, 1 - Real.exp (-1), 0, 0, 0⟩ ⟨0, 0, 0⟩).out.result ≠
        VolumeIntegrateResult.VOLUME_PATH_SCATTERED ↔
      kernel_volume_channel_get (heterogeneous_loop sampleFlags
        ⟨Real.exp, Real.log, Real.sqrt, fun y x => Complex.arg ⟨x, y⟩, Real.tan, Int.floor⟩
        (sampleExtern 8 [⟨12, ⟨1, 1, 1⟩⟩] 0) ⟨4, 2, 1, 0, 0⟩ ⟨0, 0, 0, []⟩
        ⟨⟨0, 0, 0⟩, ⟨1, 0, 0⟩, 1 / 2, 0⟩ ⟨0, 1 - Real.exp (-1), 0, 0, 0⟩ ⟨0, 0, 0⟩ 2 0
        (heterogeneous_initial (sampleExtern 8 [⟨12, ⟨1, 1, 1⟩⟩] 0) ⟨4, 2, 1, 0, 0⟩
          ⟨0, 0, 0, []⟩ ⟨⟨0, 0, 0⟩, 0, [], 0⟩ [] ⟨1, 1, 1⟩ ⟨0, 0, 0⟩)).1.accum_sigma_t
        (Int.floor ((0 : ℝ) * 3)) ≤ -Real.log (1 - (1 - Real.exp (-1)))) := by
  have hstep : ∃ s1 rec, heterogeneous_step sampleFlags
      ⟨Real.exp, Real.log, Real.sqrt, fun y x => Complex.arg ⟨x, y⟩, Real.tan, Int.floor⟩
      (sampleExtern 8 [⟨12, ⟨1, 1, 1⟩⟩] 0) ⟨4, 2, 1, 0, 0⟩ ⟨0, 0, 0, []⟩
      ⟨⟨0, 0, 0⟩, ⟨1, 0, 0⟩, 1 / 2, 0⟩ ⟨0, 1 - Real.exp (-1), 0, 0, 0⟩ ⟨0, 0, 0⟩ 0
      ⟨⟨1, 1, 1⟩, 0, 0, ⟨1, 1, 1⟩, ⟨0, 0, 0⟩, ⟨0, 0, 0⟩, 0, -1, false, 1,
        ⟨⟨0, 0, 0⟩, 0, [], 0⟩, [], []⟩ = MarchStep.stop s1 ∧
      s1.shaded = [rec] ∧ threshold_hit sampleFlags rec = false ∧
      s1.has_scatter = true := by
    have hmin : min (1 / 2 : ℝ) (((0 + 1 : Nat) : ℝ) * 1) = 1 / 2 := by norm_num
    unfold heterogeneous_step
    simp only [hmin, if_true]
    rw [sample_scattering _ _ _ _ (by decide)]
    dsimp only
    generalize hv : heterogeneous_segment sampleFlags (_ : KernelMath ℝ) _ _ _ _ _ _ _ = v
    obtain ⟨hhs, hkeep, _⟩ := segment_first_scatter _ _ _ _ _ _ _ _ _ v hv (by decide) rfl
    have hnl : -Real.log (1 - (1 - Real.exp (-1))) = 1 := by
      rw [sub_sub_cancel, Real.log_exp, neg_neg]
    have hfl : Int.floor ((0 : ℝ) * 3) = 0 := by simp
    have hsamp : kernel_volume_channel_get ((⟨0, 0, 0⟩ : float3 ℝ) +
        float3_mul_f (⟨0, 0, 0⟩ + ⟨1, 1, 1⟩) (1 / 2 - 0)) 0 = 1 / 2 := by
      simp [kernel_volume_channel_get, float3_add_def, float3_mul_f]
    dsimp only at hkeep
    rw [hnl, hfl, hsamp] at hkeep
    obtain ⟨hsc, hnt, htp⟩ := hkeep (by norm_num)
    have hflag : (8 : Nat) &&& (sampleFlags.SD_ABSORPTION ||| sampleFlags.SD_SCATTER) ≠ 0 := by
      decide
    have hx : (1 / 2 : ℝ) ≤ v.new_tp.x := by
      rw [htp]
      show (1 / 2 : ℝ) ≤ 1 * Real.exp (-(0 + 1) * (1 / 2 - 0))
      have := Real.add_one_le_exp (-(0 + 1) * (1 / 2 - 0) : ℝ)
      linarith
    have hb : ¬ (below_tp_eps v.new_tp = true) := by
      simp only [below_tp_eps, Bool.and_eq_true, decide_eq_true_eq, not_and, not_lt]
      intro h
      exfalso
      have : (1e-10 : ℝ) < 1 / 2 := by norm_num
      linarith
    have hns : ¬ (v.scatter = true) := by
      rw [hsc]
      simp
    rw [if_pos hflag, if_neg hb, if_neg hns, if_pos hnt]
    refine ⟨_, _, rfl, rfl, ?_, hhs⟩
    simp only [threshold_hit, Bool.and_eq_false_imp]
    intro _
    simpa using hb
  obtain ⟨s1, rec, hs1, hrec, hnh, hhs⟩ := hstep
  have hinit : heterogeneous_initial (sampleExtern 8 [⟨12, ⟨1, 1, 1⟩⟩] 0)
      (⟨4, 2, 1, 0, 0⟩ : KernelIntegrator ℝ) ⟨0, 0, 0, []⟩ ⟨⟨0, 0, 0⟩, 0, [], 0⟩ []
      ⟨1, 1, 1⟩ ⟨0, 0, 0⟩ =
      ⟨⟨1, 1, 1⟩, 0, 0, ⟨1, 1, 1⟩, ⟨0, 0, 0⟩, ⟨0, 0, 0⟩, 0, -1, false, 1,
        ⟨⟨0, 0, 0⟩, 0, [], 0⟩, [], []⟩ := by
    simp [heterogeneous_initial, sampleExtern, make_float3]
  have hloop : heterogeneous_loop sampleFlags
      ⟨Real.exp, Real.log, Real.sqrt, fun y x => Complex.arg ⟨x, y⟩, Real.tan, Int.floor⟩
      (sampleExtern 8 [⟨12, ⟨1, 1, 1⟩⟩] 0) ⟨4, 2, 1, 0, 0⟩ ⟨0, 0, 0, []⟩
      ⟨⟨0, 0, 0⟩, ⟨1, 0, 0⟩, 1 / 2, 0⟩ ⟨0, 1 - Real.exp (-1), 0, 0, 0⟩ ⟨0, 0, 0⟩ 2 0
      (heterogeneous_initial (sampleExtern 8 [⟨12, ⟨1, 1, 1⟩⟩] 0) ⟨4, 2, 1, 0, 0⟩
        ⟨0, 0, 0, []⟩ ⟨⟨0, 0, 0⟩, 0, [], 0⟩ [] ⟨1, 1, 1⟩ ⟨0, 0, 0⟩) = (s1, false) := by
    simp only [hinit, heterogeneous_loop, hs1]
  have hexit : ∀ r ∈ s1.shaded, threshold_hit sampleFlags r = false := by
    intro r hr
    rw [hrec, List.mem_singleton] at hr
    rw [hr]
    exact hnh
  rw [hloop]
  exact ⟨hhs, (heterogeneous_inverse_cdf sampleFlags
    ⟨Real.exp, Real.log, Real.sqrt, fun y x => Complex.arg ⟨x, y⟩, Real.tan, Int.floor⟩
    (sampleExtern 8 [⟨12, ⟨1, 1, 1⟩⟩] 0) ⟨4, 2, 1, 0, 0⟩ ⟨0, 0, 0, []⟩
    ⟨⟨0, 0, 0⟩, ⟨1, 0, 0⟩, 1 / 2, 0⟩ ⟨⟨0, 0, 0⟩, 0, [], 0⟩ [] ⟨1, 1, 1⟩
    ⟨0, 1 - Real.exp (-1), 0, 0, 0⟩ ⟨0, 0, 0⟩ rfl rfl
    (by
      intro sdx P coeff sd2 h
      rw [sample_scattering _ _ _ _ (by decide)] at h
      cases h
      norm_num)
    (by norm_num) (by norm_num) (1 - Real.exp (-1)) s1 hloop hexit hhs
    (by
      rw [integrate_heterogeneous_shaded]
      have hsteps : (KernelIntegrator.volume_max_steps
          (⟨4, 2, 1, 0, 0⟩ : KernelIntegrator ℝ)).toNat = 2 := rfl
      rw [hsteps, hloop]
      exact hexit)).2.2.1⟩

/-! ## The jittered shader position of the ray marchers -/

section RoundingLemmas

variable {R : Type} [LinearOrderedField R] [FloorRing R]

theorem round_half_even_near (x : R) (n : ℤ) (h1 : (n : R) - 1 / 2 < x)
    (h2 : x < (n : R) + 1 / 2) : round_half_even x = n := by
  unfold round_half_even
  have hfl := Int.floor_le x
  have hlt := Int.lt_floor_add_one x
  by_cases hc : (n : R) ≤ x
  · have hf : ⌊x⌋ = n := by
      rw [Int.floor_eq_iff]
      constructor
      · exact hc
      · linarith
    rw [hf, if_pos (by linarith)]
  · have hc1 : x < (n : R) := not_le.mp hc
    have hf : ⌊x⌋ = n - 1 := by
      rw [Int.floor_eq_iff]
      push_cast
      constructor
      · linarith
      · linarith
    rw [hf]
    push_cast
    rw [if_neg (by linarith), if_pos (by linarith)]
    ring

theorem round_half_even_int (n : ℤ) : round_half_even (n : R) = n :=
  round_half_even_near _ n (by linarith) (by linarith)

theorem round_half_even_tie (k : ℤ) :
    round_half_even ((k : R) + 1 / 2) = if k % 2 = 0 then k else k + 1 := by
  unfold round_half_even
  have hf : ⌊(k : R) + 1 / 2⌋ = k := by
    rw [Int.floor_eq_iff]
    constructor
    · linarith
    · linarith
  rw [hf]
  have e : (k : R) + 1 / 2 - (k : R) = 1 / 2 := by ring
  rw [e, if_neg (lt_irrefl _), if_neg (lt_irrefl _)]

theorem round_half_even_nonneg (x : R) (hx : 0 ≤ x) : 0 ≤ round_half_even x := by
  unfold round_half_even
  have hf : 0 ≤ ⌊x⌋ := Int.floor_nonneg.mpr hx
  split_ifs <;> omega

theorem round_half_even_le (x : R) (N : ℤ) (hx : x ≤ (N : R)) : round_half_even x ≤ N := by
  unfold round_half_even
  have hfl := Int.floor_le x
  have hf : ⌊x⌋ ≤ N := Int.floor_le_iff.mpr (by linarith)
  by_cases hc : ⌊x⌋ = N
  · have hxe : x = (N : R) := by
      have : (N : R) ≤ x := by
        rw [← hc]
        exact hfl
      exact le_antisymm hx this
    rw [hc, hxe, sub_self, if_pos (by norm_num)]
  · have : ⌊x⌋ + 1 ≤ N := by omega
    split_ifs <;> omega

theorem binary32_exponent_normal (x : R) (e : ℤ) (he : -126 ≤ e) (h1 : (2 : R) ^ e ≤ x)
    (h2 : x < (2 : R) ^ (e + 1)) : binary32_exponent x = e := by
  unfold binary32_exponent
  have hx : 0 < x := lt_of_lt_of_le (zpow_pos (by norm_num) e) h1
  have hb : (1 : ℕ) < 2 := by norm_num
  have h1a : ((2 : ℕ) : R) ^ e ≤ x := by exact_mod_cast h1
  have h2a : x < ((2 : ℕ) : R) ^ (e + 1) := by exact_mod_cast h2
  have ha := (Int.zpow_le_iff_le_log hb hx).mp h1a
  have hb2 := (Int.lt_zpow_iff_log_lt hb hx).mp h2a
  have : Int.log 2 x = e := by omega
  rw [this]
  exact max_eq_left he

theorem binary32_exponent_subnormal (x : R) (hx : 0 < x) (h2 : x < (2 : R) ^ (-126 : ℤ)) :
    binary32_exponent x = -126 := by
  unfold binary32_exponent
  have hb : (1 : ℕ) < 2 := by norm_num
  have h2a : x < ((2 : ℕ) : R) ^ (-126 : ℤ) := by exact_mod_cast h2
  have hb2 := (Int.lt_zpow_iff_log_lt hb hx).mp h2a
  exact max_eq_right (le_of_lt hb2)

theorem binary32_exponent_zero : binary32_exponent (0 : R) = 0 := by
  unfold binary32_exponent
  rw [Int.log_zero_right]
  rfl

end RoundingLemmas

section RoundingValues

variable {R : Type} [LinearOrderedField R] [FloorRing R]

/-- Rounding of a positive number in the binade `[2 ^ e, 2 ^ (e + 1))` of a normal
exponent `e`: the nearest multiple of `2 ^ (e - 23)`. -/
theorem round32_normal (x : R) (e n : ℤ) (he : -126 ≤ e) (h1 : (2 : R) ^ e ≤ x)
    (h2 : x < (2 : R) ^ (e + 1))
    (hn : round_half_even (x / (2 : R) ^ (e - 23)) = n)
    (hfin : (n : ℚ) * (2 : ℚ) ^ (e - 23) < 2 ^ 128) :
    round32 x = binary32.finite ((n : ℚ) * (2 : ℚ) ^ (e - 23)) := by
  have hx : 0 < x := lt_of_lt_of_le (zpow_pos (by norm_num) e) h1
  have hm : round_magnitude x = (n : ℚ) * (2 : ℚ) ^ (e - 23) := by
    unfold round_magnitude
    rw [binary32_exponent_normal x e he h1 h2, hn]
  unfold round32
  rw [if_pos (le_of_lt hx), hm, if_pos hfin]

/-- Rounding of a positive number below `2 ^ (-126)`: the nearest multiple of
`2 ^ (-149)`. -/
theorem round32_subnormal (x : R) (n : ℤ) (hx : 0 < x) (h2 : x < (2 : R) ^ (-126 : ℤ))
    (hn : round_half_even (x / (2 : R) ^ (-149 : ℤ)) = n)
    (hfin : (n : ℚ) * (2 : ℚ) ^ (-149 : ℤ) < 2 ^ 128) :
    round32 x = binary32.finite ((n : ℚ) * (2 : ℚ) ^ (-149 : ℤ)) := by
  have hm : round_magnitude x = (n : ℚ) * (2 : ℚ) ^ (-149 : ℤ) := by
    unfold round_magnitude
    rw [binary32_exponent_subnormal x hx h2]
    have e1 : (-126 : ℤ) - 23 = -149 := by norm_num
    rw [e1, hn]
  unfold round32
  rw [if_pos (le_of_lt hx), hm, if_pos hfin]

/-- Rounding of a negative number is the negated rounding of its magnitude. -/
theorem round32_neg (x : R) (hx : 0 < x) (q : ℚ) (h : round32 x = binary32.finite q) :
    round32 (-x) = binary32.finite (-q) := by
  unfold round32 at h ⊢
  rw [if_pos (le_of_lt hx)] at h
  have hn : ¬ (0 ≤ -x) := by
    intro h0
    linarith
  rw [if_neg hn, neg_neg]
  by_cases hf : round_magnitude x < 2 ^ 128
  · rw [if_pos hf] at h ⊢
    injection h with h
    rw [h]
  · rw [if_neg hf] at h
    cases h

theorem round32_zero : round32 (0 : R) = binary32.finite 0 := by
  have hm : round_magnitude (0 : R) = 0 := by
    unfold round_magnitude
    rw [zero_div]
    have : round_half_even (0 : R) = 0 := by
      have := round_half_even_int (R := R) 0
      simpa using this
    rw [this]
    simp
  unfold round32
  rw [if_pos (le_refl _), hm, if_pos (by norm_num)]

theorem round_magnitude_nonneg (x : R) (hx : 0 ≤ x) : 0 ≤ round_magnitude x := by
  unfold round_magnitude
  apply mul_nonneg
  · have h := round_half_even_nonneg (x / (2 : R) ^ (binary32_exponent x - 23))
      (div_nonneg hx (le_of_lt (zpow_pos (by norm_num) _)))
    exact_mod_cast h
  · exact le_of_lt (zpow_pos (by norm_num) _)

theorem binary32_exponent_unit (x : R) (hx1 : x ≤ 1) : binary32_exponent x ≤ 0 := by
  unfold binary32_exponent
  apply max_le
  · rcases le_or_lt x 0 with h0 | h0
    · rw [Int.log_of_right_le_zero 2 h0]
    · have hb : (1 : ℕ) < 2 := by norm_num
      have h2a : x < ((2 : ℕ) : R) ^ (1 : ℤ) := by
        have : ((2 : ℕ) : R) ^ (1 : ℤ) = 2 := by norm_num
        rw [this]
        linarith
      have := (Int.lt_zpow_iff_log_lt hb h0).mp h2a
      omega
  · norm_num

/-- Rounding keeps a number of `[0, 1]` in `[0, 1]`. -/
theorem round_magnitude_unit (x : R) (hx1 : x ≤ 1) : round_magnitude x ≤ 1 := by
  have he := binary32_exponent_unit x hx1
  unfold round_magnitude
  generalize binary32_exponent x = e at he
  obtain ⟨k, hk⟩ : ∃ k : ℕ, (23 : ℤ) - e = k := ⟨(23 - e).toNat, by omega⟩
  have hpow : (2 : R) ^ (e - 23) = ((2 : R) ^ k)⁻¹ := by
    have : e - 23 = -(k : ℤ) := by omega
    rw [this, zpow_neg, zpow_natCast]
  have hpowq : (2 : ℚ) ^ (e - 23) = ((2 : ℚ) ^ k)⁻¹ := by
    have : e - 23 = -(k : ℤ) := by omega
    rw [this, zpow_neg, zpow_natCast]
  have hle : round_half_even (x / (2 : R) ^ (e - 23)) ≤ ((2 ^ k : ℕ) : ℤ) := by
    apply round_half_even_le
    rw [hpow, div_inv_eq_mul]
    push_cast
    have h2 : (0 : R) ≤ 2 ^ k := le_of_lt (pow_pos (by norm_num) k)
    calc x * 2 ^ k ≤ 1 * 2 ^ k := mul_le_mul_of_nonneg_right hx1 h2
      _ = 2 ^ k := one_mul _
  have hleq : ((round_half_even (x / (2 : R) ^ (e - 23)) : ℤ) : ℚ) ≤ (2 : ℚ) ^ k := by
    have : ((round_half_even (x / (2 : R) ^ (e - 23)) : ℤ) : ℚ) ≤ (((2 ^ k : ℕ) : ℤ) : ℚ) := by
      exact_mod_cast hle
    simpa using this
  rw [hpowq]
  have h2q : (0 : ℚ) < 2 ^ k := pow_pos (by norm_num) k
  rw [← div_eq_mul_inv, div_le_one h2q]
  exact hleq

/-- Rounding of a number of `[0, 1]` is a finite value of `[0, 1]`. -/
theorem round32_unit (x : R) (hx0 : 0 ≤ x) (hx1 : x ≤ 1) :
    ∃ r : ℚ, round32 x = binary32.finite r ∧ 0 ≤ r ∧ r ≤ 1 := by
  have h1 := round_magnitude_unit x hx1
  refine ⟨round_magnitude x, ?_, round_magnitude_nonneg x hx0, h1⟩
  unfold round32
  rw [if_pos hx0, if_pos (lt_of_le_of_lt h1 (by norm_num))]

/-- Rounding of a non-negative number is a non-negative finite value or plus infinity. -/
theorem round32_nonneg (x : R) (hx0 : 0 ≤ x) :
    (∃ r : ℚ, round32 x = binary32.finite r ∧ 0 ≤ r) ∨ round32 x = binary32.inf false := by
  unfold round32
  rw [if_pos hx0]
  by_cases hf : round_magnitude x < 2 ^ 128
  · rw [if_pos hf]
    exact Or.inl ⟨_, rfl, round_magnitude_nonneg x hx0⟩
  · rw [if_neg hf]
    exact Or.inr rfl

/-- Rounding of a number that is not positive is a finite value that is not positive, or
minus infinity. -/
theorem round32_nonpos (x : R) (hx0 : x ≤ 0) :
    (∃ r : ℚ, round32 x = binary32.finite r ∧ r ≤ 0) ∨ round32 x = binary32.inf true := by
  rcases eq_or_lt_of_le hx0 with h | h
  · rw [h, round32_zero]
    exact Or.inl ⟨0, rfl, le_refl _⟩
  · unfold round32
    rw [if_neg (not_le.mpr h)]
    by_cases hf : round_magnitude (-x) < 2 ^ 128
    · rw [if_pos hf]
      refine Or.inl ⟨_, rfl, ?_⟩
      have := round_magnitude_nonneg (-x) (by linarith)
      linarith
    · rw [if_neg hf]
      exact Or.inr rfl

end RoundingValues

section Binary32Operations

theorem binary32_zero_def : (0 : binary32) = binary32.finite 0 := rfl

theorem binary32_one_def : (1 : binary32) = binary32.finite 1 := rfl

theorem binary32_neg_finite (a : ℚ) : -binary32.finite a = binary32.finite (-a) := rfl

theorem binary32_add_finite (a b : ℚ) :
    binary32.finite a + binary32.finite b = round32 (a + b) := rfl

theorem binary32_sub_finite (a b : ℚ) :
    binary32.finite a - binary32.finite b = round32 (a - b) := by
  show round32 (a + -b) = round32 (a - b)
  rw [sub_eq_add_neg]

theorem binary32_mul_finite (a b : ℚ) :
    binary32.finite a * binary32.finite b = round32 (a * b) := rfl

theorem binary32_div_finite (a b : ℚ) (hb : b ≠ 0) :
    binary32.finite a / binary32.finite b = round32 (a / b) := by
  show binary32.div (binary32.finite a) (binary32.finite b) = _
  simp only [binary32.div]
  rw [if_neg hb]

theorem binary32_lt_finite (a b : ℚ) : binary32.finite a < binary32.finite b ↔ a < b := by
  show binary32.lt (binary32.finite a) (binary32.finite b) = true ↔ a < b
  simp [binary32.lt]

theorem binary32_le_finite (a b : ℚ) : binary32.finite a ≤ binary32.finite b ↔ a ≤ b := by
  show binary32.le (binary32.finite a) (binary32.finite b) = true ↔ a ≤ b
  simp [binary32.le]

theorem binary32_min_def (a b : binary32) : min a b = if a < b then a else b := rfl

end Binary32Operations

/-! ## Transmittance in single precision -/

theorem exp_neg_thousand_lt : Real.exp (-1000) < (2 : ℝ) ^ (-150 : ℤ) := by
  have h2 : (2 : ℝ) < Real.exp 1 := by
    have := Real.exp_one_gt_d9
    linarith
  have hpow : (2 : ℝ) ^ 1000 ≤ Real.exp 1000 := by
    have e : Real.exp 1000 = Real.exp 1 ^ 1000 := by
      rw [Real.exp_one_pow]
      norm_num
    rw [e]
    exact pow_le_pow_left₀ (by norm_num) (le_of_lt h2) 1000
  have hpos : (0 : ℝ) < 2 ^ 1000 := pow_pos (by norm_num) 1000
  rw [Real.exp_neg]
  calc (Real.exp 1000)⁻¹ ≤ ((2 : ℝ) ^ 1000)⁻¹ := inv_anti₀ hpos hpow
    _ < (2 : ℝ) ^ (-150 : ℤ) := by
      rw [zpow_neg]
      apply inv_strictAnti₀ (pow_pos (by norm_num) 150)
      exact pow_lt_pow_right₀ (by norm_num) (by norm_num)

theorem round32_exp_neg_thousand :
    round32 (Real.exp (((-1000 : ℚ) : ℝ))) = binary32.finite 0 := by
  have hcast : (((-1000 : ℚ) : ℝ)) = -1000 := by norm_num
  rw [hcast]
  have hlt := exp_neg_thousand_lt
  have hpos : 0 < Real.exp (-1000) := Real.exp_pos _
  have h126 : Real.exp (-1000) < (2 : ℝ) ^ (-126 : ℤ) := by
    refine lt_trans hlt ?_
    exact zpow_lt_zpow_right₀ (by norm_num) (by norm_num)
  have hn : round_half_even (Real.exp (-1000) / (2 : ℝ) ^ (-149 : ℤ)) = 0 := by
    apply round_half_even_near
    · have : 0 ≤ Real.exp (-1000) / (2 : ℝ) ^ (-149 : ℤ) :=
        div_nonneg (le_of_lt hpos) (le_of_lt (zpow_pos (by norm_num) _))
      push_cast
      linarith
    · push_cast
      rw [zero_add, div_lt_iff₀ (zpow_pos (by norm_num) _)]
      have e : (1 / 2 : ℝ) * (2 : ℝ) ^ (-149 : ℤ) = (2 : ℝ) ^ (-150 : ℤ) := by
        rw [show (-149 : ℤ) = -150 + 1 by norm_num, zpow_add₀ (by norm_num)]
        norm_num
      rw [e]
      exact hlt
  have h := round32_subnormal (Real.exp (-1000)) 0 hpos h126 hn (by norm_num)
  rw [h]
  norm_num

theorem round32_thousand : round32 (1000 : ℚ) = binary32.finite 1000 := by
  have hn : round_half_even ((1000 : ℚ) / (2 : ℚ) ^ ((9 : ℤ) - 23)) = 16384000 := by
    have e : (1000 : ℚ) / (2 : ℚ) ^ ((9 : ℤ) - 23) = ((16384000 : ℤ) : ℚ) := by norm_num
    rw [e]
    exact round_half_even_int _
  have h := round32_normal (1000 : ℚ) 9 16384000 (by norm_num) (by norm_num) (by norm_num) hn
    (by norm_num)
  rw [h]
  norm_num

/-- The transmittance of `sigma = (1000, 1000, 1000)` over `t = 1` in single precision with
a correctly rounded `expf`: `exp(-1000)` is below half of the smallest positive value, so
every channel is exactly `0`, which is not in `(0, 1]`. -/
theorem transmittance_underflow :
    volume_color_transmittance (libm_expf (fun q : ℚ => Real.exp (q : ℝ)))
        ⟨binary32.finite 1000, binary32.finite 1000, binary32.finite 1000⟩
        (binary32.finite 1) =
      ⟨binary32.finite 0, binary32.finite 0, binary32.finite 0⟩ ∧
    ¬ ((0 : binary32) <
      (volume_color_transmittance (libm_expf (fun q : ℚ => Real.exp (q : ℝ)))
        ⟨binary32.finite 1000, binary32.finite 1000, binary32.finite 1000⟩
        (binary32.finite 1)).x) := by
  have hmul : -binary32.finite 1000 * binary32.finite 1 = binary32.finite (-1000) := by
    rw [binary32_neg_finite, binary32_mul_finite]
    have e : (-1000 : ℚ) * 1 = -1000 := by norm_num
    rw [e]
    exact round32_neg (1000 : ℚ) (by norm_num) 1000 round32_thousand
  have hexp : libm_expf (fun q : ℚ => Real.exp (q : ℝ)) (binary32.finite (-1000)) =
      binary32.finite 0 := round32_exp_neg_thousand
  have hv : volume_color_transmittance (libm_expf (fun q : ℚ => Real.exp (q : ℝ)))
      ⟨binary32.finite 1000, binary32.finite 1000, binary32.finite 1000⟩
      (binary32.finite 1) =
      ⟨binary32.finite 0, binary32.finite 0, binary32.finite 0⟩ := by
    unfold volume_color_transmittance make_float3
    dsimp only
    rw [hmul, hexp]
  refine ⟨hv, ?_⟩
  rw [hv, binary32_zero_def, binary32_lt_finite]
  exact lt_irrefl _


theorem round32_one {R : Type} [LinearOrderedField R] [FloorRing R] :
    round32 (1 : R) = binary32.finite 1 := by
  have hn : round_half_even ((1 : R) / (2 : R) ^ ((0 : ℤ) - 23)) = 8388608 := by
    have e : (1 : R) / (2 : R) ^ ((0 : ℤ) - 23) = ((8388608 : ℤ) : R) := by
      rw [show ((0 : ℤ) - 23) = -23 by norm_num, zpow_neg, one_div, inv_inv]
      norm_num
    rw [e]
    exact round_half_even_int _
  have h := round32_normal (1 : R) 0 8388608 (by norm_num) (by norm_num) (by norm_num) hn
    (by norm_num)
  rw [h]
  norm_num

/-- One channel of the transmittance in single precision with a correctly rounded `expf`,
for a non-negative coefficient and a non-negative distance: a finite value of `[0, 1]`. -/
theorem transmittance_channel_unit (s t : ℚ) (hs : 0 ≤ s) (ht : 0 ≤ t) :
    ∃ r : ℚ, libm_expf (fun q : ℚ => Real.exp (q : ℝ))
      (-binary32.finite s * binary32.finite t) = binary32.finite r ∧ 0 ≤ r ∧ r ≤ 1 := by
  rw [binary32_neg_finite, binary32_mul_finite]
  have hprod : -s * t ≤ 0 := by
    have := mul_nonneg hs ht
    linarith
  rcases round32_nonpos (-s * t) hprod with ⟨r1, h1, hr1⟩ | h1
  · rw [h1]
    show ∃ r : ℚ, round32 (Real.exp (r1 : ℝ)) = binary32.finite r ∧ 0 ≤ r ∧ r ≤ 1
    apply round32_unit
    · exact le_of_lt (Real.exp_pos _)
    · rw [Real.exp_le_one_iff]
      exact_mod_cast hr1
  · rw [h1]
    exact ⟨0, rfl, le_refl _, by norm_num⟩

theorem transmittance_channel_zero (s : ℚ) :
    libm_expf (fun q : ℚ => Real.exp (q : ℝ)) (-binary32.finite s * binary32.finite 0) =
      binary32.finite 1 := by
  rw [binary32_neg_finite, binary32_mul_finite, mul_zero, round32_zero]
  show round32 (Real.exp ((0 : ℚ) : ℝ)) = binary32.finite 1
  rw [Rat.cast_zero, Real.exp_zero]
  exact round32_one

/-- C7 (amended): in single precision with a correctly rounded `expf`, for every finite
`sigma` with non-negative channels and every finite `t >= 0`, each channel of
`volume_color_transmittance sigma t` is a finite value of `[0, 1]`, and
`volume_color_transmittance sigma 0 = (1, 1, 1)` for every finite `sigma`; in exact
arithmetic each channel lies in `(0, 1]`. -/
theorem transmittance_closed_range :
    (∀ sx sy sz t : ℚ, 0 ≤ sx → 0 ≤ sy → 0 ≤ sz → 0 ≤ t →
      (∃ r : ℚ, (volume_color_transmittance (libm_expf (fun q : ℚ => Real.exp (q : ℝ)))
          ⟨binary32.finite sx, binary32.finite sy, binary32.finite sz⟩
          (binary32.finite t)).x = binary32.finite r ∧ 0 ≤ r ∧ r ≤ 1) ∧
      (∃ r : ℚ, (volume_color_transmittance (libm_expf (fun q : ℚ => Real.exp (q : ℝ)))
          ⟨binary32.finite sx, binary32.finite sy, binary32.finite sz⟩
          (binary32.finite t)).y = binary32.finite r ∧ 0 ≤ r ∧ r ≤ 1) ∧
      (∃ r : ℚ, (volume_color_transmittance (libm_expf (fun q : ℚ => Real.exp (q : ℝ)))
          ⟨binary32.finite sx, binary32.finite sy, binary32.finite sz⟩
          (binary32.finite t)).z = binary32.finite r ∧ 0 ≤ r ∧ r ≤ 1)) ∧
    (∀ sx sy sz : ℚ,
      volume_color_transmittance (libm_expf (fun q : ℚ => Real.exp (q : ℝ)))
        ⟨binary32.finite sx, binary32.finite sy, binary32.finite sz⟩ (binary32.finite 0) =
        make_float3 1 1 1) ∧
    (∀ (sigma : float3 ℝ) (t : ℝ), 0 ≤ sigma.x → 0 ≤ sigma.y → 0 ≤ sigma.z → 0 ≤ t →
      (0 < (volume_color_transmittance Real.exp sigma t).x ∧
        (volume_color_transmittance Real.exp sigma t).x ≤ 1) ∧
      (0 < (volume_color_transmittance Real.exp sigma t).y ∧
        (volume_color_transmittance Real.exp sigma t).y ≤ 1) ∧
      (0 < (volume_color_transmittance Real.exp sigma t).z ∧
        (volume_color_transmittance Real.exp sigma t).z ≤ 1)) ∧
    (∀ sigma : float3 ℝ, volume_color_transmittance Real.exp sigma 0 = make_float3 1 1 1) := by
  refine ⟨?_, ?_, transmittance_range.1, transmittance_range.2⟩
  · intro sx sy sz t hx hy hz ht
    exact ⟨transmittance_channel_unit sx t hx ht, transmittance_channel_unit sy t hy ht,
      transmittance_channel_unit sz t hz ht⟩
  · intro sx sy sz
    unfold volume_color_transmittance
    dsimp only
    rw [transmittance_channel_zero, transmittance_channel_zero, transmittance_channel_zero]
    rfl

/-- The closed range at `sigma = (1000, 1, 0)`, `t = 1` in single precision, and the open
range at `sigma = (1, 2, 0)`, `t = 3` in exact arithmetic. -/
theorem transmittance_closed_range_witness :
    ((∃ r : ℚ, (volume_color_transmittance (libm_expf (fun q : ℚ => Real.exp (q : ℝ)))
          ⟨binary32.finite 1000, binary32.finite 1, binary32.finite 0⟩
          (binary32.finite 1)).x = binary32.finite r ∧ 0 ≤ r ∧ r ≤ 1) ∧
      (∃ r : ℚ, (volume_color_transmittance (libm_expf (fun q : ℚ => Real.exp (q : ℝ)))
          ⟨binary32.finite 1000, binary32.finite 1, binary32.finite 0⟩
          (binary32.finite 1)).y = binary32.finite r ∧ 0 ≤ r ∧ r ≤ 1) ∧
      (∃ r : ℚ, (volume_color_transmittance (libm_expf (fun q : ℚ => Real.exp (q : ℝ)))
          ⟨binary32.finite 1000, binary32.finite 1, binary32.finite 0⟩
          (binary32.finite 1)).z = binary32.finite r ∧ 0 ≤ r ∧ r ≤ 1)) ∧
    ((0 < (volume_color_transmittance Real.exp ⟨1, 2, 0⟩ 3).x ∧
        (volume_color_transmittance Real.exp ⟨1, 2, 0⟩ 3).x ≤ 1) ∧
      (0 < (volume_color_transmittance Real.exp ⟨1, 2, 0⟩ 3).y ∧
        (volume_color_transmittance Real.exp ⟨1, 2, 0⟩ 3).y ≤ 1) ∧
      (0 < (volume_color_transmittance Real.exp ⟨1, 2, 0⟩ 3).z ∧
        (volume_color_transmittance Real.exp ⟨1, 2, 0⟩ 3).z ≤ 1)) :=
  ⟨transmittance_closed_range.1 1000 1 0 1 (by norm_num) (by norm_num) (by norm_num)
      (by norm_num),
    transmittance_closed_range.2.2.1 ⟨1, 2, 0⟩ 3 (by norm_num) (by norm_num) (by norm_num)
      (by norm_num)⟩


/-! ## Distance sampling in single precision -/

/-- Rounding of a positive number of a normal binade to the multiple `n * 2 ^ (e - 23)`
that is nearer than half a unit in the last place. -/
theorem round32_near {R : Type} [LinearOrderedField R] [FloorRing R] (x : R) (e n : ℤ)
    (he : -126 ≤ e) (h1 : (2 : R) ^ e ≤ x) (h2 : x < (2 : R) ^ (e + 1))
    (hlo : ((n : R) - 1 / 2) * (2 : R) ^ (e - 23) < x)
    (hhi : x < ((n : R) + 1 / 2) * (2 : R) ^ (e - 23))
    (hfin : (n : ℚ) * (2 : ℚ) ^ (e - 23) < 2 ^ 128) :
    round32 x = binary32.finite ((n : ℚ) * (2 : ℚ) ^ (e - 23)) := by
  have hp : (0 : R) < (2 : R) ^ (e - 23) := zpow_pos (by norm_num) _
  apply round32_normal x e n he h1 h2 _ hfin
  apply round_half_even_near
  · rw [lt_div_iff₀ hp]
    exact hlo
  · rw [div_lt_iff₀ hp]
    exact hhi

/-- Rounding of a positive number of a normal binade that is a multiple of the unit in the
last place: the number itself. -/
theorem round32_exact {R : Type} [LinearOrderedField R] [FloorRing R] (x : R) (e n : ℤ)
    (he : -126 ≤ e) (h1 : (2 : R) ^ e ≤ x) (h2 : x < (2 : R) ^ (e + 1))
    (hx : x = (n : R) * (2 : R) ^ (e - 23))
    (hfin : (n : ℚ) * (2 : ℚ) ^ (e - 23) < 2 ^ 128) :
    round32 x = binary32.finite ((n : ℚ) * (2 : ℚ) ^ (e - 23)) := by
  have hp : (0 : R) < (2 : R) ^ (e - 23) := zpow_pos (by norm_num) _
  apply round32_normal x e n he h1 h2 _ hfin
  rw [hx, mul_div_assoc, div_self (ne_of_gt hp), mul_one]
  exact round_half_even_int n

/-- Rounding of a positive number of a normal binade that lies half way between two
multiples of the unit in the last place: the even one. -/
theorem round32_tie {R : Type} [LinearOrderedField R] [FloorRing R] (x : R) (e k : ℤ)
    (he : -126 ≤ e) (h1 : (2 : R) ^ e ≤ x) (h2 : x < (2 : R) ^ (e + 1))
    (hx : x = ((k : R) + 1 / 2) * (2 : R) ^ (e - 23)) (hk : k % 2 = 0)
    (hfin : (k : ℚ) * (2 : ℚ) ^ (e - 23) < 2 ^ 128) :
    round32 x = binary32.finite ((k : ℚ) * (2 : ℚ) ^ (e - 23)) := by
  have hp : (0 : R) < (2 : R) ^ (e - 23) := zpow_pos (by norm_num) _
  apply round32_normal x e k he h1 h2 _ hfin
  rw [hx, mul_div_assoc, div_self (ne_of_gt hp), mul_one, round_half_even_tie, if_pos hk]

theorem exp_neg_half_bounds :
    (0.6065306597 : ℝ) < Real.exp (-1 / 2) ∧ Real.exp (-1 / 2) < 0.6065306598 := by
  have hx : |(-1 / 2 : ℝ)| ≤ 1 := by
    rw [abs_le]
    constructor <;> norm_num
  have h := Real.exp_bound hx (n := 12) (by norm_num)
  have habs : |(-1 / 2 : ℝ)| = 1 / 2 := by
    rw [abs_of_nonpos (by norm_num)]
    norm_num
  rw [habs] at h
  simp only [Finset.sum_range_succ, Finset.sum_range_zero, Nat.factorial] at h
  norm_num at h
  rw [abs_le] at h
  constructor
  · linarith [h.1]
  · linarith [h.2]

theorem round32_exp_neg_half :
    round32 (Real.exp (((-1 / 2 : ℚ)) : ℝ)) = binary32.finite (10175896 / 16777216) := by
  have hcast : (((-1 / 2 : ℚ)) : ℝ) = -1 / 2 := by norm_num
  rw [hcast]
  obtain ⟨hlo, hhi⟩ := exp_neg_half_bounds
  have h := round32_near (Real.exp (-1 / 2)) (-1) 10175896 (by norm_num)
    (by norm_num; linarith) (by norm_num) (by norm_num; linarith)
    (by norm_num; linarith) (by norm_num)
  rw [h]
  norm_num

theorem round32_log_near_half :
    round32 (Real.log (((10175896 / 16777216 : ℚ)) : ℝ)) = binary32.finite (-1 / 2) := by
  have hcast : (((10175896 / 16777216 : ℚ)) : ℝ) = 10175896 / 16777216 := by norm_num
  rw [hcast]
  obtain ⟨hlo, hhi⟩ := exp_neg_half_bounds
  have hT : (0 : ℝ) < 10175896 / 16777216 := by norm_num
  have hup : Real.log (10175896 / 16777216) < -1 / 2 + 1 / 67108864 := by
    rw [Real.log_lt_iff_lt_exp hT, Real.exp_add]
    have h1 := Real.add_one_le_exp (1 / 67108864 : ℝ)
    have hE : (0 : ℝ) < Real.exp (-1 / 2) := Real.exp_pos _
    calc (10175896 / 16777216 : ℝ) < 0.6065306597 * (1 / 67108864 + 1) := by norm_num
      _ ≤ Real.exp (-1 / 2) * (1 / 67108864 + 1) :=
        mul_le_mul_of_nonneg_right (le_of_lt hlo) (by norm_num)
      _ ≤ Real.exp (-1 / 2) * Real.exp (1 / 67108864) :=
        mul_le_mul_of_nonneg_left h1 (le_of_lt hE)
  have hdown : -1 / 2 < Real.log (10175896 / 16777216) := by
    rw [Real.lt_log_iff_exp_lt hT]
    refine lt_trans hhi ?_
    norm_num
  have hy : (0 : ℝ) < -Real.log (10175896 / 16777216) := by linarith
  have h := round32_near (-Real.log (10175896 / 16777216)) (-2) 16777216 (by norm_num)
    (by norm_num; linarith) (by norm_num; linarith) (by norm_num; linarith)
    (by norm_num; linarith) (by norm_num)
  have hneg := round32_neg _ hy _ h
  rw [neg_neg] at hneg
  rw [hneg]
  norm_num

theorem round32_half : round32 (1 / 2 : ℚ) = binary32.finite (1 / 2) := by
  have h := round32_exact (1 / 2 : ℚ) (-1) 8388608 (by norm_num) (by norm_num) (by norm_num)
    (by norm_num) (by norm_num)
  rw [h]
  norm_num

theorem round32_one_minus_transmittance :
    round32 (1 - 10175896 / 16777216 : ℚ) = binary32.finite (6601320 / 16777216) := by
  have h := round32_exact (1 - 10175896 / 16777216 : ℚ) (-2) 13202640 (by norm_num)
    (by norm_num) (by norm_num) (by norm_num) (by norm_num)
  rw [h]
  norm_num

theorem round32_scaled_gap :
    round32 (16777215 / 16777216 * (6601320 / 16777216) : ℚ) =
      binary32.finite (13202639 / 33554432) := by
  have h := round32_near (16777215 / 16777216 * (6601320 / 16777216) : ℚ) (-2) 13202639
    (by norm_num) (by norm_num) (by norm_num) (by norm_num) (by norm_num) (by norm_num)
  rw [h]
  norm_num

theorem round32_log_argument :
    round32 (1 - 13202639 / 33554432 : ℚ) = binary32.finite (10175896 / 16777216) := by
  have h := round32_tie (1 - 13202639 / 33554432 : ℚ) (-1) 10175896 (by norm_num)
    (by norm_num) (by norm_num) (by norm_num) (by decide) (by norm_num)
  rw [h]
  norm_num

/-- The distance sampler in single precision with correctly rounded `expf` and `logf`, at
`max_t = 1`, `sigma_t = (1/2, 1/2, 1/2)`, channel 0 and `xi = 1 - 2 ^ (-24)`, the largest
number below 1: the argument of `logf` rounds to `expf(-1/2)` and its logarithm rounds to
`-1/2`, so the returned distance is `max_t` itself. -/
theorem distance_sample_at_last_number :
    (kernel_volume_distance_sample (libm_expf (fun q : ℚ => Real.exp (q : ℝ)))
        (libm_logf (fun q : ℚ => Real.log (q : ℝ))) (binary32.finite 1)
        ⟨binary32.finite (1 / 2), binary32.finite (1 / 2), binary32.finite (1 / 2)⟩ 0
        (binary32.finite (16777215 / 16777216))).sample_t = binary32.finite 1 := by
  have hmul : -binary32.finite (1 / 2) * binary32.finite 1 = binary32.finite (-1 / 2) := by
    rw [binary32_neg_finite, binary32_mul_finite]
    have e : (-(1 / 2) : ℚ) * 1 = -(1 / 2) := by norm_num
    rw [e, round32_neg (1 / 2 : ℚ) (by norm_num) (1 / 2) round32_half]
    norm_num
  have hT : libm_expf (fun q : ℚ => Real.exp (q : ℝ)) (binary32.finite (-1 / 2)) =
      binary32.finite (10175896 / 16777216) := round32_exp_neg_half
  have hlog : libm_logf (fun q : ℚ => Real.log (q : ℝ))
      (binary32.finite (10175896 / 16777216)) = binary32.finite (-1 / 2) := by
    show (if (10175896 / 16777216 : ℚ) < 0 then binary32.nan
      else if (10175896 / 16777216 : ℚ) = 0 then binary32.inf true
      else round32 (Real.log (((10175896 / 16777216 : ℚ)) : ℝ))) = _
    rw [if_neg (by norm_num), if_neg (by norm_num)]
    exact round32_log_near_half
  simp only [kernel_volume_distance_sample, channel_get_transmittance]
  have hc : kernel_volume_channel_get
      (⟨binary32.finite (1 / 2), binary32.finite (1 / 2), binary32.finite (1 / 2)⟩ :
        float3 binary32) 0 = binary32.finite (1 / 2) := by
    simp [kernel_volume_channel_get]
  rw [hc, hmul, hT, binary32_one_def, binary32_sub_finite, round32_one_minus_transmittance,
    binary32_mul_finite, round32_scaled_gap, binary32_sub_finite, round32_log_argument,
    hlog, binary32_neg_finite, binary32_div_finite _ _ (by norm_num)]
  have e : (-(-1 / 2) : ℚ) / (1 / 2) = 1 := by norm_num
  rw [e, round32_one, binary32_min_def, if_neg]
  rw [binary32_lt_finite]
  exact lt_irrefl _

/-- The distance sampler in single precision with correctly rounded `expf` and `logf`, at
`max_t = 1`, `sigma_t = (1/2, 1/2, 1/2)`, channel 0 and `xi = 1 - 2 ^ (-24)`: the returned
distance is `max_t`, not a distance below `max_t`. -/
theorem distance_sample_reaches_max :
    (kernel_volume_distance_sample (libm_expf (fun q : ℚ => Real.exp (q : ℝ)))
        (libm_logf (fun q : ℚ => Real.log (q : ℝ))) (binary32.finite 1)
        ⟨binary32.finite (1 / 2), binary32.finite (1 / 2), binary32.finite (1 / 2)⟩ 0
        (binary32.finite (16777215 / 16777216))).sample_t = binary32.finite 1 ∧
    ¬ ((kernel_volume_distance_sample (libm_expf (fun q : ℚ => Real.exp (q : ℝ)))
        (libm_logf (fun q : ℚ => Real.log (q : ℝ))) (binary32.finite 1)
        ⟨binary32.finite (1 / 2), binary32.finite (1 / 2), binary32.finite (1 / 2)⟩ 0
        (binary32.finite (16777215 / 16777216))).sample_t < binary32.finite 1) := by
  refine ⟨distance_sample_at_last_number, ?_⟩
  rw [distance_sample_at_last_number, binary32_lt_finite]
  exact lt_irrefl _

theorem channel_get_finite (sx sy sz : ℚ) (channel : Int) :
    kernel_volume_channel_get
        (⟨binary32.finite sx, binary32.finite sy, binary32.finite sz⟩ : float3 binary32)
        channel =
      binary32.finite (kernel_volume_channel_get (⟨sx, sy, sz⟩ : float3 ℚ) channel) := by
  unfold kernel_volume_channel_get
  split_ifs <;> rfl

/-- The clamp `min(max_t, y)` of a value `y` that is finite and non-negative, or plus
infinity: a finite value of `[0, max_t]`. -/
theorem min_finite_bound (max_t : ℚ) (hm : 0 ≤ max_t) (y : binary32)
    (hy : (∃ r : ℚ, y = binary32.finite r ∧ 0 ≤ r) ∨ y = binary32.inf false) :
    ∃ r : ℚ, min (binary32.finite max_t) y = binary32.finite r ∧ 0 ≤ r ∧ r ≤ max_t := by
  rw [binary32_min_def]
  rcases hy with ⟨r, hr, hr0⟩ | hinf
  · rw [hr]
    by_cases hlt : binary32.finite max_t < binary32.finite r
    · rw [if_pos hlt]
      exact ⟨max_t, rfl, hm, le_refl _⟩
    · rw [if_neg hlt]
      rw [binary32_lt_finite] at hlt
      exact ⟨r, rfl, hr0, not_lt.mp hlt⟩
  · rw [hinf]
    have hlt : binary32.finite max_t < binary32.inf false := by
      show binary32.lt (binary32.finite max_t) (binary32.inf false) = true
      rfl
    rw [if_pos hlt]
    exact ⟨max_t, rfl, hm, le_refl _⟩

/-- The argument `-logf(x) / sigma` of the clamp in single precision, for `x` in `[0, 1]`
and `sigma > 0`: finite and non-negative, or plus infinity. -/
theorem neg_log_over_sigma (x s : ℚ) (hx0 : 0 ≤ x) (hx1 : x ≤ 1) (hs : 0 < s) :
    (∃ r : ℚ, -libm_logf (fun q : ℚ => Real.log (q : ℝ)) (binary32.finite x) /
        binary32.finite s = binary32.finite r ∧ 0 ≤ r) ∨
      -libm_logf (fun q : ℚ => Real.log (q : ℝ)) (binary32.finite x) / binary32.finite s =
        binary32.inf false := by
  have hinf : -binary32.inf true / binary32.finite s = binary32.inf false := by
    show binary32.div (binary32.neg (binary32.inf true)) (binary32.finite s) = _
    simp only [binary32.neg, binary32.div]
    have : ¬ (s < 0) := not_lt.mpr (le_of_lt hs)
    simp [this]
  have hlogf : libm_logf (fun q : ℚ => Real.log (q : ℝ)) (binary32.finite x) =
      if x < 0 then binary32.nan else if x = 0 then binary32.inf true
        else round32 (Real.log (x : ℝ)) := rfl
  rw [hlogf, if_neg (not_lt.mpr hx0)]
  by_cases hz : x = 0
  · rw [if_pos hz]
    exact Or.inr hinf
  · rw [if_neg hz]
    have hxpos : (0 : ℝ) < (x : ℝ) := by
      have : 0 < x := lt_of_le_of_ne hx0 (Ne.symm hz)
      exact_mod_cast this
    have hlog : Real.log (x : ℝ) ≤ 0 := by
      apply Real.log_nonpos (le_of_lt hxpos)
      exact_mod_cast hx1
    rcases round32_nonpos (Real.log (x : ℝ)) hlog with ⟨l, hl, hl0⟩ | hl
    · rw [hl, binary32_neg_finite, binary32_div_finite _ _ (ne_of_gt hs)]
      have hq : 0 ≤ -l / s := div_nonneg (by linarith) (le_of_lt hs)
      exact round32_nonneg (-l / s) hq
    · rw [hl]
      exact Or.inr hinf

/-- The distance of `kernel_volume_distance_sample` in single precision with correctly
rounded `expf` and `logf`: a finite value of `[0, max_t]`. -/
theorem distance_sample_clamped (max_t xi sx sy sz : ℚ) (channel : Int)
    (hxi0 : 0 ≤ xi) (hxi1 : xi < 1) (hmax : 0 < max_t)
    (hsig : 0 < kernel_volume_channel_get (⟨sx, sy, sz⟩ : float3 ℚ) channel) :
    ∃ r : ℚ, (kernel_volume_distance_sample (libm_expf (fun q : ℚ => Real.exp (q : ℝ)))
        (libm_logf (fun q : ℚ => Real.log (q : ℝ))) (binary32.finite max_t)
        ⟨binary32.finite sx, binary32.finite sy, binary32.finite sz⟩ channel
        (binary32.finite xi)).sample_t = binary32.finite r ∧ 0 ≤ r ∧ r ≤ max_t := by
  simp only [kernel_volume_distance_sample, channel_get_transmittance, channel_get_finite]
  generalize kernel_volume_channel_get (⟨sx, sy, sz⟩ : float3 ℚ) channel = s at hsig
  obtain ⟨T, hT, hT0, hT1⟩ := transmittance_channel_unit s max_t (le_of_lt hsig)
    (le_of_lt hmax)
  rw [hT, binary32_one_def, binary32_sub_finite]
  obtain ⟨u, hu, hu0, hu1⟩ := round32_unit (1 - T) (by linarith) (by linarith)
  rw [hu, binary32_mul_finite]
  have hp1 : xi * u ≤ 1 := by
    have := mul_le_mul (le_of_lt hxi1) hu1 hu0 (by norm_num : (0 : ℚ) ≤ 1)
    linarith
  obtain ⟨p, hp, hp0, hp1⟩ := round32_unit (xi * u) (mul_nonneg hxi0 hu0) hp1
  rw [hp, binary32_sub_finite]
  obtain ⟨x, hx, hx0, hx1⟩ := round32_unit (1 - p) (by linarith) (by linarith)
  rw [hx]
  exact min_finite_bound max_t (le_of_lt hmax) _ (neg_log_over_sigma x s hx0 hx1 hsig)

/-- C8 (amended): in single precision with correctly rounded `expf` and `logf`, for every
`xi` in `[0, 1)`, every `max_t > 0` and every `sigma_t` whose selected channel is `> 0`,
`kernel_volume_distance_sample` returns a finite distance with `0 <= sample_t <= max_t`;
in exact arithmetic `0 <= sample_t < max_t` and the distance inverts the
truncated-exponential distribution function of the channel:
`(1 - exp(-sigma_c * sample_t)) / (1 - exp(-sigma_c * max_t)) = xi`. -/
theorem distance_sample_closed_range :
    (∀ (max_t xi sx sy sz : ℚ) (channel : Int), 0 ≤ xi → xi < 1 → 0 < max_t →
      0 < kernel_volume_channel_get (⟨sx, sy, sz⟩ : float3 ℚ) channel →
      ∃ r : ℚ, (kernel_volume_distance_sample (libm_expf (fun q : ℚ => Real.exp (q : ℝ)))
          (libm_logf (fun q : ℚ => Real.log (q : ℝ))) (binary32.finite max_t)
          ⟨binary32.finite sx, binary32.finite sy, binary32.finite sz⟩ channel
          (binary32.finite xi)).sample_t = binary32.finite r ∧ 0 ≤ r ∧ r ≤ max_t) ∧
    (∀ (max_t xi : ℝ) (sigma_t : float3 ℝ) (channel : Int), 0 ≤ xi → xi < 1 → 0 < max_t →
      0 < kernel_volume_channel_get sigma_t channel →
      0 ≤ (kernel_volume_distance_sample Real.exp Real.log max_t sigma_t channel xi).sample_t ∧
      (kernel_volume_distance_sample Real.exp Real.log max_t sigma_t channel xi).sample_t
        < max_t ∧
      (1 - Real.exp (-(kernel_volume_channel_get sigma_t channel) *
          (kernel_volume_distance_sample Real.exp Real.log max_t sigma_t channel xi).sample_t)) /
        (1 - Real.exp (-(kernel_volume_channel_get sigma_t channel) * max_t)) = xi) :=
  ⟨fun max_t xi sx sy sz channel h0 h1 hm hs =>
      distance_sample_clamped max_t xi sx sy sz channel h0 h1 hm hs,
    fun max_t xi sigma_t channel h0 h1 hm hs =>
      distance_sample_inverts_cdf max_t xi sigma_t channel h0 h1 hm hs⟩

/-- The amended statement at the input of the counterexample in single precision, and at
`max_t = 2`, `sigma_t = (1, 2, 3)`, channel 1, `xi = 1/2` in exact arithmetic. -/
theorem distance_sample_closed_range_witness :
    (∃ r : ℚ, (kernel_volume_distance_sample (libm_expf (fun q : ℚ => Real.exp (q : ℝ)))
        (libm_logf (fun q : ℚ => Real.log (q : ℝ))) (binary32.finite 1)
        ⟨binary32.finite (1 / 2), binary32.finite (1 / 2), binary32.finite (1 / 2)⟩ 0
        (binary32.finite (16777215 / 16777216))).sample_t = binary32.finite r ∧
      0 ≤ r ∧ r ≤ 1) ∧
    (0 ≤ (kernel_volume_distance_sample Real.exp Real.log 2 ⟨1, 2, 3⟩ 1 (1 / 2)).sample_t ∧
      (kernel_volume_distance_sample Real.exp Real.log 2 ⟨1, 2, 3⟩ 1 (1 / 2)).sample_t < 2 ∧
      (1 - Real.exp (-(kernel_volume_channel_get (⟨1, 2, 3⟩ : float3 ℝ) 1) *
          (kernel_volume_distance_sample Real.exp Real.log 2 ⟨1, 2, 3⟩ 1 (1 / 2)).sample_t)) /
        (1 - Real.exp (-(kernel_volume_channel_get (⟨1, 2, 3⟩ : float3 ℝ) 1) * 2)) = 1 / 2) :=
  ⟨distance_sample_closed_range.1 1 (16777215 / 16777216) (1 / 2) (1 / 2) (1 / 2) 0
      (by norm_num) (by norm_num) (by norm_num) (by simp [kernel_volume_channel_get]),
    distance_sample_closed_range.2 2 (1 / 2) ⟨1, 2, 3⟩ 1 (by norm_num) (by norm_num)
      (by norm_num) (by simp [kernel_volume_channel_get])⟩

/-! ## The homogeneous integrator in single precision -/

section HomogeneousFlow

variable {F : Type} [Add F] [Sub F] [Mul F] [Div F] [Neg F] [Zero F] [One F] [OfNat F 3]
  [IntCast F] [Min F] [LT F] [LE F] [DecidableRel (fun a b : F => a < b)]
  [DecidableRel (fun a b : F => a ≤ b)] [DecidableEq F]

/-- The code that the homogeneous integrator returns on a medium for which the shader
flags scattering, for every scalar type: `VOLUME_PATH_MISSED` when the sampling block has
no light position, `VOLUME_PATH_SCATTERED` when the local `t` after the sampling block is
below `ray.t`, and `VOLUME_PATH_ATTENUATED` otherwise. -/
theorem homogeneous_scatter_result (K : KernelFlags) (m : KernelMath F) (ext : KernelExtern F)
    (kg : KernelIntegrator F) (state : PathState) (ray : Ray F) (sd : VolumeShaderData F)
    (L : List (EmissionAccum F)) (throughput : float3 F) (rng : PathSamples F)
    (branched : Bool) (undef : float3 F) (coeff : VolumeShaderCoefficients F)
    (sd1 : VolumeShaderData F)
    (hs : volume_shader_sample K ext kg sd state ray.P = (some coeff, sd1))
    (hsc : sd1.flag &&& K.SD_SCATTER ≠ 0) :
    (kernel_volume_integrate_homogeneous K m ext kg state ray sd L throughput rng branched
        undef).result =
      match homogeneous_scatter m ext kg ray rng coeff throughput branched
          (m.float_to_int (rng.phase * 3)) rng.scatter_distance with
      | none => VolumeIntegrateResult.VOLUME_PATH_MISSED
      | some v =>
        if v.t < ray.t then VolumeIntegrateResult.VOLUME_PATH_SCATTERED
        else VolumeIntegrateResult.VOLUME_PATH_ATTENUATED := by
  have hany : sd1.flag &&& (K.SD_ABSORPTION ||| K.SD_SCATTER) ≠ 0 := by
    intro h
    exact hsc ((flag_any_iff _ _ _).mp h).2
  unfold kernel_volume_integrate_homogeneous
  rw [hs]
  dsimp only
  simp only [if_pos hsc]
  generalize homogeneous_scatter m ext kg ray rng coeff throughput branched
    (m.float_to_int (rng.phase * 3)) rng.scatter_distance = r
  rcases r with _ | v
  · rfl
  · dsimp only
    rw [if_pos hany]
    split_ifs <;> rfl

end HomogeneousFlow

/-- The coefficient sampler in single precision on the sample medium with one scattering
closure of weight `(w, w, w)`, for a representable `w`. -/
theorem sample_scattering_single (w : ℚ) (hw : round32 w = binary32.finite w)
    (kg : KernelIntegrator binary32) (sd : VolumeShaderData binary32) (state : PathState)
    (P : float3 binary32) (h : state.volume_bounce < kg.max_volume_bounce) :
    volume_shader_sample sampleFlags
        (sampleExtern 8 [⟨12, ⟨binary32.finite w, binary32.finite w, binary32.finite w⟩⟩] 0)
        kg sd state P =
      (some ⟨⟨0, 0, 0⟩, ⟨binary32.finite w, binary32.finite w, binary32.finite w⟩, ⟨0, 0, 0⟩⟩,
        ⟨P, 8, [⟨12, ⟨binary32.finite w, binary32.finite w, binary32.finite w⟩⟩],
          sd.randb_closure⟩) := by
  have hn : ¬ (kg.max_volume_bounce ≤ state.volume_bounce) := not_le.mpr h
  have hadd : (0 : binary32) + binary32.finite w = binary32.finite w := by
    rw [binary32_zero_def, binary32_add_finite, zero_add, hw]
  simp [volume_shader_sample, sampleExtern, sampleFlags, coefficients_sum, coefficients_add,
    make_float3, float3_add_def, hn, hadd]

theorem channel_of_zero_phase : binary32.to_int ((0 : binary32) * 3) = 0 := by
  have h3 : (3 : binary32) = binary32.finite 3 := rfl
  rw [binary32_zero_def, h3, binary32_mul_finite, zero_mul, round32_zero]
  simp [binary32.to_int]


theorem sigma_t_single (w : ℚ) (hw : round32 w = binary32.finite w) :
    ((⟨0, 0, 0⟩ : float3 binary32) +
        ⟨binary32.finite w, binary32.finite w, binary32.finite w⟩) =
      ⟨binary32.finite w, binary32.finite w, binary32.finite w⟩ := by
  have hadd : (0 : binary32) + binary32.finite w = binary32.finite w := by
    rw [binary32_zero_def, binary32_add_finite, zero_add, hw]
  rw [float3_add_def]
  dsimp only
  rw [hadd]

/-- C25: the homogeneous integrator in single precision with correctly rounded `expf` and
`logf`, in branched mode with distance sampling, on the sample scattering medium with
`sigma_s = (1/2, 1/2, 1/2)` and no absorption, `ray.t = 1`, `rphase = 0` and
`xi = 1 - 2 ^ (-24)`: the sampled distance is `ray.t`, the test `t < ray->t` fails and the
routine returns `VOLUME_PATH_ATTENUATED`. -/
theorem homogeneous_branched_attenuates :
    (kernel_volume_integrate_homogeneous sampleFlags
        ⟨libm_expf (fun q : ℚ => Real.exp (q : ℝ)), libm_logf (fun q : ℚ => Real.log (q : ℝ)),
          fun a => a, fun a _ => a, fun a => a, binary32.to_int⟩
        (sampleExtern 8
          [⟨12, ⟨binary32.finite (1 / 2), binary32.finite (1 / 2), binary32.finite (1 / 2)⟩⟩] 0)
        ⟨4, 2, 1, 0, 0⟩ ⟨0, 0, 0, []⟩ ⟨⟨0, 0, 0⟩, ⟨1, 0, 0⟩, 1, 0⟩ ⟨⟨0, 0, 0⟩, 0, [], 0⟩ []
        ⟨1, 1, 1⟩ ⟨0, binary32.finite (16777215 / 16777216), 0, 0, 0⟩ true
        ⟨0, 0, 0⟩).result = VolumeIntegrateResult.VOLUME_PATH_ATTENUATED := by
  rw [homogeneous_scatter_result _ _ _ _ _ _ _ _ _ _ _ _ _ _
    (sample_scattering_single (1 / 2) round32_half _ _ _ _ (by decide)) (by decide)]
  unfold homogeneous_scatter homogeneous_scatter_distance
  dsimp only
  rw [sigma_t_single (1 / 2) round32_half, channel_of_zero_phase]
  simp only [if_true, true_or]
  rw [binary32_one_def, distance_sample_at_last_number]
  have hlt : ¬ (binary32.finite 1 < binary32.finite 1) := by
    rw [binary32_lt_finite]
    exact lt_irrefl _
  rw [if_neg hlt]


/-- Rounding of a positive number of a normal binade that lies half way between the
multiples `k` and `k + 1` of the unit in the last place, for an odd `k`: the multiple
`k + 1`. -/
theorem round32_tie_odd {R : Type} [LinearOrderedField R] [FloorRing R] (x : R) (e k : ℤ)
    (he : -126 ≤ e) (h1 : (2 : R) ^ e ≤ x) (h2 : x < (2 : R) ^ (e + 1))
    (hx : x = ((k : R) + 1 / 2) * (2 : R) ^ (e - 23)) (hk : ¬ (k % 2 = 0))
    (hfin : ((k + 1 : ℤ) : ℚ) * (2 : ℚ) ^ (e - 23) < 2 ^ 128) :
    round32 x = binary32.finite (((k + 1 : ℤ) : ℚ) * (2 : ℚ) ^ (e - 23)) := by
  have hp : (0 : R) < (2 : R) ^ (e - 23) := zpow_pos (by norm_num) _
  apply round32_normal x e (k + 1) he h1 h2 _ hfin
  rw [hx, mul_div_assoc, div_self (ne_of_gt hp), mul_one, round_half_even_tie, if_neg hk]

theorem exp_bounds_77_128 :
    (0.5479547874999 : ℝ) < Real.exp (-77 / 128) ∧ Real.exp (-77 / 128) < 0.5479547875 := by
  have hx : |(-77 / 128 : ℝ)| ≤ 1 := by
    rw [abs_le]
    constructor <;> norm_num
  have h := Real.exp_bound hx (n := 14) (by norm_num)
  have habs : |(-77 / 128 : ℝ)| = 77 / 128 := by
    rw [abs_of_nonpos (by norm_num)]
    norm_num
  rw [habs] at h
  simp only [Finset.sum_range_succ, Finset.sum_range_zero, Nat.factorial] at h
  norm_num at h
  rw [abs_le] at h
  constructor
  · linarith [h.1]
  · linarith [h.2]

theorem exp_bounds_77_64 :
    (0.3002544491 : ℝ) < Real.exp (-77 / 64) ∧ Real.exp (-77 / 64) < 0.30025444915 := by
  obtain ⟨hlo, hhi⟩ := exp_bounds_77_128
  have e : Real.exp (-77 / 64) = Real.exp (-77 / 128) * Real.exp (-77 / 128) := by
    rw [← Real.exp_add]
    congr 1
    norm_num
  have hpos : (0 : ℝ) < Real.exp (-77 / 128) := Real.exp_pos _
  rw [e]
  constructor
  · nlinarith
  · nlinarith

theorem round32_exp_77_64 :
    round32 (Real.exp (((-77 / 64 : ℚ)) : ℝ)) = binary32.finite (10074867 / 33554432) := by
  have hcast : (((-77 / 64 : ℚ)) : ℝ) = -77 / 64 := by norm_num
  rw [hcast]
  obtain ⟨hlo, hhi⟩ := exp_bounds_77_64
  have h := round32_near (Real.exp (-77 / 64)) (-2) 10074867 (by norm_num)
    (by norm_num; linarith) (by norm_num; linarith) (by norm_num; linarith)
    (by norm_num; linarith) (by norm_num)
  rw [h]
  norm_num

theorem round32_log_near_77_64 :
    round32 (Real.log (((10074868 / 33554432 : ℚ)) : ℝ)) = binary32.finite (-77 / 64) := by
  have hcast : (((10074868 / 33554432 : ℚ)) : ℝ) = 10074868 / 33554432 := by norm_num
  rw [hcast]
  obtain ⟨hlo, hhi⟩ := exp_bounds_77_64
  have hx : (0 : ℝ) < 10074868 / 33554432 := by norm_num
  have hup : -77 / 64 - 1 / 16777216 < Real.log (10074868 / 33554432) := by
    rw [Real.lt_log_iff_exp_lt hx]
    have hmono : Real.exp (-77 / 64 - 1 / 16777216) ≤ Real.exp (-77 / 64) :=
      Real.exp_le_exp.mpr (by norm_num)
    refine lt_of_le_of_lt hmono (lt_trans hhi ?_)
    norm_num
  have hdown : Real.log (10074868 / 33554432) < -77 / 64 + 1 / 16777216 := by
    rw [Real.log_lt_iff_lt_exp hx, Real.exp_add]
    have h1 := Real.add_one_le_exp (1 / 16777216 : ℝ)
    have hE : (0 : ℝ) < Real.exp (-77 / 64) := Real.exp_pos _
    calc (10074868 / 33554432 : ℝ) < 0.3002544491 * (1 / 16777216 + 1) := by norm_num
      _ ≤ Real.exp (-77 / 64) * (1 / 16777216 + 1) :=
        mul_le_mul_of_nonneg_right (le_of_lt hlo) (by norm_num)
      _ ≤ Real.exp (-77 / 64) * Real.exp (1 / 16777216) :=
        mul_le_mul_of_nonneg_left h1 (le_of_lt hE)
  have hy : (0 : ℝ) < -Real.log (10074868 / 33554432) := by linarith
  have h := round32_near (-Real.log (10074868 / 33554432)) 0 10092544 (by norm_num)
    (by norm_num; linarith) (by norm_num; linarith) (by norm_num; linarith)
    (by norm_num; linarith) (by norm_num)
  have hneg := round32_neg _ hy _ h
  rw [neg_neg] at hneg
  rw [hneg]
  norm_num

theorem round32_77_64 : round32 (77 / 64 : ℚ) = binary32.finite (77 / 64) := by
  have h := round32_exact (77 / 64 : ℚ) 0 10092544 (by norm_num) (by norm_num) (by norm_num)
    (by norm_num) (by norm_num)
  rw [h]
  norm_num

theorem round32_last_minus_transmittance :
    round32 (16777215 / 16777216 - 10074867 / 33554432 : ℚ) =
      binary32.finite (11739782 / 16777216) := by
  have h := round32_tie_odd (16777215 / 16777216 - 10074867 / 33554432 : ℚ) (-1) 11739781
    (by norm_num) (by norm_num) (by norm_num) (by norm_num) (by decide) (by norm_num)
  rw [h]
  norm_num

theorem round32_one_minus_transmittance_77 :
    round32 (1 - 10074867 / 33554432 : ℚ) = binary32.finite (11739782 / 16777216) := by
  have h := round32_tie (1 - 10074867 / 33554432 : ℚ) (-1) 11739782 (by norm_num)
    (by norm_num) (by norm_num) (by norm_num) (by decide) (by norm_num)
  rw [h]
  norm_num

theorem round32_gap_77 :
    round32 (11739782 / 16777216 : ℚ) = binary32.finite (11739782 / 16777216) := by
  have h := round32_exact (11739782 / 16777216 : ℚ) (-1) 11739782 (by norm_num)
    (by norm_num) (by norm_num) (by norm_num) (by norm_num)
  rw [h]
  norm_num

theorem round32_log_argument_77 :
    round32 (1 - 11739782 / 16777216 : ℚ) = binary32.finite (10074868 / 33554432) := by
  have h := round32_exact (1 - 11739782 / 16777216 : ℚ) (-2) 10074868 (by norm_num)
    (by norm_num) (by norm_num) (by norm_num) (by norm_num)
  rw [h]
  norm_num


theorem transmittance_77 :
    libm_expf (fun q : ℚ => Real.exp (q : ℝ)) (-binary32.finite (77 / 64) * binary32.finite 1) =
      binary32.finite (10074867 / 33554432) := by
  rw [binary32_neg_finite, binary32_mul_finite]
  have e : (-(77 / 64) : ℚ) * 1 = -(77 / 64) := by norm_num
  rw [e, round32_neg (77 / 64 : ℚ) (by norm_num) (77 / 64) round32_77_64]
  have e2 : (-(77 / 64) : ℚ) = -77 / 64 := by norm_num
  rw [e2]
  exact round32_exp_77_64

theorem rescaled_number_77 :
    (binary32.finite (16777215 / 16777216) - binary32.finite (10074867 / 33554432)) /
        (binary32.finite 1 - binary32.finite (10074867 / 33554432)) = binary32.finite 1 := by
  rw [binary32_sub_finite, round32_last_minus_transmittance, binary32_sub_finite,
    round32_one_minus_transmittance_77, binary32_div_finite _ _ (by norm_num)]
  have e : (11739782 / 16777216 : ℚ) / (11739782 / 16777216) = 1 := by norm_num
  rw [e, round32_one]

theorem distance_sample_at_rescaled_one :
    (kernel_volume_distance_sample (libm_expf (fun q : ℚ => Real.exp (q : ℝ)))
        (libm_logf (fun q : ℚ => Real.log (q : ℝ))) (binary32.finite 1)
        ⟨binary32.finite (77 / 64), binary32.finite (77 / 64), binary32.finite (77 / 64)⟩ 0
        (binary32.finite 1)).sample_t = binary32.finite 1 := by
  have hlog : libm_logf (fun q : ℚ => Real.log (q : ℝ))
      (binary32.finite (10074868 / 33554432)) = binary32.finite (-77 / 64) := by
    show (if (10074868 / 33554432 : ℚ) < 0 then binary32.nan
      else if (10074868 / 33554432 : ℚ) = 0 then binary32.inf true
      else round32 (Real.log (((10074868 / 33554432 : ℚ)) : ℝ))) = _
    rw [if_neg (by norm_num), if_neg (by norm_num)]
    exact round32_log_near_77_64
  simp only [kernel_volume_distance_sample, channel_get_transmittance]
  have hc : kernel_volume_channel_get
      (⟨binary32.finite (77 / 64), binary32.finite (77 / 64), binary32.finite (77 / 64)⟩ :
        float3 binary32) 0 = binary32.finite (77 / 64) := by
    simp [kernel_volume_channel_get]
  rw [hc, transmittance_77, binary32_one_def, binary32_sub_finite,
    round32_one_minus_transmittance_77, binary32_mul_finite, one_mul, round32_gap_77,
    binary32_sub_finite, round32_log_argument_77, hlog, binary32_neg_finite,
    binary32_div_finite _ _ (by norm_num)]
  have e : (-(-77 / 64) : ℚ) / (77 / 64) = 1 := by norm_num
  rw [e, round32_one, binary32_min_def, if_neg]
  rw [binary32_lt_finite]
  exact lt_irrefl _

/-- C26: the homogeneous integrator in single precision with correctly rounded `expf` and
`logf`, in non-branched mode with distance sampling, on the sample scattering medium with
`sigma_s = (77/64, 77/64, 77/64)` and no absorption, `ray.t = 1`, `rphase = 0` and
`xi = 1 - 2 ^ (-24)`: the test `xi >= sample_transmittance` succeeds, the rescaled number
`(xi - T_c) / (1 - T_c)` is exactly `1`, the sampled distance is `ray.t`, and the routine
returns `VOLUME_PATH_ATTENUATED`. -/
theorem homogeneous_hit_attenuates :
    libm_expf (fun q : ℚ => Real.exp (q : ℝ)) (-binary32.finite (77 / 64) * binary32.finite 1) ≤
      binary32.finite (16777215 / 16777216) ∧
    (binary32.finite (16777215 / 16777216) -
        libm_expf (fun q : ℚ => Real.exp (q : ℝ))
          (-binary32.finite (77 / 64) * binary32.finite 1)) /
      (1 - libm_expf (fun q : ℚ => Real.exp (q : ℝ))
          (-binary32.finite (77 / 64) * binary32.finite 1)) = 1 ∧
    (kernel_volume_integrate_homogeneous sampleFlags
        ⟨libm_expf (fun q : ℚ => Real.exp (q : ℝ)), libm_logf (fun q : ℚ => Real.log (q : ℝ)),
          fun a => a, fun a _ => a, fun a => a, binary32.to_int⟩
        (sampleExtern 8
          [⟨12, ⟨binary32.finite (77 / 64), binary32.finite (77 / 64),
            binary32.finite (77 / 64)⟩⟩] 0)
        ⟨4, 2, 1, 0, 0⟩ ⟨0, 0, 0, []⟩ ⟨⟨0, 0, 0⟩, ⟨1, 0, 0⟩, 1, 0⟩ ⟨⟨0, 0, 0⟩, 0, [], 0⟩ []
        ⟨1, 1, 1⟩ ⟨0, binary32.finite (16777215 / 16777216), 0, 0, 0⟩ false
        ⟨0, 0, 0⟩).result = VolumeIntegrateResult.VOLUME_PATH_ATTENUATED := by
  have hle : binary32.finite (10074867 / 33554432) ≤ binary32.finite (16777215 / 16777216) := by
    rw [binary32_le_finite]
    norm_num
  refine ⟨?_, ?_, ?_⟩
  · rw [transmittance_77]
    exact hle
  · rw [transmittance_77, binary32_one_def]
    exact rescaled_number_77
  · rw [homogeneous_scatter_result _ _ _ _ _ _ _ _ _ _ _ _ _ _
      (sample_scattering_single (77 / 64) round32_77_64 _ _ _ _ (by decide)) (by decide)]
    unfold homogeneous_scatter homogeneous_scatter_distance
    dsimp only
    rw [sigma_t_single (77 / 64) round32_77_64, channel_of_zero_phase]
    have hc : kernel_volume_channel_get
        (⟨binary32.finite (77 / 64), binary32.finite (77 / 64), binary32.finite (77 / 64)⟩ :
          float3 binary32) 0 = binary32.finite (77 / 64) := by
      simp [kernel_volume_channel_get]
    rw [hc, binary32_one_def, transmittance_77]
    simp only [Bool.false_eq_true, if_false, if_pos hle, true_or, if_true]
    rw [rescaled_number_77, distance_sample_at_rescaled_one]
    have hlt : ¬ (binary32.finite 1 < binary32.finite 1) := by
      rw [binary32_lt_finite]
      exact lt_irrefl _
    simp only [if_neg hlt]

end KernelVolume
